import Mathlib

/-!
# MiniDexed mixing console: a verification development

Shallow embedding of `src/fx/mixing_console.hpp` (class `MixingConsole<nb_inputs>`).

* `float32_t` values are modelled by `F32 α`: exact numbers of an ordered field `α`
  extended with `+∞`, `-∞` and `NaN`, with the IEEE-754 rules for the special values
  (`0 * ∞ = NaN`, `∞ - ∞ = NaN`, every comparison with `NaN` is false).  Rounding and the
  sign of zero are outside the model.  Taking `α = ℚ` makes every definition evaluable,
  taking `α = ℝ` allows the exact cosine and sine.
* C arrays are functions from indices, `assert` is a failing `Option`.
* `src/fx_engine.hpp` (class `FxEngine<size, format, enable_lfo>` with its `Context`, the
  `Reserve` / `DelayLine` layout and the sample formats) is embedded the same way; an
  `int32_t` is an `Int` (signed overflow, undefined in C++, is outside the model), and a
  dereferenced null pointer is a failing `Option`.
* The effect units (`FXElement`, `FXUnit2<...>`) are not part of the sources under study;
  they are parameters of the model (`FXElement`), as are `InterpolatedSineOscillator::Cos`,
  `InterpolatedSineOscillator::Sin` and `Constants::MPI_2`.
-/

set_option linter.unusedSectionVars false

namespace MiniDexed

/-! ## The `float32_t` model -/

/-- A `float32_t` value: a number, an infinity, or NaN. -/
inductive F32 (α : Type) where
  | fin (x : α) : F32 α
  | pinf : F32 α
  | ninf : F32 α
  | nan : F32 α
  deriving DecidableEq

namespace F32

variable {α : Type} [LinearOrderedField α]

instance : Zero (F32 α) := ⟨fin 0⟩
instance : One (F32 α) := ⟨fin 1⟩
instance : Inhabited (F32 α) := ⟨fin 0⟩

/-- The C++ `std::isnan`. -/
def isnan : F32 α → Bool
  | nan => true
  | _ => false

/-- The value is an ordinary number (neither infinite nor NaN). -/
def isFinite : F32 α → Bool
  | fin _ => true
  | _ => false

/-- IEEE addition on the extended values. -/
def add : F32 α → F32 α → F32 α
  | fin a, fin b => fin (a + b)
  | nan, _ => nan
  | _, nan => nan
  | pinf, ninf => nan
  | ninf, pinf => nan
  | pinf, _ => pinf
  | _, pinf => pinf
  | ninf, _ => ninf
  | _, ninf => ninf

/-- Product of a number with an infinity whose sign is positive iff `pos`. -/
def mulInf (a : α) (pos : Bool) : F32 α :=
  if 0 < a then (if pos then pinf else ninf)
  else if a < 0 then (if pos then ninf else pinf)
  else nan

/-- IEEE multiplication on the extended values. -/
def mul : F32 α → F32 α → F32 α
  | fin a, fin b => fin (a * b)
  | nan, _ => nan
  | _, nan => nan
  | fin a, pinf => mulInf a true
  | fin a, ninf => mulInf a false
  | pinf, fin b => mulInf b true
  | ninf, fin b => mulInf b false
  | pinf, pinf => pinf
  | ninf, ninf => pinf
  | pinf, ninf => ninf
  | ninf, pinf => ninf

instance : Add (F32 α) := ⟨add⟩
instance : Mul (F32 α) := ⟨mul⟩

/-- Unary minus of floats. -/
def neg : F32 α → F32 α
  | fin a => fin (-a)
  | pinf => ninf
  | ninf => pinf
  | nan => nan

/-- Subtraction of floats: `a - b` is `a + (-b)`, so `∞ - ∞` is NaN. -/
def sub (a b : F32 α) : F32 α := add a (neg b)

instance : Neg (F32 α) := ⟨neg⟩
instance : Sub (F32 α) := ⟨sub⟩

/-- The C++ `operator==` on floats: NaN is equal to nothing. -/
def feq : F32 α → F32 α → Bool
  | fin a, fin b => decide (a = b)
  | pinf, pinf => true
  | ninf, ninf => true
  | _, _ => false

/-- The C++ `operator<` on floats: false as soon as one side is NaN. -/
def flt : F32 α → F32 α → Bool
  | fin a, fin b => decide (a < b)
  | ninf, fin _ => true
  | ninf, pinf => true
  | fin _, pinf => true
  | _, _ => false

/-- Lift a function on numbers to `float32_t`: an infinite or NaN argument gives NaN. -/
def lift (f : α → α) : F32 α → F32 α
  | fin a => fin (f a)
  | _ => nan

/-- The C++ `operator<=` on floats: false as soon as one side is NaN. -/
def fle : F32 α → F32 α → Bool
  | fin a, fin b => decide (a ≤ b)
  | ninf, fin _ => true
  | ninf, pinf => true
  | ninf, ninf => true
  | fin _, pinf => true
  | pinf, pinf => true
  | _, _ => false

/-- Division of floats: a number divided by zero is an infinity of its sign (`0 / 0` is NaN),
a number divided by an infinity is `0`, `∞ / ∞` is NaN.  Zero has no sign in the model and
counts as positive. -/
def div : F32 α → F32 α → F32 α
  | fin a, fin b =>
    if b = 0 then (if a = 0 then nan else if 0 < a then pinf else ninf) else fin (a / b)
  | fin _, pinf => fin 0
  | fin _, ninf => fin 0
  | pinf, fin b => if 0 ≤ b then pinf else ninf
  | ninf, fin b => if 0 ≤ b then ninf else pinf
  | _, _ => nan

instance : Div (F32 α) := ⟨div⟩

end F32

/-! ## Constants of `mixing_console_constants.h` -/

/-- Modelled from the spec: the enum `StereoChannels` (declared in the absent
`mixing_console_constants.h`); `Left`, `Right`, then the count `kNumChannels`. -/
def StereoChannels.Left : Nat := 0
/-- Modelled from the spec: second enumerator of `StereoChannels`. -/
def StereoChannels.Right : Nat := 1
/-- Modelled from the spec: number of stereo channels; row `kNumChannels` of `m_pan` holds the
pan position itself. -/
def StereoChannels.kNumChannels : Nat := 2

/-- Modelled from the spec: the enum `MixerOutput` (declared in the absent
`mixing_console_constants.h`): the eight effect buses in the order in which the constructor
fills `m_fx`, then the main output bus, then the count. -/
def MixerOutput.FX_Tube : Nat := 0
/-- Modelled from the spec: the main output bus is the last bus, `kFXCount - 1` (the asserts
`ret < kFXCount - 1` of `setReturnSample` for every bus other than `MainOutput` force this). -/
def MixerOutput.MainOutput : Nat := 8
/-- Modelled from the spec: number of buses, main output included. -/
def MixerOutput.kFXCount : Nat := 9

/-- Modelled from the spec: the macro `constrain(amt, low, high)` of the absent `common.h`,
"clamp to [low, high]", as the usual compare-and-select
`(amt < low) ? low : ((amt > high) ? high : amt)`. -/
def constrain {α : Type} [LinearOrderedField α] (amt low high : F32 α) : F32 α :=
  if F32.flt amt low then low else if F32.flt high amt then high else amt

/-- Modelled from the spec: `arm_weighted_sum_f32` (not part of the sources), as the spec words it:
`Σ level[bus][src] · sample[src]`, accumulated from `0.0f` in index order. -/
def arm_weighted_sum_f32 {α : Type} [LinearOrderedField α]
    (data weights : Nat → F32 α) (size : Nat) : F32 α :=
  (List.range size).foldl (fun m i => m + data i * weights i) 0

/-- Modelled from the spec: `arm_scale_f32(pSrc, scale, pDst, blockSize)` (not part of the
sources): the first `blockSize` entries of the destination become `pSrc[k] * scale`
("the channel's input sample scaled by ..."). -/
def arm_scale_f32 {α : Type} [LinearOrderedField α]
    (pSrc : Nat → F32 α) (scale : F32 α) (pDst : Nat → F32 α) (blockSize : Nat) : Nat → F32 α :=
  fun k => if k < blockSize then pSrc k * scale else pDst k

/-- The C `memset(p, 0, n * sizeof(float32_t))` on a float array. -/
def memset0 {α : Type} [LinearOrderedField α] (p : Nat → F32 α) (n : Nat) : Nat → F32 α :=
  fun k => if k < n then 0 else p k

/-- The C `memcpy(dst, src, n * sizeof(float32_t))` on float arrays. -/
def memcpy {α : Type} [LinearOrderedField α] (dst src : Nat → F32 α) (n : Nat) : Nat → F32 α :=
  fun k => if k < n then src k else dst k

/-- The C `assert`. -/
def assert (c : Bool) : Option Unit := if c then some () else none

/-! ## The effect units (parameters of the model) -/

/-- The interface of an effect unit as the console uses it (`FXElement` / `FXUnit2<...>`, whose
code is not part of the sources): the per-sample processing, `reset()` and
`bypassFXProcess(bool)`, acting on an effect state of type `σ`. -/
structure FXElement (α σ : Type) where
  processSample : σ → F32 α → F32 α → σ × F32 α × F32 α
  reset : σ → σ
  bypassFXProcess : Bool → σ → σ

/-- What the console is instantiated with: the template parameter `nb_inputs`, the effect units
of the buses, and the absent numeric helpers `InterpolatedSineOscillator::Cos`,
`InterpolatedSineOscillator::Sin`, `Constants::MPI_2`. -/
structure Env (α σ : Type) where
  nb_inputs : Nat
  fx : Nat → FXElement α σ
  Cos : F32 α → F32 α
  Sin : F32 α → F32 α
  MPI_2 : F32 α

/-- The data members of `MixingConsole<nb_inputs>`; `none` is a null pointer. -/
@[ext]
structure MixingConsole (α σ : Type) where
  BufferSize : Nat
  m_bypass : Bool
  m_channelLevel : Nat → F32 α
  m_pan : Nat → Nat → F32 α
  m_swapStereoImage : Bool
  m_tgInputSampleBuffer : Nat → Option (Nat → F32 α)
  m_inputSampleBuffer : Nat → Nat → Nat → F32 α
  m_inputSamples : Nat → Nat → F32 α
  m_levels : Nat → Nat → F32 α
  m_nSamples : Nat
  m_fx : Nat → σ

section Console

open StereoChannels MixerOutput

variable {α σ : Type} [LinearOrderedField α]

/-- Write `v` at index `i` of a C array. -/
def store {β : Type} (a : Nat → β) (i : Nat) (v : β) : Nat → β :=
  fun k => if k = i then v else a k

/-- Write `v` at `a[i][j]` of a two-dimensional C array. -/
def store2 {β : Type} (a : Nat → Nat → β) (i j : Nat) (v : β) : Nat → Nat → β :=
  store a i (store (a i) j v)

/-- `weighted_sum(data, weights, size)`: the sum, with a NaN result replaced by `0.0f`. -/
def weighted_sum (data weights : Nat → F32 α) (size : Nat) : F32 α :=
  let res := arm_weighted_sum_f32 data weights size
  if F32.isnan res then 0 else res

/-- `MixingConsole::setSample` (protected). -/
def setSample (E : Env α σ) (i : Nat) (sampleL sampleR : F32 α) (c : MixingConsole α σ) :
    Option (MixingConsole α σ) := do
  assert (decide (i < E.nb_inputs + kFXCount - 1))
  pure { c with m_inputSamples := store2 (store2 c.m_inputSamples Left i sampleL) Right i sampleR }

/-- `MixingConsole::setLevel` (protected). -/
def setLevel (E : Env α σ) (i : Nat) (fx : Nat) (lvl : F32 α) (c : MixingConsole α σ) :
    Option (MixingConsole α σ) := do
  assert (decide (i < E.nb_inputs + kFXCount - 1))
  assert (decide (fx < kFXCount))
  pure { c with m_levels := store2 c.m_levels fx i (constrain lvl 0 1) }

/-- `MixingConsole::updatePan` (protected). -/
def updatePan (E : Env α σ) (i : Nat) (c : MixingConsole α σ) : MixingConsole α σ :=
  let pan := c.m_pan kNumChannels i * E.MPI_2
  if !(F32.feq (c.m_channelLevel i) 0) then
    { c with m_pan := store2 (store2 c.m_pan Left i (E.Cos pan * c.m_channelLevel i))
                          Right i (E.Sin pan * c.m_channelLevel i) }
  else
    { c with m_pan := store2 (store2 c.m_pan Right i 0) Left i 0 }

/-- `MixingConsole::setChannelLevel`. -/
def setChannelLevel (E : Env α σ) (i : Nat) (lvl : F32 α) (c : MixingConsole α σ) :
    Option (MixingConsole α σ) := do
  assert (decide (i < E.nb_inputs))
  let lvl := constrain lvl 0 1
  if F32.feq lvl (c.m_channelLevel i) then pure c
  else pure (updatePan E i { c with m_channelLevel := store c.m_channelLevel i lvl })

/-- `MixingConsole::setPan`. -/
def setPan (E : Env α σ) (i : Nat) (pan : F32 α) (c : MixingConsole α σ) :
    Option (MixingConsole α σ) := do
  assert (decide (i < E.nb_inputs))
  let pan := constrain pan 0 1
  if F32.feq pan (c.m_pan kNumChannels i) then pure c
  else pure (updatePan E i { c with m_pan := store2 c.m_pan kNumChannels i pan })

/-- `MixingConsole::swapStereoImage`. -/
def swapStereoImage (swap : Bool) (c : MixingConsole α σ) : MixingConsole α σ :=
  { c with m_swapStereoImage := swap }

/-- `MixingConsole::setSendLevel`. -/
def setSendLevel (E : Env α σ) (i : Nat) (fx : Nat) (lvl : F32 α) (c : MixingConsole α σ) :
    Option (MixingConsole α σ) := do
  assert (decide (i < E.nb_inputs))
  assert (decide (fx < kFXCount))
  setLevel E i fx lvl c

/-- `MixingConsole::setInputSample`. -/
def setInputSample (E : Env α σ) (i : Nat) (sampleL sampleR : F32 α) (c : MixingConsole α σ) :
    Option (MixingConsole α σ) := do
  assert (decide (i < E.nb_inputs))
  setSample E i sampleL sampleR c

/-- `MixingConsole::setInputSampleBuffer`. -/
def setInputSampleBuffer (E : Env α σ) (i : Nat) (samples : Option (Nat → F32 α))
    (c : MixingConsole α σ) : Option (MixingConsole α σ) := do
  assert (decide (i < E.nb_inputs))
  pure { c with m_tgInputSampleBuffer := store c.m_tgInputSampleBuffer i samples }

/-- `MixingConsole::setFXSendLevel`. -/
def setFXSendLevel (E : Env α σ) (fromFX toFX : Nat) (lvl : F32 α) (c : MixingConsole α σ) :
    Option (MixingConsole α σ) := do
  assert (decide (fromFX < kFXCount - 1))
  assert (decide (toFX < kFXCount))
  if fromFX = toFX then
    -- An FX cannot feedback on itself
    pure c
  else
    setLevel E (E.nb_inputs + fromFX) toFX lvl c

/-- `MixingConsole::setReturnSample`. -/
def setReturnSample (E : Env α σ) (ret : Nat) (sampleL sampleR : F32 α) (c : MixingConsole α σ) :
    Option (MixingConsole α σ) := do
  assert (decide (ret < kFXCount - 1))
  setSample E (E.nb_inputs + ret) sampleL sampleR c

/-- `MixingConsole::getFX`: the handle of the effect unit of bus `fx`. -/
def getFX (fx : Nat) : Option Nat := do
  assert (decide (fx < kFXCount))
  pure fx

/-- One turn of the second loop of `reset()`: reset the unit of bus `i` and, unless it is the
main output, zero its return sample. -/
def resetBus (E : Env α σ) (c : MixingConsole α σ) (i : Nat) : Option (MixingConsole α σ) :=
  let c1 := { c with m_fx := store c.m_fx i ((E.fx i).reset (c.m_fx i)) }
  if i ≠ MainOutput then setReturnSample E i 0 0 c1 else pure c1

/-- `MixingConsole::reset`. -/
def reset (E : Env α σ) (c : MixingConsole α σ) : Option (MixingConsole α σ) :=
  let c1 := (List.range E.nb_inputs).foldl (fun (c : MixingConsole α σ) i =>
    let b1 := store2 c.m_inputSampleBuffer Left i (memset0 (c.m_inputSampleBuffer Left i) c.BufferSize)
    let b2 := store2 b1 Right i (memset0 (b1 Right i) c.BufferSize)
    { c with m_inputSampleBuffer := b2 }) c
  (List.range kFXCount).foldlM (resetBus E) c1

/-- `MixingConsole::init`. -/
def init (E : Env α σ) (c : MixingConsole α σ) : Option (MixingConsole α σ) :=
  let lvl := memset0 c.m_channelLevel E.nb_inputs
  let pan := (List.range (kNumChannels + 1)).foldl
    (fun (p : Nat → Nat → F32 α) i => store p i (memset0 (p i) E.nb_inputs)) c.m_pan
  let levels := (List.range kFXCount).foldl
    (fun (l : Nat → Nat → F32 α) i => store l i (memset0 (l i) (E.nb_inputs + kFXCount - 1)))
    c.m_levels
  let samples := (List.range kNumChannels).foldl
    (fun (l : Nat → Nat → F32 α) i => store l i (memset0 (l i) (E.nb_inputs + kFXCount - 1)))
    c.m_inputSamples
  reset E { c with m_channelLevel := lvl, m_pan := pan, m_levels := levels,
                   m_inputSamples := samples }

/-- `MixingConsole::bypass(bool)`. -/
def bypass (E : Env α σ) (b : Bool) (c : MixingConsole α σ) : Option (MixingConsole α σ) :=
  if c.m_bypass ≠ b then do
    let c1 := { c with m_bypass := b }
    let c2 ← ((List.range kFXCount).drop FX_Tube).foldlM
      (fun (c : MixingConsole α σ) fx => do
        let h ← getFX fx
        pure { c with m_fx := store c.m_fx h ((E.fx h).bypassFXProcess b (c.m_fx h)) }) c1
    if !b then reset E c2 else pure c2
  else pure c

/-- The constructor `MixingConsole(sampling_rate, buffer_size, swapStereoImage)`.  `fx0` gives
the freshly allocated effect units, `mem` the indeterminate initial content of the members the
constructor does not initialise itself. -/
def construct (E : Env α σ) (buffer_size : Nat) (swap : Bool) (fx0 : Nat → σ)
    (mem : MixingConsole α σ) : Option (MixingConsole α σ) := do
  let c0 : MixingConsole α σ :=
    { mem with BufferSize := buffer_size, m_bypass := true, m_swapStereoImage := swap,
               m_nSamples := 0 }
  let c1 := (List.range E.nb_inputs).foldl (fun (c : MixingConsole α σ) i =>
    let b1 := store2 c.m_inputSampleBuffer Left i (memset0 (c.m_inputSampleBuffer Left i) c.BufferSize)
    let b2 := store2 b1 Right i (memset0 (b1 Right i) c.BufferSize)
    { c with m_tgInputSampleBuffer := store c.m_tgInputSampleBuffer i none,
             m_inputSampleBuffer := b2 }) c0
  let c2 := { c1 with m_fx := fx0 }
  let c3 ← bypass E false c2
  init E c3

/-- `MixingConsole::injectInputSamples`. -/
def injectInputSamples (E : Env α σ) (i : Nat) (samplesL samplesR : Option (Nat → F32 α))
    (nSamples : Nat) (c : MixingConsole α σ) : Option (MixingConsole α σ) := do
  assert (decide (i < E.nb_inputs))
  let n := min nSamples c.BufferSize
  let bL := match samplesL with
    | some p => memcpy (c.m_inputSampleBuffer Left i) p n
    | none => memset0 (c.m_inputSampleBuffer Left i) n
  let b1 := store2 c.m_inputSampleBuffer Left i bL
  let bR := match samplesR with
    | some p => memcpy (b1 Right i) p n
    | none => memset0 (b1 Right i) n
  pure { c with m_nSamples := n, m_inputSampleBuffer := store2 b1 Right i bR }

/-- `MixingConsole::preProcessInputSampleBuffer`. -/
def preProcessInputSampleBuffer (E : Env α σ) (i : Nat) (nSamples : Nat)
    (c : MixingConsole α σ) : Option (MixingConsole α σ) := do
  assert (decide (i < E.nb_inputs))
  assert (decide (nSamples ≤ c.BufferSize))
  match c.m_tgInputSampleBuffer i with
  | none => pure c
  | some samples =>
    let bufL := c.m_inputSampleBuffer Left i
    let bufR := c.m_inputSampleBuffer Right i
    if 0 < nSamples then
      let bL := if !(F32.feq (c.m_pan Left i) 0)
        then arm_scale_f32 samples (c.m_pan Left i) bufL nSamples
        else memset0 bufL nSamples
      let bR := if !(F32.feq (c.m_pan Right i) 0)
        then arm_scale_f32 samples (c.m_pan Right i) bufR nSamples
        else memset0 bufR nSamples
      pure { c with m_nSamples := nSamples,
                    m_inputSampleBuffer := store2 (store2 c.m_inputSampleBuffer Left i bL) Right i bR }
    else
      pure { c with m_nSamples := nSamples,
                    m_inputSampleBuffer :=
                      store2 (store2 c.m_inputSampleBuffer Left i (memset0 bufL c.BufferSize))
                        Right i (memset0 bufR c.BufferSize) }

/-- The stereo input `fx_input_` the loop body of `processSample` computes for bus `fxId`. -/
def fxInput (E : Env α σ) (c : MixingConsole α σ) (fxId : Nat) : F32 α × F32 α :=
  let nBuffers := E.nb_inputs + kFXCount - 1
  (weighted_sum (c.m_inputSamples Left) (c.m_levels fxId) nBuffers,
   weighted_sum (c.m_inputSamples Right) (c.m_levels fxId) nBuffers)

/-- The body of the loop of `processSample` for bus `fxId`; the second and third components are
the referents of `outL` and `outR`. -/
def processBus (E : Env α σ) (acc : MixingConsole α σ × F32 α × F32 α) (fxId : Nat) :
    Option (MixingConsole α σ × F32 α × F32 α) :=
  let c := acc.1
  let fx_input_ := fxInput E c fxId
  let r := (E.fx fxId).processSample (c.m_fx fxId) fx_input_.1 fx_input_.2
  let c1 := { c with m_fx := store c.m_fx fxId r.1 }
  let fx_output_ := r.2
  if fxId ≠ MainOutput then do
    let c2 ← setReturnSample E fxId fx_output_.1 fx_output_.2 c1
    pure (c2, acc.2.1, acc.2.2)
  else
    pure (c1, fx_output_.1, fx_output_.2)

/-- `MixingConsole::processSample(outL, outR)`; `outL`, `outR` are the values the two references
hold on entry, the result carries the values they hold on exit. -/
def processSample (E : Env α σ) (c : MixingConsole α σ) (outL outR : F32 α) :
    Option (MixingConsole α σ × F32 α × F32 α) :=
  (List.range kFXCount).foldlM (processBus E) (c, outL, outR)

/-- The first half of the body of the loop of `process`: copy entry `s` of every channel's
scratch buffers into the live input samples. -/
def loadInputs (E : Env α σ) (s : Nat) (c : MixingConsole α σ) : Option (MixingConsole α σ) :=
  (List.range E.nb_inputs).foldlM (fun (c : MixingConsole α σ) i =>
    setSample E i (c.m_inputSampleBuffer Left i s) (c.m_inputSampleBuffer Right i s) c) c

/-- The body of the loop of `process(outL, outR)` for sample index `s`; the pointers `outL`,
`outR` have been advanced `s` times, so they designate entry `s` of the two output arrays. -/
def processFrame (E : Env α σ)
    (acc : MixingConsole α σ × (Nat → F32 α) × (Nat → F32 α)) (s : Nat) :
    Option (MixingConsole α σ × (Nat → F32 α) × (Nat → F32 α)) := do
  let c ← loadInputs E s acc.1
  let outL := acc.2.1
  let outR := acc.2.2
  if c.m_swapStereoImage then
    let r ← processSample E c (outR s) (outL s)
    pure (r.1, store outL s r.2.2, store outR s r.2.1)
  else
    let r ← processSample E c (outL s) (outR s)
    pure (r.1, store outL s r.2.1, store outR s r.2.2)

/-- `MixingConsole::process(float32_t* outL, float32_t* outR)`. -/
def process (E : Env α σ) (c : MixingConsole α σ) (outL outR : Nat → F32 α) :
    Option (MixingConsole α σ × (Nat → F32 α) × (Nat → F32 α)) := do
  let nSamples := c.m_nSamples
  let r ← (List.range nSamples).foldlM (processFrame E) (c, outL, outR)
  pure ({ r.1 with m_nSamples := 0 }, r.2.1, r.2.2)

end Console

/-! ## The public operations as a transition system -/

section Operations

open StereoChannels MixerOutput

variable {α σ : Type} [LinearOrderedField α]

/-- A call of a public, state-changing member function of `MixingConsole`, with its arguments. -/
inductive Op (α : Type) where
  | bypass (b : Bool)
  | setChannelLevel (i : Nat) (lvl : F32 α)
  | setPan (i : Nat) (pan : F32 α)
  | swapStereoImage (swap : Bool)
  | setSendLevel (i fx : Nat) (lvl : F32 α)
  | setInputSample (i : Nat) (sampleL sampleR : F32 α)
  | setInputSampleBuffer (i : Nat) (samples : Option (Nat → F32 α))
  | setFXSendLevel (fromFX toFX : Nat) (lvl : F32 α)
  | setReturnSample (ret : Nat) (sampleL sampleR : F32 α)
  | init
  | reset
  | preProcessInputSampleBuffer (i nSamples : Nat)
  | injectInputSamples (i : Nat) (samplesL samplesR : Option (Nat → F32 α)) (nSamples : Nat)
  | processSample (outL outR : F32 α)
  | process (outL outR : Nat → F32 α)

/-- The state a call leaves behind (`none` when an assertion fails). -/
def Op.apply (E : Env α σ) : Op α → MixingConsole α σ → Option (MixingConsole α σ)
  | .bypass b, c => MiniDexed.bypass E b c
  | .setChannelLevel i lvl, c => MiniDexed.setChannelLevel E i lvl c
  | .setPan i pan, c => MiniDexed.setPan E i pan c
  | .swapStereoImage swap, c => some (MiniDexed.swapStereoImage swap c)
  | .setSendLevel i fx lvl, c => MiniDexed.setSendLevel E i fx lvl c
  | .setInputSample i l r, c => MiniDexed.setInputSample E i l r c
  | .setInputSampleBuffer i samples, c => MiniDexed.setInputSampleBuffer E i samples c
  | .setFXSendLevel a b lvl, c => MiniDexed.setFXSendLevel E a b lvl c
  | .setReturnSample ret l r, c => MiniDexed.setReturnSample E ret l r c
  | .init, c => MiniDexed.init E c
  | .reset, c => MiniDexed.reset E c
  | .preProcessInputSampleBuffer i n, c => MiniDexed.preProcessInputSampleBuffer E i n c
  | .injectInputSamples i l r n, c => MiniDexed.injectInputSamples E i l r n c
  | .processSample l r, c => (MiniDexed.processSample E c l r).map (fun x => x.1)
  | .process l r, c => (MiniDexed.process E c l r).map (fun x => x.1)

/-- The level and pan arguments of the call are not NaN (they are numbers or infinities). -/
def Op.levelsNotNaN : Op α → Bool
  | .setChannelLevel _ lvl => !lvl.isnan
  | .setPan _ pan => !pan.isnan
  | .setSendLevel _ _ lvl => !lvl.isnan
  | .setFXSendLevel _ _ lvl => !lvl.isnan
  | _ => true

/-- The states a console can be in: those `init()` produces (the constructor ends with a call
of `init()`), and those reached from them by calls of public member functions whose arguments
satisfy `ok`. -/
inductive Reachable (E : Env α σ) (ok : Op α → Bool) : MixingConsole α σ → Prop where
  | init (c0 c : MixingConsole α σ) (h : MiniDexed.init E c0 = some c) : Reachable E ok c
  | step (c c' : MixingConsole α σ) (op : Op α) (hc : Reachable E ok c) (hok : ok op = true)
      (h : op.apply E c = some c') : Reachable E ok c'

/-- The calls that can write the channel levels, the pan vector or the level matrix. -/
def Op.touchesMix : Op α → Bool
  | .setChannelLevel _ _ => true
  | .setPan _ _ => true
  | .setSendLevel _ _ _ => true
  | .setFXSendLevel _ _ _ => true
  | .init => true
  | _ => false

/-- The channel levels, the pan vector and the level matrix are the same in both states. -/
structure SameMix (c c' : MixingConsole α σ) : Prop where
  levels : c'.m_levels = c.m_levels
  pan : c'.m_pan = c.m_pan
  channelLevel : c'.m_channelLevel = c.m_channelLevel

/-- Run a sequence of calls, one after the other. -/
def runOps (E : Env α σ) (ops : List (Op α)) (c : MixingConsole α σ) :
    Option (MixingConsole α σ) :=
  ops.foldlM (fun c op => op.apply E c) c

/-- Every stored channel level, pan position and level-matrix entry is a number of `[0, 1]`. -/
def LevelsInRange (E : Env α σ) (c : MixingConsole α σ) : Prop :=
  (∀ i, i < E.nb_inputs → ∃ x, c.m_channelLevel i = F32.fin x ∧ 0 ≤ x ∧ x ≤ 1) ∧
  (∀ i, i < E.nb_inputs → ∃ x, c.m_pan kNumChannels i = F32.fin x ∧ 0 ≤ x ∧ x ≤ 1) ∧
  (∀ b s, b < kFXCount → s < E.nb_inputs + kFXCount - 1 →
    ∃ x, c.m_levels b s = F32.fin x ∧ 0 ≤ x ∧ x ≤ 1)

/-- The absent helpers `InterpolatedSineOscillator::Cos`, `InterpolatedSineOscillator::Sin` and
`Constants::MPI_2` are the exact real cosine, sine and `π/2`. -/
def ExactTrig (E : Env ℝ σ) : Prop :=
  (∀ x, E.Cos (F32.fin x) = F32.fin (Real.cos x)) ∧
  (∀ x, E.Sin (F32.fin x) = F32.fin (Real.sin x)) ∧
  E.MPI_2 = F32.fin (Real.pi / 2)

/-- The stored pan gains of channel `i` are the constant-power gains of its stored pan
position and level. -/
def GainsUpToDate (c : MixingConsole ℝ σ) (i : Nat) : Prop :=
  ∃ p l : ℝ, c.m_pan kNumChannels i = F32.fin p ∧ c.m_channelLevel i = F32.fin l ∧
    c.m_pan Left i = F32.fin (Real.cos (p * (Real.pi / 2)) * l) ∧
    c.m_pan Right i = F32.fin (Real.sin (p * (Real.pi / 2)) * l)

/-- The console is set up as in the end-to-end scenario: channel `ch` is sent to the main bus
at level 1 and every other level-matrix entry is 0; for the sample indices below `n`, the
scratch buffers of `ch` hold the mono samples `x` scaled by the gains `gL` and `gR`, and those
of the other channels hold 0. -/
structure CenterSetup (E : Env α σ) (c : MixingConsole α σ) (ch n : Nat) (x : Nat → α)
    (gL gR : α) : Prop where
  levels : ∀ b src, b < kFXCount → src < E.nb_inputs + kFXCount - 1 →
    c.m_levels b src = F32.fin (if b = MainOutput ∧ src = ch then 1 else 0)
  bufferL : ∀ i s, i < E.nb_inputs → s < n →
    c.m_inputSampleBuffer Left i s = F32.fin (if i = ch then x s * gL else 0)
  bufferR : ∀ i s, i < E.nb_inputs → s < n →
    c.m_inputSampleBuffer Right i s = F32.fin (if i = ch then x s * gR else 0)

end Operations

/-! ## Assertion-free closed forms

The loops of `reset`, `init` and `processSample` only run assertions that hold; the
definitions below give the states they produce, and the theorems `reset_eq`, `init_eq`,
`processSample_eq`, ... relate the code to them. -/

section Cores

open StereoChannels MixerOutput

variable {α σ : Type} [LinearOrderedField α]

/-- The state update of `setSample`, without its assertion. -/
def setSampleCore (i : Nat) (sampleL sampleR : F32 α) (c : MixingConsole α σ) :
    MixingConsole α σ :=
  { c with m_inputSamples := store2 (store2 c.m_inputSamples Left i sampleL) Right i sampleR }

/-- The state a call `setChannelLevel(i, lvl)` with a valid channel index produces. -/
def setChannelLevelCore (E : Env α σ) (i : Nat) (lvl : F32 α) (c : MixingConsole α σ) :
    MixingConsole α σ :=
  if F32.feq (constrain lvl 0 1) (c.m_channelLevel i) then c
  else updatePan E i { c with m_channelLevel := store c.m_channelLevel i (constrain lvl 0 1) }

/-- The state a call `setPan(i, pan)` with a valid channel index produces. -/
def setPanCore (E : Env α σ) (i : Nat) (pan : F32 α) (c : MixingConsole α σ) :
    MixingConsole α σ :=
  if F32.feq (constrain pan 0 1) (c.m_pan kNumChannels i) then c
  else updatePan E i { c with m_pan := store2 c.m_pan kNumChannels i (constrain pan 0 1) }

/-- The state update of `setLevel`, without its assertions. -/
def setLevelCore (i fx : Nat) (lvl : F32 α) (c : MixingConsole α σ) : MixingConsole α σ :=
  { c with m_levels := store2 c.m_levels fx i (constrain lvl 0 1) }

/-- The state update of `setInputSampleBuffer`, without its assertion. -/
def setInputSampleBufferCore (i : Nat) (samples : Option (Nat → F32 α))
    (c : MixingConsole α σ) : MixingConsole α σ :=
  { c with m_tgInputSampleBuffer := store c.m_tgInputSampleBuffer i samples }

/-- The state `preProcessInputSampleBuffer(i, n)` produces when the tone-generator buffer of
the channel is `samples` and `n` is positive. -/
def preProcessCore (i n : Nat) (samples : Nat → F32 α) (c : MixingConsole α σ) :
    MixingConsole α σ :=
  { c with
    m_nSamples := n
    m_inputSampleBuffer :=
      store2 (store2 c.m_inputSampleBuffer Left i
        (if !(F32.feq (c.m_pan Left i) 0)
          then arm_scale_f32 samples (c.m_pan Left i) (c.m_inputSampleBuffer Left i) n
          else memset0 (c.m_inputSampleBuffer Left i) n))
        Right i
        (if !(F32.feq (c.m_pan Right i) 0)
          then arm_scale_f32 samples (c.m_pan Right i) (c.m_inputSampleBuffer Right i) n
          else memset0 (c.m_inputSampleBuffer Right i) n) }

/-- The state `reset()` produces. -/
def resetCore (E : Env α σ) (c : MixingConsole α σ) : MixingConsole α σ :=
  { c with
    m_inputSampleBuffer := fun ch i k =>
      if (ch = Left ∨ ch = Right) ∧ i < E.nb_inputs ∧ k < c.BufferSize then 0
      else c.m_inputSampleBuffer ch i k
    m_fx := fun b => if b < kFXCount then (E.fx b).reset (c.m_fx b) else c.m_fx b
    m_inputSamples := fun ch s =>
      if (ch = Left ∨ ch = Right) ∧ E.nb_inputs ≤ s ∧ s < E.nb_inputs + (kFXCount - 1) then 0
      else c.m_inputSamples ch s }

/-- The state `init()` produces. -/
def initCore (E : Env α σ) (c : MixingConsole α σ) : MixingConsole α σ :=
  resetCore E { c with
    m_channelLevel := memset0 c.m_channelLevel E.nb_inputs
    m_pan := fun r i => if r < kNumChannels + 1 ∧ i < E.nb_inputs then 0 else c.m_pan r i
    m_levels := fun b s =>
      if b < kFXCount ∧ s < E.nb_inputs + kFXCount - 1 then 0 else c.m_levels b s
    m_inputSamples := fun ch s =>
      if ch < kNumChannels ∧ s < E.nb_inputs + kFXCount - 1 then 0 else c.m_inputSamples ch s }

/-- The state `bypass(b)` produces. -/
def bypassCore (E : Env α σ) (b : Bool) (c : MixingConsole α σ) : MixingConsole α σ :=
  if c.m_bypass ≠ b then
    let c2 := { c with
      m_bypass := b
      m_fx := fun h => if h < kFXCount then (E.fx h).bypassFXProcess b (c.m_fx h) else c.m_fx h }
    if !b then resetCore E c2 else c2
  else c

/-- The state the constructor produces. -/
def constructCore (E : Env α σ) (buffer_size : Nat) (swap : Bool) (fx0 : Nat → σ)
    (mem : MixingConsole α σ) : MixingConsole α σ :=
  initCore E (bypassCore E false
    { mem with
      BufferSize := buffer_size
      m_bypass := true
      m_swapStereoImage := swap
      m_nSamples := 0
      m_tgInputSampleBuffer := fun i =>
        if i < E.nb_inputs then none else mem.m_tgInputSampleBuffer i
      m_inputSampleBuffer := fun ch i k =>
        if (ch = Left ∨ ch = Right) ∧ i < E.nb_inputs ∧ k < buffer_size then 0
        else mem.m_inputSampleBuffer ch i k
      m_fx := fx0 })

/-- What the effect unit of bus `fxId` returns when `processSample` visits it in state `c`:
its new state and its stereo output `fx_output_`. -/
def fxOutput (E : Env α σ) (c : MixingConsole α σ) (fxId : Nat) : σ × F32 α × F32 α :=
  (E.fx fxId).processSample (c.m_fx fxId) (fxInput E c fxId).1 (fxInput E c fxId).2

/-- The state one turn of the loop of `processSample` produces. -/
def busStep (E : Env α σ) (c : MixingConsole α σ) (fxId : Nat) : MixingConsole α σ :=
  let r := fxOutput E c fxId
  let c1 := { c with m_fx := store c.m_fx fxId r.1 }
  if fxId ≠ MainOutput then setSampleCore (E.nb_inputs + fxId) r.2.1 r.2.2 c1 else c1

/-- The state of the console when `processSample`, called in state `c`, has visited the buses
`0 .. k-1` and is about to visit bus `k`. -/
def stateAt (E : Env α σ) (c : MixingConsole α σ) (k : Nat) : MixingConsole α σ :=
  (List.range k).foldl (busStep E) c

/-- The state `loadInputs` produces. -/
def loadInputsCore (E : Env α σ) (s : Nat) (c : MixingConsole α σ) : MixingConsole α σ :=
  { c with m_inputSamples := fun ch i =>
      if (ch = Left ∨ ch = Right) ∧ i < E.nb_inputs then c.m_inputSampleBuffer ch i s
      else c.m_inputSamples ch i }

/-- The state after the turn of the loop of `process` for sample index `s`. -/
def frameStep (E : Env α σ) (c : MixingConsole α σ) (s : Nat) : MixingConsole α σ :=
  stateAt E (loadInputsCore E s c) kFXCount

/-- The stereo sample `processSample` returns in the turn of the loop of `process` for sample
index `s`: the output of the main bus. -/
def frameOut (E : Env α σ) (c : MixingConsole α σ) (s : Nat) : F32 α × F32 α :=
  (fxOutput E (stateAt E (loadInputsCore E s c) MainOutput) MainOutput).2

/-- The state of the console when `process`, called in state `c`, has done the turns of its
loop for the sample indices `0 .. n-1`. -/
def stateAfterFrames (E : Env α σ) (c : MixingConsole α σ) (n : Nat) : MixingConsole α σ :=
  (List.range n).foldl (frameStep E) c

/-- Every member other than the live samples and the effect units is the same in both states. -/
structure SameConfig (c c' : MixingConsole α σ) : Prop where
  bufferSize : c'.BufferSize = c.BufferSize
  bypass : c'.m_bypass = c.m_bypass
  channelLevel : c'.m_channelLevel = c.m_channelLevel
  pan : c'.m_pan = c.m_pan
  swap : c'.m_swapStereoImage = c.m_swapStereoImage
  tgBuffer : c'.m_tgInputSampleBuffer = c.m_tgInputSampleBuffer
  buffer : c'.m_inputSampleBuffer = c.m_inputSampleBuffer
  levels : c'.m_levels = c.m_levels
  nSamples : c'.m_nSamples = c.m_nSamples

/-- The content of the left output array after `process` has done the turns `0 .. n-1`. -/
def outLAfter (E : Env α σ) (c : MixingConsole α σ) (outL : Nat → F32 α) (n : Nat) :
    Nat → F32 α :=
  fun s => if s < n then
      (if c.m_swapStereoImage then (frameOut E (stateAfterFrames E c s) s).2
       else (frameOut E (stateAfterFrames E c s) s).1)
    else outL s

/-- The content of the right output array after `process` has done the turns `0 .. n-1`. -/
def outRAfter (E : Env α σ) (c : MixingConsole α σ) (outR : Nat → F32 α) (n : Nat) :
    Nat → F32 α :=
  fun s => if s < n then
      (if c.m_swapStereoImage then (frameOut E (stateAfterFrames E c s) s).1
       else (frameOut E (stateAfterFrames E c s) s).2)
    else outR s

end Cores

/-! ## Concrete instances, for evaluation -/

section Examples

open StereoChannels MixerOutput

variable {α σ : Type} [LinearOrderedField α]

/-- An effect unit that hands its input through unchanged and has no state of its own. -/
def passThrough : FXElement α σ where
  processSample := fun s l r => (s, l, r)
  reset := fun s => s
  bypassFXProcess := fun _ s => s

/-- A console environment with `nb` channels and pass-through effect units, whose cosine, sine
and `π/2` are `cosf`, `sinf` and `halfPi`. -/
def mkEnv (nb : Nat) (cosf sinf : α → α) (halfPi : α) : Env α Unit where
  nb_inputs := nb
  fx := fun _ => passThrough
  Cos := F32.lift cosf
  Sin := F32.lift sinf
  MPI_2 := F32.fin halfPi

/-- An evaluable instantiation over `ℚ`: two channels, pass-through effect units, and rational
stand-ins for the cosine, the sine and `π/2`. -/
def exampleEnv : Env ℚ Unit :=
  mkEnv 2 (fun x => 1 - x * x / 2) (fun x => x) (11 / 7)

/-- Memory whose every cell holds zero, around the effect units `fx0`. -/
def zeroMemory (fx0 : Nat → σ) : MixingConsole α σ where
  BufferSize := 0
  m_bypass := false
  m_channelLevel := fun _ => 0
  m_pan := fun _ _ => 0
  m_swapStereoImage := false
  m_tgInputSampleBuffer := fun _ => none
  m_inputSampleBuffer := fun _ _ _ => 0
  m_inputSamples := fun _ _ => 0
  m_levels := fun _ _ => 0
  m_nSamples := 0
  m_fx := fx0

/-- An effect unit that hands its input through unchanged and keeps, as its state, the last
stereo input it was called with. -/
def recorder : FXElement α (F32 α × F32 α) where
  processSample := fun _ l r => ((l, r), l, r)
  reset := fun s => s
  bypassFXProcess := fun _ s => s

/-- An evaluable instantiation over `ℚ` with one channel whose effect units all record their
input. -/
def recEnv : Env ℚ (F32 ℚ × F32 ℚ) where
  nb_inputs := 1
  fx := fun _ => recorder
  Cos := F32.lift (fun x => 1 - x * x / 2)
  Sin := F32.lift (fun x => x)
  MPI_2 := F32.fin (11 / 7)

/-- A freshly constructed console over `recEnv` with a chunk size of four samples. -/
def recConsole : MixingConsole ℚ (F32 ℚ × F32 ℚ) :=
  constructCore recEnv 4 false (fun _ => (0, 0)) (zeroMemory (fun _ => (0, 0)))

/-- The console `recConsole` after `setSendLevel(0, FX_Tube, 1)`, `setFXSendLevel(FX_Tube, 1, 1)`
(the tube bus feeds bus `1`) and `setInputSample(0, 1, 1)`. -/
def feedConsole : MixingConsole ℚ (F32 ℚ × F32 ℚ) :=
  setSampleCore 0 1 1
    { recConsole with
      m_levels := store2 (store2 recConsole.m_levels FX_Tube 0 (constrain 1 0 1))
        1 (recEnv.nb_inputs + FX_Tube) (constrain 1 0 1) }

/-- A freshly constructed console over `exampleEnv` with a chunk size of four samples. -/
def exampleConsole : MixingConsole ℚ Unit :=
  constructCore exampleEnv 4 false (fun _ => ()) (zeroMemory (fun _ => ()))

/-- The console `exampleConsole` after `injectInputSamples(0, buf, buf, 1)` with `buf[0] = 1/2`:
both scratch buffers of channel `0` start with `1/2`, and the tone-generator pointer of the
channel is still the null pointer the constructor stored. -/
def staleConsole : MixingConsole ℚ Unit :=
  { exampleConsole with
    m_nSamples := 1
    m_inputSampleBuffer :=
      store2 (store2 exampleConsole.m_inputSampleBuffer Left 0
          (memcpy (exampleConsole.m_inputSampleBuffer Left 0) (fun _ => F32.fin (1 / 2)) 1))
        Right 0
          (memcpy (exampleConsole.m_inputSampleBuffer Right 0) (fun _ => F32.fin (1 / 2)) 1) }

/-- The console `exampleConsole` with the bypass flag set. -/
def bypassedConsole : MixingConsole ℚ Unit :=
  { exampleConsole with m_bypass := true }

end Examples

/-! ## The delay-line engine of `fx_engine.hpp` -/

section Engine

variable {α T L : Type} [LinearOrderedField α] [FloorRing α]

/-- The conversion `static_cast<int32_t>(x)` of a float: the value truncated toward zero.  It is
undefined, here `none`, for NaN, the infinities and values whose truncation is not an
`int32_t`. -/
def toInt32 : F32 α → Option Int
  | F32.fin x =>
    let n : Int := if 0 ≤ x then ⌊x⌋ else ⌈x⌉
    if -2147483648 ≤ n ∧ n ≤ 2147483647 then some n else none
  | _ => none

/-- The conversion `static_cast<float32_t>(n)` of an `int32_t`. -/
def ofInt32 (n : Int) : F32 α := F32.fin (n : α)

/-- The macro `MAKE_INTEGRAL_FRACTIONAL(x)`: the pair `(x_integral, x_fractional)`. -/
def MAKE_INTEGRAL_FRACTIONAL (x : F32 α) : Option (Int × F32 α) := do
  let x_integral ← toInt32 x
  let x_fractional := x - ofInt32 x_integral
  pure (x_integral, x_fractional)

/-- A specialisation `DataType<format>`: the storage type `T` with `decompress` and `compress`;
`zero` is the value of `T` whose bytes are all zero (what `memset` writes) and `sizeofT` is
`sizeof(T)` in bytes. -/
structure DataType (α T : Type) where
  decompress : T → F32 α
  compress : F32 α → T
  zero : T
  sizeofT : Nat

/-- The specialisation `DataType<Format::FORMAT_FLOAT32>`, with `T = float32_t`. -/
def DataType.FORMAT_FLOAT32 : DataType α (F32 α) where
  decompress := fun value => value
  compress := fun value => constrain value (F32.fin (-1)) (F32.fin 1)
  zero := 0
  sizeofT := 4

/-- The enumerators `length` and `base` of a `DelayLine<Memory, index>`. -/
structure FxEngine.Segment where
  length : Int
  base : Int
deriving DecidableEq

/-- A memory declaration `Reserve<l0, Reserve<l1, ... >>` is the list of its `_length`
parameters; the innermost default `Empty` is the empty list, `Tail` is the tail of the list. -/
abbrev FxEngine.Reserve : Type := List Int

/-- The template `DelayLine<Memory, index>` with its specialisation for `index = 0`; `none`
where the instantiation is ill-formed (it asks `Empty` for `length` or `Tail`). -/
def FxEngine.DelayLine : FxEngine.Reserve → Nat → Option FxEngine.Segment
  | [], _ => none
  | l :: _, 0 => some { length := l, base := 0 }
  | l :: tail, index + 1 => do
    let t ← FxEngine.DelayLine tail index
    let p ← FxEngine.DelayLine (l :: tail) index
    pure { length := t.length, base := p.base + p.length + 1 }

/-- The template parameters `size`, `format` and `enable_lfo` of `FxEngine`, and the two
methods of the class `LFO` (not part of the sources) that the engine calls, acting on an
oscillator state of type `L`. -/
structure FxEnv (α T L : Type) where
  size : Nat
  format : DataType α T
  enable_lfo : Bool
  lfoProcess : L → L × F32 α
  lfoReset : L → L

/-- The data members of `FxEngine<size, format, enable_lfo>`.  `lfo_ i` is the state of the
object `*lfo_[i]`; the constructor allocates these objects exactly when `enable_lfo` holds and
every dereference sits under `if(enable_lfo)`. -/
structure FxEngine (T L : Type) where
  buffer_ : Nat → T
  write_ptr_ : Int
  lfo_ : Nat → L

/-- A pointer `T* buffer_` of a context: null, or the array of the engine. -/
inductive FxEngine.Ptr where
  | null
  | array
deriving DecidableEq

/-- The data members of `FxEngine::Context`. -/
structure FxEngine.Context (α : Type) where
  accumulator_ : F32 α
  previous_read_ : F32 α
  lfo_value_ : Nat → F32 α
  buffer_ : FxEngine.Ptr
  write_ptr_ : Int

/-- The enumerator `LFOIndex::kLFOCount`, after `LFO_1 = 0` and `LFO_2`. -/
def FxEngine.LFOIndex.kLFOCount : Nat := 2

/-- The enumerator `MASK = size - 1`. -/
def FxEngine.MASK (P : FxEnv α T L) : Nat := P.size - 1

/-- The array index `x & MASK` for an `int` expression `x`: the bitwise AND of the
two's-complement pattern of `x` with `MASK`. -/
def FxEngine.maskIndex (P : FxEnv α T L) (x : Int) : Nat :=
  (x % 4294967296).toNat &&& FxEngine.MASK P

/-- The method `FxEngine::clear()`. -/
def FxEngine.clear (P : FxEnv α T L) (e : FxEngine T L) : FxEngine T L :=
  { e with
    buffer_ := fun k => if k < P.size then P.format.zero else e.buffer_ k
    write_ptr_ := 0 }

/-- The constructor `FxEngine(sampling_rate, max_lfo1_frequency, max_lfo2_frequency)`.  `mem`
is the indeterminate content of the fresh object and of `new T[size]`, `lfo0 i` the state of
the `i`-th freshly allocated `LFO`.  It returns an `Option` so that a rejection could be
expressed; in the code nothing in the constructor can fail. -/
def FxEngine.construct (P : FxEnv α T L) (lfo0 : Nat → L) (mem : FxEngine T L) :
    Option (FxEngine T L) :=
  let e1 : FxEngine T L :=
    { mem with
      lfo_ := fun i =>
        if i < FxEngine.LFOIndex.kLFOCount ∧ P.enable_lfo = true then lfo0 i else mem.lfo_ i }
  some (FxEngine.clear P e1)

/-- The method `FxEngine::reset()`. -/
def FxEngine.reset (P : FxEnv α T L) (e : FxEngine T L) : FxEngine T L :=
  let e1 := FxEngine.clear P e
  if P.enable_lfo then
    (List.range FxEngine.LFOIndex.kLFOCount).foldl
      (fun (e : FxEngine T L) i => { e with lfo_ := store e.lfo_ i (P.lfoReset (e.lfo_ i)) }) e1
  else e1

/-- The constructor `Context()`; `mem` is the indeterminate content of the fresh object.  The
`memset` clears `kLFOCount * sizeof(T)` bytes of the float array `lfo_value_`, that is
`kLFOCount * sizeof(T) / 4` of its entries. -/
def FxEngine.Context.construct (P : FxEnv α T L) (mem : FxEngine.Context α) :
    FxEngine.Context α :=
  { accumulator_ := 0
    previous_read_ := 0
    lfo_value_ := memset0 mem.lfo_value_ (FxEngine.LFOIndex.kLFOCount * P.format.sizeofT / 4)
    buffer_ := FxEngine.Ptr.null
    write_ptr_ := 0 }

/-- The method `Context::load(value)`. -/
def FxEngine.Context.load (value : F32 α) (c : FxEngine.Context α) : FxEngine.Context α :=
  { c with accumulator_ := value }

/-- The method `Context::write(D& d, int32_t offset, float32_t scale)`, on the engine the
context points into. -/
def FxEngine.Context.write (P : FxEnv α T L) (D : FxEngine.Segment) (offset : Int)
    (scale : F32 α) (e : FxEngine T L) (c : FxEngine.Context α) :
    Option (FxEngine T L × FxEngine.Context α) := do
  assert (decide (D.base + D.length ≤ (P.size : Int)))
  assert (decide (c.buffer_ = FxEngine.Ptr.array))
  let w := P.format.compress c.accumulator_
  let buf :=
    if offset = -1 then
      store e.buffer_ (FxEngine.maskIndex P (c.write_ptr_ + D.base + D.length - 1)) w
    else
      store e.buffer_ (FxEngine.maskIndex P (c.write_ptr_ + D.base + offset)) w
  pure ({ e with buffer_ := buf }, { c with accumulator_ := c.accumulator_ * scale })

/-- The method `Context::read(D& d, int32_t offset, float32_t scale)`. -/
def FxEngine.Context.read (P : FxEnv α T L) (D : FxEngine.Segment) (offset : Int)
    (scale : F32 α) (e : FxEngine T L) (c : FxEngine.Context α) :
    Option (FxEngine T L × FxEngine.Context α) := do
  assert (decide (D.base + D.length ≤ (P.size : Int)))
  assert (decide (c.buffer_ = FxEngine.Ptr.array))
  let r :=
    if offset = -1 then
      e.buffer_ (FxEngine.maskIndex P (c.write_ptr_ + D.base + D.length - 1))
    else
      e.buffer_ (FxEngine.maskIndex P (c.write_ptr_ + D.base + offset))
  let r_f := P.format.decompress r
  pure (e, { c with previous_read_ := r_f, accumulator_ := c.accumulator_ + r_f * scale })

/-- The method `Context::interpolate(D& d, float32_t offset, float32_t scale)`. -/
def FxEngine.Context.interpolate (P : FxEnv α T L) (D : FxEngine.Segment) (offset : F32 α)
    (scale : F32 α) (e : FxEngine T L) (c : FxEngine.Context α) :
    Option (FxEngine T L × FxEngine.Context α) := do
  assert (decide (D.base + D.length ≤ (P.size : Int)))
  let (offset_integral, offset_fractional) ← MAKE_INTEGRAL_FRACTIONAL offset
  assert (decide (c.buffer_ = FxEngine.Ptr.array))
  let a := P.format.decompress
    (e.buffer_ (FxEngine.maskIndex P (c.write_ptr_ + offset_integral + D.base)))
  let b := P.format.decompress
    (e.buffer_ (FxEngine.maskIndex P (c.write_ptr_ + offset_integral + D.base + 1)))
  let x := a + (b - a) * offset_fractional
  pure (e, { c with previous_read_ := x, accumulator_ := c.accumulator_ + x * scale })

/-- The overload `Context::interpolate(D& d, float32_t offset, LFOIndex index,
float32_t amplitude, float32_t scale)`. -/
def FxEngine.Context.interpolateLFO (P : FxEnv α T L) (D : FxEngine.Segment) (offset : F32 α)
    (index : Nat) (amplitude scale : F32 α) (e : FxEngine T L) (c : FxEngine.Context α) :
    Option (FxEngine T L × FxEngine.Context α) := do
  assert (decide (D.base + D.length ≤ (P.size : Int)))
  assert (decide (index < FxEngine.LFOIndex.kLFOCount))
  let offset := offset + amplitude * c.lfo_value_ index
  let (offset_integral, offset_fractional) ← MAKE_INTEGRAL_FRACTIONAL offset
  assert (decide (c.buffer_ = FxEngine.Ptr.array))
  let a := P.format.decompress
    (e.buffer_ (FxEngine.maskIndex P (c.write_ptr_ + offset_integral + D.base)))
  let b := P.format.decompress
    (e.buffer_ (FxEngine.maskIndex P (c.write_ptr_ + offset_integral + D.base + 1)))
  let x := a + (b - a) * offset_fractional
  pure (e, { c with previous_read_ := x, accumulator_ := c.accumulator_ + x * scale })

/-- The method `FxEngine::start(Context* c)`. -/
def FxEngine.start (P : FxEnv α T L) (e : FxEngine T L) (c : FxEngine.Context α) :
    FxEngine T L × FxEngine.Context α :=
  let wp := e.write_ptr_ - 1
  let wp := if wp < 0 then wp + (P.size : Int) else wp
  let e1 : FxEngine T L := { e with write_ptr_ := wp }
  let c1 : FxEngine.Context α :=
    { c with accumulator_ := 0, previous_read_ := 0, buffer_ := FxEngine.Ptr.array,
             write_ptr_ := wp }
  if P.enable_lfo then
    (List.range FxEngine.LFOIndex.kLFOCount).foldl
      (fun (s : FxEngine T L × FxEngine.Context α) i =>
        let r := P.lfoProcess (s.1.lfo_ i)
        ({ s.1 with lfo_ := store s.1.lfo_ i r.1 },
         { s.2 with lfo_value_ := store s.2.lfo_value_ i r.2 })) (e1, c1)
  else (e1, c1)

/-- The engine and context after `k` consecutive calls `start(&c)`. -/
def FxEngine.starts (P : FxEnv α T L) :
    Nat → FxEngine T L × FxEngine.Context α → FxEngine T L × FxEngine.Context α
  | 0, s => s
  | k + 1, s => FxEngine.starts P k (FxEngine.start P s.1 s.2)

/-- The call sequence `start(&c); c.load(v); c.write(D, 0, s);`, then `k` further calls
`start(&c)`, then `c.read(D, offset, scale)`; the result is `previous_read_` after that read. -/
def FxEngine.writeThenRead (P : FxEnv α T L) (D : FxEngine.Segment) (v s scale : F32 α)
    (k : Nat) (offset : Int) (e : FxEngine T L) (c : FxEngine.Context α) : Option (F32 α) := do
  let s1 := FxEngine.start P e c
  let s2 ← FxEngine.Context.write P D 0 s s1.1 (FxEngine.Context.load v s1.2)
  let s3 := FxEngine.starts P k s2
  let s4 ← FxEngine.Context.read P D offset scale s3.1 s3.2
  pure s4.2.previous_read_

/-- An evaluable engine instantiation over `ℚ`: four slots of `FORMAT_FLOAT32`, no LFO. -/
def exampleFx : FxEnv ℚ (F32 ℚ) Unit where
  size := 4
  format := DataType.FORMAT_FLOAT32
  enable_lfo := false
  lfoProcess := fun l => (l, 0)
  lfoReset := fun l => l

/-- Engine memory whose every cell holds zero. -/
def zeroEngine : FxEngine (F32 ℚ) Unit where
  buffer_ := fun _ => 0
  write_ptr_ := 0
  lfo_ := fun _ => ()

/-- Context memory whose every cell holds zero. -/
def zeroContext : FxEngine.Context ℚ where
  accumulator_ := 0
  previous_read_ := 0
  lfo_value_ := fun _ => 0
  buffer_ := FxEngine.Ptr.null
  write_ptr_ := 0

/-- The example engine, cleared and then started once: its write pointer is `3`. -/
def startedEngine : FxEngine (F32 ℚ) Unit :=
  (FxEngine.start exampleFx (FxEngine.clear exampleFx zeroEngine)
    (FxEngine.Context.construct exampleFx zeroContext)).1

/-- The context that the call of `start` behind `startedEngine` has bound to the engine. -/
def startedContext : FxEngine.Context ℚ :=
  (FxEngine.start exampleFx (FxEngine.clear exampleFx zeroEngine)
    (FxEngine.Context.construct exampleFx zeroContext)).2

end Engine

/-! ## The fixed-point sample formats of `fx_engine.hpp` -/

section Codecs

variable {α : Type} [LinearOrderedField α] [FloorRing α]

/-- The constant `INT16_MAX`. -/
def INT16_MAX : Int := 32767

/-- The constant `INT16_MIN`. -/
def INT16_MIN : Int := -32768

/-- The constant `INT32_MAX`. -/
def INT32_MAX : Int := 2147483647

/-- The constant `UINT32_MAX`. -/
def UINT32_MAX : Int := 4294967295

/-- The function `clip16(int32_t x)`; its result is an `int16_t`. -/
def clip16 (x : Int) : Int :=
  if x > INT16_MAX then INT16_MAX
  else if x < INT16_MIN then INT16_MIN
  else x

/-- The conversion of a signed integer to `uint16_t`: its value modulo `2^16`. -/
def toUInt16 (x : Int) : Nat := (x % 65536).toNat

/-- The conversion of a signed integer to `uint32_t`: its value modulo `2^32`. -/
def toUInt32 (x : Int) : Nat := (x % 4294967296).toNat

/-- The conversion `static_cast<int16_t>(value)` of an unsigned value: the low 16 bits, read
as a two's-complement number. -/
def toInt16 (value : Nat) : Int :=
  if value % 65536 < 32768 then ((value % 65536 : Nat) : Int)
  else ((value % 65536 : Nat) : Int) - 65536

/-- The conversion of a float to `uint32_t`: the value truncated toward zero.  It is
undefined, here `none`, for NaN, the infinities and values whose truncation is not a
`uint32_t`. -/
def f32ToUInt32 : F32 α → Option Nat
  | F32.fin x =>
    let n : Int := if 0 ≤ x then ⌊x⌋ else ⌈x⌉
    if 0 ≤ n ∧ n ≤ 4294967295 then some n.toNat else none
  | _ => none

/-- Truncation toward zero, the rounding of the casts from a float to an integer type. -/
def truncToZero (x : α) : Int := if 0 ≤ x then ⌊x⌋ else ⌈x⌉

/-- The method `DataType<Format::FORMAT_12_BIT>::decompress`, with `T = uint16_t`. -/
def DataType.FORMAT_12_BIT.decompress (value : Nat) : F32 α :=
  ofInt32 (toInt16 value) / F32.fin 4096

/-- The method `DataType<Format::FORMAT_12_BIT>::compress`; the `int16_t` that `clip16`
returns is converted to `T = uint16_t`.  The result is `none` where the cast to `int32_t` is
undefined. -/
def DataType.FORMAT_12_BIT.compress (value : F32 α) : Option Nat := do
  let x ← toInt32 (value * F32.fin 4096)
  pure (toUInt16 (clip16 x))

/-- The method `DataType<Format::FORMAT_16_BIT>::decompress`, with `T = uint32_t`. -/
def DataType.FORMAT_16_BIT.decompress (value : Nat) : F32 α :=
  ofInt32 (toInt16 value) / F32.fin 65536

/-- The method `DataType<Format::FORMAT_16_BIT>::compress`; the `int16_t` that `clip16`
returns is converted to `T = uint32_t`. -/
def DataType.FORMAT_16_BIT.compress (value : F32 α) : Option Nat := do
  let x ← toInt32 (value * F32.fin 65536)
  pure (toUInt32 (clip16 x))

/-- The method `DataType<Format::FORMAT_32_BIT>::decompress`, with `T = uint32_t`: the stored
word, widened to `int64_t` and converted to a float, divided by `UINT32_MAX` as a float. -/
def DataType.FORMAT_32_BIT.decompress (value : Nat) : F32 α :=
  F32.fin ((value : Int) : α) / F32.fin ((UINT32_MAX : Int) : α)

/-- The method `DataType<Format::FORMAT_32_BIT>::compress`: the float product is converted to
the return type `T = uint32_t`. -/
def DataType.FORMAT_32_BIT.compress (value : F32 α) : Option Nat :=
  f32ToUInt32 (value * F32.fin ((INT32_MAX : Int) : α))

end Codecs

/-! ## The global effect parameters of `minidexed.cpp` (mixing-console build) -/

section Parameters

/-- The enumeration `TParameter` (declared in the absent `minidexed.h`): the enumerators that
the switch of `SetParameter` names in the mixing-console build, and the bound
`ParameterUnknown` that follows the last of them. -/
inductive TParameter where
  | ParameterCompressorEnable
  | ParameterFXTubeEnable
  | ParameterFXTubeOverdrive
  | ParameterFXChorusEnable
  | ParameterFXChorusRate
  | ParameterFXChorusDepth
  | ParameterFXFlangerEnable
  | ParameterFXFlangerRate
  | ParameterFXFlangerDepth
  | ParameterFXFlangerFeedback
  | ParameterFXOrbitoneEnable
  | ParameterFXOrbitoneRate
  | ParameterFXOrbitoneDepth
  | ParameterFXPhaserEnable
  | ParameterFXPhaserRate
  | ParameterFXPhaserDepth
  | ParameterFXPhaserFeedback
  | ParameterFXPhaserNbStages
  | ParameterFXDelayEnable
  | ParameterFXDelayLeftDelayTime
  | ParameterFXDelayRightDelayTime
  | ParameterFXDelayFeedback
  | ParameterReverbEnable
  | ParameterReverbSize
  | ParameterReverbHighDamp
  | ParameterReverbLowDamp
  | ParameterReverbLowPass
  | ParameterReverbDiffusion
  | ParameterReverbLevel
  | ParameterFXReverberatorEnable
  | ParameterFXReverberatorInputGain
  | ParameterFXReverberatorTime
  | ParameterFXReverberatorDiffusion
  | ParameterFXReverberatorLP
  | ParameterUnknown
deriving DecidableEq

/-- Modelled from the spec: the macro `constrain(amt, low, high)` of the absent `common.h` at
type `int`, the same compare-and-select as `constrain` on floats. -/
def constrainInt (amt low high : Int) : Int :=
  if amt < low then low else if amt > high then high else amt

/-- A call that `SetParameter` makes on an object outside the sources: `setCompressor(enable)` on
tone generator `nTG`; `setMute(mute)` (`set_bypass(mute)` for the plate reverb) on the effect
of parameter `p`; or the value setter of parameter `p`, whose argument is computed from the
`nValue` recorded here. -/
inductive FxCall where
  | setCompressor (nTG : Nat) (enable : Bool)
  | setMute (p : TParameter) (mute : Bool)
  | setValue (p : TParameter) (nValue : Int)
deriving DecidableEq

/-- The members of `CMiniDexed` that `SetParameter` touches: the array `m_nParameter`, and the
calls made so far on the tone generators and effects. -/
structure ParameterState where
  m_nParameter : TParameter → Int
  calls : List FxCall

/-- The method `CMiniDexed::SetParameter (TParameter Parameter, int nValue)` in the
mixing-console build; `ToneGenerators` is `CConfig::ToneGenerators` and `MAX_NB_PHASES` the
macro of the absent `fx_phaser.h`. -/
def SetParameter (ToneGenerators : Nat) (MAX_NB_PHASES : Int) (Parameter : TParameter)
    (nValue : Int) (s : ParameterState) : Option ParameterState := do
  assert (decide (Parameter ≠ TParameter.ParameterUnknown))
  let s1 : ParameterState :=
    { s with m_nParameter := fun q => if q = Parameter then nValue else s.m_nParameter q }
  match Parameter with
  | TParameter.ParameterCompressorEnable =>
    pure { s1 with calls := s1.calls ++
      (List.range ToneGenerators).map (fun nTG => FxCall.setCompressor nTG (decide (nValue ≠ 0))) }
  | TParameter.ParameterFXTubeEnable
  | TParameter.ParameterFXChorusEnable
  | TParameter.ParameterFXFlangerEnable
  | TParameter.ParameterFXOrbitoneEnable
  | TParameter.ParameterFXPhaserEnable
  | TParameter.ParameterFXDelayEnable
  | TParameter.ParameterReverbEnable
  | TParameter.ParameterFXReverberatorEnable =>
    let nValue := constrainInt nValue 0 1
    pure { s1 with calls := s1.calls ++ [FxCall.setMute Parameter (decide (nValue = 0))] }
  | TParameter.ParameterFXPhaserNbStages =>
    let nValue := constrainInt nValue 2 MAX_NB_PHASES
    pure { s1 with calls := s1.calls ++ [FxCall.setValue Parameter nValue] }
  | TParameter.ParameterFXTubeOverdrive
  | TParameter.ParameterFXChorusRate
  | TParameter.ParameterFXChorusDepth
  | TParameter.ParameterFXFlangerRate
  | TParameter.ParameterFXFlangerDepth
  | TParameter.ParameterFXFlangerFeedback
  | TParameter.ParameterFXOrbitoneRate
  | TParameter.ParameterFXOrbitoneDepth
  | TParameter.ParameterFXPhaserRate
  | TParameter.ParameterFXPhaserDepth
  | TParameter.ParameterFXPhaserFeedback
  | TParameter.ParameterFXDelayLeftDelayTime
  | TParameter.ParameterFXDelayRightDelayTime
  | TParameter.ParameterFXDelayFeedback
  | TParameter.ParameterReverbSize
  | TParameter.ParameterReverbHighDamp
  | TParameter.ParameterReverbLowDamp
  | TParameter.ParameterReverbLowPass
  | TParameter.ParameterReverbDiffusion
  | TParameter.ParameterReverbLevel
  | TParameter.ParameterFXReverberatorInputGain
  | TParameter.ParameterFXReverberatorTime
  | TParameter.ParameterFXReverberatorDiffusion
  | TParameter.ParameterFXReverberatorLP =>
    let nValue := constrainInt nValue 0 99
    pure { s1 with calls := s1.calls ++ [FxCall.setValue Parameter nValue] }
  | TParameter.ParameterUnknown => none

/-- The method `CMiniDexed::GetParameter (TParameter Parameter)`. -/
def GetParameter (Parameter : TParameter) (s : ParameterState) : Option Int := do
  assert (decide (Parameter ≠ TParameter.ParameterUnknown))
  pure (s.m_nParameter Parameter)

/-- The range in which `SetParameter` applies parameter `p` to its effect: the bounds of the
`constrain` of its case (`none` where the case has no `constrain`). -/
def applicationRange (MAX_NB_PHASES : Int) : TParameter → Option (Int × Int)
  | TParameter.ParameterCompressorEnable => none
  | TParameter.ParameterUnknown => none
  | TParameter.ParameterFXTubeEnable
  | TParameter.ParameterFXChorusEnable
  | TParameter.ParameterFXFlangerEnable
  | TParameter.ParameterFXOrbitoneEnable
  | TParameter.ParameterFXPhaserEnable
  | TParameter.ParameterFXDelayEnable
  | TParameter.ParameterReverbEnable
  | TParameter.ParameterFXReverberatorEnable => some (0, 1)
  | TParameter.ParameterFXPhaserNbStages => some (2, MAX_NB_PHASES)
  | _ => some (0, 99)

/-- The argument that `DoSavePerformance` hands to the performance-configuration setter of
parameter `p`: `!!m_nParameter[p]` for the enable flags, `m_nParameter[p]` otherwise. -/
def DoSavePerformance.argument (p : TParameter) (s : ParameterState) : Int :=
  match p with
  | TParameter.ParameterCompressorEnable
  | TParameter.ParameterFXTubeEnable
  | TParameter.ParameterFXChorusEnable
  | TParameter.ParameterFXFlangerEnable
  | TParameter.ParameterFXOrbitoneEnable
  | TParameter.ParameterFXPhaserEnable
  | TParameter.ParameterFXDelayEnable
  | TParameter.ParameterReverbEnable
  | TParameter.ParameterFXReverberatorEnable => if s.m_nParameter p ≠ 0 then 1 else 0
  | _ => s.m_nParameter p

/-- A parameter state in which every parameter is `0` and no call has been made. -/
def zeroParameters : ParameterState where
  m_nParameter := fun _ => 0
  calls := []

end Parameters

/-! ## The multi-core scheduler of `minidexed.cpp` -/

section Scheduler

variable {τ β : Type}

/-- The enumeration `TCoreStatus` (declared in the absent `minidexed.h`), with the enumerators
that `minidexed.cpp` names. -/
inductive TCoreStatus where
  | CoreStatusInit
  | CoreStatusIdle
  | CoreStatusBusy
  | CoreStatusExit
  | CoreStatusUnknown
deriving DecidableEq

/-- What the scheduler is compiled against: the macro `CORES`, the constants
`CConfig::TGsCore1`, `CConfig::TGsCore23`, `CConfig::ToneGenerators` and
`CConfig::MaxChunkSize`, and the method `getSamples (buffer, n)` of the tone generators (not
part of the sources), which acts on a generator state of type `τ` and a sample buffer. -/
structure SoundEnv (τ β : Type) where
  CORES : Nat
  TGsCore1 : Nat
  TGsCore23 : Nat
  ToneGenerators : Nat
  MaxChunkSize : Nat
  getSamples : τ → (Nat → β) → Nat → τ × (Nat → β)

/-- The members of `CMiniDexed` that the cores share; `none` is a null pointer. -/
structure CMiniDexed (τ β : Type) where
  m_CoreStatus : Nat → TCoreStatus
  m_nFramesToProcess : Nat
  m_pTG : Nat → Option τ
  m_OutputLevel : Nat → Nat → β

/-- The statements `assert (m_pTG[nTG]); m_pTG[nTG]->getSamples (m_OutputLevel[nTG], n);`;
`none` is the failed assertion. -/
def getSamplesOf (K : SoundEnv τ β) (nTG n : Nat) (m : CMiniDexed τ β) :
    Option (CMiniDexed τ β) :=
  match m.m_pTG nTG with
  | none => none
  | some tg =>
    some { m with
      m_pTG := store m.m_pTG nTG (some (K.getSamples tg (m.m_OutputLevel nTG) n).1)
      m_OutputLevel := store m.m_OutputLevel nTG (K.getSamples tg (m.m_OutputLevel nTG) n).2 }

/-- The control points of `CMiniDexed::Run (nCore)` on a secondary core (`nCore >= 2`):
`setIdle` is the write `m_CoreStatus[nCore] = CoreStatusIdle` at the top of `while (1)`,
`waitKick` the test of the inner `while`, `checkExit` the test of the `if`, `setUnknown` the
write before the `break`, `assertBusy` and `assertFrames` the two assertions (the second one
with the initialisation of `nTG`), `loop i nTG` the test of the `for` loop with its two
variables, `returned` the point after the `break`, and `failed` a failed assertion. -/
inductive RunPc where
  | setIdle
  | waitKick
  | checkExit
  | setUnknown
  | assertBusy
  | assertFrames
  | loop (i nTG : Nat)
  | returned
  | failed
deriving DecidableEq

/-- The entry of `Run (nCore)` on a secondary core: the assertion `nCore < CORES`, then the
top of `while (1)`. -/
def Run.entry (K : SoundEnv τ β) (nCore : Nat) : RunPc :=
  if nCore < K.CORES then RunPc.setIdle else RunPc.failed

/-- One step of `Run (nCore)` on a secondary core: from a control point and the shared
members to the next control point and the shared members.  The `unsigned` variable `nTG` is
computed modulo `2^32`. -/
def Run.step (K : SoundEnv τ β) (nCore : Nat) :
    RunPc → CMiniDexed τ β → RunPc × CMiniDexed τ β
  | RunPc.setIdle, m =>
    (RunPc.waitKick,
      { m with m_CoreStatus := store m.m_CoreStatus nCore TCoreStatus.CoreStatusIdle })
  | RunPc.waitKick, m =>
    if m.m_CoreStatus nCore = TCoreStatus.CoreStatusIdle then (RunPc.waitKick, m)
    else (RunPc.checkExit, m)
  | RunPc.checkExit, m =>
    if m.m_CoreStatus nCore = TCoreStatus.CoreStatusExit then (RunPc.setUnknown, m)
    else (RunPc.assertBusy, m)
  | RunPc.setUnknown, m =>
    (RunPc.returned,
      { m with m_CoreStatus := store m.m_CoreStatus nCore TCoreStatus.CoreStatusUnknown })
  | RunPc.assertBusy, m =>
    if m.m_CoreStatus nCore = TCoreStatus.CoreStatusBusy then (RunPc.assertFrames, m)
    else (RunPc.failed, m)
  | RunPc.assertFrames, m =>
    if m.m_nFramesToProcess ≤ K.MaxChunkSize then
      (RunPc.loop 0 ((K.TGsCore1 + (nCore - 2) * K.TGsCore23) % 4294967296), m)
    else (RunPc.failed, m)
  | RunPc.loop i nTG, m =>
    if i < K.TGsCore23 then
      match getSamplesOf K nTG m.m_nFramesToProcess m with
      | some m1 => (RunPc.loop (i + 1) ((nTG + 1) % 4294967296), m1)
      | none => (RunPc.failed, m)
    else (RunPc.setIdle, m)
  | RunPc.returned, m => (RunPc.returned, m)
  | RunPc.failed, m => (RunPc.failed, m)

/-- A run of a secondary core among the other cores: before each of its steps the other
cores have left the status array as the next element of the list says. -/
def Run.run (K : SoundEnv τ β) (nCore : Nat) :
    List (Nat → TCoreStatus) → RunPc × CMiniDexed τ β → RunPc × CMiniDexed τ β
  | [], s => s
  | st :: rest, s =>
    Run.run K nCore rest (Run.step K nCore s.1 { s.2 with m_CoreStatus := st })

/-- The values that the variable `nTG` takes in the `for` loop of `Run (nCore)`. -/
def Run.channels (K : SoundEnv τ β) (nCore : Nat) : List Nat :=
  (List.range K.TGsCore23).map
    (fun i => ((K.TGsCore1 + (nCore - 2) * K.TGsCore23) % 4294967296 + i) % 4294967296)

/-- The values that the variable `i` takes in the loop of `ProcessSound` over the tone
generators of core 1. -/
def ProcessSound.channels (K : SoundEnv τ β) : List Nat := List.range K.TGsCore1

/-- The control points of the multi-core `ProcessSound` on core 1, from the assignment of
`m_nFramesToProcess` on: `kickAssert n` and `kickWrite n` are the test of the first `for` loop
with the assertion, and the write of `CoreStatusBusy`; `assertChunk` is the assertion on
`nFrames`; `loop i` the test of the loop over the tone generators of core 1; `wait n` the test
of the last `for` loop with the inner `while`; `mix` the beginning of the audio signal path
after the tone generators; `failed` a failed assertion. -/
inductive SoundPc where
  | setFrames
  | kickAssert (nCore : Nat)
  | kickWrite (nCore : Nat)
  | assertChunk
  | loop (i : Nat)
  | wait (nCore : Nat)
  | mix
  | failed
deriving DecidableEq

/-- One step of the multi-core `ProcessSound` on core 1, for the chunk size `nFrames`. -/
def ProcessSound.step (K : SoundEnv τ β) (nFrames : Nat) :
    SoundPc → CMiniDexed τ β → SoundPc × CMiniDexed τ β
  | SoundPc.setFrames, m => (SoundPc.kickAssert 2, { m with m_nFramesToProcess := nFrames })
  | SoundPc.kickAssert nCore, m =>
    if nCore < K.CORES then
      if m.m_CoreStatus nCore = TCoreStatus.CoreStatusIdle then (SoundPc.kickWrite nCore, m)
      else (SoundPc.failed, m)
    else (SoundPc.assertChunk, m)
  | SoundPc.kickWrite nCore, m =>
    (SoundPc.kickAssert (nCore + 1),
      { m with m_CoreStatus := store m.m_CoreStatus nCore TCoreStatus.CoreStatusBusy })
  | SoundPc.assertChunk, m =>
    if nFrames ≤ K.MaxChunkSize then (SoundPc.loop 0, m) else (SoundPc.failed, m)
  | SoundPc.loop i, m =>
    if i < K.TGsCore1 then
      match getSamplesOf K i nFrames m with
      | some m1 => (SoundPc.loop (i + 1), m1)
      | none => (SoundPc.failed, m)
    else (SoundPc.wait 2, m)
  | SoundPc.wait nCore, m =>
    if nCore < K.CORES then
      if m.m_CoreStatus nCore = TCoreStatus.CoreStatusIdle then (SoundPc.wait (nCore + 1), m)
      else (SoundPc.wait nCore, m)
    else (SoundPc.mix, m)
  | SoundPc.mix, m => (SoundPc.mix, m)
  | SoundPc.failed, m => (SoundPc.failed, m)

/-- The cores of the machine: the control point of core 1 in `ProcessSound`, the control
points of the secondary cores in `Run`, and the members they share. -/
structure System (τ β : Type) where
  core1 : SoundPc
  core : Nat → RunPc
  mem : CMiniDexed τ β

/-- One step of the machine: core `k` performs its next step (core 1 in `ProcessSound`, a
core `2 <= k < CORES` in `Run`); any other `k` leaves the machine as it is.  The accesses to
the shared members happen one step at a time, in the order of the schedule. -/
def System.step (K : SoundEnv τ β) (nFrames : Nat) (S : System τ β) (k : Nat) : System τ β :=
  if k = 1 then
    { S with core1 := (ProcessSound.step K nFrames S.core1 S.mem).1
             mem := (ProcessSound.step K nFrames S.core1 S.mem).2 }
  else if 2 ≤ k ∧ k < K.CORES then
    { S with core := store S.core k (Run.step K k (S.core k) S.mem).1
             mem := (Run.step K k (S.core k) S.mem).2 }
  else S

/-- The machine after the steps of a schedule, a list of core numbers. -/
def System.run (K : SoundEnv τ β) (nFrames : Nat) (schedule : List Nat) (S : System τ β) :
    System τ β :=
  schedule.foldl (System.step K nFrames) S

/-- Modelled from the spec: "a single core generating the same channels sequentially", the
channels `0, 1, ..., N - 1` one after the other. -/
def generateSequentially (K : SoundEnv τ β) (nFrames N : Nat) (m : CMiniDexed τ β) :
    Option (CMiniDexed τ β) :=
  (List.range N).foldlM (fun m ch => getSamplesOf K ch nFrames m) m

/-- The first channel of the secondary core `n`, the initial value of `nTG` in `Run (n)`
when it does not wrap. -/
def firstTG (K : SoundEnv τ β) (n : Nat) : Nat := K.TGsCore1 + (n - 2) * K.TGsCore23

/-- The number of channels that the cores `1, ..., CORES - 1` generate between them. -/
def generatedChannels (K : SoundEnv τ β) : Nat := K.TGsCore1 + (K.CORES - 2) * K.TGsCore23

/-- Channel `ch` of the shared members: its tone generator and its buffer. -/
def chanOf (m : CMiniDexed τ β) (ch : Nat) : Option τ × (Nat → β) :=
  (m.m_pTG ch, m.m_OutputLevel ch)

/-- Channel `ch` of the members `m0` after one call `getSamples (m_OutputLevel[ch], nFrames)`
on it. -/
def chanAfter (K : SoundEnv τ β) (nFrames : Nat) (m0 : CMiniDexed τ β) (ch : Nat) :
    Option τ × (Nat → β) :=
  match m0.m_pTG ch with
  | some tg =>
    (some (K.getSamples tg (m0.m_OutputLevel ch) nFrames).1,
     (K.getSamples tg (m0.m_OutputLevel ch) nFrames).2)
  | none => (none, m0.m_OutputLevel ch)

/-- Core 1 has written `CoreStatusBusy` to secondary core `n` in this `ProcessSound` call. -/
def SoundPc.kicked (n : Nat) : SoundPc → Bool
  | SoundPc.setFrames => false
  | SoundPc.kickAssert m => decide (n < m)
  | SoundPc.kickWrite m => decide (n < m)
  | SoundPc.failed => false
  | _ => true

/-- Core 1 has left the wait for secondary core `n` in this `ProcessSound` call. -/
def SoundPc.joined (n : Nat) : SoundPc → Bool
  | SoundPc.wait m => decide (n < m)
  | SoundPc.mix => true
  | _ => false

/-- Core 1 has generated its channel `i` in this `ProcessSound` call. -/
def SoundPc.ownDone (i : Nat) : SoundPc → Bool
  | SoundPc.loop j => decide (i < j)
  | SoundPc.wait _ => true
  | SoundPc.mix => true
  | _ => false

/-- The number of its channels that a secondary core has generated in this `ProcessSound`
call, read off its control point, its status flag and whether it has been kicked. -/
def RunPc.progress (K : SoundEnv τ β) (isKicked : Bool) (st : TCoreStatus) : RunPc → Nat
  | RunPc.waitKick =>
    if isKicked = true ∧ st = TCoreStatus.CoreStatusIdle then K.TGsCore23 else 0
  | RunPc.loop i _ => i
  | RunPc.setIdle => K.TGsCore23
  | _ => 0

/-- The control points and status flags of a secondary core `n` that has been kicked. -/
def SecState (K : SoundEnv τ β) (n : Nat) (st : TCoreStatus) : RunPc → Prop
  | RunPc.waitKick => st = TCoreStatus.CoreStatusBusy ∨ st = TCoreStatus.CoreStatusIdle
  | RunPc.checkExit => st = TCoreStatus.CoreStatusBusy
  | RunPc.assertBusy => st = TCoreStatus.CoreStatusBusy
  | RunPc.assertFrames => st = TCoreStatus.CoreStatusBusy
  | RunPc.loop i nTG =>
    st = TCoreStatus.CoreStatusBusy ∧ i ≤ K.TGsCore23 ∧ nTG = firstTG K n + i
  | RunPc.setIdle => st = TCoreStatus.CoreStatusBusy
  | _ => False

/-- The invariant of a `ProcessSound` call for the chunk size `nFrames` that began with the
shared members `m0`: where core 1 stands, which secondary cores it has kicked and waited for,
where those stand, and which channels have been generated (each at most once, by its own
core). -/
structure ChunkInv (K : SoundEnv τ β) (nFrames : Nat) (m0 : CMiniDexed τ β)
    (S : System τ β) : Prop where
  notFailed : S.core1 ≠ SoundPc.failed
  kickAssertRange : ∀ n, S.core1 = SoundPc.kickAssert n → 2 ≤ n
  kickWriteRange : ∀ n, S.core1 = SoundPc.kickWrite n → 2 ≤ n ∧ n < K.CORES
  loopRange : ∀ i, S.core1 = SoundPc.loop i → i ≤ K.TGsCore1
  waitRange : ∀ n, S.core1 = SoundPc.wait n → 2 ≤ n
  frames : S.core1 ≠ SoundPc.setFrames → S.mem.m_nFramesToProcess = nFrames
  own : ∀ i, i < K.TGsCore1 →
    chanOf S.mem i =
      if SoundPc.ownDone i S.core1 = true then chanAfter K nFrames m0 i else chanOf m0 i
  rest : ∀ ch, generatedChannels K ≤ ch → chanOf S.mem ch = chanOf m0 ch
  unkicked : ∀ n, 2 ≤ n → n < K.CORES → SoundPc.kicked n S.core1 = false →
    S.mem.m_CoreStatus n = TCoreStatus.CoreStatusIdle ∧ S.core n = RunPc.waitKick
  isJoined : ∀ n, 2 ≤ n → n < K.CORES → SoundPc.joined n S.core1 = true →
    S.mem.m_CoreStatus n = TCoreStatus.CoreStatusIdle ∧ S.core n = RunPc.waitKick
  isKicked : ∀ n, 2 ≤ n → n < K.CORES → SoundPc.kicked n S.core1 = true →
    SecState K n (S.mem.m_CoreStatus n) (S.core n)
  channels : ∀ n, 2 ≤ n → n < K.CORES → ∀ i, i < K.TGsCore23 →
    chanOf S.mem (firstTG K n + i) =
      if i < RunPc.progress K (SoundPc.kicked n S.core1) (S.mem.m_CoreStatus n) (S.core n)
      then chanAfter K nFrames m0 (firstTG K n + i) else chanOf m0 (firstTG K n + i)

/-- An upper bound on the number of steps that core 1 still takes in `ProcessSound` before the
mix, not counting the repetitions of the inner `while` of the last loop. -/
def SoundPc.cost (K : SoundEnv τ β) : SoundPc → Nat
  | SoundPc.setFrames => 3 * K.CORES + K.TGsCore1 + 6
  | SoundPc.kickAssert n => 2 * (K.CORES - n) + K.CORES + K.TGsCore1 + 5
  | SoundPc.kickWrite n => 2 * (K.CORES - n) + K.CORES + K.TGsCore1 + 4
  | SoundPc.assertChunk => K.CORES + K.TGsCore1 + 3
  | SoundPc.loop i => K.CORES + 2 + (K.TGsCore1 - i)
  | SoundPc.wait n => K.CORES - n + 1
  | SoundPc.mix => 0
  | SoundPc.failed => 0

/-- An upper bound on the number of steps that a kicked secondary core still takes in `Run`
before it has written `CoreStatusIdle` again. -/
def RunPc.cost (K : SoundEnv τ β) : RunPc → Nat
  | RunPc.waitKick => K.TGsCore23 + 6
  | RunPc.checkExit => K.TGsCore23 + 5
  | RunPc.assertBusy => K.TGsCore23 + 4
  | RunPc.assertFrames => K.TGsCore23 + 3
  | RunPc.loop i _ => K.TGsCore23 - i + 2
  | RunPc.setIdle => 1
  | _ => 0

/-- The steps that the secondary core takes for which core 1 waits, if it waits. -/
def System.waitCost (K : SoundEnv τ β) (S : System τ β) : Nat :=
  match S.core1 with
  | SoundPc.wait n =>
    if S.mem.m_CoreStatus n = TCoreStatus.CoreStatusIdle then 0 else RunPc.cost K (S.core n)
  | _ => 0

/-- An upper bound on the number of steps of the schedule `System.next` before the mix. -/
def System.cost (K : SoundEnv τ β) (S : System τ β) : Nat :=
  SoundPc.cost K S.core1 * (K.TGsCore23 + 7) + System.waitCost K S

/-- A scheduler: the core that runs next is core 1, unless core 1 waits for a secondary core
that has not written `CoreStatusIdle`, which then runs. -/
def System.next (K : SoundEnv τ β) (S : System τ β) : Nat :=
  match S.core1 with
  | SoundPc.wait n =>
    if n < K.CORES ∧ S.mem.m_CoreStatus n ≠ TCoreStatus.CoreStatusIdle then n else 1
  | _ => 1

/-- An evaluable instantiation: four cores, two tone generators on core 1 and three on each
of the cores 2 and 3; a tone generator is a counter `t`, and `getSamples` writes `10 * t + k`
as sample `k` and advances the counter. -/
def exampleSound : SoundEnv Nat Nat where
  CORES := 4
  TGsCore1 := 2
  TGsCore23 := 3
  ToneGenerators := 8
  MaxChunkSize := 4
  getSamples := fun t buffer n => (t + 1, fun k => if k < n then 10 * t + k else buffer k)

/-- Shared members for `exampleSound`: every core `Idle`, tone generator `i` at count `i`,
empty buffers, and a chunk size of two frames. -/
def idleMembers : CMiniDexed Nat Nat where
  m_CoreStatus := fun _ => TCoreStatus.CoreStatusIdle
  m_nFramesToProcess := 2
  m_pTG := fun i => some i
  m_OutputLevel := fun _ _ => 0

/-- The machine for `exampleSound` at the beginning of a `ProcessSound` call: core 1 before
the assignment of `m_nFramesToProcess`, every secondary core waiting to be kicked. -/
def idleSystem : System Nat Nat where
  core1 := SoundPc.setFrames
  core := fun _ => RunPc.waitKick
  mem := idleMembers

end Scheduler

/-! ## The audio signal path of `ProcessSound` (mixing-console build) -/

section SignalPath

open StereoChannels MixerOutput

variable {α σ : Type} [LinearOrderedField α]

/-- An array operation `f` applied through the pointer `p + off`: the entries below `off` are
not touched, and `f` sees entry `off + j` of `p` as its entry `j`. -/
def atOffset {β : Type} (p : Nat → β) (off : Nat) (f : (Nat → β) → (Nat → β)) : Nat → β :=
  fun k => if k < off then p k else f (fun j => p (off + j)) (k - off)

/-- Modelled from the spec: `arm_float_to_q15(pSrc, pDst, blockSize)` (CMSIS-DSP, not part of
the sources): the first `blockSize` entries of the destination become the fixed-point
conversions of the source entries; the conversion of one sample is the parameter `toQ15`. -/
def arm_float_to_q15 (toQ15 : F32 α → Int) (pSrc : Nat → F32 α) (pDst : Nat → Int)
    (blockSize : Nat) : Nat → Int :=
  fun k => if k < blockSize then toQ15 (pSrc k) else pDst k

/-- Modelled from the spec: `arm_fill_q15(value, pDst, blockSize)` (CMSIS-DSP, not part of the
sources). -/
def arm_fill_q15 (value : Int) (pDst : Nat → Int) (blockSize : Nat) : Nat → Int :=
  fun k => if k < blockSize then value else pDst k

/-- What the signal path of `ProcessSound` works on: the mixing console, the member
`nMasterVolume`, and the local arrays `SampleBuffer`, `tmp_float` and `tmp_int` (indeterminate
when the path begins); `tmp_int` is the array handed to `m_pSoundDevice->Write`. -/
structure SoundChunk (α σ : Type) where
  mixing_console_ : MixingConsole α σ
  nMasterVolume : F32 α
  SampleBuffer : Nat → Nat → F32 α
  tmp_float : Nat → F32 α
  tmp_int : Nat → Int

/-- The part of the multi-core `ProcessSound` between the comment "Audio signal path after
tone generators starts here" and the write to the sound device, in the build with
`MIXING_CONSOLE_ENABLE`.  The spin lock has no effect here; the loop counter is a `uint8_t`,
so `ToneGenerators` is at most 255. -/
def ProcessSound.signalPath (E : Env α σ) (toQ15 : F32 α → Int) (ToneGenerators nFrames : Nat)
    (m_bChannelsSwapped : Bool) (m_OutputLevel : Nat → Nat → F32 α) (s : SoundChunk α σ) :
    Option (SoundChunk α σ) :=
  let indexL := if m_bChannelsSwapped then Right else Left
  let indexR := if m_bChannelsSwapped then Left else Right
  if F32.flt 0 s.nMasterVolume then do
    let c1 ← (List.range ToneGenerators).foldlM
      (fun c i => setInputSampleBuffer E i (some (m_OutputLevel i)) c) s.mixing_console_
    let r ← process E c1 (s.SampleBuffer indexL) (s.SampleBuffer indexR)
    let SampleBuffer := store (store s.SampleBuffer indexL r.2.1) indexR r.2.2
    let nMasterVolume := constrain s.nMasterVolume 0 1
    let tmp_float :=
      if F32.feq nMasterVolume 1 then
        atOffset (memcpy s.tmp_float (SampleBuffer indexL) nFrames) nFrames
          (fun d => memcpy d (SampleBuffer indexR) nFrames)
      else
        atOffset (arm_scale_f32 (SampleBuffer indexL) nMasterVolume s.tmp_float nFrames) nFrames
          (fun d => arm_scale_f32 (SampleBuffer indexR) nMasterVolume d nFrames)
    pure { mixing_console_ := r.1
           nMasterVolume := nMasterVolume
           SampleBuffer := SampleBuffer
           tmp_float := tmp_float
           tmp_int := arm_float_to_q15 toQ15 tmp_float s.tmp_int (nFrames * 2) }
  else
    pure { s with tmp_int := arm_fill_q15 0 s.tmp_int (nFrames * 2) }

/-- A fixed-point conversion for evaluation: `x * 32768` truncated and saturated to 16 bits
(NaN gives `0`). -/
def exampleQ15 : F32 ℚ → Int
  | F32.fin x => clip16 (truncToZero (x * 32768))
  | F32.pinf => INT16_MAX
  | F32.ninf => INT16_MIN
  | F32.nan => 0

/-- The console `exampleConsole` after `setSendLevel(0, MainOutput, 1)` and
`injectInputSamples(0, bufL, bufR, 2)` with `bufL = {1/4, 1/2}` and `bufR = {-1/4, -1/2}`: a
chunk of two frames is waiting. -/
def chunkConsole : MixingConsole ℚ Unit :=
  { exampleConsole with
    m_levels := store2 exampleConsole.m_levels MainOutput 0 (constrain 1 0 1)
    m_nSamples := 2
    m_inputSampleBuffer :=
      store2 (store2 exampleConsole.m_inputSampleBuffer Left 0
          (memcpy (exampleConsole.m_inputSampleBuffer Left 0)
            (fun k => F32.fin (if k = 0 then 1 / 4 else 1 / 2)) 2))
        Right 0
          (memcpy (exampleConsole.m_inputSampleBuffer Right 0)
            (fun k => F32.fin (if k = 0 then -1 / 4 else -1 / 2)) 2) }

/-- The console `exampleConsole` after `setSendLevel(0, MainOutput, 1)`; no chunk is
waiting (`m_nSamples = 0`, as the constructor and every `process` call leave it). -/
def routedConsole : MixingConsole ℚ Unit :=
  { exampleConsole with
    m_levels := store2 exampleConsole.m_levels MainOutput 0 (constrain 1 0 1) }

/-- The state of the signal path before a chunk: console `c`, master volume `1`, every entry
of `SampleBuffer` and `tmp_float` holding `3/4` and every entry of `tmp_int` holding `7`. -/
def chunkStart (c : MixingConsole ℚ Unit) : SoundChunk ℚ Unit where
  mixing_console_ := c
  nMasterVolume := 1
  SampleBuffer := fun _ _ => F32.fin (3 / 4)
  tmp_float := fun _ => F32.fin (3 / 4)
  tmp_int := fun _ => 7

end SignalPath

/-! ## The send and return levels of `minidexed.cpp` (mixing-console build) -/

section MixerLevels

open MixerOutput

variable {α σ : Type} [LinearOrderedField α]

/-- The conversion `(int) n` of an `unsigned` value: its 32 bits read as a two's-complement
number. -/
def unsignedToInt (n : Nat) : Int :=
  if n % 4294967296 < 2147483648 then ((n % 4294967296 : Nat) : Int)
  else ((n % 4294967296 : Nat) : Int) - 4294967296

/-- The members of `CMiniDexed` that the send and return level setters touch: the two arrays
of levels and the mixing console.  The method `setReturnLevel` of the console is not
part of the sources; `returnCalls` records the arguments of its calls. -/
structure MixerLevels (α σ : Type) where
  m_nFXSendLevel : Nat → Nat → Nat
  m_nFXReturnLevel : Nat → Nat → Nat
  mixing_console_ : MixingConsole α σ
  returnCalls : List (Nat × Nat × F32 α)

/-- The method `CMiniDexed::setMixingConsoleSendLevel (nTG, fx, nFXSend)`;
`ToneGenerators` is `CConfig::ToneGenerators`. -/
def setMixingConsoleSendLevel (E : Env α σ) (ToneGenerators : Nat) (nTG fx nFXSend : Nat)
    (s : MixerLevels α σ) : Option (MixerLevels α σ) := do
  assert (decide (nTG < ToneGenerators))
  let nFXSend := toUInt32 (constrainInt (unsignedToInt nFXSend) 0 99)
  let s1 := { s with m_nFXSendLevel := store2 s.m_nFXSendLevel nTG fx nFXSend }
  let c ← setSendLevel E nTG fx (F32.fin (nFXSend : α) / F32.fin 99) s1.mixing_console_
  pure { s1 with mixing_console_ := c }

/-- The method `CMiniDexed::setMixingConsoleReturnLevel (ret, fx, nFXReturn)`. -/
def setMixingConsoleReturnLevel (ret fx nFXReturn : Nat) (s : MixerLevels α σ) :
    Option (MixerLevels α σ) := do
  assert (decide (ret < kFXCount - 1))
  assert (decide (fx < kFXCount))
  let nFXReturn :=
    if ret = fx then 0 else toUInt32 (constrainInt (unsignedToInt nFXReturn) 0 99)
  pure { s with
    m_nFXReturnLevel := store2 s.m_nFXReturnLevel ret fx nFXReturn
    returnCalls := s.returnCalls ++ [(ret, fx, F32.fin (nFXReturn : α) / F32.fin 99)] }

/-- The part of the constructor of `CMiniDexed` for the two arrays of levels: the `memset`
calls clear `kFXCount` entries of each row (`ToneGenerators` rows of send levels,
`kFXCount - 1` rows of return levels); `mem` is the indeterminate content before. -/
def MixerLevels.construct (ToneGenerators : Nat) (mem : MixerLevels α σ) : MixerLevels α σ :=
  { mem with
    m_nFXSendLevel := fun i fx =>
      if i < ToneGenerators ∧ fx < kFXCount then 0 else mem.m_nFXSendLevel i fx
    m_nFXReturnLevel := fun ret fx =>
      if ret < kFXCount - 1 ∧ fx < kFXCount then 0 else mem.m_nFXReturnLevel ret fx }

/-- A call of one of the two setters. -/
inductive LevelCall where
  | setSend (nTG fx nFXSend : Nat)
  | setReturn (ret fx nFXReturn : Nat)

/-- The effect of a call. -/
def LevelCall.apply (E : Env α σ) (ToneGenerators : Nat) :
    LevelCall → MixerLevels α σ → Option (MixerLevels α σ)
  | LevelCall.setSend nTG fx n, s => setMixingConsoleSendLevel E ToneGenerators nTG fx n s
  | LevelCall.setReturn ret fx n, s => setMixingConsoleReturnLevel ret fx n s

/-- An evaluable instance: the example console with empty arrays of levels. -/
def exampleLevels : MixerLevels ℚ Unit where
  m_nFXSendLevel := fun _ _ => 0
  m_nFXReturnLevel := fun _ _ => 0
  mixing_console_ := exampleConsole
  returnCalls := []

end MixerLevels

/-! ## The interleaved overload of `MixingConsole::process` -/

section Interleaved

open StereoChannels MixerOutput

variable {α σ : Type} [LinearOrderedField α]

/-- The body of the loop of `process(outLR)` for sample index `s`; the pointer `outLR` has
been advanced by `2 * s`, so `*outLR` and `*(outLR + 1)` are the entries `2 * s` and
`2 * s + 1` of the output array. -/
def processFrameLR (E : Env α σ) (acc : MixingConsole α σ × (Nat → F32 α)) (s : Nat) :
    Option (MixingConsole α σ × (Nat → F32 α)) := do
  let c ← loadInputs E s acc.1
  let outLR := acc.2
  if c.m_swapStereoImage then
    let r ← processSample E c (outLR (2 * s + 1)) (outLR (2 * s))
    pure (r.1, store (store outLR (2 * s + 1) r.2.1) (2 * s) r.2.2)
  else
    let r ← processSample E c (outLR (2 * s)) (outLR (2 * s + 1))
    pure (r.1, store (store outLR (2 * s) r.2.1) (2 * s + 1) r.2.2)

/-- The overload `MixingConsole::process(float32_t* outLR)`. -/
def processLR (E : Env α σ) (c : MixingConsole α σ) (outLR : Nat → F32 α) :
    Option (MixingConsole α σ × (Nat → F32 α)) := do
  let nSamples := c.m_nSamples
  let r ← (List.range nSamples).foldlM (processFrameLR E) (c, outLR)
  pure ({ r.1 with m_nSamples := 0 }, r.2)

/-- The content of the interleaved output array after `process(outLR)` has done the turns
`0 .. n-1`. -/
def outLRAfter (E : Env α σ) (c : MixingConsole α σ) (outLR : Nat → F32 α) (n : Nat) :
    Nat → F32 α :=
  fun k => if k < 2 * n then
      (if (k % 2 = 0) = (c.m_swapStereoImage = false)
       then (frameOut E (stateAfterFrames E c (k / 2)) (k / 2)).1
       else (frameOut E (stateAfterFrames E c (k / 2)) (k / 2)).2)
    else outLR k

end Interleaved

/-! ## The voice dump of `minidexed.cpp` -/

section SysEx

variable {τ : Type}

/-- The conversion of an integer to `uint8_t`: its value modulo `2^8`. -/
def toUInt8 (x : Int) : Nat := (x % 256).toNat

/-- The body of the loop of `getSysExVoiceDump` for the index `n`: the pair of `checksum` and
`dest`.  The operands of `checksum -= data[n]` are promoted to `int` and the difference is
converted back to `uint8_t`. -/
def getSysExVoiceDump.body (data : Nat → Nat) (acc : Nat × (Nat → Nat)) (n : Nat) :
    Nat × (Nat → Nat) :=
  (toUInt8 ((acc.1 : Int) - (data n : Int)), store acc.2 (6 + n) (data n))

/-- The method `CMiniDexed::getSysExVoiceDump (uint8_t* dest, uint8_t nTG)`.
`ToneGenerators` is `CConfig::ToneGenerators`; `getVoiceData tg n` is the byte that
`m_pTG[nTG]->getVoiceData(data)` (not part of the sources) writes to `data[n]`, a `uint8_t`;
`dest` is the array before the call and the result is the array after it. -/
def getSysExVoiceDump (ToneGenerators : Nat) (getVoiceData : τ → Nat → Nat)
    (m_pTG : Nat → Option τ) (m_nMIDIChannel : Nat → Nat) (dest : Nat → Nat) (nTG : Nat) :
    Option (Nat → Nat) := do
  let checksum : Nat := 0
  assert (decide (nTG < ToneGenerators))
  let tg ← m_pTG nTG
  let data : Nat → Nat := fun n => getVoiceData tg n % 256
  let dest := store dest 0 0xF0
  let dest := store dest 1 0x43
  let dest := store dest 2 ((0x00 ||| m_nMIDIChannel nTG) % 256)
  let dest := store dest 3 0x00
  let dest := store dest 4 0x01
  let dest := store dest 5 0x1B
  let r := (List.range 155).foldl (getSysExVoiceDump.body data) (checksum, dest)
  let dest := store r.2 161 (r.1 &&& 0x7f)
  let dest := store dest 162 0xF7
  pure dest

/-- An evaluable voice: byte `n` of the block is `(7 * n + 3) mod 256`. -/
def exampleVoice : Unit → Nat → Nat := fun _ n => (7 * n + 3) % 256

end SysEx

/-! ## The phaser of `fx_phaser.cpp` -/

section PhaserModel

variable {α : Type} [LinearOrderedField α]

/-- What `fx_phaser.cpp` is compiled against (`fx_phaser.h`, the CMSIS header and `<cmath>`
are not part of the sources): the constant `PI` and the functions `sin` and `cos`. -/
structure PhaserEnv (α : Type) where
  PI : F32 α
  sin : F32 α → F32 α
  cos : F32 α → F32 α

/-- The data members of `PhaserParameter`; `sampling_rate` is what `getSamplingRate()` of
its base class `FXBase` returns. -/
structure PhaserParameter (α : Type) where
  sampling_rate : F32 α
  frequency_ : F32 α
  q_ : F32 α
  a0 : F32 α
  a1 : F32 α
  a2 : F32 α
  b1 : F32 α
  b2 : F32 α

/-- The method `PhaserParameter::getFrequency()`. -/
def PhaserParameter.getFrequency (p : PhaserParameter α) : F32 α := p.frequency_

/-- The method `PhaserParameter::computeCoefficients()`. -/
def PhaserParameter.computeCoefficients (M : PhaserEnv α) (p : PhaserParameter α) :
    PhaserParameter α :=
  let w0 := F32.fin 2 * M.PI * p.getFrequency / p.sampling_rate
  let alpha := M.sin w0 / (F32.fin 2 * p.q_)
  let a0 := F32.fin 1 + alpha
  let a1 := F32.fin (-2) * M.cos w0
  let a2 := F32.fin 1 - alpha
  { p with a0 := a0, a1 := a1, a2 := a2, b1 := a1, b2 := a2 }

/-- The constructor `PhaserParameter(sampling_rate, frequency, q)`. -/
def PhaserParameter.construct (M : PhaserEnv α) (sampling_rate frequency q : F32 α) :
    PhaserParameter α :=
  PhaserParameter.computeCoefficients M
    { sampling_rate := sampling_rate, frequency_ := frequency, q_ := q,
      a0 := 0, a1 := 0, a2 := 0, b1 := 0, b2 := 0 }

/-- The method `PhaserParameter::setFrequency(frequency)`. -/
def PhaserParameter.setFrequency (M : PhaserEnv α) (frequency : F32 α)
    (p : PhaserParameter α) : PhaserParameter α :=
  PhaserParameter.computeCoefficients M
    { p with frequency_ := constrain frequency (F32.fin (1 / 10)) (F32.fin 10) }

/-- The data members `z1[2]` and `z2[2]` of `PhaserStage`; the pointer `params_` is passed
to `processSample` as the object it points to. -/
structure PhaserStage (α : Type) where
  z1 : Nat → F32 α
  z2 : Nat → F32 α

/-- The constructor `PhaserStage(sampling_rate, params)`; `mem` is the indeterminate content
of the fresh object. -/
def PhaserStage.construct (mem : PhaserStage α) : PhaserStage α :=
  { z1 := memset0 mem.z1 2, z2 := memset0 mem.z2 2 }

/-- The method `PhaserStage::processSample(inL, inR, outL, outR)`: the pair `(outL, outR)`
and the stage after the call. -/
def PhaserStage.processSample (params_ : PhaserParameter α) (inL inR : F32 α)
    (st : PhaserStage α) : (F32 α × F32 α) × PhaserStage α :=
  let outL := (params_.a0 * inL + params_.a1 * st.z1 0 + params_.a2 * st.z2 0) / params_.a0
  let st := { st with z2 := store st.z2 0 (st.z1 0) }
  let st := { st with z2 := store st.z2 0 inL }
  let outR := (params_.a0 * inR + params_.a1 * st.z1 1 + params_.a2 * st.z2 1) / params_.a0
  let st := { st with z2 := store st.z2 1 (st.z1 1) }
  let st := { st with z2 := store st.z2 1 inR }
  ((outL, outR), st)

/-- Consecutive calls of `PhaserStage::processSample` on a list of input frames: the list of
output frames and the stage after the last call. -/
def PhaserStage.run (params_ : PhaserParameter α) :
    List (F32 α × F32 α) → PhaserStage α → List (F32 α × F32 α) × PhaserStage α
  | [], st => ([], st)
  | x :: xs, st =>
    let r := PhaserStage.processSample params_ x.1 x.2 st
    let rest := PhaserStage.run params_ xs r.2
    (r.1 :: rest.1, rest.2)

/-- The data members of `Phaser` that its frequency setter touches; `sampling_rate` is what
`getSamplingRate()` of its base class `FXElement` returns. -/
structure Phaser (α : Type) where
  sampling_rate : F32 α
  params_ : PhaserParameter α
  phase_ : F32 α
  phase_increment_ : F32 α

/-- The constructor `Phaser(sampling_rate, frequency, q)`, without the allocation of the
stages. -/
def Phaser.construct (M : PhaserEnv α) (sampling_rate frequency q : F32 α) : Phaser α :=
  let ph : Phaser α :=
    { sampling_rate := sampling_rate
      params_ := PhaserParameter.construct M sampling_rate frequency q
      phase_ := F32.fin 0
      phase_increment_ := F32.fin 0 }
  { ph with phase_increment_ := F32.fin 2 * M.PI * frequency / ph.sampling_rate }

/-- The method `Phaser::setFrequency(frequency)`. -/
def Phaser.setFrequency (M : PhaserEnv α) (frequency : F32 α) (ph : Phaser α) : Phaser α :=
  let ph := { ph with params_ := PhaserParameter.setFrequency M frequency ph.params_ }
  { ph with phase_increment_ := F32.fin 2 * M.PI * frequency / ph.sampling_rate }

/-- The method `Phaser::getFrequency()`. -/
def Phaser.getFrequency (ph : Phaser α) : F32 α := ph.params_.getFrequency

/-- An evaluable environment over `ℚ`: `PI` is the decimal constant of the CMSIS header; the
functions `sin` and `cos` are parameters. -/
def examplePhaserEnv (sinf cosf : F32 ℚ → F32 ℚ) : PhaserEnv ℚ where
  PI := F32.fin (314159265358979 / 100000000000000)
  sin := sinf
  cos := cosf

/-- A phaser at 44100 Hz, constructed with the frequency `1/2` and `q = 1/2`. -/
def examplePhaser (sinf cosf : F32 ℚ → F32 ℚ) : Phaser ℚ :=
  Phaser.construct (examplePhaserEnv sinf cosf) (F32.fin 44100) (F32.fin (1 / 2))
    (F32.fin (1 / 2))

end PhaserModel

/-! ## Calls on a context of the delay-line engine -/

section EngineCalls

variable {α T L : Type} [LinearOrderedField α] [FloorRing α]

/-- A call of a method of `FxEngine::Context` between two calls of `start`. -/
inductive FxEngine.ContextCall (α : Type) where
  | load (value : F32 α)
  | read (D : FxEngine.Segment) (offset : Int) (scale : F32 α)
  | write (D : FxEngine.Segment) (offset : Int) (scale : F32 α)
  | interpolate (D : FxEngine.Segment) (offset scale : F32 α)

/-- The effect of a call on the engine and the context bound to it. -/
def FxEngine.ContextCall.apply (P : FxEnv α T L) :
    FxEngine.ContextCall α → FxEngine T L × FxEngine.Context α →
      Option (FxEngine T L × FxEngine.Context α)
  | FxEngine.ContextCall.load value, s => some (s.1, FxEngine.Context.load value s.2)
  | FxEngine.ContextCall.read D offset scale, s => FxEngine.Context.read P D offset scale s.1 s.2
  | FxEngine.ContextCall.write D offset scale, s =>
    FxEngine.Context.write P D offset scale s.1 s.2
  | FxEngine.ContextCall.interpolate D offset scale, s =>
    FxEngine.Context.interpolate P D offset scale s.1 s.2

/-- The slot that a call stores to when the write pointer of the context is `write_ptr_`:
the index expression of `Context::write`; the other calls store nothing. -/
def FxEngine.ContextCall.slot (P : FxEnv α T L) (write_ptr_ : Int) :
    FxEngine.ContextCall α → Option Nat
  | FxEngine.ContextCall.write D offset _ =>
    some (if offset = -1 then FxEngine.maskIndex P (write_ptr_ + D.base + D.length - 1)
          else FxEngine.maskIndex P (write_ptr_ + D.base + offset))
  | _ => none

/-- The processing of one sample: `start(&c)`, then the calls on the context. -/
def FxEngine.sample (P : FxEnv α T L) (calls : List (FxEngine.ContextCall α))
    (s : FxEngine T L × FxEngine.Context α) : Option (FxEngine T L × FxEngine.Context α) :=
  calls.foldlM (fun s call => FxEngine.ContextCall.apply P call s) (FxEngine.start P s.1 s.2)

/-- The processing of consecutive samples, each with its own list of calls. -/
def FxEngine.samples (P : FxEnv α T L) :
    List (List (FxEngine.ContextCall α)) → FxEngine T L × FxEngine.Context α →
      Option (FxEngine T L × FxEngine.Context α)
  | [], s => some s
  | calls :: rest, s => (FxEngine.sample P calls s).bind (FxEngine.samples P rest)

/-- No call of the consecutive samples stores to slot `j`, when the engine's write pointer
before the first of them is `write_ptr_`. -/
def FxEngine.sparesSlot (P : FxEnv α T L) (j : Nat) :
    List (List (FxEngine.ContextCall α)) → Int → Bool
  | [], _ => true
  | calls :: rest, write_ptr_ =>
    let wp := write_ptr_ - 1
    let wp := if wp < 0 then wp + (P.size : Int) else wp
    calls.all (fun call => decide (FxEngine.ContextCall.slot P wp call ≠ some j)) &&
      FxEngine.sparesSlot P j rest wp

end EngineCalls

/-! ## The calls that `minidexed.cpp` makes on the console -/

section ProgramCalls

open StereoChannels MixerOutput

variable {α σ : Type} [LinearOrderedField α]

end ProgramCalls

/-! ## Basic facts about the `float32_t` model and the array helpers -/

namespace F32

variable {α : Type} [LinearOrderedField α]

@[simp] theorem zero_def : (0 : F32 α) = fin 0 := rfl
@[simp] theorem one_def : (1 : F32 α) = fin 1 := rfl
@[simp] theorem fin_add_fin (a b : α) : (fin a + fin b : F32 α) = fin (a + b) := rfl
@[simp] theorem fin_mul_fin (a b : α) : (fin a * fin b : F32 α) = fin (a * b) := rfl
@[simp] theorem nan_add (x : F32 α) : (nan + x : F32 α) = nan := by cases x <;> rfl
@[simp] theorem add_nan (x : F32 α) : (x + nan : F32 α) = nan := by cases x <;> rfl
@[simp] theorem nan_mul (x : F32 α) : (nan * x : F32 α) = nan := by cases x <;> rfl
@[simp] theorem mul_nan (x : F32 α) : (x * nan : F32 α) = nan := by cases x <;> rfl
@[simp] theorem isnan_fin (a : α) : isnan (fin a) = false := rfl
@[simp] theorem isnan_nan : isnan (nan : F32 α) = true := rfl
@[simp] theorem isnan_pinf : isnan (pinf : F32 α) = false := rfl
@[simp] theorem isnan_ninf : isnan (ninf : F32 α) = false := rfl
@[simp] theorem feq_fin (a b : α) : feq (fin a) (fin b) = decide (a = b) := rfl
@[simp] theorem flt_fin (a b : α) : flt (fin a) (fin b) = decide (a < b) := rfl
@[simp] theorem lift_fin (f : α → α) (a : α) : lift f (fin a) = fin (f a) := rfl
@[simp] theorem isFinite_fin (a : α) : isFinite (fin a) = true := rfl

theorem isFinite_iff (x : F32 α) : isFinite x = true ↔ ∃ a, x = fin a := by
  cases x <;> simp [isFinite]

/-- Values the C++ `==` finds equal are equal. -/
theorem eq_of_feq {x y : F32 α} (h : feq x y = true) : x = y := by
  cases x <;> cases y <;> simp_all [feq]

/-- Multiplying anything by zero gives zero or NaN. -/
theorem mul_zero_cases (x : F32 α) : x * fin 0 = fin 0 ∨ x * fin 0 = nan := by
  cases x with
  | fin a => left; simp
  | pinf => right; show mul pinf (fin 0) = nan; simp [mul, mulInf]
  | ninf => right; show mul ninf (fin 0) = nan; simp [mul, mulInf]
  | nan => right; simp

end F32

section Helpers

variable {α σ : Type} [LinearOrderedField α]

@[simp] theorem store_same {β : Type} (a : Nat → β) (i : Nat) (v : β) : store a i v i = v := by
  simp [store]

@[simp] theorem store_ne {β : Type} (a : Nat → β) (i k : Nat) (v : β) (h : k ≠ i) :
    store a i v k = a k := by
  simp [store, h]

theorem store_apply {β : Type} (a : Nat → β) (i k : Nat) (v : β) :
    store a i v k = if k = i then v else a k := rfl

theorem store2_apply {β : Type} (a : Nat → Nat → β) (i j r k : Nat) (v : β) :
    store2 a i j v r k = if r = i ∧ k = j then v else a r k := by
  unfold store2 store
  by_cases h1 : r = i <;> by_cases h2 : k = j <;> simp [h1, h2]

@[simp] theorem assert_true : assert true = some () := rfl
@[simp] theorem assert_false : assert false = none := rfl

theorem assert_decide (p : Prop) [Decidable p] :
    assert (decide p) = if p then some () else none := by
  by_cases h : p <;> simp [assert, h]

/-- A monadic fold whose steps all succeed is the pure fold. -/
theorem foldlM_eq_some {β γ : Type} (f : β → γ → Option β) (g : β → γ → β) (l : List γ)
    (h : ∀ x ∈ l, ∀ s, f s x = some (g s x)) (s : β) :
    l.foldlM f s = some (l.foldl g s) := by
  induction l generalizing s with
  | nil => rfl
  | cons x xs ih =>
    rw [List.foldlM_cons, h x (List.mem_cons_self _ _) s]
    simp only [Option.some_bind, List.foldl_cons]
    exact ih (fun y hy => h y (List.mem_cons_of_mem _ hy)) _

end Helpers

section ResetInit

open StereoChannels MixerOutput

variable {α σ : Type} [LinearOrderedField α]

theorem setSample_eq (E : Env α σ) (i : Nat) (l r : F32 α) (c : MixingConsole α σ)
    (h : i < E.nb_inputs + kFXCount - 1) : setSample E i l r c = some (setSampleCore i l r c) := by
  simp [setSample, setSampleCore, h]

theorem setReturnSample_eq (E : Env α σ) (b : Nat) (l r : F32 α) (c : MixingConsole α σ)
    (h : b < kFXCount - 1) :
    setReturnSample E b l r c = some (setSampleCore (E.nb_inputs + b) l r c) := by
  have h2 : E.nb_inputs + b < E.nb_inputs + kFXCount - 1 := by
    simp only [kFXCount] at h ⊢; omega
  simp [setReturnSample, h, setSample_eq E _ l r c h2]

/-- Zeroing the first `m` entries of the rows `0 .. n-1` of a two-dimensional array. -/
theorem foldl_memset_rows (a : Nat → Nat → F32 α) (m n : Nat) :
    (List.range n).foldl (fun (l : Nat → Nat → F32 α) i => store l i (memset0 (l i) m)) a =
      fun b s => if b < n ∧ s < m then 0 else a b s := by
  induction n with
  | zero => funext b s; simp
  | succ n ih =>
    rw [List.range_succ, List.foldl_append, ih]
    funext b s
    simp only [List.foldl_cons, List.foldl_nil, store_apply]
    by_cases hb : b = n
    · subst hb; by_cases hs : s < m <;> simp [hs, memset0]
    · have h1 : (b < n + 1) = (b < n) := by
        apply propext; constructor <;> intro h <;> omega
      simp only [hb, if_false, h1]

/-- The first loop of `reset()`, run over the channels `0 .. n-1`. -/
theorem reset_buffers_loop (c : MixingConsole α σ) (n : Nat) :
    (List.range n).foldl (fun (c : MixingConsole α σ) i =>
      let b1 := store2 c.m_inputSampleBuffer Left i (memset0 (c.m_inputSampleBuffer Left i) c.BufferSize)
      let b2 := store2 b1 Right i (memset0 (b1 Right i) c.BufferSize)
      { c with m_inputSampleBuffer := b2 }) c =
    { c with m_inputSampleBuffer := fun ch i k =>
        if (ch = Left ∨ ch = Right) ∧ i < n ∧ k < c.BufferSize then 0
        else c.m_inputSampleBuffer ch i k } := by
  induction n with
  | zero => simp
  | succ n ih =>
    rw [List.range_succ, List.foldl_append, ih]
    simp only [List.foldl_cons, List.foldl_nil]
    apply MixingConsole.ext <;> try rfl
    funext ch i k
    simp only [store2_apply, memset0, Left, Right]
    split_ifs <;> (try simp_all [memset0]) <;> (try omega)

/-- The second loop of `reset()`, run over the buses `0 .. n-1`. -/
theorem reset_bus_loop (E : Env α σ) (c : MixingConsole α σ) (n : Nat) (hn : n ≤ kFXCount) :
    (List.range n).foldlM (resetBus E) c = some
    { c with
      m_fx := fun b => if b < n then (E.fx b).reset (c.m_fx b) else c.m_fx b
      m_inputSamples := fun ch s =>
        if (ch = Left ∨ ch = Right) ∧ E.nb_inputs ≤ s ∧ s < E.nb_inputs + min n (kFXCount - 1)
        then 0 else c.m_inputSamples ch s } := by
  induction n with
  | zero =>
    simp only [List.range_zero, List.foldlM_nil, Option.pure_def, Option.some.injEq]
    apply MixingConsole.ext <;> try rfl
    · funext ch s
      simp only [kFXCount, Nat.zero_min, Nat.add_zero]
      split_ifs with h
      · exfalso; omega
      · rfl
  | succ n ih =>
    rw [List.range_succ, List.foldlM_append, ih (Nat.le_of_succ_le hn)]
    simp only [kFXCount] at hn
    by_cases hm : n = 8
    · subst hm
      simp only [resetBus, MainOutput, kFXCount, Option.some_bind, List.foldlM_cons,
        List.foldlM_nil, ne_eq, not_true_eq_false, if_false, Option.pure_def, Option.bind_some,
        Option.some.injEq, Option.bind_eq_bind]
      apply MixingConsole.ext <;> try rfl
      funext b
      simp only [store_apply]
      split_ifs <;> (try simp_all) <;> (try omega)
    · have hn8 : n < kFXCount - 1 := by simp only [kFXCount]; omega
      simp only [resetBus, MainOutput, Option.some_bind, List.foldlM_cons,
        List.foldlM_nil, ne_eq, hm, not_false_eq_true, if_true, setReturnSample_eq E n 0 0 _ hn8,
        Option.pure_def, Option.bind_some, Option.some.injEq, setSampleCore, Option.bind_eq_bind]
      apply MixingConsole.ext <;> try rfl
      · funext ch s
        simp only [store2_apply, Left, Right, kFXCount]
        have e1 : min n (9 - 1) = n := by omega
        have e2 : min (n + 1) (9 - 1) = n + 1 := by omega
        simp only [e1, e2]
        split_ifs <;> first | rfl | (exfalso; omega)
      · funext b
        simp only [store_apply]
        split_ifs with h1 h2 <;> first | rfl | (exfalso; omega) | (subst h1; rfl)

theorem reset_eq (E : Env α σ) (c : MixingConsole α σ) : reset E c = some (resetCore E c) := by
  unfold reset
  simp only []
  rw [reset_buffers_loop, reset_bus_loop E _ kFXCount (Nat.le_refl _)]
  simp [resetCore, kFXCount]

theorem init_eq (E : Env α σ) (c : MixingConsole α σ) : init E c = some (initCore E c) := by
  unfold init
  simp only [foldl_memset_rows, reset_eq, initCore]

end ResetInit

section Processing

open StereoChannels MixerOutput

variable {α σ : Type} [LinearOrderedField α]

theorem SameConfig.refl (c : MixingConsole α σ) : SameConfig c c :=
  ⟨rfl, rfl, rfl, rfl, rfl, rfl, rfl, rfl, rfl⟩

theorem SameConfig.trans {a b c : MixingConsole α σ} (h1 : SameConfig a b)
    (h2 : SameConfig b c) : SameConfig a c :=
  ⟨h2.1.trans h1.1, h2.2.trans h1.2, h2.3.trans h1.3, h2.4.trans h1.4, h2.5.trans h1.5,
   h2.6.trans h1.6, h2.7.trans h1.7, h2.8.trans h1.8, h2.9.trans h1.9⟩

theorem setSampleCore_sameConfig (i : Nat) (l r : F32 α) (c : MixingConsole α σ) :
    SameConfig c (setSampleCore i l r c) :=
  ⟨rfl, rfl, rfl, rfl, rfl, rfl, rfl, rfl, rfl⟩

theorem busStep_sameConfig (E : Env α σ) (c : MixingConsole α σ) (b : Nat) :
    SameConfig c (busStep E c b) := by
  unfold busStep
  simp only []
  split_ifs <;> exact ⟨rfl, rfl, rfl, rfl, rfl, rfl, rfl, rfl, rfl⟩

theorem stateAt_succ (E : Env α σ) (c : MixingConsole α σ) (k : Nat) :
    stateAt E c (k + 1) = busStep E (stateAt E c k) k := by
  simp [stateAt, List.range_succ, List.foldl_append]

theorem stateAt_sameConfig (E : Env α σ) (c : MixingConsole α σ) (k : Nat) :
    SameConfig c (stateAt E c k) := by
  induction k with
  | zero => exact SameConfig.refl c
  | succ k ih => rw [stateAt_succ]; exact ih.trans (busStep_sameConfig E _ k)

theorem loadInputsCore_sameConfig (E : Env α σ) (s : Nat) (c : MixingConsole α σ) :
    SameConfig c (loadInputsCore E s c) :=
  ⟨rfl, rfl, rfl, rfl, rfl, rfl, rfl, rfl, rfl⟩

theorem frameStep_sameConfig (E : Env α σ) (c : MixingConsole α σ) (s : Nat) :
    SameConfig c (frameStep E c s) :=
  (loadInputsCore_sameConfig E s c).trans (stateAt_sameConfig E _ _)

theorem stateAfterFrames_succ (E : Env α σ) (c : MixingConsole α σ) (n : Nat) :
    stateAfterFrames E c (n + 1) = frameStep E (stateAfterFrames E c n) n := by
  simp [stateAfterFrames, List.range_succ, List.foldl_append]

theorem stateAfterFrames_sameConfig (E : Env α σ) (c : MixingConsole α σ) (n : Nat) :
    SameConfig c (stateAfterFrames E c n) := by
  induction n with
  | zero => exact SameConfig.refl c
  | succ n ih => rw [stateAfterFrames_succ]; exact ih.trans (frameStep_sameConfig E _ n)

/-- One turn of the loop of `processSample` never fails. -/
theorem processBus_eq (E : Env α σ) (c : MixingConsole α σ) (oL oR : F32 α) (b : Nat)
    (hb : b < kFXCount) :
    processBus E (c, oL, oR) b = some (busStep E c b,
      if b = MainOutput then (fxOutput E c b).2.1 else oL,
      if b = MainOutput then (fxOutput E c b).2.2 else oR) := by
  unfold processBus busStep
  by_cases hm : b = MainOutput
  · simp [hm, fxOutput]
  · have h8 : b < kFXCount - 1 := by
      simp only [kFXCount, MainOutput] at hb hm ⊢; omega
    simp [hm, fxOutput, setReturnSample_eq E b _ _ _ h8]

/-- The loop of `processSample` over the buses `0 .. k-1`, none of them the main bus. -/
theorem processSample_prefix (E : Env α σ) (c : MixingConsole α σ) (oL oR : F32 α) (k : Nat)
    (hk : k ≤ MainOutput) :
    (List.range k).foldlM (processBus E) (c, oL, oR) = some (stateAt E c k, oL, oR) := by
  induction k with
  | zero => rfl
  | succ k ih =>
    have hk2 : k < kFXCount := by simp only [kFXCount, MainOutput] at hk ⊢; omega
    have hk3 : k ≠ MainOutput := by simp only [MainOutput] at hk ⊢; omega
    rw [List.range_succ, List.foldlM_append, ih (Nat.le_of_succ_le hk)]
    simp [processBus_eq E _ oL oR k hk2, hk3, stateAt_succ]

/-- `processSample` never fails: it ends in the state `stateAt E c kFXCount` and returns the
output of the main bus. -/
theorem processSample_eq (E : Env α σ) (c : MixingConsole α σ) (oL oR : F32 α) :
    processSample E c oL oR = some (stateAt E c kFXCount,
      (fxOutput E (stateAt E c MainOutput) MainOutput).2.1,
      (fxOutput E (stateAt E c MainOutput) MainOutput).2.2) := by
  unfold processSample
  have h9 : kFXCount = MainOutput + 1 := rfl
  rw [h9, List.range_succ, List.foldlM_append, processSample_prefix E c oL oR _ (Nat.le_refl _)]
  have hm : MainOutput < kFXCount := by decide
  simp [processBus_eq E _ oL oR MainOutput hm, stateAt_succ]

/-- The loop of `loadInputs` over the channels `0 .. n-1`. -/
theorem loadInputs_loop (E : Env α σ) (s : Nat) (c : MixingConsole α σ) (n : Nat)
    (hn : n ≤ E.nb_inputs) :
    (List.range n).foldlM (fun (c : MixingConsole α σ) i =>
      setSample E i (c.m_inputSampleBuffer Left i s) (c.m_inputSampleBuffer Right i s) c) c =
    some { c with m_inputSamples := fun ch i =>
      if (ch = Left ∨ ch = Right) ∧ i < n then c.m_inputSampleBuffer ch i s
      else c.m_inputSamples ch i } := by
  induction n with
  | zero =>
    simp only [List.range_zero, List.foldlM_nil, Option.pure_def, Option.some.injEq]
    apply MixingConsole.ext <;> try rfl
    funext ch i
    simp
  | succ n ih =>
    have h1 : n < E.nb_inputs + kFXCount - 1 := by simp only [kFXCount]; omega
    rw [List.range_succ, List.foldlM_append, ih (Nat.le_of_succ_le hn)]
    simp only [Option.some_bind, List.foldlM_cons, List.foldlM_nil, Option.bind_eq_bind,
      setSample_eq E n _ _ _ h1, Option.pure_def, Option.some.injEq, setSampleCore]
    apply MixingConsole.ext <;> try rfl
    funext ch i
    simp only [store2_apply, Left, Right]
    split_ifs <;> (try simp_all) <;> (try omega)

theorem loadInputs_eq (E : Env α σ) (s : Nat) (c : MixingConsole α σ) :
    loadInputs E s c = some (loadInputsCore E s c) :=
  loadInputs_loop E s c E.nb_inputs (Nat.le_refl _)

/-- One turn of the loop of `process` never fails. -/
theorem processFrame_eq (E : Env α σ) (c : MixingConsole α σ) (outL outR : Nat → F32 α)
    (s : Nat) :
    processFrame E (c, outL, outR) s = some (frameStep E c s,
      store outL s (if c.m_swapStereoImage then (frameOut E c s).2 else (frameOut E c s).1),
      store outR s (if c.m_swapStereoImage then (frameOut E c s).1 else (frameOut E c s).2)) := by
  unfold processFrame
  simp only [loadInputs_eq, Option.bind_eq_bind, Option.some_bind, processSample_eq]
  have hsw : (loadInputsCore E s c).m_swapStereoImage = c.m_swapStereoImage := rfl
  rw [hsw]
  cases c.m_swapStereoImage <;> simp [frameStep, frameOut]

/-- The loop of `process` over the sample indices `0 .. n-1`. -/
theorem process_loop (E : Env α σ) (c : MixingConsole α σ) (outL outR : Nat → F32 α)
    (n : Nat) :
    (List.range n).foldlM (processFrame E) (c, outL, outR) =
      some (stateAfterFrames E c n, outLAfter E c outL n, outRAfter E c outR n) := by
  induction n with
  | zero =>
    simp only [List.range_zero, List.foldlM_nil, Option.pure_def, Option.some.injEq]
    refine Prod.ext rfl (Prod.ext ?_ ?_)
    · funext k; simp [outLAfter]
    · funext k; simp [outRAfter]
  | succ n ih =>
    rw [List.range_succ, List.foldlM_append, ih]
    simp only [Option.some_bind, List.foldlM_cons, List.foldlM_nil, Option.bind_eq_bind,
      processFrame_eq, Option.pure_def, Option.some.injEq, stateAfterFrames_succ,
      (stateAfterFrames_sameConfig E c n).swap]
    refine Prod.ext rfl (Prod.ext ?_ ?_)
    · funext k
      simp only [outLAfter, store_apply]
      split_ifs <;> (try simp_all) <;> (try omega)
    · funext k
      simp only [outRAfter, store_apply]
      split_ifs <;> (try simp_all) <;> (try omega)

/-- `process(outL, outR)` never fails; its final state and the content of the output arrays. -/
theorem process_eq (E : Env α σ) (c : MixingConsole α σ) (outL outR : Nat → F32 α) :
    process E c outL outR =
      some ({ stateAfterFrames E c c.m_nSamples with m_nSamples := 0 },
            outLAfter E c outL c.m_nSamples, outRAfter E c outR c.m_nSamples) := by
  unfold process
  simp [process_loop]

end Processing

section Frame

open StereoChannels MixerOutput

variable {α σ : Type} [LinearOrderedField α]

theorem SameConfig.sameMix {c c' : MixingConsole α σ} (h : SameConfig c c') : SameMix c c' :=
  ⟨h.levels, h.pan, h.channelLevel⟩

theorem resetCore_sameMix (E : Env α σ) (c : MixingConsole α σ) : SameMix c (resetCore E c) :=
  ⟨rfl, rfl, rfl⟩

/-- The loop of `bypass(b)`, run over the buses `0 .. n-1`. -/
theorem bypass_loop (E : Env α σ) (b : Bool) (c : MixingConsole α σ) (n : Nat)
    (hn : n ≤ kFXCount) :
    (List.range n).foldlM (fun (c : MixingConsole α σ) fx => do
        let h ← getFX fx
        pure { c with m_fx := store c.m_fx h ((E.fx h).bypassFXProcess b (c.m_fx h)) }) c =
    some { c with m_fx := fun h =>
      if h < n then (E.fx h).bypassFXProcess b (c.m_fx h) else c.m_fx h } := by
  induction n with
  | zero =>
    simp only [List.range_zero, List.foldlM_nil, Option.pure_def, Option.some.injEq]
    apply MixingConsole.ext <;> rfl
  | succ n ih =>
    have h1 : n < kFXCount := hn
    rw [List.range_succ, List.foldlM_append, ih (Nat.le_of_succ_le hn)]
    simp only [Option.some_bind, List.foldlM_cons, List.foldlM_nil, Option.bind_eq_bind,
      getFX, assert_decide, h1, if_true, Option.pure_def, Option.some.injEq]
    apply MixingConsole.ext <;> try rfl
    funext h
    simp only [store_apply]
    split_ifs <;> (try simp_all) <;> (try omega)

theorem bypass_eq (E : Env α σ) (b : Bool) (c : MixingConsole α σ) :
    bypass E b c = some (bypassCore E b c) := by
  unfold bypass bypassCore
  have hd : (List.range kFXCount).drop FX_Tube = List.range kFXCount := rfl
  rw [hd]
  by_cases hb : c.m_bypass = b
  · simp [hb]
  · have hb2 : c.m_bypass ≠ b := hb
    simp only [hb2, ne_eq, not_false_eq_true, if_true]
    rw [bypass_loop E b _ kFXCount (Nat.le_refl _)]
    cases b <;> simp [reset_eq]

theorem bypass_sameMix (E : Env α σ) (b : Bool) (c : MixingConsole α σ) :
    SameMix c (bypassCore E b c) := by
  unfold bypassCore
  by_cases hb : c.m_bypass ≠ b
  · cases b <;> simp only [hb, if_true] <;> exact ⟨rfl, rfl, rfl⟩
  · simp only [hb, if_false]; exact ⟨rfl, rfl, rfl⟩

theorem setSample_sameMix (E : Env α σ) (i : Nat) (l r : F32 α) (c c' : MixingConsole α σ)
    (h : setSample E i l r c = some c') : SameMix c c' := by
  simp only [setSample, assert_decide, Option.bind_eq_bind, Option.pure_def] at h
  split_ifs at h
  · simp only [Option.some_bind, Option.some.injEq] at h
    subst h; exact ⟨rfl, rfl, rfl⟩
  · simp at h

theorem preProcessInputSampleBuffer_sameMix (E : Env α σ) (i n : Nat)
    (c c' : MixingConsole α σ) (h : preProcessInputSampleBuffer E i n c = some c') :
    SameMix c c' := by
  simp only [preProcessInputSampleBuffer, assert_decide, Option.bind_eq_bind,
    Option.pure_def] at h
  split_ifs at h
  all_goals (try simp only [Option.some_bind] at h)
  all_goals first
    | (simp at h)
    | (cases hb : c.m_tgInputSampleBuffer i <;> simp only [hb, Option.some.injEq] at h <;>
        subst h <;> exact ⟨rfl, rfl, rfl⟩)

/-- Calls other than the level and pan setters and `init()` leave the channel levels, the pan
vector and the level matrix alone. -/
theorem Op.apply_sameMix (E : Env α σ) (op : Op α) (c c' : MixingConsole α σ)
    (h : op.apply E c = some c') (hop : op.touchesMix = false) : SameMix c c' := by
  cases op with
  | bypass b =>
    simp only [Op.apply, bypass_eq, Option.some.injEq] at h
    subst h; exact bypass_sameMix E b c
  | setChannelLevel i lvl => simp [Op.touchesMix] at hop
  | setPan i pan => simp [Op.touchesMix] at hop
  | swapStereoImage swap =>
    simp only [Op.apply, Option.some.injEq] at h
    subst h; exact ⟨rfl, rfl, rfl⟩
  | setSendLevel i fx lvl => simp [Op.touchesMix] at hop
  | setInputSample i l r =>
    simp only [Op.apply, MiniDexed.setInputSample, assert_decide, Option.bind_eq_bind] at h
    split_ifs at h
    · exact setSample_sameMix E i l r c c' h
    · simp at h
  | setInputSampleBuffer i samples =>
    simp only [Op.apply, MiniDexed.setInputSampleBuffer, assert_decide, Option.bind_eq_bind,
      Option.pure_def] at h
    split_ifs at h
    · simp only [Option.some_bind, Option.some.injEq] at h
      subst h; exact ⟨rfl, rfl, rfl⟩
    · simp at h
  | setFXSendLevel a b lvl => simp [Op.touchesMix] at hop
  | setReturnSample ret l r =>
    simp only [Op.apply, MiniDexed.setReturnSample, assert_decide, Option.bind_eq_bind] at h
    split_ifs at h
    · exact setSample_sameMix E _ l r c c' h
    · simp at h
  | init => simp [Op.touchesMix] at hop
  | reset =>
    simp only [Op.apply, reset_eq, Option.some.injEq] at h
    subst h; exact resetCore_sameMix E c
  | preProcessInputSampleBuffer i n => exact preProcessInputSampleBuffer_sameMix E i n c c' h
  | injectInputSamples i l r n =>
    simp only [Op.apply, MiniDexed.injectInputSamples, assert_decide, Option.bind_eq_bind,
      Option.pure_def] at h
    split_ifs at h
    · simp only [Option.some_bind, Option.some.injEq] at h
      subst h; exact ⟨rfl, rfl, rfl⟩
    · simp at h
  | processSample l r =>
    simp only [Op.apply, processSample_eq, Option.map_some', Option.some.injEq] at h
    subst h; exact (stateAt_sameConfig E c _).sameMix
  | process l r =>
    simp only [Op.apply, process_eq, Option.map_some', Option.some.injEq] at h
    subst h
    have := stateAfterFrames_sameConfig E c c.m_nSamples
    exact ⟨this.levels, this.pan, this.channelLevel⟩

end Frame

section Setters

open StereoChannels MixerOutput

variable {α σ : Type} [LinearOrderedField α]

/-- On a number, `constrain(x, 0, 1)` is `min(max(x, 0), 1)`. -/
theorem constrain_fin (x : α) :
    constrain (F32.fin x) 0 1 = F32.fin (min (max x 0) 1) := by
  unfold constrain
  simp only [F32.zero_def, F32.one_def, F32.flt_fin, decide_eq_true_eq]
  by_cases h0 : x < 0
  · have h1 : max x 0 = 0 := max_eq_right (le_of_lt h0)
    simp [h0, h1]
  · have h0' : 0 ≤ x := not_lt.mp h0
    have h1 : max x 0 = x := max_eq_left h0'
    by_cases h2 : 1 < x
    · simp [h0, h1, h2, min_eq_right (le_of_lt h2)]
    · simp [h0, h1, h2, min_eq_left (not_lt.mp h2)]

theorem clamp_mem (x : α) : 0 ≤ min (max x 0) 1 ∧ min (max x 0) 1 ≤ 1 :=
  ⟨le_min (le_max_right _ _) zero_le_one, min_le_right _ _⟩

theorem updatePan_channelLevel (E : Env α σ) (i : Nat) (c : MixingConsole α σ) :
    (updatePan E i c).m_channelLevel = c.m_channelLevel := by
  unfold updatePan; simp only []; split_ifs <;> rfl

theorem updatePan_levels (E : Env α σ) (i : Nat) (c : MixingConsole α σ) :
    (updatePan E i c).m_levels = c.m_levels := by
  unfold updatePan; simp only []; split_ifs <;> rfl

/-- The entries of `m_pan` after `updatePan(i)`. -/
theorem updatePan_pan (E : Env α σ) (i : Nat) (c : MixingConsole α σ) (r j : Nat) :
    (updatePan E i c).m_pan r j =
      if r = Left ∧ j = i then
        (if F32.feq (c.m_channelLevel i) 0 then 0
         else E.Cos (c.m_pan kNumChannels i * E.MPI_2) * c.m_channelLevel i)
      else if r = Right ∧ j = i then
        (if F32.feq (c.m_channelLevel i) 0 then 0
         else E.Sin (c.m_pan kNumChannels i * E.MPI_2) * c.m_channelLevel i)
      else c.m_pan r j := by
  unfold updatePan
  simp only [Left, Right]
  cases hl : F32.feq (c.m_channelLevel i) 0 <;>
    simp only [Bool.not_true, Bool.not_false, if_true, if_false, Bool.false_eq_true,
      store2_apply]
  split_ifs <;> (try simp_all)

theorem setChannelLevel_eq (E : Env α σ) (i : Nat) (lvl : F32 α) (c : MixingConsole α σ)
    (hi : i < E.nb_inputs) :
    setChannelLevel E i lvl c = some
      (if F32.feq (constrain lvl 0 1) (c.m_channelLevel i) then c
       else updatePan E i
        { c with m_channelLevel := store c.m_channelLevel i (constrain lvl 0 1) }) := by
  simp only [setChannelLevel, assert_decide, hi, if_true, Option.bind_eq_bind,
    Option.some_bind, Option.pure_def]
  split_ifs <;> rfl

theorem setPan_eq (E : Env α σ) (i : Nat) (pan : F32 α) (c : MixingConsole α σ)
    (hi : i < E.nb_inputs) :
    setPan E i pan c = some
      (if F32.feq (constrain pan 0 1) (c.m_pan kNumChannels i) then c
       else updatePan E i
        { c with m_pan := store2 c.m_pan kNumChannels i (constrain pan 0 1) }) := by
  simp only [setPan, assert_decide, hi, if_true, Option.bind_eq_bind,
    Option.some_bind, Option.pure_def]
  split_ifs <;> rfl

theorem setLevel_eq (E : Env α σ) (i fx : Nat) (lvl : F32 α) (c : MixingConsole α σ)
    (hi : i < E.nb_inputs + kFXCount - 1) (hfx : fx < kFXCount) :
    setLevel E i fx lvl c =
      some { c with m_levels := store2 c.m_levels fx i (constrain lvl 0 1) } := by
  simp [setLevel, assert_decide, hi, hfx]

theorem setSendLevel_eq (E : Env α σ) (i fx : Nat) (lvl : F32 α) (c : MixingConsole α σ)
    (hi : i < E.nb_inputs) (hfx : fx < kFXCount) :
    setSendLevel E i fx lvl c =
      some { c with m_levels := store2 c.m_levels fx i (constrain lvl 0 1) } := by
  have h : i < E.nb_inputs + kFXCount - 1 := by simp only [kFXCount]; omega
  simp [setSendLevel, assert_decide, hi, hfx, setLevel_eq E i fx lvl c h hfx]

theorem setFXSendLevel_eq (E : Env α σ) (a b : Nat) (lvl : F32 α) (c : MixingConsole α σ)
    (ha : a < kFXCount - 1) (hb : b < kFXCount) :
    setFXSendLevel E a b lvl c = some
      (if a = b then c
       else { c with m_levels := store2 c.m_levels b (E.nb_inputs + a) (constrain lvl 0 1) }) := by
  have h : E.nb_inputs + a < E.nb_inputs + kFXCount - 1 := by
    simp only [kFXCount] at ha ⊢; omega
  by_cases hab : a = b
  · subst hab
    simp [setFXSendLevel, assert_decide, ha, hb]
  · simp [setFXSendLevel, assert_decide, ha, hb, hab, setLevel_eq E _ b lvl c h hb]

/-- A successful call of a setter satisfied the assertion on its channel index. -/
theorem setChannelLevel_some (E : Env α σ) (i : Nat) (lvl : F32 α) (c c' : MixingConsole α σ)
    (h : setChannelLevel E i lvl c = some c') : i < E.nb_inputs := by
  by_contra hi
  simp [setChannelLevel, assert_decide, hi] at h

theorem setPan_some (E : Env α σ) (i : Nat) (pan : F32 α) (c c' : MixingConsole α σ)
    (h : setPan E i pan c = some c') : i < E.nb_inputs := by
  by_contra hi
  simp [setPan, assert_decide, hi] at h

theorem setSendLevel_some (E : Env α σ) (i fx : Nat) (lvl : F32 α) (c c' : MixingConsole α σ)
    (h : setSendLevel E i fx lvl c = some c') : i < E.nb_inputs ∧ fx < kFXCount := by
  by_contra hi
  rw [not_and_or] at hi
  rcases hi with hi | hi <;> simp [setSendLevel, assert_decide, hi] at h

theorem setFXSendLevel_some (E : Env α σ) (a b : Nat) (lvl : F32 α) (c c' : MixingConsole α σ)
    (h : setFXSendLevel E a b lvl c = some c') : a < kFXCount - 1 ∧ b < kFXCount := by
  by_contra hi
  rw [not_and_or] at hi
  rcases hi with hi | hi <;> simp [setFXSendLevel, assert_decide, hi] at h

theorem initCore_channelLevel (E : Env α σ) (c : MixingConsole α σ) (i : Nat)
    (hi : i < E.nb_inputs) : (initCore E c).m_channelLevel i = F32.fin 0 := by
  simp [initCore, resetCore, memset0, hi]

theorem initCore_pan (E : Env α σ) (c : MixingConsole α σ) (r i : Nat)
    (hr : r < kNumChannels + 1) (hi : i < E.nb_inputs) :
    (initCore E c).m_pan r i = F32.fin 0 := by
  simp [initCore, resetCore, hi, hr]

theorem initCore_levels (E : Env α σ) (c : MixingConsole α σ) (b s : Nat)
    (hb : b < kFXCount) (hs : s < E.nb_inputs + kFXCount - 1) :
    (initCore E c).m_levels b s = F32.fin 0 := by
  simp [initCore, resetCore, hb, hs]

/-- Whatever is not NaN is clamped to a number of `[0, 1]`. -/
theorem constrain_of_not_nan {x : F32 α} (h : (!x.isnan) = true) :
    ∃ y, constrain x 0 1 = F32.fin y ∧ 0 ≤ y ∧ y ≤ 1 := by
  cases x with
  | fin a => exact ⟨_, constrain_fin a, clamp_mem a⟩
  | pinf => exact ⟨1, by simp [constrain, F32.flt], zero_le_one, le_refl _⟩
  | ninf => exact ⟨0, by simp [constrain, F32.flt], le_refl _, zero_le_one⟩
  | nan => simp [F32.isnan] at h

/-- `LevelsInRange` holds after `init()` and every call whose level arguments are not NaN keeps
it. -/
theorem levelsInRange_of_reachable (E : Env α σ) (c : MixingConsole α σ)
    (h : Reachable E Op.levelsNotNaN c) : LevelsInRange E c := by
  induction h with
  | init c0 c h =>
    rw [init_eq] at h
    simp only [Option.some.injEq] at h
    subst h
    refine ⟨fun i hi => ⟨0, initCore_channelLevel E c0 i hi, le_refl _, zero_le_one⟩,
      fun i hi => ⟨0, initCore_pan E c0 _ i (by decide) hi, le_refl _, zero_le_one⟩,
      fun b s hb hs => ⟨0, initCore_levels E c0 b s hb hs, le_refl _, zero_le_one⟩⟩
  | step c c' op hc hok h ih =>
    obtain ⟨ih1, ih2, ih3⟩ := ih
    cases hop : op.touchesMix with
    | false =>
      have hm := Op.apply_sameMix E op c c' h hop
      exact ⟨fun i hi => by rw [hm.channelLevel]; exact ih1 i hi,
        fun i hi => by rw [hm.pan]; exact ih2 i hi,
        fun b s hb hs => by rw [hm.levels]; exact ih3 b s hb hs⟩
    | true =>
      cases op with
      | setChannelLevel i lvl =>
        obtain ⟨y, hy, hy0, hy1⟩ := constrain_of_not_nan hok
        have hi := setChannelLevel_some E i _ c c' h
        simp only [Op.apply, setChannelLevel_eq E i _ c hi, Option.some.injEq] at h
        subst h
        split_ifs
        · exact ⟨ih1, ih2, ih3⟩
        · refine ⟨fun j hj => ?_, fun j hj => ?_, fun b s hb hs => ?_⟩
          · rw [updatePan_channelLevel]
            simp only [store_apply]
            split_ifs
            · exact ⟨y, hy, hy0, hy1⟩
            · exact ih1 j hj
          · rw [updatePan_pan]
            simp only [Left, Right, kNumChannels]
            simpa using ih2 j hj
          · rw [updatePan_levels]; exact ih3 b s hb hs
      | setPan i pan =>
        obtain ⟨y, hy, hy0, hy1⟩ := constrain_of_not_nan hok
        have hi := setPan_some E i _ c c' h
        simp only [Op.apply, setPan_eq E i _ c hi, Option.some.injEq] at h
        subst h
        split_ifs
        · exact ⟨ih1, ih2, ih3⟩
        · refine ⟨fun j hj => ?_, fun j hj => ?_, fun b s hb hs => ?_⟩
          · rw [updatePan_channelLevel]; exact ih1 j hj
          · rw [updatePan_pan]
            simp only [Left, Right, kNumChannels, store2_apply]
            by_cases hji : j = i
            · subst hji
              simpa using ⟨y, hy, hy0, hy1⟩
            · simpa [hji] using ih2 j hj
          · rw [updatePan_levels]; exact ih3 b s hb hs
      | setSendLevel i fx lvl =>
        obtain ⟨y, hy, hy0, hy1⟩ := constrain_of_not_nan hok
        obtain ⟨hi, hfx⟩ := setSendLevel_some E i fx _ c c' h
        simp only [Op.apply, setSendLevel_eq E i fx _ c hi hfx, Option.some.injEq] at h
        subst h
        refine ⟨ih1, ih2, fun b s hb hs => ?_⟩
        simp only [store2_apply]
        split_ifs
        · exact ⟨y, hy, hy0, hy1⟩
        · exact ih3 b s hb hs
      | setFXSendLevel a b lvl =>
        obtain ⟨y, hy, hy0, hy1⟩ := constrain_of_not_nan hok
        obtain ⟨ha, hb⟩ := setFXSendLevel_some E a b _ c c' h
        simp only [Op.apply, setFXSendLevel_eq E a b _ c ha hb, Option.some.injEq] at h
        subst h
        split_ifs
        · exact ⟨ih1, ih2, ih3⟩
        · refine ⟨ih1, ih2, fun b' s hb' hs => ?_⟩
          simp only [store2_apply]
          split_ifs
          · exact ⟨y, hy, hy0, hy1⟩
          · exact ih3 b' s hb' hs
      | init =>
        simp only [Op.apply, init_eq, Option.some.injEq] at h
        subst h
        exact ⟨fun i hi => ⟨0, initCore_channelLevel E c i hi, le_refl _, zero_le_one⟩,
          fun i hi => ⟨0, initCore_pan E c _ i (by decide) hi, le_refl _, zero_le_one⟩,
          fun b s hb hs => ⟨0, initCore_levels E c b s hb hs, le_refl _, zero_le_one⟩⟩
      | _ => simp [Op.touchesMix] at hop

/-- The first loop of the constructor, run over the channels `0 .. n-1`. -/
theorem construct_loop (c : MixingConsole α σ) (n : Nat) :
    (List.range n).foldl (fun (c : MixingConsole α σ) i =>
      let b1 := store2 c.m_inputSampleBuffer Left i (memset0 (c.m_inputSampleBuffer Left i) c.BufferSize)
      let b2 := store2 b1 Right i (memset0 (b1 Right i) c.BufferSize)
      { c with m_tgInputSampleBuffer := store c.m_tgInputSampleBuffer i none,
               m_inputSampleBuffer := b2 }) c =
    { c with
      m_tgInputSampleBuffer := fun i => if i < n then none else c.m_tgInputSampleBuffer i
      m_inputSampleBuffer := fun ch i k =>
        if (ch = Left ∨ ch = Right) ∧ i < n ∧ k < c.BufferSize then 0
        else c.m_inputSampleBuffer ch i k } := by
  induction n with
  | zero => simp
  | succ n ih =>
    rw [List.range_succ, List.foldl_append, ih]
    simp only [List.foldl_cons, List.foldl_nil]
    apply MixingConsole.ext <;> try rfl
    · funext i
      simp only [store_apply]
      split_ifs <;> (try simp_all) <;> (try omega)
    · funext ch i k
      simp only [store2_apply, memset0, Left, Right]
      split_ifs <;> (try simp_all [memset0]) <;> (try omega)

/-- The constructor never fails. -/
theorem construct_eq (E : Env α σ) (buffer_size : Nat) (swap : Bool) (fx0 : Nat → σ)
    (mem : MixingConsole α σ) :
    construct E buffer_size swap fx0 mem = some (constructCore E buffer_size swap fx0 mem) := by
  unfold construct constructCore
  simp only [construct_loop, bypass_eq, init_eq, Option.bind_eq_bind, Option.some_bind,
    Option.pure_def]

theorem reachable_construct (E : Env α σ) (ok : Op α → Bool) (buffer_size : Nat) (swap : Bool)
    (fx0 : Nat → σ) (mem c : MixingConsole α σ)
    (h : construct E buffer_size swap fx0 mem = some c) : Reachable E ok c := by
  rw [construct_eq] at h
  simp only [Option.some.injEq] at h
  subst h
  exact Reachable.init _ _ (init_eq E _)

theorem reachable_runOps (E : Env α σ) (ok : Op α → Bool) (ops : List (Op α))
    (c c' : MixingConsole α σ) (hc : Reachable E ok c) (hops : ∀ op ∈ ops, ok op = true)
    (h : runOps E ops c = some c') : Reachable E ok c' := by
  induction ops generalizing c with
  | nil =>
    simp only [runOps, List.foldlM_nil, Option.pure_def, Option.some.injEq] at h
    exact h ▸ hc
  | cons op ops ih =>
    simp only [runOps, List.foldlM_cons, Option.bind_eq_bind] at h
    cases h1 : op.apply E c with
    | none => simp [h1] at h
    | some c1 =>
      simp only [h1, Option.some_bind] at h
      exact ih c1 (Reachable.step c c1 op hc (hops op (List.mem_cons_self _ _)) h1)
        (fun o ho => hops o (List.mem_cons_of_mem _ ho)) h

/-- C3: for every real argument the setters store exactly `min(max(lvl, 0), 1)`
(`setChannelLevel`, `setPan`, `setSendLevel`, and `setFXSendLevel` between distinct buses);
and in every state reached from construction by calls of public member functions whose level
and pan arguments are not NaN, every stored channel level, pan position and level-matrix entry
is a number of `[0, 1]`. -/
theorem setters_store_clamped_levels (E : Env α σ) (c : MixingConsole α σ) (x : α)
    (i fx a b : Nat) (hi : i < E.nb_inputs) (hfx : fx < kFXCount) (ha : a < kFXCount - 1)
    (hb : b < kFXCount) (hab : a ≠ b)
    (buffer_size : Nat) (swap : Bool) (fx0 : Nat → σ) (mem c0 c2 : MixingConsole α σ)
    (ops : List (Op α)) (hcons : construct E buffer_size swap fx0 mem = some c0)
    (hops : ∀ op ∈ ops, Op.levelsNotNaN op = true) (hrun : runOps E ops c0 = some c2) :
    (∃ c', setChannelLevel E i (F32.fin x) c = some c' ∧
        c'.m_channelLevel i = F32.fin (min (max x 0) 1)) ∧
    (∃ c', setPan E i (F32.fin x) c = some c' ∧
        c'.m_pan kNumChannels i = F32.fin (min (max x 0) 1)) ∧
    (∃ c', setSendLevel E i fx (F32.fin x) c = some c' ∧
        c'.m_levels fx i = F32.fin (min (max x 0) 1)) ∧
    (∃ c', setFXSendLevel E a b (F32.fin x) c = some c' ∧
        c'.m_levels b (E.nb_inputs + a) = F32.fin (min (max x 0) 1)) ∧
    (∀ j, j < E.nb_inputs → ∃ y, c2.m_channelLevel j = F32.fin y ∧ 0 ≤ y ∧ y ≤ 1) ∧
    (∀ j, j < E.nb_inputs → ∃ y, c2.m_pan kNumChannels j = F32.fin y ∧ 0 ≤ y ∧ y ≤ 1) ∧
    (∀ bus src, bus < kFXCount → src < E.nb_inputs + kFXCount - 1 →
      ∃ y, c2.m_levels bus src = F32.fin y ∧ 0 ≤ y ∧ y ≤ 1) := by
  refine ⟨⟨_, setChannelLevel_eq E i _ c hi, ?_⟩, ⟨_, setPan_eq E i _ c hi, ?_⟩,
    ⟨_, setSendLevel_eq E i fx _ c hi hfx, ?_⟩, ⟨_, setFXSendLevel_eq E a b _ c ha hb, ?_⟩,
    levelsInRange_of_reachable E c2
      (reachable_runOps E _ ops c0 c2 (reachable_construct E _ _ _ _ _ _ hcons) hops hrun)⟩
  · split_ifs with h
    · rw [← F32.eq_of_feq h, constrain_fin]
    · rw [updatePan_channelLevel]; simp only [store_same]; exact constrain_fin x
  · split_ifs with h
    · rw [← F32.eq_of_feq h, constrain_fin]
    · rw [updatePan_pan]
      simp only [Left, Right, kNumChannels, store2_apply]
      simp only [OfNat.ofNat_ne_zero, OfNat.ofNat_ne_one, false_and, if_false, and_self, if_true]
      exact constrain_fin x
  · simp only [store2_apply, and_self, if_true]; exact constrain_fin x
  · simp only [hab, if_false, store2_apply, and_self, if_true]; exact constrain_fin x

/-- C3 at a concrete input: the out-of-range level `3/2` is stored as `min(max(3/2, 0), 1)`,
and after `setSendLevel(0, MainOutput, 2)` on a fresh console the level-matrix entry is in
`[0, 1]`. -/
theorem setters_store_clamped_levels_witness :
    (∃ c', setChannelLevel exampleEnv 0 (F32.fin (3 / 2)) (zeroMemory (fun _ => ())) = some c' ∧
        c'.m_channelLevel 0 = F32.fin (min (max (3 / 2) 0) 1)) ∧
    (∃ y, ({ exampleConsole with
              m_levels := store2 exampleConsole.m_levels 8 0 (constrain (F32.fin 2) 0 1) } :
            MixingConsole ℚ Unit).m_levels 8 0 = F32.fin y ∧ 0 ≤ y ∧ y ≤ 1) :=
  have h := setters_store_clamped_levels exampleEnv (zeroMemory (fun _ => ())) (3 / 2)
    0 8 0 1 (by decide) (by decide) (by decide) (by decide) (by decide)
    4 false (fun _ => ()) (zeroMemory (fun _ => ())) exampleConsole
    { exampleConsole with
      m_levels := store2 exampleConsole.m_levels 8 0 (constrain (F32.fin 2) 0 1) }
    [Op.setSendLevel 0 8 (F32.fin 2)]
    (construct_eq _ _ _ _ _)
    (by simp [Op.levelsNotNaN])
    (by simp [runOps, Op.apply, setSendLevel_eq exampleEnv 0 8 _ _ (by decide) (by decide)])
  ⟨h.1, h.2.2.2.2.2.2 8 0 (by decide) (by decide)⟩

/-- After `init()` and after every call of a public member function, no bus feeds itself. -/
theorem noSelfSend_of_reachable (E : Env α σ) (c : MixingConsole α σ)
    (h : Reachable E (fun _ => true) c) :
    ∀ b, b < kFXCount - 1 → c.m_levels b (E.nb_inputs + b) = F32.fin 0 := by
  induction h with
  | init c0 c h =>
    rw [init_eq] at h
    simp only [Option.some.injEq] at h
    subst h
    intro b hb
    simp only [kFXCount] at hb
    exact initCore_levels E c0 b _ (by simp only [kFXCount]; omega)
      (by simp only [kFXCount]; omega)
  | step c c' op hc hok h ih =>
    intro b hb
    cases hop : op.touchesMix with
    | false =>
      rw [(Op.apply_sameMix E op c c' h hop).levels]; exact ih b hb
    | true =>
      cases op with
      | setChannelLevel i lvl =>
        have hi := setChannelLevel_some E i _ c c' h
        simp only [Op.apply, setChannelLevel_eq E i _ c hi, Option.some.injEq] at h
        subst h
        split_ifs
        · exact ih b hb
        · rw [updatePan_levels]; exact ih b hb
      | setPan i pan =>
        have hi := setPan_some E i _ c c' h
        simp only [Op.apply, setPan_eq E i _ c hi, Option.some.injEq] at h
        subst h
        split_ifs
        · exact ih b hb
        · rw [updatePan_levels]; exact ih b hb
      | setSendLevel i fx lvl =>
        obtain ⟨hi, hfx⟩ := setSendLevel_some E i fx _ c c' h
        simp only [Op.apply, setSendLevel_eq E i fx _ c hi hfx, Option.some.injEq] at h
        subst h
        simp only [store2_apply]
        split_ifs with h1
        · exfalso; omega
        · exact ih b hb
      | setFXSendLevel a b' lvl =>
        obtain ⟨ha, hb'⟩ := setFXSendLevel_some E a b' _ c c' h
        simp only [Op.apply, setFXSendLevel_eq E a b' _ c ha hb', Option.some.injEq] at h
        subst h
        split_ifs with h1
        · exact ih b hb
        · simp only [store2_apply]
          split_ifs with h2
          · exfalso; omega
          · exact ih b hb
      | init =>
        simp only [Op.apply, init_eq, Option.some.injEq] at h
        subst h
        simp only [kFXCount] at hb
        exact initCore_levels E c b _ (by simp only [kFXCount]; omega)
          (by simp only [kFXCount]; omega)
      | _ => simp [Op.touchesMix] at hop

/-- C4: for every bus `b` other than the main output and every requested level,
`setFXSendLevel(b, b, lvl)` changes no state; and in every state reached from construction by
calls of public member functions, the level-matrix entry of bus `b` fed by its own return,
`m_levels[b][nb_inputs + b]`, is `0`. -/
theorem self_send_rejected (E : Env α σ) (b : Nat) (hb : b < kFXCount - 1) (lvl : F32 α)
    (c : MixingConsole α σ)
    (buffer_size : Nat) (swap : Bool) (fx0 : Nat → σ) (mem c0 c2 : MixingConsole α σ)
    (ops : List (Op α)) (hcons : construct E buffer_size swap fx0 mem = some c0)
    (hrun : runOps E ops c0 = some c2) :
    setFXSendLevel E b b lvl c = some c ∧ c2.m_levels b (E.nb_inputs + b) = 0 := by
  have hb9 : b < kFXCount := by simp only [kFXCount] at hb ⊢; omega
  refine ⟨?_, noSelfSend_of_reachable E c2
    (reachable_runOps E _ ops c0 c2 (reachable_construct E _ _ _ _ _ _ hcons)
      (fun _ _ => rfl) hrun) b hb⟩
  rw [setFXSendLevel_eq E b b lvl c hb hb9]
  simp

/-- C4 at a concrete input: on a fresh console, after `setFXSendLevel(FX_Tube, FX_Tube, 1)`
and `setFXSendLevel(FX_Tube, MainOutput, 1)`, the tube bus still does not feed itself. -/
theorem self_send_rejected_witness :
    setFXSendLevel exampleEnv 0 0 (F32.fin 1) exampleConsole = some exampleConsole ∧
    ({ exampleConsole with
        m_levels := store2 exampleConsole.m_levels 8 (exampleEnv.nb_inputs + 0)
          (constrain (F32.fin 1) 0 1) } : MixingConsole ℚ Unit).m_levels 0
      (exampleEnv.nb_inputs + 0) = 0 :=
  self_send_rejected exampleEnv 0 (by decide) (F32.fin 1) exampleConsole
    4 false (fun _ => ()) (zeroMemory (fun _ => ())) exampleConsole
    { exampleConsole with
        m_levels := store2 exampleConsole.m_levels 8 (exampleEnv.nb_inputs + 0)
          (constrain (F32.fin 1) 0 1) }
    [Op.setFXSendLevel 0 0 (F32.fin 1), Op.setFXSendLevel 0 8 (F32.fin 1)]
    (construct_eq _ _ _ _ _)
    (by simp [runOps, Op.apply, setFXSendLevel_eq exampleEnv 0 0 _ _ (by decide) (by decide),
      setFXSendLevel_eq exampleEnv 0 8 _ _ (by decide) (by decide)])

end Setters

section PanLaw

open StereoChannels MixerOutput

variable {σ : Type}

/-- What `updatePan(i)` stores when the pan position and the level of the channel are real
numbers. -/
theorem updatePan_gains (E : Env ℝ σ) (hE : ExactTrig E) (c : MixingConsole ℝ σ) (i : Nat)
    (p l : ℝ) (hp : c.m_pan kNumChannels i = F32.fin p) (hl : c.m_channelLevel i = F32.fin l) :
    (updatePan E i c).m_pan Left i = F32.fin (Real.cos (p * (Real.pi / 2)) * l) ∧
    (updatePan E i c).m_pan Right i = F32.fin (Real.sin (p * (Real.pi / 2)) * l) := by
  obtain ⟨hcos, hsin, hpi⟩ := hE
  rw [updatePan_pan, updatePan_pan, hp, hl, hpi]
  simp only [Left, Right, F32.zero_def, F32.feq_fin, F32.fin_mul_fin, hcos, hsin,
    decide_eq_true_eq]
  by_cases h0 : l = 0
  · subst h0; simp
  · simp [h0]

theorem updatePan_other (E : Env ℝ σ) (c : MixingConsole ℝ σ) (i j : Nat) (hj : j ≠ i) :
    GainsUpToDate c j → GainsUpToDate (updatePan E i c) j := by
  rintro ⟨p, l, h1, h2, h3, h4⟩
  refine ⟨p, l, ?_, ?_, ?_, ?_⟩
  · rw [updatePan_pan]; simp [hj, h1]
  · rw [updatePan_channelLevel]; exact h2
  · rw [updatePan_pan]; simp [hj, h3]
  · rw [updatePan_pan]; simp [hj, h4]

theorem initCore_gains (E : Env ℝ σ) (c : MixingConsole ℝ σ) (i : Nat) (hi : i < E.nb_inputs) :
    GainsUpToDate (initCore E c) i :=
  ⟨0, 0, initCore_pan E c _ i (by decide) hi, initCore_channelLevel E c i hi,
    by rw [initCore_pan E c _ i (by decide) hi]; simp,
    by rw [initCore_pan E c _ i (by decide) hi]; simp⟩

theorem setChannelLevel_gains (E : Env ℝ σ) (hE : ExactTrig E) (c : MixingConsole ℝ σ)
    (i : Nat) (lvl : F32 ℝ) (y : ℝ) (hy : constrain lvl 0 1 = F32.fin y) (j : Nat)
    (h : GainsUpToDate c j) :
    GainsUpToDate
      (if F32.feq (constrain lvl 0 1) (c.m_channelLevel i) then c
       else updatePan E i
        { c with m_channelLevel := store c.m_channelLevel i (constrain lvl 0 1) }) j := by
  split_ifs with hf
  · exact h
  · by_cases hj : j = i
    · subst hj
      obtain ⟨p, l, h1, h2, h3, h4⟩ := h
      have hg := updatePan_gains E hE
        { c with m_channelLevel := store c.m_channelLevel j (constrain lvl 0 1) } j p
        y h1 (by simp only [store_same]; exact hy)
      refine ⟨p, y, ?_, ?_, hg.1, hg.2⟩
      · rw [updatePan_pan]
        simp only [Left, Right, kNumChannels] at h1 ⊢
        simpa using h1
      · rw [updatePan_channelLevel]; simp only [store_same]; exact hy
    · apply updatePan_other E _ i j hj
      obtain ⟨p, l, h1, h2, h3, h4⟩ := h
      exact ⟨p, l, h1, by simp only [store_ne _ _ _ _ hj]; exact h2, h3, h4⟩

theorem setPan_gains (E : Env ℝ σ) (hE : ExactTrig E) (c : MixingConsole ℝ σ)
    (i : Nat) (pan : F32 ℝ) (y : ℝ) (hy : constrain pan 0 1 = F32.fin y) (j : Nat)
    (h : GainsUpToDate c j) :
    GainsUpToDate
      (if F32.feq (constrain pan 0 1) (c.m_pan kNumChannels i) then c
       else updatePan E i
        { c with m_pan := store2 c.m_pan kNumChannels i (constrain pan 0 1) }) j := by
  split_ifs with hf
  · exact h
  · by_cases hj : j = i
    · subst hj
      obtain ⟨p, l, h1, h2, h3, h4⟩ := h
      have hs : (store2 c.m_pan kNumChannels j (constrain pan 0 1)) kNumChannels j =
          F32.fin y := by
        simp only [store2_apply, and_self, if_true]; exact hy
      have hg := updatePan_gains E hE
        { c with m_pan := store2 c.m_pan kNumChannels j (constrain pan 0 1) } j
        y l hs h2
      refine ⟨y, l, ?_, ?_, hg.1, hg.2⟩
      · rw [updatePan_pan]
        simp only [Left, Right, kNumChannels] at hs ⊢
        simpa using hs
      · rw [updatePan_channelLevel]; exact h2
    · apply updatePan_other E _ i j hj
      obtain ⟨p, l, h1, h2, h3, h4⟩ := h
      refine ⟨p, l, ?_, h2, ?_, ?_⟩
      · simp only [store2_apply, hj, and_false, if_false]; exact h1
      · simp only [store2_apply, hj, and_false, if_false]; exact h3
      · simp only [store2_apply, hj, and_false, if_false]; exact h4

/-- The pan gains are up to date after `init()` and stay so under every call whose level and
pan arguments are not NaN. -/
theorem gainsUpToDate_of_reachable (E : Env ℝ σ) (hE : ExactTrig E) (c : MixingConsole ℝ σ)
    (h : Reachable E Op.levelsNotNaN c) : ∀ i, i < E.nb_inputs → GainsUpToDate c i := by
  induction h with
  | init c0 c h =>
    rw [init_eq] at h
    simp only [Option.some.injEq] at h
    subst h
    exact fun i hi => initCore_gains E c0 i hi
  | step c c' op hc hok h ih =>
    intro j hj
    cases hop : op.touchesMix with
    | false =>
      have hm := Op.apply_sameMix E op c c' h hop
      obtain ⟨p, l, h1, h2, h3, h4⟩ := ih j hj
      exact ⟨p, l, by rw [hm.pan]; exact h1, by rw [hm.channelLevel]; exact h2,
        by rw [hm.pan]; exact h3, by rw [hm.pan]; exact h4⟩
    | true =>
      cases op with
      | setChannelLevel i lvl =>
        obtain ⟨y, hy, -, -⟩ := constrain_of_not_nan hok
        have hi := setChannelLevel_some E i _ c c' h
        simp only [Op.apply, setChannelLevel_eq E i _ c hi, Option.some.injEq] at h
        subst h
        exact setChannelLevel_gains E hE c i lvl y hy j (ih j hj)
      | setPan i pan =>
        obtain ⟨y, hy, -, -⟩ := constrain_of_not_nan hok
        have hi := setPan_some E i _ c c' h
        simp only [Op.apply, setPan_eq E i _ c hi, Option.some.injEq] at h
        subst h
        exact setPan_gains E hE c i pan y hy j (ih j hj)
      | setSendLevel i fx lvl =>
        obtain ⟨hi, hfx⟩ := setSendLevel_some E i fx _ c c' h
        simp only [Op.apply, setSendLevel_eq E i fx _ c hi hfx, Option.some.injEq] at h
        subst h
        exact ih j hj
      | setFXSendLevel a b lvl =>
        obtain ⟨ha, hb⟩ := setFXSendLevel_some E a b _ c c' h
        simp only [Op.apply, setFXSendLevel_eq E a b _ c ha hb, Option.some.injEq] at h
        subst h
        split_ifs
        · exact ih j hj
        · exact ih j hj
      | init =>
        simp only [Op.apply, init_eq, Option.some.injEq] at h
        subst h
        exact initCore_gains E c j hj
      | _ => simp [Op.touchesMix] at hop

theorem setChannelLevel_eq_core (E : Env ℝ σ) (i : Nat) (lvl : F32 ℝ) (c : MixingConsole ℝ σ)
    (hi : i < E.nb_inputs) :
    setChannelLevel E i lvl c = some (setChannelLevelCore E i lvl c) :=
  setChannelLevel_eq E i lvl c hi

theorem setPan_eq_core (E : Env ℝ σ) (i : Nat) (pan : F32 ℝ) (c : MixingConsole ℝ σ)
    (hi : i < E.nb_inputs) : setPan E i pan c = some (setPanCore E i pan c) :=
  setPan_eq E i pan c hi

theorem setChannelLevelCore_level (E : Env ℝ σ) (i : Nat) (x : ℝ) (c : MixingConsole ℝ σ) :
    (setChannelLevelCore E i (F32.fin x) c).m_channelLevel i = F32.fin (min (max x 0) 1) := by
  unfold setChannelLevelCore
  split_ifs with h
  · rw [← F32.eq_of_feq h, constrain_fin]
  · rw [updatePan_channelLevel]; simp only [store_same]; exact constrain_fin x

theorem setChannelLevelCore_panPos (E : Env ℝ σ) (i j : Nat) (lvl : F32 ℝ)
    (c : MixingConsole ℝ σ) :
    (setChannelLevelCore E i lvl c).m_pan kNumChannels j = c.m_pan kNumChannels j := by
  unfold setChannelLevelCore
  split_ifs with h
  · rfl
  · rw [updatePan_pan]; simp [Left, Right, kNumChannels]

theorem setPanCore_panPos (E : Env ℝ σ) (i : Nat) (x : ℝ) (c : MixingConsole ℝ σ) :
    (setPanCore E i (F32.fin x) c).m_pan kNumChannels i = F32.fin (min (max x 0) 1) := by
  unfold setPanCore
  split_ifs with h
  · rw [← F32.eq_of_feq h, constrain_fin]
  · rw [updatePan_pan]
    simp only [Left, Right, kNumChannels, store2_apply]
    simp only [OfNat.ofNat_ne_zero, OfNat.ofNat_ne_one, false_and, if_false, and_self, if_true]
    exact constrain_fin x

theorem setPanCore_level (E : Env ℝ σ) (i : Nat) (pan : F32 ℝ) (c : MixingConsole ℝ σ) :
    (setPanCore E i pan c).m_channelLevel = c.m_channelLevel := by
  unfold setPanCore
  split_ifs with h
  · rfl
  · rw [updatePan_channelLevel]

theorem clamp_of_mem {x : ℝ} (h0 : 0 ≤ x) (h1 : x ≤ 1) : min (max x 0) 1 = x := by
  rw [max_eq_left h0, min_eq_left h1]

/-- The constant-power law for a channel whose gains are up to date. -/
theorem gains_power (c : MixingConsole ℝ σ) (i : Nat) (p l : ℝ) (h : GainsUpToDate c i)
    (hp : c.m_pan kNumChannels i = F32.fin p) (hl : c.m_channelLevel i = F32.fin l) :
    ∃ gL gR : ℝ, c.m_pan Left i = F32.fin gL ∧ c.m_pan Right i = F32.fin gR ∧
      gL = Real.cos (p * (Real.pi / 2)) * l ∧ gR = Real.sin (p * (Real.pi / 2)) * l ∧
      gL ^ 2 + gR ^ 2 = l ^ 2 ∧ (l = 0 → gL = 0 ∧ gR = 0) := by
  obtain ⟨p', l', h1, h2, h3, h4⟩ := h
  rw [hp] at h1
  rw [hl] at h2
  have ep : p = p' := by injection h1
  have el : l = l' := by injection h2
  subst ep el
  refine ⟨_, _, h3, h4, rfl, rfl, ?_, ?_⟩
  · have := Real.cos_sq_add_sin_sq (p * (Real.pi / 2))
    nlinarith [this]
  · intro h0; subst h0; simp

theorem mkEnv_exactTrig (nb : Nat) :
    ExactTrig (mkEnv nb Real.cos Real.sin (Real.pi / 2)) :=
  ⟨fun _ => rfl, fun _ => rfl, rfl⟩

/-- C1: on a freshly initialised console, for every channel `i`, every pan `p` and level `l`
in `[0, 1]`, after `setChannelLevel(i, l)` and `setPan(i, p)` in either order (both calls
succeed) the stored pan gains are numbers `gL`, `gR` with `gL² + gR² = l²`, and `gL = gR = 0`
when `l = 0`; cosine and sine are the exact real functions. -/
theorem constant_power_pan_law (E : Env ℝ σ) (hE : ExactTrig E) (mem : MixingConsole ℝ σ)
    (i : Nat) (hi : i < E.nb_inputs) (p l : ℝ) (hp0 : 0 ≤ p) (hp1 : p ≤ 1) (hl0 : 0 ≤ l)
    (hl1 : l ≤ 1) :
    ∃ c a b, init E mem = some c ∧
      (setChannelLevel E i (F32.fin l) c).bind (setPan E i (F32.fin p)) = some a ∧
      (setPan E i (F32.fin p) c).bind (setChannelLevel E i (F32.fin l)) = some b ∧
      (∃ gL gR : ℝ, a.m_pan Left i = F32.fin gL ∧ a.m_pan Right i = F32.fin gR ∧
        gL ^ 2 + gR ^ 2 = l ^ 2 ∧ (l = 0 → gL = 0 ∧ gR = 0)) ∧
      (∃ gL gR : ℝ, b.m_pan Left i = F32.fin gL ∧ b.m_pan Right i = F32.fin gR ∧
        gL ^ 2 + gR ^ 2 = l ^ 2 ∧ (l = 0 → gL = 0 ∧ gR = 0)) := by
  have hg0 := initCore_gains E mem i hi
  refine ⟨initCore E mem,
    setPanCore E i (F32.fin p) (setChannelLevelCore E i (F32.fin l) (initCore E mem)),
    setChannelLevelCore E i (F32.fin l) (setPanCore E i (F32.fin p) (initCore E mem)),
    init_eq E mem, ?_, ?_, ?_, ?_⟩
  · rw [setChannelLevel_eq_core E i _ _ hi, Option.some_bind, setPan_eq_core E i _ _ hi]
  · rw [setPan_eq_core E i _ _ hi, Option.some_bind, setChannelLevel_eq_core E i _ _ hi]
  · have h1 : GainsUpToDate (setChannelLevelCore E i (F32.fin l) (initCore E mem)) i :=
      setChannelLevel_gains E hE _ i _ _ (constrain_fin l) i hg0
    have h2 : GainsUpToDate
        (setPanCore E i (F32.fin p) (setChannelLevelCore E i (F32.fin l) (initCore E mem))) i :=
      setPan_gains E hE _ i _ _ (constrain_fin p) i h1
    obtain ⟨gL, gR, e1, e2, -, -, e3, e4⟩ := gains_power _ i p l h2
      (by rw [setPanCore_panPos, clamp_of_mem hp0 hp1])
      (by rw [setPanCore_level, setChannelLevelCore_level, clamp_of_mem hl0 hl1])
    exact ⟨gL, gR, e1, e2, e3, e4⟩
  · have h1 : GainsUpToDate (setPanCore E i (F32.fin p) (initCore E mem)) i :=
      setPan_gains E hE _ i _ _ (constrain_fin p) i hg0
    have h2 : GainsUpToDate
        (setChannelLevelCore E i (F32.fin l) (setPanCore E i (F32.fin p) (initCore E mem))) i :=
      setChannelLevel_gains E hE _ i _ _ (constrain_fin l) i h1
    obtain ⟨gL, gR, e1, e2, -, -, e3, e4⟩ := gains_power _ i p l h2
      (by rw [setChannelLevelCore_panPos, setPanCore_panPos, clamp_of_mem hp0 hp1])
      (by rw [setChannelLevelCore_level, clamp_of_mem hl0 hl1])
    exact ⟨gL, gR, e1, e2, e3, e4⟩

/-- C1 at a concrete input: one channel, exact cosine and sine, pan `1/2`, level `1`. -/
theorem constant_power_pan_law_witness :
    ∃ c a b, init (mkEnv 1 Real.cos Real.sin (Real.pi / 2)) (zeroMemory (fun _ => ())) = some c ∧
      (setChannelLevel (mkEnv 1 Real.cos Real.sin (Real.pi / 2)) 0 (F32.fin 1) c).bind
        (setPan (mkEnv 1 Real.cos Real.sin (Real.pi / 2)) 0 (F32.fin (1 / 2))) = some a ∧
      (setPan (mkEnv 1 Real.cos Real.sin (Real.pi / 2)) 0 (F32.fin (1 / 2)) c).bind
        (setChannelLevel (mkEnv 1 Real.cos Real.sin (Real.pi / 2)) 0 (F32.fin 1)) = some b ∧
      (∃ gL gR : ℝ, a.m_pan Left 0 = F32.fin gL ∧ a.m_pan Right 0 = F32.fin gR ∧
        gL ^ 2 + gR ^ 2 = (1 : ℝ) ^ 2 ∧ ((1 : ℝ) = 0 → gL = 0 ∧ gR = 0)) ∧
      (∃ gL gR : ℝ, b.m_pan Left 0 = F32.fin gL ∧ b.m_pan Right 0 = F32.fin gR ∧
        gL ^ 2 + gR ^ 2 = (1 : ℝ) ^ 2 ∧ ((1 : ℝ) = 0 → gL = 0 ∧ gR = 0)) :=
  constant_power_pan_law (mkEnv 1 Real.cos Real.sin (Real.pi / 2)) (mkEnv_exactTrig 1)
    (zeroMemory (fun _ => ())) 0 (by decide) (1 / 2) 1 (by norm_num) (by norm_num)
    (by norm_num) (by norm_num)

/-- C2: in every state reached from `init()` by calls of public member functions whose level
and pan arguments are not NaN (in particular by any sequence of `setChannelLevel` and `setPan`
calls), every channel's stored pan position `p` and level `l` are numbers of `[0, 1]` and its
stored gains are `cos(p·π/2)·l` and `sin(p·π/2)·l`: the early returns never leave the gains
out of date. -/
theorem pan_gains_up_to_date (E : Env ℝ σ) (hE : ExactTrig E) (mem c0 c2 : MixingConsole ℝ σ)
    (ops : List (Op ℝ)) (hinit : init E mem = some c0)
    (hops : ∀ op ∈ ops, Op.levelsNotNaN op = true) (hrun : runOps E ops c0 = some c2)
    (i : Nat) (hi : i < E.nb_inputs) :
    ∃ p l : ℝ, 0 ≤ p ∧ p ≤ 1 ∧ 0 ≤ l ∧ l ≤ 1 ∧
      c2.m_pan kNumChannels i = F32.fin p ∧ c2.m_channelLevel i = F32.fin l ∧
      c2.m_pan Left i = F32.fin (Real.cos (p * (Real.pi / 2)) * l) ∧
      c2.m_pan Right i = F32.fin (Real.sin (p * (Real.pi / 2)) * l) := by
  have hr : Reachable E Op.levelsNotNaN c2 :=
    reachable_runOps E _ ops c0 c2 (Reachable.init mem c0 hinit) hops hrun
  obtain ⟨p, l, h1, h2, h3, h4⟩ := gainsUpToDate_of_reachable E hE c2 hr i hi
  obtain ⟨r1, r2, -⟩ := levelsInRange_of_reachable E c2 hr
  obtain ⟨l', e1, b1, b2⟩ := r1 i hi
  obtain ⟨p', e2, b3, b4⟩ := r2 i hi
  rw [h2] at e1
  rw [h1] at e2
  have el : l = l' := by injection e1
  have ep : p = p' := by injection e2
  subst el ep
  exact ⟨p, l, b3, b4, b1, b2, h1, h2, h3, h4⟩

/-- C2 at a concrete input: `setPan(0, 1/2)`, `setChannelLevel(0, 2)`, then `setPan(0, 1/2)`
again (which returns early) on a freshly initialised one-channel console. -/
theorem pan_gains_up_to_date_witness :
    ∃ p l : ℝ, 0 ≤ p ∧ p ≤ 1 ∧ 0 ≤ l ∧ l ≤ 1 ∧
      (setPanCore (mkEnv 1 Real.cos Real.sin (Real.pi / 2)) 0 (F32.fin (1 / 2))
        (setChannelLevelCore (mkEnv 1 Real.cos Real.sin (Real.pi / 2)) 0 (F32.fin 2)
          (setPanCore (mkEnv 1 Real.cos Real.sin (Real.pi / 2)) 0 (F32.fin (1 / 2))
            (initCore (mkEnv 1 Real.cos Real.sin (Real.pi / 2))
              (zeroMemory (fun _ => ())))))).m_pan kNumChannels 0 = F32.fin p ∧
      (setPanCore (mkEnv 1 Real.cos Real.sin (Real.pi / 2)) 0 (F32.fin (1 / 2))
        (setChannelLevelCore (mkEnv 1 Real.cos Real.sin (Real.pi / 2)) 0 (F32.fin 2)
          (setPanCore (mkEnv 1 Real.cos Real.sin (Real.pi / 2)) 0 (F32.fin (1 / 2))
            (initCore (mkEnv 1 Real.cos Real.sin (Real.pi / 2))
              (zeroMemory (fun _ => ())))))).m_channelLevel 0 = F32.fin l ∧
      (setPanCore (mkEnv 1 Real.cos Real.sin (Real.pi / 2)) 0 (F32.fin (1 / 2))
        (setChannelLevelCore (mkEnv 1 Real.cos Real.sin (Real.pi / 2)) 0 (F32.fin 2)
          (setPanCore (mkEnv 1 Real.cos Real.sin (Real.pi / 2)) 0 (F32.fin (1 / 2))
            (initCore (mkEnv 1 Real.cos Real.sin (Real.pi / 2))
              (zeroMemory (fun _ => ())))))).m_pan Left 0 =
        F32.fin (Real.cos (p * (Real.pi / 2)) * l) ∧
      (setPanCore (mkEnv 1 Real.cos Real.sin (Real.pi / 2)) 0 (F32.fin (1 / 2))
        (setChannelLevelCore (mkEnv 1 Real.cos Real.sin (Real.pi / 2)) 0 (F32.fin 2)
          (setPanCore (mkEnv 1 Real.cos Real.sin (Real.pi / 2)) 0 (F32.fin (1 / 2))
            (initCore (mkEnv 1 Real.cos Real.sin (Real.pi / 2))
              (zeroMemory (fun _ => ())))))).m_pan Right 0 =
        F32.fin (Real.sin (p * (Real.pi / 2)) * l) :=
  pan_gains_up_to_date (mkEnv 1 Real.cos Real.sin (Real.pi / 2)) (mkEnv_exactTrig 1)
    (zeroMemory (fun _ => ())) _ _
    [Op.setPan 0 (F32.fin (1 / 2)), Op.setChannelLevel 0 (F32.fin 2),
      Op.setPan 0 (F32.fin (1 / 2))]
    (init_eq _ _) (by simp [Op.levelsNotNaN])
    (by
      have h1 : 0 < (mkEnv 1 Real.cos Real.sin (Real.pi / 2)).nb_inputs := by decide
      simp only [runOps, List.foldlM_cons, List.foldlM_nil, Op.apply, setPan_eq_core _ 0 _ _ h1,
        setChannelLevel_eq_core _ 0 _ _ h1, Option.bind_eq_bind, Option.some_bind,
        Option.pure_def])
    0 (by decide)

end PanLaw

section ProcessChunk

open StereoChannels MixerOutput

variable {α σ : Type} [LinearOrderedField α]

theorem loadInputsCore_channel (E : Env α σ) (s : Nat) (c : MixingConsole α σ) (i : Nat)
    (hi : i < E.nb_inputs) :
    (loadInputsCore E s c).m_inputSamples Left i = c.m_inputSampleBuffer Left i s ∧
    (loadInputsCore E s c).m_inputSamples Right i = c.m_inputSampleBuffer Right i s := by
  simp [loadInputsCore, hi, Left, Right]

/-- C9: `process(outL, outR)` succeeds and writes exactly `m_nSamples` frames.  There is a
sequence of states `st`, starting at the entry state, such that for each index
`s < m_nSamples`, in order, `loadInputs` copies entry `s` of every channel's left/right scratch
buffer into that channel's live input sample and then one `processSample` call leads from there
to `st (s+1)` and returns the frame `fr s`, which is written to position `s` of the outputs
(crossed over when the swap flag is set); positions from `m_nSamples` on are not written;
the final state is `st m_nSamples` with `m_nSamples = 0`, so that a second `process` call
writes nothing and changes nothing. -/
theorem process_writes_nSamples_frames (E : Env α σ) (c : MixingConsole α σ)
    (outL outR : Nat → F32 α) :
    ∃ (st : Nat → MixingConsole α σ) (fr : Nat → F32 α × F32 α) (c' : MixingConsole α σ)
      (outL' outR' : Nat → F32 α),
      process E c outL outR = some (c', outL', outR') ∧
      st 0 = c ∧
      (∀ s, s < c.m_nSamples → ∃ li, loadInputs E s (st s) = some li ∧
        (∀ i, i < E.nb_inputs →
          li.m_inputSamples Left i = (st s).m_inputSampleBuffer Left i s ∧
          li.m_inputSamples Right i = (st s).m_inputSampleBuffer Right i s) ∧
        (∀ oL oR, processSample E li oL oR = some (st (s + 1), (fr s).1, (fr s).2))) ∧
      (∀ s, s < c.m_nSamples →
        outL' s = (if c.m_swapStereoImage then (fr s).2 else (fr s).1) ∧
        outR' s = (if c.m_swapStereoImage then (fr s).1 else (fr s).2)) ∧
      (∀ s, c.m_nSamples ≤ s → outL' s = outL s ∧ outR' s = outR s) ∧
      c' = { st c.m_nSamples with m_nSamples := 0 } ∧
      c'.m_nSamples = 0 ∧
      process E c' outL' outR' = some (c', outL', outR') := by
  refine ⟨stateAfterFrames E c, fun s => frameOut E (stateAfterFrames E c s) s, _, _, _,
    process_eq E c outL outR, rfl, ?_, ?_, ?_, rfl, rfl, ?_⟩
  · intro s _
    refine ⟨_, loadInputs_eq E s _, fun i hi => loadInputsCore_channel E s _ i hi, ?_⟩
    intro oL oR
    rw [processSample_eq, stateAfterFrames_succ]
    rfl
  · intro s hs
    simp [outLAfter, outRAfter, hs]
  · intro s hs
    have : ¬ s < c.m_nSamples := Nat.not_lt.mpr hs
    simp [outLAfter, outRAfter, this]
  · rw [process_eq]
    simp only [Option.some.injEq]
    refine Prod.ext ?_ (Prod.ext ?_ ?_)
    · simp [stateAfterFrames]
    · funext k; simp [outLAfter]
    · funext k; simp [outRAfter]

theorem busStep_swap (E : Env α σ) (b : Bool) (c : MixingConsole α σ) (k : Nat) :
    busStep E (swapStereoImage b c) k = swapStereoImage b (busStep E c k) := by
  unfold busStep
  simp only []
  split_ifs <;> rfl

theorem stateAt_swap (E : Env α σ) (b : Bool) (c : MixingConsole α σ) (k : Nat) :
    stateAt E (swapStereoImage b c) k = swapStereoImage b (stateAt E c k) := by
  induction k with
  | zero => rfl
  | succ k ih => rw [stateAt_succ, stateAt_succ, ih, busStep_swap]

theorem frameStep_swap (E : Env α σ) (b : Bool) (c : MixingConsole α σ) (s : Nat) :
    frameStep E (swapStereoImage b c) s = swapStereoImage b (frameStep E c s) := by
  unfold frameStep
  exact stateAt_swap E b (loadInputsCore E s c) kFXCount

theorem frameOut_swap (E : Env α σ) (b : Bool) (c : MixingConsole α σ) (s : Nat) :
    frameOut E (swapStereoImage b c) s = frameOut E c s := by
  unfold frameOut
  have h := stateAt_swap E b (loadInputsCore E s c) MainOutput
  have h2 : loadInputsCore E s (swapStereoImage b c) =
      swapStereoImage b (loadInputsCore E s c) := rfl
  rw [h2, h]
  rfl

theorem stateAfterFrames_swap (E : Env α σ) (b : Bool) (c : MixingConsole α σ) (n : Nat) :
    stateAfterFrames E (swapStereoImage b c) n = swapStereoImage b (stateAfterFrames E c n) := by
  induction n with
  | zero => rfl
  | succ n ih => rw [stateAfterFrames_succ, stateAfterFrames_succ, ih, frameStep_swap]

/-- C10: for every console state and pending chunk, `process(outL, outR)` run with the
swap-stereo-image flag set writes into `outL` what it writes into `outR` with the flag
cleared, and into `outR` what it writes into `outL` with the flag cleared, for every frame of
the chunk; both runs succeed and end in the same state (the flag itself apart). -/
theorem process_swap_exchanges_outputs (E : Env α σ) (c : MixingConsole α σ)
    (outL outR : Nat → F32 α) :
    ∃ (cT cF : MixingConsole α σ) (lT rT lF rF : Nat → F32 α),
      process E (swapStereoImage true c) outL outR = some (cT, lT, rT) ∧
      process E (swapStereoImage false c) outL outR = some (cF, lF, rF) ∧
      (∀ s, s < c.m_nSamples → lT s = rF s ∧ rT s = lF s) ∧
      cT = swapStereoImage true cF ∧ cF = swapStereoImage false cT := by
  refine ⟨_, _, _, _, _, _, process_eq E _ outL outR, process_eq E _ outL outR, ?_, ?_, ?_⟩
  · intro s hs
    have hT : (swapStereoImage true c).m_nSamples = c.m_nSamples := rfl
    have hF : (swapStereoImage false c).m_nSamples = c.m_nSamples := rfl
    have h1 : (swapStereoImage true c).m_swapStereoImage = true := rfl
    have h2 : (swapStereoImage false c).m_swapStereoImage = false := rfl
    simp only [outLAfter, outRAfter, hT, hF, hs, if_true, h1, h2, Bool.false_eq_true, if_false,
      stateAfterFrames_swap, frameOut_swap, and_self]
  · simp only [stateAfterFrames_swap]
    rfl
  · simp only [stateAfterFrames_swap]
    rfl

end ProcessChunk

section BusLoop

open StereoChannels MixerOutput

variable {α σ : Type} [LinearOrderedField α]

theorem busStep_fx (E : Env α σ) (c : MixingConsole α σ) (k : Nat) :
    (busStep E c k).m_fx = store c.m_fx k (fxOutput E c k).1 := by
  unfold busStep
  simp only []
  split_ifs <;> rfl

theorem busStep_samples (E : Env α σ) (c : MixingConsole α σ) (k : Nat) :
    (busStep E c k).m_inputSamples =
      if k ≠ MainOutput then
        store2 (store2 c.m_inputSamples Left (E.nb_inputs + k) (fxOutput E c k).2.1)
          Right (E.nb_inputs + k) (fxOutput E c k).2.2
      else c.m_inputSamples := by
  unfold busStep
  simp only []
  split_ifs <;> rfl

/-- The effect units when `processSample` is about to visit bus `k`: those of the buses already
visited hold the state their call returned, the others are untouched. -/
theorem stateAt_fx (E : Env α σ) (c : MixingConsole α σ) (k b : Nat) :
    (stateAt E c k).m_fx b =
      if b < k then (fxOutput E (stateAt E c b) b).1 else c.m_fx b := by
  induction k with
  | zero => simp [stateAt]
  | succ k ih =>
    rw [stateAt_succ, busStep_fx, store_apply]
    by_cases hb : b = k
    · subst hb; simp
    · rw [if_neg hb, ih]
      by_cases hb2 : b < k
      · simp [hb2, Nat.lt_succ_of_lt hb2]
      · have : ¬ b < k + 1 := by omega
        simp [hb2, this]

/-- The live samples when `processSample` is about to visit bus `k`: the return samples of the
buses already visited hold the outputs of this call, all other samples are untouched. -/
theorem stateAt_samples (E : Env α σ) (c : MixingConsole α σ) (k : Nat) (hk : k ≤ MainOutput)
    (ch src : Nat) :
    (stateAt E c k).m_inputSamples ch src =
      if (ch = Left ∨ ch = Right) ∧ E.nb_inputs ≤ src ∧ src < E.nb_inputs + k then
        (if ch = Left then (fxOutput E (stateAt E c (src - E.nb_inputs)) (src - E.nb_inputs)).2.1
         else (fxOutput E (stateAt E c (src - E.nb_inputs)) (src - E.nb_inputs)).2.2)
      else c.m_inputSamples ch src := by
  induction k with
  | zero =>
    have h0 : ¬ ((ch = Left ∨ ch = Right) ∧ E.nb_inputs ≤ src ∧ src < E.nb_inputs + 0) := by
      omega
    rw [if_neg h0]
    rfl
  | succ k ih =>
    have hk' : k ≠ MainOutput := by simp only [MainOutput] at hk ⊢; omega
    rw [stateAt_succ, busStep_samples, if_pos hk']
    simp only [store2_apply, ih (Nat.le_of_succ_le hk), Left, Right]
    by_cases hs : src = E.nb_inputs + k
    · subst hs
      have e : E.nb_inputs + k - E.nb_inputs = k := by omega
      rw [e]
      by_cases h1 : ch = 1
      · subst h1; simp
      · by_cases h0 : ch = 0
        · subst h0; simp
        · simp [h0, h1]
    · have e : (src < E.nb_inputs + (k + 1)) = (src < E.nb_inputs + k) := by
        apply propext; constructor <;> intro h <;> omega
      simp only [hs, and_false, if_false, e]

theorem stateAt_final_samples (E : Env α σ) (c : MixingConsole α σ) :
    (stateAt E c kFXCount).m_inputSamples = (stateAt E c MainOutput).m_inputSamples := by
  have h9 : kFXCount = MainOutput + 1 := rfl
  rw [h9, stateAt_succ, busStep_samples]
  simp

/-- A NaN term makes the whole sum NaN. -/
theorem arm_weighted_sum_f32_nan_term (data weights : Nat → F32 α) (n i : Nat) (hi : i < n)
    (h : data i * weights i = F32.nan) : arm_weighted_sum_f32 data weights n = F32.nan := by
  unfold arm_weighted_sum_f32
  induction n with
  | zero => omega
  | succ n ih =>
    rw [List.range_succ, List.foldl_append]
    simp only [List.foldl_cons, List.foldl_nil]
    by_cases hin : i = n
    · subst hin; rw [h]; simp
    · rw [ih (by omega)]; simp

/-- C5 (amended): `processSample` succeeds and visits the buses in increasing index order.  With
`out b` the state and stereo output the effect unit of bus `b` returns in this call, the left
(resp. right) input of bus `b` is `weighted_sum` of row `b` of the level matrix over all
`nb_inputs + kFXCount - 1` sources, that is the sum of `level[b][src]` times the current left
(resp. right) live sample of `src`, replaced by `0` when that sum is NaN; the current sample of
a return source is this call's output for the buses before `b` and the stored sample otherwise.
The returned frame is the output of the main bus; afterwards the return sample of every other
bus is its output of this call, and the channel input samples and the level matrix are
unchanged. -/
theorem processSample_inputs_and_outputs (E : Env α σ) (c : MixingConsole α σ) (oL oR : F32 α) :
    ∃ (out : Nat → σ × F32 α × F32 α) (c' : MixingConsole α σ),
      processSample E c oL oR = some (c', (out MainOutput).2.1, (out MainOutput).2.2) ∧
      (∀ b, b < kFXCount →
        out b = (E.fx b).processSample (c.m_fx b)
          (weighted_sum
            (fun src => if E.nb_inputs ≤ src ∧ src < E.nb_inputs + b
              then (out (src - E.nb_inputs)).2.1 else c.m_inputSamples Left src)
            (c.m_levels b) (E.nb_inputs + kFXCount - 1))
          (weighted_sum
            (fun src => if E.nb_inputs ≤ src ∧ src < E.nb_inputs + b
              then (out (src - E.nb_inputs)).2.2 else c.m_inputSamples Right src)
            (c.m_levels b) (E.nb_inputs + kFXCount - 1))) ∧
      (∀ (d w : Nat → F32 α) (n : Nat), weighted_sum d w n =
        if F32.isnan ((List.range n).foldl (fun m i => m + d i * w i) 0) then 0
        else (List.range n).foldl (fun m i => m + d i * w i) 0) ∧
      (∀ b, b < kFXCount → c'.m_fx b = (out b).1) ∧
      (∀ b, b < kFXCount - 1 →
        c'.m_inputSamples Left (E.nb_inputs + b) = (out b).2.1 ∧
        c'.m_inputSamples Right (E.nb_inputs + b) = (out b).2.2) ∧
      (∀ i, i < E.nb_inputs →
        c'.m_inputSamples Left i = c.m_inputSamples Left i ∧
        c'.m_inputSamples Right i = c.m_inputSamples Right i) ∧
      c'.m_levels = c.m_levels := by
  refine ⟨fun b => fxOutput E (stateAt E c b) b, stateAt E c kFXCount,
    processSample_eq E c oL oR, ?_, fun _ _ _ => rfl, ?_, ?_, ?_,
    (stateAt_sameConfig E c _).levels⟩
  · intro b hb
    have hb8 : b ≤ MainOutput := by simp only [kFXCount, MainOutput] at hb ⊢; omega
    have hfx : (stateAt E c b).m_fx b = c.m_fx b := by
      rw [stateAt_fx]; simp
    have hL : (stateAt E c b).m_inputSamples Left =
        fun src => if E.nb_inputs ≤ src ∧ src < E.nb_inputs + b
          then (fxOutput E (stateAt E c (src - E.nb_inputs)) (src - E.nb_inputs)).2.1
          else c.m_inputSamples Left src := by
      funext src
      rw [stateAt_samples E c b hb8]
      simp
    have hR : (stateAt E c b).m_inputSamples Right =
        fun src => if E.nb_inputs ≤ src ∧ src < E.nb_inputs + b
          then (fxOutput E (stateAt E c (src - E.nb_inputs)) (src - E.nb_inputs)).2.2
          else c.m_inputSamples Right src := by
      funext src
      rw [stateAt_samples E c b hb8]
      simp [Left, Right]
    have hout : fxOutput E (stateAt E c b) b =
        (E.fx b).processSample ((stateAt E c b).m_fx b)
          (weighted_sum ((stateAt E c b).m_inputSamples Left) ((stateAt E c b).m_levels b)
            (E.nb_inputs + kFXCount - 1))
          (weighted_sum ((stateAt E c b).m_inputSamples Right) ((stateAt E c b).m_levels b)
            (E.nb_inputs + kFXCount - 1)) := rfl
    show fxOutput E (stateAt E c b) b = _
    rw [hout, hfx, hL, hR, (stateAt_sameConfig E c b).levels]
  · intro b hb
    rw [stateAt_fx]; simp [hb]
  · intro b hb
    have hb8 : b < MainOutput := hb
    rw [stateAt_final_samples, stateAt_samples E c _ (Nat.le_refl _),
      stateAt_samples E c _ (Nat.le_refl _)]
    simp [Left, Right, hb8]
  · intro i hi
    rw [stateAt_final_samples, stateAt_samples E c _ (Nat.le_refl _),
      stateAt_samples E c _ (Nat.le_refl _)]
    have : ¬ E.nb_inputs ≤ i := by omega
    simp [this]

/-- C5 as stated fails on a NaN sum: on a fresh one-channel console, after
`setSendLevel(0, FX_Tube, 1)` and `setInputSample(0, NaN, NaN)`, the sum of level times sample
over the sources of the tube bus is NaN, but the input `processSample` feeds to the tube unit
(recorded in the unit's state) is `(0, 0)`. -/
theorem processSample_input_not_nan_sum :
    ∃ c1 c2 c3 c4 oL oR,
      construct recEnv 4 false (fun _ => (0, 0)) (zeroMemory (fun _ => (0, 0))) = some c1 ∧
      setSendLevel recEnv 0 FX_Tube 1 c1 = some c2 ∧
      setInputSample recEnv 0 F32.nan F32.nan c2 = some c3 ∧
      processSample recEnv c3 0 0 = some (c4, oL, oR) ∧
      c4.m_fx FX_Tube = (F32.fin 0, F32.fin 0) ∧
      (List.range (recEnv.nb_inputs + kFXCount - 1)).foldl
        (fun m src => m + c3.m_inputSamples Left src * c3.m_levels FX_Tube src) 0 = F32.nan := by
  have h1 : (0 : Nat) < recEnv.nb_inputs := by decide
  have h9 : (0 : Nat) < recEnv.nb_inputs + kFXCount - 1 := by decide
  have hc3 : ∀ ch, ch = Left ∨ ch = Right →
      (setSampleCore 0 F32.nan F32.nan
        ({ recConsole with
            m_levels := store2 recConsole.m_levels FX_Tube 0 (constrain 1 0 1) } :
          MixingConsole ℚ (F32 ℚ × F32 ℚ))).m_inputSamples ch 0 = F32.nan := by
    intro ch hch
    rcases hch with h | h <;> subst h <;> simp [setSampleCore, store2_apply, Left, Right]
  have hsum : ∀ ch, ch = Left ∨ ch = Right →
      arm_weighted_sum_f32
        ((setSampleCore 0 F32.nan F32.nan
          ({ recConsole with
              m_levels := store2 recConsole.m_levels FX_Tube 0 (constrain 1 0 1) } :
            MixingConsole ℚ (F32 ℚ × F32 ℚ))).m_inputSamples ch)
        (store2 recConsole.m_levels FX_Tube 0 (constrain 1 0 1) FX_Tube)
        (recEnv.nb_inputs + kFXCount - 1) = F32.nan := by
    intro ch hch
    exact arm_weighted_sum_f32_nan_term _ _ _ 0 h9 (by rw [hc3 ch hch]; simp)
  refine ⟨recConsole,
    { recConsole with m_levels := store2 recConsole.m_levels FX_Tube 0 (constrain 1 0 1) },
    setSampleCore 0 F32.nan F32.nan
      { recConsole with m_levels := store2 recConsole.m_levels FX_Tube 0 (constrain 1 0 1) },
    stateAt recEnv (setSampleCore 0 F32.nan F32.nan
      { recConsole with m_levels := store2 recConsole.m_levels FX_Tube 0 (constrain 1 0 1) })
      kFXCount, _, _,
    construct_eq _ _ _ _ _,
    setSendLevel_eq recEnv 0 FX_Tube 1 _ h1 (by decide), ?_, processSample_eq _ _ _ _, ?_,
    hsum Left (Or.inl rfl)⟩
  · simp only [setInputSample, assert_decide, h1, if_true, Option.bind_eq_bind,
      Option.some_bind]
    exact setSample_eq recEnv 0 _ _ _ h9
  · rw [stateAt_fx, if_pos (by decide)]
    have hout : ∀ c : MixingConsole ℚ (F32 ℚ × F32 ℚ), (fxOutput recEnv c FX_Tube).1 =
        (weighted_sum (c.m_inputSamples Left) (c.m_levels FX_Tube)
            (recEnv.nb_inputs + kFXCount - 1),
         weighted_sum (c.m_inputSamples Right) (c.m_levels FX_Tube)
            (recEnv.nb_inputs + kFXCount - 1)) := fun _ => rfl
    have h0 : ∀ c : MixingConsole ℚ (F32 ℚ × F32 ℚ), stateAt recEnv c FX_Tube = c :=
      fun _ => rfl
    rw [h0, hout]
    unfold weighted_sum
    have eL := hsum Left (Or.inl rfl)
    have eR := hsum Right (Or.inr rfl)
    simp only [setSampleCore] at eL eR ⊢
    rw [eL, eR]
    rfl

/-- C6 (amended): the return sample a bus `a` other than the main output stores during a
`processSample` call is read by the weighted sums of the buses visited after `a` in the same
call (every `b > a`, the main bus included) and by those of the buses `b ≤ a` in the next call.
With call `n-1` started in `c0` and call `n` started in `cB` (whose return samples are those
call `n-1` left): when call `n` reaches bus `b`, in state `cb`, from whose live samples the
input of `b` is computed, the sample of source `a` is the output `outN` of `a` in call `n` if
`a < b`, and the output `outPrev` of `a` in call `n-1` if `b ≤ a`. -/
theorem return_sample_visibility (E : Env α σ) (c0 cA cB : MixingConsole α σ)
    (o1 o2 r1 r2 o3 o4 : F32 α)
    (hprev : processSample E c0 o1 o2 = some (cA, r1, r2))
    (hkeep : ∀ a, a < kFXCount - 1 →
      cB.m_inputSamples Left (E.nb_inputs + a) = cA.m_inputSamples Left (E.nb_inputs + a) ∧
      cB.m_inputSamples Right (E.nb_inputs + a) = cA.m_inputSamples Right (E.nb_inputs + a))
    (a b : Nat) (ha : a < kFXCount - 1) (hb : b < kFXCount) :
    ∃ (caPrev caN cb : MixingConsole α σ) (outPrev outN : F32 α × F32 α),
      (List.range a).foldlM (processBus E) (c0, o1, o2) = some (caPrev, o1, o2) ∧
      outPrev = ((E.fx a).processSample (caPrev.m_fx a)
        (fxInput E caPrev a).1 (fxInput E caPrev a).2).2 ∧
      (List.range a).foldlM (processBus E) (cB, o3, o4) = some (caN, o3, o4) ∧
      outN = ((E.fx a).processSample (caN.m_fx a) (fxInput E caN a).1 (fxInput E caN a).2).2 ∧
      (List.range b).foldlM (processBus E) (cB, o3, o4) = some (cb, o3, o4) ∧
      fxInput E cb b =
        (weighted_sum (cb.m_inputSamples Left) (cb.m_levels b) (E.nb_inputs + kFXCount - 1),
         weighted_sum (cb.m_inputSamples Right) (cb.m_levels b) (E.nb_inputs + kFXCount - 1)) ∧
      (a < b → cb.m_inputSamples Left (E.nb_inputs + a) = outN.1 ∧
               cb.m_inputSamples Right (E.nb_inputs + a) = outN.2) ∧
      (b ≤ a → cb.m_inputSamples Left (E.nb_inputs + a) = outPrev.1 ∧
               cb.m_inputSamples Right (E.nb_inputs + a) = outPrev.2) := by
  have ha8 : a ≤ MainOutput := by simp only [kFXCount, MainOutput] at ha ⊢; omega
  have ha8' : a < MainOutput := ha
  have hb8 : b ≤ MainOutput := by simp only [kFXCount, MainOutput] at hb ⊢; omega
  rw [processSample_eq] at hprev
  simp only [Option.some.injEq, Prod.mk.injEq] at hprev
  obtain ⟨hA, -, -⟩ := hprev
  refine ⟨stateAt E c0 a, stateAt E cB a, stateAt E cB b, _, _,
    processSample_prefix E c0 o1 o2 a ha8, rfl, processSample_prefix E cB o3 o4 a ha8, rfl,
    processSample_prefix E cB o3 o4 b hb8, rfl, ?_, ?_⟩
  · intro hab
    rw [stateAt_samples E cB b hb8, stateAt_samples E cB b hb8]
    have e : E.nb_inputs + a - E.nb_inputs = a := by omega
    have h1 : E.nb_inputs + a < E.nb_inputs + b := by omega
    simp only [e, h1, Left, Right]
    simp [fxOutput]
  · intro hba
    rw [stateAt_samples E cB b hb8, stateAt_samples E cB b hb8]
    have h1 : ¬ (E.nb_inputs + a < E.nb_inputs + b) := by omega
    simp only [h1, and_false, if_false]
    rw [(hkeep a ha).1, (hkeep a ha).2, ← hA, stateAt_final_samples,
      stateAt_samples E c0 _ (Nat.le_refl _), stateAt_samples E c0 _ (Nat.le_refl _)]
    have e : E.nb_inputs + a - E.nb_inputs = a := by omega
    have h2 : E.nb_inputs + a < E.nb_inputs + MainOutput := by omega
    simp only [e, h2, Left, Right]
    simp [fxOutput]

/-- C6 as stated fails for a bus feeding a bus visited later in the same call: with the tube
bus (index 0) feeding bus 1 at level 1 and the channel routed to the tube bus, a first
`processSample` call with channel sample 1 makes the tube bus output 1; in a second call, with
channel sample 2, the tube bus outputs 2 and the input of bus 1 (recorded in its unit's state)
is 2, the output of the second call, not 1, the output of the first. -/
theorem return_sample_read_in_same_call :
    ∃ c1 c2 c3 c4 cA cB cC r1 r2 r3 r4,
      construct recEnv 4 false (fun _ => (0, 0)) (zeroMemory (fun _ => (0, 0))) = some c1 ∧
      setSendLevel recEnv 0 FX_Tube 1 c1 = some c2 ∧
      setFXSendLevel recEnv FX_Tube 1 1 c2 = some c3 ∧
      setInputSample recEnv 0 1 1 c3 = some c4 ∧
      processSample recEnv c4 0 0 = some (cA, r1, r2) ∧
      setInputSample recEnv 0 (F32.fin 2) (F32.fin 2) cA = some cB ∧
      processSample recEnv cB 0 0 = some (cC, r3, r4) ∧
      cA.m_inputSamples Left (recEnv.nb_inputs + FX_Tube) = F32.fin 1 ∧
      cC.m_inputSamples Left (recEnv.nb_inputs + FX_Tube) = F32.fin 2 ∧
      cC.m_fx 1 = (F32.fin 2, F32.fin 2) := by
  have h1 : (0 : Nat) < recEnv.nb_inputs := by decide
  have h9 : (0 : Nat) < recEnv.nb_inputs + kFXCount - 1 := by decide
  have hin : ∀ (l r : F32 ℚ) (c : MixingConsole ℚ (F32 ℚ × F32 ℚ)),
      setInputSample recEnv 0 l r c = some (setSampleCore 0 l r c) := by
    intro l r c
    simp only [setInputSample, assert_decide, h1, if_true, Option.bind_eq_bind,
      Option.some_bind]
    exact setSample_eq recEnv 0 _ _ _ h9
  have hA : (stateAt recEnv feedConsole kFXCount).m_inputSamples Left 1 = F32.fin 1 := by
    rw [stateAt_final_samples, stateAt_samples recEnv _ _ (Nat.le_refl _)]
    simp [recEnv, MainOutput, Left, fxOutput, recorder, stateAt, fxInput, weighted_sum,
      arm_weighted_sum_f32, List.range_succ, feedConsole, setSampleCore, store2_apply,
      recConsole, constructCore, initCore, resetCore, bypassCore, zeroMemory, memset0,
      constrain, FX_Tube, kFXCount, Right, kNumChannels, F32.flt]
    norm_num [F32.isnan]
  refine ⟨recConsole,
    { recConsole with m_levels := store2 recConsole.m_levels FX_Tube 0 (constrain 1 0 1) },
    { recConsole with
      m_levels := store2 (store2 recConsole.m_levels FX_Tube 0 (constrain 1 0 1))
        1 (recEnv.nb_inputs + FX_Tube) (constrain 1 0 1) },
    feedConsole,
    stateAt recEnv feedConsole kFXCount,
    setSampleCore 0 (F32.fin 2) (F32.fin 2) (stateAt recEnv feedConsole kFXCount),
    stateAt recEnv (setSampleCore 0 (F32.fin 2) (F32.fin 2)
      (stateAt recEnv feedConsole kFXCount)) kFXCount, _, _, _, _,
    construct_eq _ _ _ _ _,
    setSendLevel_eq recEnv 0 FX_Tube 1 _ h1 (by decide),
    ?_, hin _ _ _, processSample_eq _ _ _ _, hin _ _ _, processSample_eq _ _ _ _, hA, ?_, ?_⟩
  · rw [setFXSendLevel_eq recEnv FX_Tube 1 1 _ (by decide) (by decide)]
    simp [FX_Tube]
  · rw [stateAt_final_samples, stateAt_samples recEnv _ _ (Nat.le_refl _)]
    simp [recEnv, MainOutput, Left, fxOutput, recorder, stateAt, fxInput, weighted_sum,
      arm_weighted_sum_f32, List.range_succ, feedConsole, setSampleCore, store2_apply,
      recConsole, constructCore, initCore, resetCore, bypassCore, zeroMemory, memset0,
      constrain, FX_Tube, kFXCount, Right, kNumChannels, F32.flt, busStep, store_apply]
    norm_num [F32.isnan]
  · rw [stateAt_fx, if_pos (by decide)]
    simp [recEnv, MainOutput, Left, fxOutput, recorder, stateAt, fxInput, weighted_sum,
      arm_weighted_sum_f32, List.range_succ, feedConsole, setSampleCore, store2_apply,
      recConsole, constructCore, initCore, resetCore, bypassCore, zeroMemory, memset0,
      constrain, FX_Tube, kFXCount, Right, kNumChannels, F32.flt, busStep, store_apply]
    norm_num [F32.isnan]

/-- C6 (amended) at a concrete input: two consecutive calls on `feedConsole`, the tube bus
(`a = 0`) and bus `b = 1`. -/
theorem return_sample_visibility_witness :
    ∃ (caPrev caN cb : MixingConsole ℚ (F32 ℚ × F32 ℚ)) (outPrev outN : F32 ℚ × F32 ℚ),
      (List.range 0).foldlM (processBus recEnv) (feedConsole, 0, 0) = some (caPrev, 0, 0) ∧
      outPrev = ((recEnv.fx 0).processSample (caPrev.m_fx 0)
        (fxInput recEnv caPrev 0).1 (fxInput recEnv caPrev 0).2).2 ∧
      (List.range 0).foldlM (processBus recEnv) (stateAt recEnv feedConsole kFXCount, 0, 0) =
        some (caN, 0, 0) ∧
      outN = ((recEnv.fx 0).processSample (caN.m_fx 0)
        (fxInput recEnv caN 0).1 (fxInput recEnv caN 0).2).2 ∧
      (List.range 1).foldlM (processBus recEnv) (stateAt recEnv feedConsole kFXCount, 0, 0) =
        some (cb, 0, 0) ∧
      fxInput recEnv cb 1 =
        (weighted_sum (cb.m_inputSamples Left) (cb.m_levels 1) (recEnv.nb_inputs + kFXCount - 1),
         weighted_sum (cb.m_inputSamples Right) (cb.m_levels 1)
          (recEnv.nb_inputs + kFXCount - 1)) ∧
      (0 < 1 → cb.m_inputSamples Left (recEnv.nb_inputs + 0) = outN.1 ∧
               cb.m_inputSamples Right (recEnv.nb_inputs + 0) = outN.2) ∧
      (1 ≤ 0 → cb.m_inputSamples Left (recEnv.nb_inputs + 0) = outPrev.1 ∧
               cb.m_inputSamples Right (recEnv.nb_inputs + 0) = outPrev.2) :=
  return_sample_visibility recEnv feedConsole (stateAt recEnv feedConsole kFXCount)
    (stateAt recEnv feedConsole kFXCount) 0 0 _ _ 0 0
    (processSample_eq recEnv feedConsole 0 0) (fun _ _ => ⟨rfl, rfl⟩) 0 1 (by decide) (by decide)

end BusLoop

section WeightedSum

variable {α : Type} [LinearOrderedField α]

/-- Over an all-zero weight row the running sum of `arm_weighted_sum_f32` is `0` or NaN. -/
theorem arm_weighted_sum_f32_zero_row (data weights : Nat → F32 α) (size : Nat)
    (hw : ∀ i, i < size → weights i = 0) :
    arm_weighted_sum_f32 data weights size = F32.fin 0 ∨
      arm_weighted_sum_f32 data weights size = F32.nan := by
  unfold arm_weighted_sum_f32
  induction size with
  | zero => left; rfl
  | succ n ih =>
    rw [List.range_succ, List.foldl_append]
    simp only [List.foldl_cons, List.foldl_nil]
    rw [hw n (Nat.lt_succ_self n)]
    have h := ih (fun i hi => hw i (Nat.lt_succ_of_lt hi))
    simp only [F32.zero_def] at h ⊢
    rcases h with h | h <;> rcases F32.mul_zero_cases (data n) with h2 | h2 <;>
      simp [h, h2]

/-- C7: over a level row that is all zeros `weighted_sum` returns exactly `0`, whatever the
source samples are (finite, infinite or NaN); and `weighted_sum` never returns NaN, for any
input at all. -/
theorem weighted_sum_zero_row_and_never_nan (data weights : Nat → F32 α) (size : Nat)
    (hw : ∀ i, i < size → weights i = 0) :
    weighted_sum data weights size = 0 ∧
      ∀ (d w : Nat → F32 α) (n : Nat), F32.isnan (weighted_sum d w n) = false := by
  constructor
  · unfold weighted_sum
    rcases arm_weighted_sum_f32_zero_row data weights size hw with h | h <;> simp [h]
  · intro d w n
    unfold weighted_sum
    cases h : arm_weighted_sum_f32 d w n <;> simp [F32.isnan]

/-- C7 at a concrete input: three sources holding NaN, `+∞` and `5`, all levels zero. -/
theorem weighted_sum_zero_row_and_never_nan_witness :
    (∀ i, i < 3 → (fun _ => (0 : F32 ℚ)) i = 0) ∧
    weighted_sum (fun k => if k = 0 then F32.nan else if k = 1 then F32.pinf else F32.fin 5)
        (fun _ => (0 : F32 ℚ)) 3 = 0 ∧
      ∀ (d w : Nat → F32 ℚ) (n : Nat), F32.isnan (weighted_sum d w n) = false :=
  ⟨fun _ _ => rfl, weighted_sum_zero_row_and_never_nan _ _ 3 (fun _ _ => rfl)⟩

theorem weighted_sum_zero_row (data weights : Nat → F32 α) (size : Nat)
    (hw : ∀ i, i < size → weights i = 0) : weighted_sum data weights size = F32.fin 0 := by
  unfold weighted_sum
  rcases arm_weighted_sum_f32_zero_row data weights size hw with h | h <;> simp [h]

/-- Over real samples, a level row with a single 1 picks the sample of that source. -/
theorem arm_weighted_sum_f32_single (data weights : Nat → F32 α) (n j : Nat) (dj : α)
    (hd : ∀ i, i < n → (data i).isFinite = true) (hj : data j = F32.fin dj)
    (hw : ∀ i, i < n → weights i = F32.fin (if i = j then 1 else 0)) :
    arm_weighted_sum_f32 data weights n = F32.fin (if j < n then dj else 0) := by
  unfold arm_weighted_sum_f32
  induction n with
  | zero => simp
  | succ n ih =>
    rw [List.range_succ, List.foldl_append,
      ih (fun i hi => hd i (Nat.lt_succ_of_lt hi)) (fun i hi => hw i (Nat.lt_succ_of_lt hi))]
    obtain ⟨dn, hdn⟩ := (F32.isFinite_iff (data n)).mp (hd n (Nat.lt_succ_self n))
    simp only [List.foldl_cons, List.foldl_nil, hdn,
      hw n (Nat.lt_succ_self n), F32.fin_mul_fin, F32.fin_add_fin]
    congr 1
    by_cases hjn : j = n
    · subst hjn
      rw [hj] at hdn
      have : dj = dn := by injection hdn
      subst this
      simp
    · by_cases hj2 : j < n
      · have : j < n + 1 := by omega
        simp [hj2, this, Ne.symm hjn]
      · have : ¬ j < n + 1 := by omega
        simp [hj2, this, Ne.symm hjn]

end WeightedSum

section EndToEnd

open StereoChannels MixerOutput

variable {α σ : Type} [LinearOrderedField α]

theorem CenterSetup.of_sameConfig {E : Env α σ} {c c' : MixingConsole α σ} {ch n : Nat}
    {x : Nat → α} {gL gR : α} (h : CenterSetup E c ch n x gL gR) (hs : SameConfig c c') :
    CenterSetup E c' ch n x gL gR :=
  ⟨fun b src hb hsrc => by rw [hs.levels]; exact h.levels b src hb hsrc,
   fun i s hi hsn => by rw [hs.buffer]; exact h.bufferL i s hi hsn,
   fun i s hi hsn => by rw [hs.buffer]; exact h.bufferR i s hi hsn⟩

/-- In the end-to-end set-up every bus other than the main output is fed `(0, 0)`. -/
theorem fxInput_center_zero (E : Env α σ) (c c' : MixingConsole α σ) (ch n : Nat)
    (x : Nat → α) (gL gR : α) (hs : CenterSetup E c ch n x gL gR) (hc : SameConfig c c')
    (a : Nat) (ha : a < MainOutput) : fxInput E c' a = (F32.fin 0, F32.fin 0) := by
  have hrow : ∀ i, i < E.nb_inputs + kFXCount - 1 → c'.m_levels a i = 0 := by
    intro i hi
    rw [hc.levels, hs.levels a i (by simp only [kFXCount, MainOutput] at ha ⊢; omega) hi]
    have : ¬ (a = MainOutput ∧ i = ch) := by omega
    simp [this]
  unfold fxInput
  simp only [weighted_sum_zero_row _ _ _ hrow]

/-- In the end-to-end set-up the frame `process` computes for sample index `s` is the mono
sample scaled by the two pan gains. -/
theorem frameOut_center (E : Env α σ)
    (hmain : ∀ s l r, ((E.fx MainOutput).processSample s l r).2 = (l, r))
    (hfin : ∀ b, b < MainOutput → ∀ s l r, F32.isFinite l = true → F32.isFinite r = true →
      F32.isFinite ((E.fx b).processSample s l r).2.1 = true ∧
      F32.isFinite ((E.fx b).processSample s l r).2.2 = true)
    (c : MixingConsole α σ) (ch n : Nat) (x : Nat → α) (gL gR : α) (hch : ch < E.nb_inputs)
    (hs : CenterSetup E c ch n x gL gR) (s : Nat) (hsn : s < n) :
    frameOut E c s = (F32.fin (x s * gL), F32.fin (x s * gR)) := by
  have hcfg : ∀ k, SameConfig c (stateAt E (loadInputsCore E s c) k) := fun k =>
    (loadInputsCore_sameConfig E s c).trans (stateAt_sameConfig E _ k)
  have hout : ∀ a, a < MainOutput →
      F32.isFinite (fxOutput E (stateAt E (loadInputsCore E s c) a) a).2.1 = true ∧
      F32.isFinite (fxOutput E (stateAt E (loadInputsCore E s c) a) a).2.2 = true := by
    intro a ha
    unfold fxOutput
    rw [fxInput_center_zero E c _ ch n x gL gR hs (hcfg a) a ha]
    exact hfin a ha _ _ _ rfl rfl
  have hsamp : ∀ src, src < E.nb_inputs + kFXCount - 1 →
      F32.isFinite ((stateAt E (loadInputsCore E s c) MainOutput).m_inputSamples Left src) = true ∧
      F32.isFinite ((stateAt E (loadInputsCore E s c) MainOutput).m_inputSamples Right src) = true := by
    intro src hsrc
    rw [stateAt_samples E _ _ (Nat.le_refl _), stateAt_samples E _ _ (Nat.le_refl _)]
    by_cases h1 : E.nb_inputs ≤ src
    · have h2 : src < E.nb_inputs + MainOutput := by
        simp only [kFXCount, MainOutput] at hsrc ⊢; omega
      have h3 : src - E.nb_inputs < MainOutput := by omega
      simp only [Left, Right, h1, h2, true_or, or_true, and_self, if_true]
      simpa using hout _ h3
    · have h2 : src < E.nb_inputs := by omega
      simp only [h1, false_and, and_false, if_false]
      rw [(loadInputsCore_channel E s c src h2).1, (loadInputsCore_channel E s c src h2).2,
        hs.bufferL src s h2 hsn, hs.bufferR src s h2 hsn]
      exact ⟨rfl, rfl⟩
  have hchan : (stateAt E (loadInputsCore E s c) MainOutput).m_inputSamples Left ch =
        F32.fin (x s * gL) ∧
      (stateAt E (loadInputsCore E s c) MainOutput).m_inputSamples Right ch =
        F32.fin (x s * gR) := by
    rw [stateAt_samples E _ _ (Nat.le_refl _), stateAt_samples E _ _ (Nat.le_refl _)]
    have h1 : ¬ E.nb_inputs ≤ ch := by omega
    simp only [h1, false_and, and_false, if_false]
    rw [(loadInputsCore_channel E s c ch hch).1, (loadInputsCore_channel E s c ch hch).2,
      hs.bufferL ch s hch hsn, hs.bufferR ch s hch hsn]
    simp
  have hrow : ∀ i, i < E.nb_inputs + kFXCount - 1 →
      (stateAt E (loadInputsCore E s c) MainOutput).m_levels MainOutput i =
        F32.fin (if i = ch then 1 else 0) := by
    intro i hi
    rw [(hcfg MainOutput).levels, hs.levels MainOutput i (by decide) hi]
    simp
  have hchn : ch < E.nb_inputs + kFXCount - 1 := by simp only [kFXCount]; omega
  have hL := arm_weighted_sum_f32_single
    ((stateAt E (loadInputsCore E s c) MainOutput).m_inputSamples Left)
    ((stateAt E (loadInputsCore E s c) MainOutput).m_levels MainOutput)
    (E.nb_inputs + kFXCount - 1) ch (x s * gL) (fun i hi => (hsamp i hi).1) hchan.1 hrow
  have hR := arm_weighted_sum_f32_single
    ((stateAt E (loadInputsCore E s c) MainOutput).m_inputSamples Right)
    ((stateAt E (loadInputsCore E s c) MainOutput).m_levels MainOutput)
    (E.nb_inputs + kFXCount - 1) ch (x s * gR) (fun i hi => (hsamp i hi).2) hchan.2 hrow
  rw [if_pos hchn] at hL hR
  unfold frameOut fxOutput
  rw [hmain]
  unfold fxInput weighted_sum
  simp only [hL, hR, F32.isnan_fin, Bool.false_eq_true, if_false]

end EndToEnd

section EndToEndSetup

open StereoChannels MixerOutput

variable {σ : Type}

theorem updatePan_sameExceptPan (E : Env ℝ σ) (i : Nat) (c : MixingConsole ℝ σ) :
    (updatePan E i c).BufferSize = c.BufferSize ∧
    (updatePan E i c).m_swapStereoImage = c.m_swapStereoImage ∧
    (updatePan E i c).m_tgInputSampleBuffer = c.m_tgInputSampleBuffer ∧
    (updatePan E i c).m_inputSampleBuffer = c.m_inputSampleBuffer ∧
    (updatePan E i c).m_levels = c.m_levels := by
  unfold updatePan
  simp only []
  split_ifs <;> exact ⟨rfl, rfl, rfl, rfl, rfl⟩

theorem setChannelLevelCore_sameExceptPan (E : Env ℝ σ) (i : Nat) (lvl : F32 ℝ)
    (c : MixingConsole ℝ σ) :
    (setChannelLevelCore E i lvl c).BufferSize = c.BufferSize ∧
    (setChannelLevelCore E i lvl c).m_swapStereoImage = c.m_swapStereoImage ∧
    (setChannelLevelCore E i lvl c).m_tgInputSampleBuffer = c.m_tgInputSampleBuffer ∧
    (setChannelLevelCore E i lvl c).m_inputSampleBuffer = c.m_inputSampleBuffer ∧
    (setChannelLevelCore E i lvl c).m_levels = c.m_levels := by
  unfold setChannelLevelCore
  split_ifs
  · exact ⟨rfl, rfl, rfl, rfl, rfl⟩
  · exact updatePan_sameExceptPan E i _

theorem setPanCore_sameExceptPan (E : Env ℝ σ) (i : Nat) (pan : F32 ℝ)
    (c : MixingConsole ℝ σ) :
    (setPanCore E i pan c).BufferSize = c.BufferSize ∧
    (setPanCore E i pan c).m_swapStereoImage = c.m_swapStereoImage ∧
    (setPanCore E i pan c).m_tgInputSampleBuffer = c.m_tgInputSampleBuffer ∧
    (setPanCore E i pan c).m_inputSampleBuffer = c.m_inputSampleBuffer ∧
    (setPanCore E i pan c).m_levels = c.m_levels := by
  unfold setPanCore
  split_ifs
  · exact ⟨rfl, rfl, rfl, rfl, rfl⟩
  · exact updatePan_sameExceptPan E i _

/-- What the constructor leaves in the members the end-to-end scenario depends on. -/
theorem constructCore_facts (E : Env ℝ σ) (buffer_size : Nat) (swap : Bool) (fx0 : Nat → σ)
    (mem : MixingConsole ℝ σ) :
    (constructCore E buffer_size swap fx0 mem).BufferSize = buffer_size ∧
    (constructCore E buffer_size swap fx0 mem).m_swapStereoImage = swap ∧
    (∀ i k, i < E.nb_inputs → k < buffer_size →
      (constructCore E buffer_size swap fx0 mem).m_inputSampleBuffer Left i k = F32.fin 0 ∧
      (constructCore E buffer_size swap fx0 mem).m_inputSampleBuffer Right i k = F32.fin 0) := by
  refine ⟨?_, ?_, ?_⟩
  · simp [constructCore, initCore, resetCore, bypassCore]
  · simp [constructCore, initCore, resetCore, bypassCore]
  · intro i k hi hk
    simp [constructCore, initCore, resetCore, bypassCore, hi, hk, Left, Right]

/-- `preProcessInputSampleBuffer` on a channel with a tone-generator buffer and at least one
sample. -/
theorem preProcessInputSampleBuffer_eq (E : Env ℝ σ) (i n : Nat) (c : MixingConsole ℝ σ)
    (samples : Nat → F32 ℝ) (hi : i < E.nb_inputs) (hn : n ≤ c.BufferSize) (h0 : 0 < n)
    (hb : c.m_tgInputSampleBuffer i = some samples) :
    preProcessInputSampleBuffer E i n c = some (preProcessCore i n samples c) := by
  simp only [preProcessInputSampleBuffer, assert_decide, hi, hn, if_true, Option.bind_eq_bind,
    Option.some_bind, hb, h0, Option.pure_def, preProcessCore]

theorem preProcessInputSampleBuffer_some (E : Env ℝ σ) (i n : Nat) (c : MixingConsole ℝ σ)
    (hi : i < E.nb_inputs) (hn : n ≤ c.BufferSize) :
    ∃ c', preProcessInputSampleBuffer E i n c = some c' := by
  simp only [preProcessInputSampleBuffer, assert_decide, hi, hn, if_true, Option.bind_eq_bind,
    Option.some_bind, Option.pure_def]
  cases c.m_tgInputSampleBuffer i with
  | none => exact ⟨_, rfl⟩
  | some samples =>
    by_cases h0 : 0 < n
    · simp only [h0, if_true]; exact ⟨_, rfl⟩
    · simp only [h0, if_false]; exact ⟨_, rfl⟩

/-- A buffer entry below `n` after the scaling step of `preProcessInputSampleBuffer`. -/
theorem scaled_entry (samples buf : Nat → F32 ℝ) (x : Nat → ℝ) (g : ℝ) (n s : Nat)
    (hs : s < n) (hx : ∀ k, samples k = F32.fin (x k)) :
    (if !(F32.feq (F32.fin g) 0) then arm_scale_f32 samples (F32.fin g) buf n
      else memset0 buf n) s = F32.fin (x s * g) := by
  by_cases hg : g = 0
  · subst hg
    simp [memset0, hs]
  · simp [hg, arm_scale_f32, hs, hx]

theorem constructCore_levels (E : Env ℝ σ) (buffer_size : Nat) (swap : Bool) (fx0 : Nat → σ)
    (mem : MixingConsole ℝ σ) (b src : Nat) (hb : b < kFXCount)
    (hsrc : src < E.nb_inputs + kFXCount - 1) :
    (constructCore E buffer_size swap fx0 mem).m_levels b src = F32.fin 0 :=
  initCore_levels E _ b src hb hsrc

theorem constructCore_gains (E : Env ℝ σ) (buffer_size : Nat) (swap : Bool) (fx0 : Nat → σ)
    (mem : MixingConsole ℝ σ) (i : Nat) (hi : i < E.nb_inputs) :
    GainsUpToDate (constructCore E buffer_size swap fx0 mem) i :=
  initCore_gains E _ i hi

/-- The set-up calls of the end-to-end scenario succeed and lead to a `CenterSetup` state with
`n` pending samples. -/
theorem center_setup_reached (E : Env ℝ σ) (hE : ExactTrig E) (buffer_size : Nat) (swap : Bool)
    (fx0 : Nat → σ) (mem : MixingConsole ℝ σ) (ch : Nat) (hch : ch < E.nb_inputs) (n : Nat)
    (hn : n ≤ buffer_size) (h0 : 0 < n) (x : Nat → ℝ) :
    ∃ c1 c2 c3 c4 c5 c6,
      construct E buffer_size swap fx0 mem = some c1 ∧
      setChannelLevel E ch (F32.fin 1) c1 = some c2 ∧
      setPan E ch (F32.fin (1 / 2)) c2 = some c3 ∧
      setSendLevel E ch MainOutput (F32.fin 1) c3 = some c4 ∧
      setInputSampleBuffer E ch (some (fun k => F32.fin (x k))) c4 = some c5 ∧
      preProcessInputSampleBuffer E ch n c5 = some c6 ∧
      c6.m_nSamples = n ∧ c6.m_swapStereoImage = swap ∧
      CenterSetup E c6 ch n x (Real.cos (1 / 2 * (Real.pi / 2)) * 1)
        (Real.sin (1 / 2 * (Real.pi / 2)) * 1) := by
  have hg3 : GainsUpToDate (setPanCore E ch (F32.fin (1 / 2))
      (setChannelLevelCore E ch (F32.fin 1)
        (constructCore E buffer_size swap fx0 mem))) ch :=
    setPan_gains E hE _ ch _ _ (constrain_fin (1 / 2)) ch
      (setChannelLevel_gains E hE _ ch _ _ (constrain_fin 1) ch
        (constructCore_gains E _ _ _ _ ch hch))
  obtain ⟨gL, gR, hgL, hgR, egL, egR, -, -⟩ := gains_power _ ch (1 / 2) 1 hg3
    (by rw [setPanCore_panPos, clamp_of_mem (by norm_num) (by norm_num)])
    (by rw [setPanCore_level, setChannelLevelCore_level,
          clamp_of_mem (by norm_num) (by norm_num)])
  subst egL egR
  obtain ⟨f1, f2, f3⟩ := constructCore_facts E buffer_size swap fx0 mem
  obtain ⟨a1, a2, -, a4, a5⟩ := setChannelLevelCore_sameExceptPan E ch (F32.fin 1)
    (constructCore E buffer_size swap fx0 mem)
  obtain ⟨b1, b2, -, b4, b5⟩ := setPanCore_sameExceptPan E ch (F32.fin (1 / 2))
    (setChannelLevelCore E ch (F32.fin 1) (constructCore E buffer_size swap fx0 mem))
  generalize hc3 : setPanCore E ch (F32.fin (1 / 2))
    (setChannelLevelCore E ch (F32.fin 1) (constructCore E buffer_size swap fx0 mem)) = c3
    at hgL hgR b1 b2 b4 b5
  have e5 : setInputSampleBuffer E ch (some (fun k => F32.fin (x k)))
      (setLevelCore ch MainOutput (F32.fin 1) c3) =
      some (setInputSampleBufferCore ch (some (fun k => F32.fin (x k)))
        (setLevelCore ch MainOutput (F32.fin 1) c3)) := by
    simp only [setInputSampleBuffer, assert_decide, hch, if_true, Option.bind_eq_bind,
      Option.some_bind, Option.pure_def, setInputSampleBufferCore]
  have e6 := preProcessInputSampleBuffer_eq E ch n
    (setInputSampleBufferCore ch (some (fun k => F32.fin (x k)))
      (setLevelCore ch MainOutput (F32.fin 1) c3))
    (fun k => F32.fin (x k)) hch
    (by show n ≤ c3.BufferSize; rw [b1, a1, f1]; exact hn) h0
    (by simp only [setInputSampleBufferCore, store_same])
  refine ⟨constructCore E buffer_size swap fx0 mem,
    setChannelLevelCore E ch (F32.fin 1) (constructCore E buffer_size swap fx0 mem),
    c3, setLevelCore ch MainOutput (F32.fin 1) c3,
    setInputSampleBufferCore ch (some (fun k => F32.fin (x k)))
      (setLevelCore ch MainOutput (F32.fin 1) c3),
    preProcessCore ch n (fun k => F32.fin (x k))
      (setInputSampleBufferCore ch (some (fun k => F32.fin (x k)))
        (setLevelCore ch MainOutput (F32.fin 1) c3)),
    construct_eq _ _ _ _ _, setChannelLevel_eq_core E ch _ _ hch, ?_,
    setSendLevel_eq E ch MainOutput _ _ hch (by decide), e5, e6, rfl, ?_, ?_⟩
  · rw [← hc3]; exact setPan_eq_core E ch _ _ hch
  · show c3.m_swapStereoImage = swap
    rw [b2, a2, f2]
  · refine ⟨fun b src hb hsrc => ?_, fun i s hi hsn => ?_, fun i s hi hsn => ?_⟩
    · show store2 c3.m_levels MainOutput ch (constrain (F32.fin 1) 0 1) b src = _
      rw [store2_apply, b5, a5, constructCore_levels E _ _ _ _ b src hb hsrc, constrain_fin,
        clamp_of_mem (by norm_num) (by norm_num)]
      split_ifs <;> rfl
    · simp only [preProcessCore, setInputSampleBufferCore, setLevelCore]
      rw [store2_apply, store2_apply]
      have hne : ¬ (Left = Right ∧ i = ch) := by simp [Left, Right]
      rw [if_neg hne]
      by_cases hi2 : i = ch
      · subst hi2
        simp only [and_self, if_true]
        rw [hgL]
        exact scaled_entry _ _ x _ n s hsn (fun _ => rfl)
      · simp only [hi2, and_false, if_false]
        rw [b4, a4, (f3 i s hi (by omega)).1]
    · simp only [preProcessCore, setInputSampleBufferCore, setLevelCore]
      rw [store2_apply]
      by_cases hi2 : i = ch
      · subst hi2
        simp only [and_self, if_true]
        rw [hgR]
        exact scaled_entry _ _ x _ n s hsn (fun _ => rfl)
      · simp only [hi2, and_false, if_false]
        rw [store2_apply]
        simp only [hi2, and_false, if_false]
        rw [b4, a4, (f3 i s hi (by omega)).2]

theorem cos_center : Real.cos (1 / 2 * (Real.pi / 2)) * 1 = Real.cos (Real.pi / 4) := by
  rw [mul_one]; congr 1; ring

theorem sin_center : Real.sin (1 / 2 * (Real.pi / 2)) * 1 = Real.sin (Real.pi / 4) := by
  rw [mul_one]; congr 1; ring

theorem sin_eq_cos_center : Real.sin (Real.pi / 4) = Real.cos (Real.pi / 4) := by
  rw [Real.sin_pi_div_four, Real.cos_pi_div_four]

/-- C8: end to end.  On a freshly constructed console, with channel `ch` at level 1.0 and pan
0.5, sent to the main bus at level 1.0, every other level-matrix entry 0, the main bus effect
handing its input through and the other effect units turning real input into real output:
for every chunk length `n ≤ BufferSize` and every mono buffer `x` of real samples supplied with
`setInputSampleBuffer` and `preProcessInputSampleBuffer(ch, n)`, all calls succeed and
`process(outL, outR)` writes `outL[s] = x[s]·cos(π/4)` and `outR[s] = x[s]·sin(π/4)` for every
`s < n`. -/
theorem end_to_end_center_pan (E : Env ℝ σ) (hE : ExactTrig E)
    (hmain : ∀ s l r, ((E.fx MainOutput).processSample s l r).2 = (l, r))
    (hfin : ∀ b, b < MainOutput → ∀ s l r, F32.isFinite l = true → F32.isFinite r = true →
      F32.isFinite ((E.fx b).processSample s l r).2.1 = true ∧
      F32.isFinite ((E.fx b).processSample s l r).2.2 = true)
    (buffer_size : Nat) (swap : Bool) (fx0 : Nat → σ) (mem : MixingConsole ℝ σ)
    (ch : Nat) (hch : ch < E.nb_inputs) (n : Nat) (hn : n ≤ buffer_size) (x : Nat → ℝ)
    (outL outR : Nat → F32 ℝ) :
    ∃ c1 c2 c3 c4 c5 c6 c7 outL' outR',
      construct E buffer_size swap fx0 mem = some c1 ∧
      setChannelLevel E ch (F32.fin 1) c1 = some c2 ∧
      setPan E ch (F32.fin (1 / 2)) c2 = some c3 ∧
      setSendLevel E ch MainOutput (F32.fin 1) c3 = some c4 ∧
      setInputSampleBuffer E ch (some (fun k => F32.fin (x k))) c4 = some c5 ∧
      preProcessInputSampleBuffer E ch n c5 = some c6 ∧
      process E c6 outL outR = some (c7, outL', outR') ∧
      ∀ s, s < n → outL' s = F32.fin (x s * Real.cos (Real.pi / 4)) ∧
                   outR' s = F32.fin (x s * Real.sin (Real.pi / 4)) := by
  rcases Nat.eq_zero_or_pos n with h0 | h0
  · subst h0
    have g5 : setInputSampleBuffer E ch (some (fun k => F32.fin (x k)))
        (setLevelCore ch MainOutput (F32.fin 1) (setPanCore E ch (F32.fin (1 / 2))
          (setChannelLevelCore E ch (F32.fin 1) (constructCore E buffer_size swap fx0 mem)))) =
        some (setInputSampleBufferCore ch (some (fun k => F32.fin (x k)))
          (setLevelCore ch MainOutput (F32.fin 1) (setPanCore E ch (F32.fin (1 / 2))
            (setChannelLevelCore E ch (F32.fin 1)
              (constructCore E buffer_size swap fx0 mem))))) := by
      simp only [setInputSampleBuffer, assert_decide, hch, if_true, Option.bind_eq_bind,
        Option.some_bind, Option.pure_def, setInputSampleBufferCore]
    obtain ⟨d6, g6⟩ := preProcessInputSampleBuffer_some E ch 0
      (setInputSampleBufferCore ch (some (fun k => F32.fin (x k)))
        (setLevelCore ch MainOutput (F32.fin 1) (setPanCore E ch (F32.fin (1 / 2))
          (setChannelLevelCore E ch (F32.fin 1)
            (constructCore E buffer_size swap fx0 mem))))) hch (Nat.zero_le _)
    exact ⟨constructCore E buffer_size swap fx0 mem,
      setChannelLevelCore E ch (F32.fin 1) (constructCore E buffer_size swap fx0 mem),
      setPanCore E ch (F32.fin (1 / 2))
        (setChannelLevelCore E ch (F32.fin 1) (constructCore E buffer_size swap fx0 mem)),
      setLevelCore ch MainOutput (F32.fin 1) (setPanCore E ch (F32.fin (1 / 2))
        (setChannelLevelCore E ch (F32.fin 1) (constructCore E buffer_size swap fx0 mem))),
      _, d6, _, _, _, construct_eq E buffer_size swap fx0 mem,
      setChannelLevel_eq_core E ch _ _ hch, setPan_eq_core E ch _ _ hch,
      setSendLevel_eq E ch MainOutput _ _ hch (by decide), g5, g6,
      process_eq E d6 outL outR, fun s hs => absurd hs (Nat.not_lt_zero s)⟩
  · obtain ⟨c1, c2, c3, c4, c5, c6, h1, h2, h3, h4, h5, h6, hN, hsw, hs⟩ :=
      center_setup_reached E hE buffer_size swap fx0 mem ch hch n hn h0 x
    refine ⟨c1, c2, c3, c4, c5, c6, _, _, _, h1, h2, h3, h4, h5, h6,
      process_eq E c6 outL outR, ?_⟩
    intro s hsn
    have hfr := frameOut_center E hmain hfin (stateAfterFrames E c6 s) ch n x _ _ hch
      (hs.of_sameConfig (stateAfterFrames_sameConfig E c6 s)) s hsn
    rw [cos_center, sin_center] at hfr
    simp only [outLAfter, outRAfter, hN, hsn, if_true, hfr, hsw]
    cases swap
    · simp
    · simp [sin_eq_cos_center]

/-- C8 at a concrete input: one channel, pass-through effect units, a chunk of two samples
`1, 2` in buffers of four. -/
theorem end_to_end_center_pan_witness :
    ∃ c1 c2 c3 c4 c5 c6 c7 outL' outR',
      construct (mkEnv 1 Real.cos Real.sin (Real.pi / 2)) 4 false (fun _ => ())
        (zeroMemory (fun _ => ())) = some c1 ∧
      setChannelLevel (mkEnv 1 Real.cos Real.sin (Real.pi / 2)) 0 (F32.fin 1) c1 = some c2 ∧
      setPan (mkEnv 1 Real.cos Real.sin (Real.pi / 2)) 0 (F32.fin (1 / 2)) c2 = some c3 ∧
      setSendLevel (mkEnv 1 Real.cos Real.sin (Real.pi / 2)) 0 MainOutput (F32.fin 1) c3 =
        some c4 ∧
      setInputSampleBuffer (mkEnv 1 Real.cos Real.sin (Real.pi / 2)) 0
        (some (fun k => F32.fin ((fun k : Nat => (k : ℝ) + 1) k))) c4 = some c5 ∧
      preProcessInputSampleBuffer (mkEnv 1 Real.cos Real.sin (Real.pi / 2)) 0 2 c5 = some c6 ∧
      process (mkEnv 1 Real.cos Real.sin (Real.pi / 2)) c6 (fun _ => 0) (fun _ => 0) =
        some (c7, outL', outR') ∧
      ∀ s, s < 2 →
        outL' s = F32.fin ((fun k : Nat => (k : ℝ) + 1) s * Real.cos (Real.pi / 4)) ∧
        outR' s = F32.fin ((fun k : Nat => (k : ℝ) + 1) s * Real.sin (Real.pi / 4)) :=
  end_to_end_center_pan (mkEnv 1 Real.cos Real.sin (Real.pi / 2)) (mkEnv_exactTrig 1)
    (fun _ _ _ => rfl) (fun _ _ _ _ _ hl hr => ⟨hl, hr⟩)
    4 false (fun _ => ()) (zeroMemory (fun _ => ())) 0 (by decide) 2 (by decide)
    (fun k => (k : ℝ) + 1) (fun _ => 0) (fun _ => 0)

end EndToEndSetup

/-! ## Null tone-generator pointers and bypass toggling -/

section NullAndBypass

open StereoChannels MixerOutput

variable {α σ : Type} [LinearOrderedField α]

/-- With a null tone-generator pointer `preProcessInputSampleBuffer` returns before it touches
any member. -/
theorem preProcessInputSampleBuffer_null (E : Env α σ) (i n : Nat) (c : MixingConsole α σ)
    (hi : i < E.nb_inputs) (hn : n ≤ c.BufferSize) (hnull : c.m_tgInputSampleBuffer i = none) :
    preProcessInputSampleBuffer E i n c = some c := by
  unfold preProcessInputSampleBuffer
  simp [assert, hi, hn, hnull]

theorem staleConsole_reached :
    injectInputSamples exampleEnv 0 (some (fun _ => F32.fin (1 / 2)))
      (some (fun _ => F32.fin (1 / 2))) 1 exampleConsole = some staleConsole := by
  unfold injectInputSamples
  have h4 : exampleConsole.BufferSize = 4 := rfl
  have hnb : exampleEnv.nb_inputs = 2 := rfl
  simp only [assert, hnb, h4]
  simp only [show min 1 4 = 1 from rfl]
  simp [staleConsole, store2, store, h4, Left, Right, memcpy]

/-- C11, counterexample: channel `0` of `staleConsole` has a null tone-generator pointer and
scratch buffers starting with `1/2`; `preProcessInputSampleBuffer(0, 1)` returns early and
leaves the state as it was, so entry `0` of both scratch buffers is still `1/2`, not `0`. -/
theorem preProcess_null_keeps_stale_samples :
    injectInputSamples exampleEnv 0 (some (fun _ => F32.fin (1 / 2)))
      (some (fun _ => F32.fin (1 / 2))) 1 exampleConsole = some staleConsole ∧
    staleConsole.m_tgInputSampleBuffer 0 = none ∧
    (1 : Nat) ≤ staleConsole.BufferSize ∧
    preProcessInputSampleBuffer exampleEnv 0 1 staleConsole = some staleConsole ∧
    staleConsole.m_inputSampleBuffer Left 0 0 = F32.fin (1 / 2) ∧
    staleConsole.m_inputSampleBuffer Right 0 0 = F32.fin (1 / 2) ∧
    staleConsole.m_inputSampleBuffer Left 0 0 ≠ 0 ∧
    staleConsole.m_inputSampleBuffer Right 0 0 ≠ 0 := by
  have hL : staleConsole.m_inputSampleBuffer Left 0 0 = F32.fin (1 / 2) := by
    simp [staleConsole, store2, store, Left, Right, memcpy]
  have hR : staleConsole.m_inputSampleBuffer Right 0 0 = F32.fin (1 / 2) := by
    simp [staleConsole, store2, store, Left, Right, memcpy]
  refine ⟨staleConsole_reached, rfl, by decide, ?_, hL, hR, ?_, ?_⟩
  · exact preProcessInputSampleBuffer_null exampleEnv 0 1 staleConsole (by decide) (by decide) rfl
  · rw [hL]; simp [F32.zero_def]
  · rw [hR]; simp [F32.zero_def]

/-- C12: from a bypassed console, `bypass(false)` succeeds, clears the flag, and ends with the
live return sample of every bus other than the main one equal to `0` on both sides, every
channel's two scratch buffers all zero, every effect unit told the new flag and then reset, and
the level matrix, the channel levels and the pans as they were; and in every state `bypass(b)`
with `b` the current flag returns the state unchanged. -/
theorem bypass_false_resets_and_same_flag_is_noop (E : Env α σ) (c : MixingConsole α σ)
    (hb : c.m_bypass = true) :
    (∃ c', bypass E false c = some c' ∧
      c'.m_bypass = false ∧
      (∀ b, b < kFXCount → b ≠ MainOutput →
        c'.m_inputSamples Left (E.nb_inputs + b) = 0 ∧
        c'.m_inputSamples Right (E.nb_inputs + b) = 0) ∧
      (∀ i k, i < E.nb_inputs → k < c.BufferSize →
        c'.m_inputSampleBuffer Left i k = 0 ∧ c'.m_inputSampleBuffer Right i k = 0) ∧
      (∀ b, b < kFXCount →
        c'.m_fx b = (E.fx b).reset ((E.fx b).bypassFXProcess false (c.m_fx b))) ∧
      c'.m_levels = c.m_levels ∧ c'.m_channelLevel = c.m_channelLevel ∧ c'.m_pan = c.m_pan ∧
      c'.BufferSize = c.BufferSize) ∧
    ∀ d : MixingConsole α σ, bypass E d.m_bypass d = some d := by
  constructor
  · refine ⟨bypassCore E false c, bypass_eq E false c, ?_, ?_, ?_, ?_, ?_, ?_, ?_, ?_⟩
    all_goals simp only [bypassCore, hb, resetCore]
    all_goals simp
    · intro b hb1 hb2
      have hlt : ¬ kFXCount ≤ b + 1 := by
        simp only [kFXCount, MainOutput] at hb1 hb2 ⊢; omega
      simp [Left, Right, hlt]
    · intro i k hi hk
      simp [Left, Right, hi, hk]
    · intro b hb1
      simp [hb1]
  · intro d
    rw [bypass_eq]
    simp [bypassCore]

/-- C12 at a concrete input: the two-channel example console with its bypass flag set. -/
theorem bypass_false_resets_and_same_flag_is_noop_witness :
    bypassedConsole.m_bypass = true ∧
    (∃ c', bypass exampleEnv false bypassedConsole = some c' ∧
      c'.m_bypass = false ∧
      (∀ b, b < kFXCount → b ≠ MainOutput →
        c'.m_inputSamples Left (exampleEnv.nb_inputs + b) = 0 ∧
        c'.m_inputSamples Right (exampleEnv.nb_inputs + b) = 0) ∧
      (∀ i k, i < exampleEnv.nb_inputs → k < bypassedConsole.BufferSize →
        c'.m_inputSampleBuffer Left i k = 0 ∧ c'.m_inputSampleBuffer Right i k = 0) ∧
      (∀ b, b < kFXCount →
        c'.m_fx b = (exampleEnv.fx b).reset
          ((exampleEnv.fx b).bypassFXProcess false (bypassedConsole.m_fx b))) ∧
      c'.m_levels = bypassedConsole.m_levels ∧
      c'.m_channelLevel = bypassedConsole.m_channelLevel ∧
      c'.m_pan = bypassedConsole.m_pan ∧
      c'.BufferSize = bypassedConsole.BufferSize) ∧
    ∀ d : MixingConsole ℚ Unit, bypass exampleEnv d.m_bypass d = some d :=
  ⟨rfl, bypass_false_resets_and_same_flag_is_noop exampleEnv bypassedConsole rfl⟩

end NullAndBypass

/-! ## The sample format `FORMAT_FLOAT32` -/

section Float32Format

variable {α : Type} [LinearOrderedField α]

theorem F32.neg_def (a : F32 α) : -a = F32.neg a := rfl

theorem F32.sub_def (a b : F32 α) : a - b = F32.add a (F32.neg b) := rfl

@[simp] theorem F32.fin_sub_fin (a b : α) : (F32.fin a - F32.fin b : F32 α) = F32.fin (a - b) := by
  rw [F32.sub_def]; simp only [F32.neg, F32.add]; rw [sub_eq_add_neg]

theorem constrain_unit_fin (x : α) :
    constrain (F32.fin x) (F32.fin (-1)) (F32.fin 1) = F32.fin (min (max x (-1)) 1) := by
  unfold constrain
  simp only [F32.flt_fin, decide_eq_true_eq]
  by_cases h0 : x < -1
  · have h1 : max x (-1) = -1 := max_eq_right (le_of_lt h0)
    have h2 : min (-1 : α) 1 = -1 := min_eq_left (by norm_num)
    simp [h0, h1, h2]
  · have h1 : max x (-1) = x := max_eq_left (not_lt.mp h0)
    by_cases h3 : 1 < x
    · simp [h0, h1, h3, min_eq_right (le_of_lt h3)]
    · simp [h0, h1, h3, min_eq_left (not_lt.mp h3)]

theorem constrain_unit_idem (x : F32 α) :
    constrain (constrain x (F32.fin (-1)) (F32.fin 1)) (F32.fin (-1)) (F32.fin 1) =
      constrain x (F32.fin (-1)) (F32.fin 1) := by
  cases x with
  | fin a =>
    rw [constrain_unit_fin, constrain_unit_fin]
    congr 1
    have h1 : (-1 : α) ≤ min (max a (-1)) 1 := le_min (le_max_right _ _) (by norm_num)
    rw [max_eq_left h1, min_eq_left (min_le_right _ _)]
  | pinf => simp [constrain, F32.flt]
  | ninf => simp [constrain, F32.flt]
  | nan => simp [constrain, F32.flt]

/-- C20: for `FORMAT_FLOAT32`, `decompress(compress(x))` is `x` itself for every number `x` of
`[-1, 1]`, it is `-1` for every `x < -1` (the infinity `-∞` included) and `1` for every `x > 1`
(`+∞` included), and `compress` is idempotent on every float; a NaN is handed through. -/
theorem float32_format_roundtrip :
    (∀ x : α, -1 ≤ x → x ≤ 1 →
      (DataType.FORMAT_FLOAT32 : DataType α (F32 α)).decompress
        ((DataType.FORMAT_FLOAT32 : DataType α (F32 α)).compress (F32.fin x)) = F32.fin x) ∧
    (∀ x : F32 α, F32.flt x (F32.fin (-1)) = true →
      (DataType.FORMAT_FLOAT32 : DataType α (F32 α)).decompress
        ((DataType.FORMAT_FLOAT32 : DataType α (F32 α)).compress x) = F32.fin (-1)) ∧
    (∀ x : F32 α, F32.flt (F32.fin 1) x = true →
      (DataType.FORMAT_FLOAT32 : DataType α (F32 α)).decompress
        ((DataType.FORMAT_FLOAT32 : DataType α (F32 α)).compress x) = F32.fin 1) ∧
    (∀ x : F32 α,
      (DataType.FORMAT_FLOAT32 : DataType α (F32 α)).compress
        ((DataType.FORMAT_FLOAT32 : DataType α (F32 α)).decompress
          ((DataType.FORMAT_FLOAT32 : DataType α (F32 α)).compress x)) =
      (DataType.FORMAT_FLOAT32 : DataType α (F32 α)).compress x) ∧
    (DataType.FORMAT_FLOAT32 : DataType α (F32 α)).decompress
      ((DataType.FORMAT_FLOAT32 : DataType α (F32 α)).compress F32.nan) = F32.nan := by
  refine ⟨?_, ?_, ?_, ?_, ?_⟩
  · intro x h1 h2
    show constrain (F32.fin x) (F32.fin (-1)) (F32.fin 1) = F32.fin x
    rw [constrain_unit_fin, max_eq_left h1, min_eq_left h2]
  · intro x hx
    show constrain x (F32.fin (-1)) (F32.fin 1) = F32.fin (-1)
    simp [constrain, hx]
  · intro x hx
    show constrain x (F32.fin (-1)) (F32.fin 1) = F32.fin 1
    unfold constrain
    have hnot : F32.flt x (F32.fin (-1)) = false := by
      cases x with
      | fin a =>
        simp only [F32.flt_fin, decide_eq_true_eq] at hx
        simp only [F32.flt_fin, decide_eq_false_iff_not, not_lt]
        exact le_trans (by norm_num) (le_of_lt hx)
      | pinf => rfl
      | ninf => simp [F32.flt] at hx
      | nan => rfl
    simp [hnot, hx]
  · intro x
    exact constrain_unit_idem x
  · show constrain F32.nan (F32.fin (-1)) (F32.fin 1) = (F32.nan : F32 α)
    simp [constrain, F32.flt]

/-- C20 at concrete inputs over `ℚ`: `1/2` is returned as it is, `-3` gives `-1`, `5` gives
`1`. -/
theorem float32_format_roundtrip_witness :
    (DataType.FORMAT_FLOAT32 : DataType ℚ (F32 ℚ)).decompress
      ((DataType.FORMAT_FLOAT32 : DataType ℚ (F32 ℚ)).compress (F32.fin (1 / 2))) =
        F32.fin (1 / 2) ∧
    (DataType.FORMAT_FLOAT32 : DataType ℚ (F32 ℚ)).decompress
      ((DataType.FORMAT_FLOAT32 : DataType ℚ (F32 ℚ)).compress (F32.fin (-3))) = F32.fin (-1) ∧
    (DataType.FORMAT_FLOAT32 : DataType ℚ (F32 ℚ)).decompress
      ((DataType.FORMAT_FLOAT32 : DataType ℚ (F32 ℚ)).compress (F32.fin 5)) = F32.fin 1 :=
  ⟨float32_format_roundtrip.1 (1 / 2) (by norm_num) (by norm_num),
   float32_format_roundtrip.2.1 (F32.fin (-3)) (by simp [F32.flt]),
   float32_format_roundtrip.2.2.1 (F32.fin 5) (by simp [F32.flt])⟩

end Float32Format

/-! ## The delay-line engine: layout, `start`, `read` and `write` -/

section EngineFacts

open FxEngine

variable {α T L : Type} [LinearOrderedField α]

/-- The write pointer `start` leaves behind. -/
theorem start_write_ptr (P : FxEnv α T L) (e : FxEngine T L) (c : Context α) :
    (start P e c).1.write_ptr_ =
      (if e.write_ptr_ - 1 < 0 then e.write_ptr_ - 1 + (P.size : Int) else e.write_ptr_ - 1) ∧
    (start P e c).2.write_ptr_ = (start P e c).1.write_ptr_ ∧
    (start P e c).1.buffer_ = e.buffer_ ∧
    (start P e c).2.buffer_ = Ptr.array ∧
    (start P e c).2.accumulator_ = 0 ∧
    (start P e c).2.previous_read_ = 0 := by
  unfold start
  have h2 : List.range LFOIndex.kLFOCount = [0, 1] := rfl
  cases P.enable_lfo <;> simp [h2]

theorem start_lfo (P : FxEnv α T L) (e : FxEngine T L) (c : Context α) :
    (P.enable_lfo = true → ∀ i, i < LFOIndex.kLFOCount →
      (start P e c).2.lfo_value_ i = (P.lfoProcess (e.lfo_ i)).2 ∧
      (start P e c).1.lfo_ i = (P.lfoProcess (e.lfo_ i)).1) ∧
    (P.enable_lfo = false →
      (start P e c).2.lfo_value_ = c.lfo_value_ ∧ (start P e c).1.lfo_ = e.lfo_) := by
  unfold start
  have h2 : List.range LFOIndex.kLFOCount = [0, 1] := rfl
  constructor
  · intro h i hi
    have hi2 : i = 0 ∨ i = 1 := by
      simp only [LFOIndex.kLFOCount] at hi; omega
    rcases hi2 with rfl | rfl <;> simp [h, h2, store]
  · intro h
    simp [h]

theorem wrap_eq (w : Int) (n : Nat) (h0 : 0 ≤ w) (h1 : w < n) :
    (if w - 1 < 0 then w - 1 + (n : Int) else w - 1) = (w - 1) % (n : Int) ∧
    0 ≤ (w - 1) % (n : Int) ∧ (w - 1) % (n : Int) < n := by
  have hn : (0 : Int) < n := by omega
  refine ⟨?_, Int.emod_nonneg _ (by omega), Int.emod_lt_of_pos _ hn⟩
  split_ifs with h
  · rw [← Int.add_emod_self, Int.emod_eq_of_lt (by omega) (by omega)]
  · rw [Int.emod_eq_of_lt (by omega) (by omega)]

theorem starts_facts (P : FxEnv α T L) (k : Nat) (s : FxEngine T L × Context α)
    (h0 : 0 ≤ s.1.write_ptr_) (h1 : s.1.write_ptr_ < P.size)
    (hc : s.2.write_ptr_ = s.1.write_ptr_) (hp : s.2.buffer_ = Ptr.array) :
    (starts P k s).1.write_ptr_ = (s.1.write_ptr_ - k) % (P.size : Int) ∧
    (starts P k s).1.buffer_ = s.1.buffer_ ∧
    (starts P k s).2.write_ptr_ = (starts P k s).1.write_ptr_ ∧
    (starts P k s).2.buffer_ = Ptr.array := by
  induction k generalizing s with
  | zero =>
    refine ⟨?_, rfl, hc, hp⟩
    simp only [starts, Nat.cast_zero, sub_zero]
    rw [Int.emod_eq_of_lt h0 h1]
  | succ n ih =>
    obtain ⟨hw, hc1, hb1, hp1, -, -⟩ := start_write_ptr P s.1 s.2
    obtain ⟨hwr, hge, hlt⟩ := wrap_eq s.1.write_ptr_ P.size h0 h1
    rw [hwr] at hw
    have ih2 := ih (start P s.1 s.2) (by rw [hw]; exact hge) (by rw [hw]; exact hlt) hc1 hp1
    simp only [starts]
    refine ⟨?_, ?_, ih2.2.2.1, ih2.2.2.2⟩
    · have e : s.1.write_ptr_ - ((n + 1 : Nat) : Int) = (s.1.write_ptr_ - 1) - (n : Int) := by
        push_cast; ring
      rw [ih2.1, hw, e, Int.sub_emod ((s.1.write_ptr_ - 1) % (P.size : Int)), Int.emod_emod,
        ← Int.sub_emod]
    · rw [ih2.2.1, hb1]

theorem maskIndex_pow2 (P : FxEnv α T L) (m : Nat) (hm : m ≤ 32) (hs : P.size = 2 ^ m)
    (x : Int) : maskIndex P x = (x % (P.size : Int)).toNat := by
  unfold maskIndex MASK
  rw [hs, Nat.and_pow_two_sub_one_eq_mod]
  have h1 : (0 : Int) ≤ x % 4294967296 := Int.emod_nonneg _ (by norm_num)
  have hpos : (0 : Int) < ((2 ^ m : Nat) : Int) := by positivity
  have h2 : (0 : Int) ≤ x % ((2 ^ m : Nat) : Int) := Int.emod_nonneg _ (by omega)
  apply Int.ofNat.inj
  show (((x % 4294967296).toNat % 2 ^ m : Nat) : Int) = ((x % ((2 ^ m : Nat) : Int)).toNat : Int)
  rw [Int.toNat_of_nonneg h2, Int.natCast_mod, Int.toNat_of_nonneg h1]
  apply Int.emod_emod_of_dvd
  have : (4294967296 : Int) = ((2 ^ m : Nat) : Int) * ((2 ^ (32 - m) : Nat) : Int) := by
    rw [← Nat.cast_mul, ← pow_add]
    have : m + (32 - m) = 32 := by omega
    rw [this]; norm_num
  exact Dvd.intro _ this.symm

theorem maskIndex_lt (P : FxEnv α T L) (hs : 0 < P.size) (x : Int) : maskIndex P x < P.size := by
  unfold maskIndex MASK
  have := @Nat.and_le_right ((x % 4294967296).toNat) (P.size - 1)
  omega

theorem write_eq (P : FxEnv α T L) (D : Segment) (offset : Int) (scale : F32 α)
    (e : FxEngine T L) (c : Context α) (hfit : D.base + D.length ≤ (P.size : Int))
    (hb : c.buffer_ = Ptr.array) :
    Context.write P D offset scale e c =
      some (⟨store e.buffer_
                (if offset = -1 then maskIndex P (c.write_ptr_ + D.base + D.length - 1)
                 else maskIndex P (c.write_ptr_ + D.base + offset))
                (P.format.compress c.accumulator_), e.write_ptr_, e.lfo_⟩,
            ⟨c.accumulator_ * scale, c.previous_read_, c.lfo_value_, c.buffer_,
              c.write_ptr_⟩) := by
  unfold Context.write
  simp only [assert, hfit, hb, decide_True, if_true, Option.bind_eq_bind, Option.some_bind,
    Option.pure_def]
  split_ifs <;> rfl

theorem read_eq (P : FxEnv α T L) (D : Segment) (offset : Int) (scale : F32 α)
    (e : FxEngine T L) (c : Context α) (hfit : D.base + D.length ≤ (P.size : Int))
    (hb : c.buffer_ = Ptr.array) :
    Context.read P D offset scale e c =
      some (e,
        ⟨c.accumulator_ + P.format.decompress (e.buffer_
            (if offset = -1 then maskIndex P (c.write_ptr_ + D.base + D.length - 1)
             else maskIndex P (c.write_ptr_ + D.base + offset))) * scale,
          P.format.decompress (e.buffer_
            (if offset = -1 then maskIndex P (c.write_ptr_ + D.base + D.length - 1)
             else maskIndex P (c.write_ptr_ + D.base + offset))),
          c.lfo_value_, c.buffer_, c.write_ptr_⟩) := by
  unfold Context.read
  simp only [assert, hfit, hb, decide_True, if_true, Option.bind_eq_bind, Option.some_bind,
    Option.pure_def]
  split_ifs <;> rfl

theorem read_after_starts (P : FxEnv α T L) (m : Nat) (hm : m ≤ 32) (hs : P.size = 2 ^ m)
    (D : Segment) (hfit : D.base + D.length ≤ (P.size : Int)) (scale : F32 α) (k : Nat)
    (s2 : FxEngine T L × Context α) (w : T)
    (h0 : 0 ≤ s2.1.write_ptr_) (h1 : s2.1.write_ptr_ < P.size)
    (hc : s2.2.write_ptr_ = s2.1.write_ptr_) (hp : s2.2.buffer_ = Ptr.array)
    (hbuf : s2.1.buffer_ (maskIndex P (s2.1.write_ptr_ + D.base + 0)) = w) :
    (Context.read P D (k : Int) scale (starts P k s2).1 (starts P k s2).2).bind
      (fun s4 => some s4.2.previous_read_) = some (P.format.decompress w) := by
  obtain ⟨hk1, hk2, hk3, hk4⟩ := starts_facts P k s2 h0 h1 hc hp
  rw [read_eq P D k scale _ _ hfit hk4]
  have hne : ((k : Int) = -1) = False := by
    apply propext; constructor
    · intro h; omega
    · intro h; exact h.elim
  simp only [Option.some_bind, hne, if_false, hk2, hk3, hk1]
  rw [maskIndex_pow2 P m hm hs] at hbuf ⊢
  have hidx : ((s2.1.write_ptr_ - (k : Int)) % (P.size : Int) + D.base + k)
      % (P.size : Int) = (s2.1.write_ptr_ + D.base + 0) % (P.size : Int) := by
    rw [add_assoc, Int.emod_add_emod]
    congr 1
    ring
  rw [hidx, hbuf]

/-- C19, amended: with a power-of-two `size`, a segment that fits and an engine whose write
pointer is in range, after `start()`, `load(v)` and `write(D, 0, s)`, performing `k` further
`start()` calls (nothing else in between) and then `read(D, k, scale)`, at offset `k` and not
at offset `0`, yields `previous_read_ = decompress(compress(v))`, for every `k`; with
`k = D.length` this is the delay by the configured length. -/
theorem delay_read_at_offset_k (P : FxEnv α T L) (m : Nat) (hm : m ≤ 31) (hs : P.size = 2 ^ m)
    (D : Segment) (hfit : D.base + D.length ≤ (P.size : Int)) (v s scale : F32 α) (k : Nat)
    (e : FxEngine T L) (c : Context α) (h0 : 0 ≤ e.write_ptr_) (h1 : e.write_ptr_ < P.size) :
    writeThenRead P D v s scale k (k : Int) e c =
      some (P.format.decompress (P.format.compress v)) := by
  obtain ⟨hw, hc1, hb1, hp1, -, -⟩ := start_write_ptr P e c
  obtain ⟨hwr, hge, hlt⟩ := wrap_eq e.write_ptr_ P.size h0 h1
  rw [hwr] at hw
  unfold writeThenRead
  simp only []
  rw [write_eq P D 0 s _ _ hfit (by simpa [Context.load] using hp1)]
  simp only [Option.bind_eq_bind, Option.some_bind, Option.pure_def]
  have hne0 : ((0 : Int) = -1) = False := by
    apply propext; constructor
    · intro h; omega
    · intro h; exact h.elim
  apply read_after_starts P m (by omega) hs D hfit scale k
  · simp only [hw]; exact hge
  · simp only [hw]; exact hlt
  · simp only [Context.load]; exact hc1
  · simp only [Context.load]; exact hp1
  · simp only [hne0, if_false, Context.load, hc1, store_same]


theorem DelayLine_closed (M : Reserve) (i : Nat) (hi : i < M.length) :
    DelayLine M i = some { length := M.getD i 0,
                           base := ∑ j in Finset.range i, (M.getD j 0 + 1) } := by
  induction i generalizing M with
  | zero =>
    cases M with
    | nil => simp at hi
    | cons l tail => simp [DelayLine]
  | succ n ih =>
    cases M with
    | nil => simp at hi
    | cons l tail =>
      have h1 : n < tail.length := by simpa using hi
      have h2 : n < (l :: tail).length := by simp; omega
      simp only [DelayLine, ih tail h1, ih (l :: tail) h2, Option.bind_eq_bind, Option.some_bind,
        Option.pure_def]
      rw [Finset.sum_range_succ]
      simp
      ring

theorem DelayLine_base_lt (M : Reserve) (hnn : ∀ l ∈ M, 0 ≤ l) (i j : Nat) (hij : i < j)
    (hj : j < M.length) :
    (∑ k in Finset.range i, (M.getD k 0 + 1)) + M.getD i 0 <
      ∑ k in Finset.range j, (M.getD k 0 + 1) := by
  have hk : ∀ k, 0 ≤ M.getD k 0 := by
    intro k
    by_cases h : k < M.length
    · rw [List.getD_eq_getElem _ _ h]; exact hnn _ (List.getElem_mem _)
    · rw [List.getD_eq_default _ _ (not_lt.mp h)]
  induction j with
  | zero => omega
  | succ n ih =>
    rw [Finset.sum_range_succ]
    by_cases h : i = n
    · subst h; omega
    · have := ih (by omega) (by omega)
      have := hk n
      omega

/-- C13: for every reservation list `M` of lengths `l_0, l_1, ...`, every `DelayLine<M, i>`
with `i` below the number of reservations has `length = l_i` and
`base = Σ_{j < i} (l_j + 1)`; hence, the lengths being non-negative, for `i < j` the range
`[base_i, base_i + l_i]` ends before `base_j`, and no index lies in the ranges of two distinct
segments. -/
theorem delay_line_layout (M : Reserve) :
    (∀ i, i < M.length →
      DelayLine M i = some { length := M.getD i 0,
                             base := ∑ j in Finset.range i, (M.getD j 0 + 1) }) ∧
    ((∀ l ∈ M, 0 ≤ l) → ∀ i j Di Dj, i < j → j < M.length →
      DelayLine M i = some Di → DelayLine M j = some Dj →
      Di.base + Di.length < Dj.base ∧
      ∀ x : Int, ¬ (Di.base ≤ x ∧ x ≤ Di.base + Di.length ∧
                    Dj.base ≤ x ∧ x ≤ Dj.base + Dj.length)) := by
  refine ⟨fun i hi => DelayLine_closed M i hi, ?_⟩
  intro hnn i j Di Dj hij hj hi hDj
  rw [DelayLine_closed M i (by omega)] at hi
  rw [DelayLine_closed M j hj] at hDj
  have hlt := DelayLine_base_lt M hnn i j hij hj
  cases hi
  cases hDj
  refine ⟨hlt, ?_⟩
  intro x hx
  simp only at hx
  omega

/-- C13 at a concrete input: the reservations `3, 5, 2`. -/
theorem delay_line_layout_witness :
    (∀ l ∈ ([3, 5, 2] : Reserve), 0 ≤ l) ∧
    (∀ i, i < ([3, 5, 2] : Reserve).length →
      DelayLine [3, 5, 2] i = some { length := ([3, 5, 2] : Reserve).getD i 0,
                                     base := ∑ j in Finset.range i,
                                       (([3, 5, 2] : Reserve).getD j 0 + 1) }) ∧
    (∀ i j Di Dj, i < j → j < ([3, 5, 2] : Reserve).length →
      DelayLine [3, 5, 2] i = some Di → DelayLine [3, 5, 2] j = some Dj →
      Di.base + Di.length < Dj.base ∧
      ∀ x : Int, ¬ (Di.base ≤ x ∧ x ≤ Di.base + Di.length ∧
                    Dj.base ≤ x ∧ x ≤ Dj.base + Dj.length)) :=
  ⟨by decide, (delay_line_layout [3, 5, 2]).1, (delay_line_layout [3, 5, 2]).2 (by decide)⟩

/-- C15: from an engine state with `0 ≤ write_ptr_ < size`, `start(c)` moves the write pointer
to `(write_ptr_ - 1) mod size` (that is `size - 1` from `0`, one less otherwise), which is in
range again; it binds `c` to the engine's array and to the new pointer, sets `c`'s accumulator
and previous read to `0` and leaves every buffer slot as it was.  `clear()` sets the pointer to
`0`, so it is in range in every state reached from `clear()` by `start()` calls. -/
theorem start_decrements_and_binds (P : FxEnv α T L) (e : FxEngine T L) (c : Context α)
    (h0 : 0 ≤ e.write_ptr_) (h1 : e.write_ptr_ < P.size) :
    (start P e c).1.write_ptr_ = (e.write_ptr_ - 1) % (P.size : Int) ∧
    (e.write_ptr_ = 0 → (start P e c).1.write_ptr_ = (P.size : Int) - 1) ∧
    (0 < e.write_ptr_ → (start P e c).1.write_ptr_ = e.write_ptr_ - 1) ∧
    (0 ≤ (start P e c).1.write_ptr_ ∧ (start P e c).1.write_ptr_ < P.size) ∧
    (start P e c).2.buffer_ = Ptr.array ∧
    (start P e c).2.write_ptr_ = (start P e c).1.write_ptr_ ∧
    (start P e c).2.accumulator_ = 0 ∧
    (start P e c).2.previous_read_ = 0 ∧
    (start P e c).1.buffer_ = e.buffer_ ∧
    (clear P e).write_ptr_ = 0 ∧
    (∀ (k : Nat) (e0 : FxEngine T L) (c0 : Context α),
      0 ≤ (starts P k (clear P e0, c0)).1.write_ptr_ ∧
      (starts P k (clear P e0, c0)).1.write_ptr_ < P.size ∧
      (starts P k (clear P e0, c0)).1.buffer_ = (clear P e0).buffer_) := by
  obtain ⟨hw, hc1, hb1, hp1, ha, hr⟩ := start_write_ptr P e c
  obtain ⟨hwr, hge, hlt⟩ := wrap_eq e.write_ptr_ P.size h0 h1
  have hpos : (0 : Int) < P.size := by omega
  refine ⟨by rw [hw, hwr], ?_, ?_, ?_, hp1, hc1, ha, hr, hb1, rfl, ?_⟩
  · intro hz
    rw [hw, if_pos (by omega)]; omega
  · intro hz
    rw [hw, if_neg (by omega)]
  · rw [hw, hwr]; exact ⟨hge, hlt⟩
  · intro k e0 c0
    have hind : ∀ (n : Nat) (s : FxEngine T L × Context α),
        0 ≤ s.1.write_ptr_ → s.1.write_ptr_ < P.size →
        0 ≤ (starts P n s).1.write_ptr_ ∧ (starts P n s).1.write_ptr_ < P.size ∧
        (starts P n s).1.buffer_ = s.1.buffer_ := by
      intro n
      induction n with
      | zero => intro s hs0 hs1; exact ⟨hs0, hs1, rfl⟩
      | succ n ih =>
        intro s hs0 hs1
        obtain ⟨hw2, -, hb2, -, -, -⟩ := start_write_ptr P s.1 s.2
        obtain ⟨hwr2, hge2, hlt2⟩ := wrap_eq s.1.write_ptr_ P.size hs0 hs1
        rw [hwr2] at hw2
        have := ih (start P s.1 s.2) (by rw [hw2]; exact hge2) (by rw [hw2]; exact hlt2)
        simp only [starts]
        exact ⟨this.1, this.2.1, by rw [this.2.2, hb2]⟩
    exact hind k (clear P e0, c0) (le_refl _) hpos

/-- C16: on a context bound to the engine's array and a segment that fits, `read(D, offset,
scale)` succeeds, returns the engine unchanged (no slot is written), sets `previous_read_` to
the decoded slot at `(write_ptr_ + D.base + offset) & MASK`, or at
`(write_ptr_ + D.base + D.length - 1) & MASK` when `offset = -1`, and adds that value times
`scale` to the accumulator. -/
theorem read_decodes_slot (P : FxEnv α T L) (D : Segment) (offset : Int) (scale : F32 α)
    (e : FxEngine T L) (c : Context α) (hfit : D.base + D.length ≤ (P.size : Int))
    (hb : c.buffer_ = Ptr.array) :
    ∃ c', Context.read P D offset scale e c = some (e, c') ∧
      c'.previous_read_ = P.format.decompress (e.buffer_
        (if offset = -1 then maskIndex P (c.write_ptr_ + D.base + D.length - 1)
         else maskIndex P (c.write_ptr_ + D.base + offset))) ∧
      c'.accumulator_ = c.accumulator_ + c'.previous_read_ * scale ∧
      c'.write_ptr_ = c.write_ptr_ ∧ c'.buffer_ = c.buffer_ ∧ c'.lfo_value_ = c.lfo_value_ :=
  ⟨_, read_eq P D offset scale e c hfit hb, rfl, rfl, rfl, rfl, rfl⟩

/-- C17: on a context bound to the engine's array and a segment that fits, `write(D, offset,
scale)` succeeds, stores `compress(accumulator_)` (the accumulator before scaling) in the slot
`(write_ptr_ + D.base + offset) & MASK`, or `(write_ptr_ + D.base + D.length - 1) & MASK` when
`offset = -1`, leaves every other slot, the write pointers and `previous_read_` unchanged, and
multiplies the accumulator by `scale`. -/
theorem write_stores_one_slot (P : FxEnv α T L) (D : Segment) (offset : Int) (scale : F32 α)
    (e : FxEngine T L) (c : Context α) (hfit : D.base + D.length ≤ (P.size : Int))
    (hb : c.buffer_ = Ptr.array) :
    ∃ e' c', Context.write P D offset scale e c = some (e', c') ∧
      e'.buffer_ (if offset = -1 then maskIndex P (c.write_ptr_ + D.base + D.length - 1)
                  else maskIndex P (c.write_ptr_ + D.base + offset)) =
        P.format.compress c.accumulator_ ∧
      (∀ k, k ≠ (if offset = -1 then maskIndex P (c.write_ptr_ + D.base + D.length - 1)
                 else maskIndex P (c.write_ptr_ + D.base + offset)) →
        e'.buffer_ k = e.buffer_ k) ∧
      e'.write_ptr_ = e.write_ptr_ ∧ e'.lfo_ = e.lfo_ ∧
      c'.accumulator_ = c.accumulator_ * scale ∧
      c'.previous_read_ = c.previous_read_ ∧
      c'.write_ptr_ = c.write_ptr_ ∧ c'.buffer_ = c.buffer_ ∧ c'.lfo_value_ = c.lfo_value_ :=
  ⟨_, _, write_eq P D offset scale e c hfit hb, store_same _ _ _,
    fun _ hk => store_ne _ _ _ _ hk, rfl, rfl, rfl, rfl, rfl, rfl, rfl⟩

theorem startedEngine_write_ptr : startedEngine.write_ptr_ = 3 := by
  simp [startedEngine, start, clear, exampleFx]

theorem startedContext_fields :
    startedContext.buffer_ = Ptr.array ∧ startedContext.write_ptr_ = 3 := by
  simp [startedContext, start, clear, exampleFx]

/-- C15 at a concrete input: the four-slot example engine right after `clear()`. -/
theorem start_decrements_and_binds_witness :
    (0 : Int) ≤ (clear exampleFx zeroEngine).write_ptr_ ∧
    (clear exampleFx zeroEngine).write_ptr_ < exampleFx.size ∧
    (start exampleFx (clear exampleFx zeroEngine) zeroContext).1.write_ptr_ =
      ((clear exampleFx zeroEngine).write_ptr_ - 1) % (exampleFx.size : Int) ∧
    (start exampleFx (clear exampleFx zeroEngine) zeroContext).1.write_ptr_ = 3 ∧
    (start exampleFx (clear exampleFx zeroEngine) zeroContext).2.buffer_ = Ptr.array ∧
    (start exampleFx (clear exampleFx zeroEngine) zeroContext).2.write_ptr_ = 3 :=
  ⟨by decide, by decide,
   (start_decrements_and_binds exampleFx (clear exampleFx zeroEngine) zeroContext
      (by decide) (by decide)).1,
   (start_decrements_and_binds exampleFx (clear exampleFx zeroEngine) zeroContext
      (by decide) (by decide)).2.1 rfl,
   (start_decrements_and_binds exampleFx (clear exampleFx zeroEngine) zeroContext
      (by decide) (by decide)).2.2.2.2.1,
   by rw [(start_decrements_and_binds exampleFx (clear exampleFx zeroEngine) zeroContext
      (by decide) (by decide)).2.2.2.2.2.1]
      exact (start_decrements_and_binds exampleFx (clear exampleFx zeroEngine) zeroContext
        (by decide) (by decide)).2.1 rfl⟩

/-- C16 at a concrete input: a read at offset `0` of the segment `(base 0, length 1)` on the
started example engine. -/
theorem read_decodes_slot_witness :
    ((0 : Int) + 1 ≤ (exampleFx.size : Int)) ∧ startedContext.buffer_ = Ptr.array ∧
    ∃ c', Context.read exampleFx { length := 1, base := 0 } 0 1 startedEngine startedContext =
        some (startedEngine, c') ∧
      c'.previous_read_ = exampleFx.format.decompress (startedEngine.buffer_
        (if (0 : Int) = -1 then maskIndex exampleFx (startedContext.write_ptr_ + 0 + 1 - 1)
         else maskIndex exampleFx (startedContext.write_ptr_ + 0 + 0))) ∧
      c'.accumulator_ = startedContext.accumulator_ + c'.previous_read_ * 1 ∧
      c'.write_ptr_ = startedContext.write_ptr_ ∧ c'.buffer_ = startedContext.buffer_ ∧
      c'.lfo_value_ = startedContext.lfo_value_ :=
  ⟨by decide, rfl,
   read_decodes_slot exampleFx { length := 1, base := 0 } 0 1 startedEngine startedContext
     (by decide) rfl⟩

/-- C17 at a concrete input: a write at offset `-1` of the segment `(base 0, length 1)` on the
started example engine. -/
theorem write_stores_one_slot_witness :
    ((0 : Int) + 1 ≤ (exampleFx.size : Int)) ∧ startedContext.buffer_ = Ptr.array ∧
    ∃ e' c', Context.write exampleFx { length := 1, base := 0 } (-1) 1 startedEngine
        (Context.load (F32.fin (1 / 2)) startedContext) = some (e', c') ∧
      e'.buffer_ (if (-1 : Int) = -1
          then maskIndex exampleFx
            ((Context.load (F32.fin (1 / 2)) startedContext).write_ptr_ + 0 + 1 - 1)
          else maskIndex exampleFx
            ((Context.load (F32.fin (1 / 2)) startedContext).write_ptr_ + 0 + -1)) =
        exampleFx.format.compress (Context.load (F32.fin (1 / 2)) startedContext).accumulator_ ∧
      (∀ k, k ≠ (if (-1 : Int) = -1
          then maskIndex exampleFx
            ((Context.load (F32.fin (1 / 2)) startedContext).write_ptr_ + 0 + 1 - 1)
          else maskIndex exampleFx
            ((Context.load (F32.fin (1 / 2)) startedContext).write_ptr_ + 0 + -1)) →
        e'.buffer_ k = startedEngine.buffer_ k) ∧
      e'.write_ptr_ = startedEngine.write_ptr_ ∧ e'.lfo_ = startedEngine.lfo_ ∧
      c'.accumulator_ = (Context.load (F32.fin (1 / 2)) startedContext).accumulator_ * 1 ∧
      c'.previous_read_ = (Context.load (F32.fin (1 / 2)) startedContext).previous_read_ ∧
      c'.write_ptr_ = (Context.load (F32.fin (1 / 2)) startedContext).write_ptr_ ∧
      c'.buffer_ = (Context.load (F32.fin (1 / 2)) startedContext).buffer_ ∧
      c'.lfo_value_ = (Context.load (F32.fin (1 / 2)) startedContext).lfo_value_ :=
  ⟨by decide, rfl,
   write_stores_one_slot exampleFx { length := 1, base := 0 } (-1) 1 startedEngine
     (Context.load (F32.fin (1 / 2)) startedContext) (by decide) rfl⟩

/-- C19, amended, at a concrete input: the four-slot example engine, the segment
`(base 0, length 1)` and the value `1/2`, read back at offset `1` after one further `start`. -/
theorem delay_read_at_offset_k_witness :
    (2 : Nat) ≤ 31 ∧ exampleFx.size = 2 ^ 2 ∧ ((0 : Int) + 1 ≤ (exampleFx.size : Int)) ∧
    (0 : Int) ≤ (clear exampleFx zeroEngine).write_ptr_ ∧
    (clear exampleFx zeroEngine).write_ptr_ < exampleFx.size ∧
    writeThenRead exampleFx { length := 1, base := 0 } (F32.fin (1 / 2)) 1 1 1 ((1 : Nat) : Int)
        (clear exampleFx zeroEngine) (Context.construct exampleFx zeroContext) =
      some (exampleFx.format.decompress (exampleFx.format.compress (F32.fin (1 / 2)))) :=
  ⟨by decide, rfl, by decide, by decide, by decide,
   delay_read_at_offset_k exampleFx 2 (by decide) rfl { length := 1, base := 0 } (by decide)
     (F32.fin (1 / 2)) 1 1 1 (clear exampleFx zeroEngine)
     (Context.construct exampleFx zeroContext) (by decide) (by decide)⟩

/-- C19 refuted on the code: on the four-slot example engine with the segment
`DelayLine<Reserve<1>, 0>` (base `0`, length `1`) and `v = 1/2`, after `start()`, `load(v)`,
`write(D, 0, 1)`, exactly one further `start()` and `read(D, 0, 1)`, `previous_read_` is `0`,
the content of the neighbouring slot, and not `decompress(compress(v)) = 1/2`. -/
theorem read_at_offset_zero_misses_written_value :
    DelayLine [1] 0 = some { length := 1, base := 0 } ∧
    writeThenRead exampleFx { length := 1, base := 0 } (F32.fin (1 / 2)) 1 1 1 0
        (clear exampleFx zeroEngine) (Context.construct exampleFx zeroContext) = some 0 ∧
    exampleFx.format.decompress (exampleFx.format.compress (F32.fin (1 / 2))) =
      F32.fin (1 / 2) ∧
    (0 : F32 ℚ) ≠ F32.fin (1 / 2) := by
  refine ⟨rfl, ?_, ?_, ?_⟩
  · simp [writeThenRead, starts, start, clear, Context.write, Context.read, Context.load,
      Context.construct, assert, exampleFx, zeroEngine, zeroContext, maskIndex, MASK, store,
      DataType.FORMAT_FLOAT32]
    intro h
    exact absurd h (by decide)
  · show constrain (F32.fin (1 / 2)) (F32.fin (-1)) (F32.fin 1) = F32.fin (1 / 2)
    rw [constrain_unit_fin]
    norm_num
  · simp [F32.zero_def]

end EngineFacts

/-! ## The delay-line engine: interpolation and the capacity check -/

section EngineInterpolate

open FxEngine

variable {α T L : Type} [LinearOrderedField α] [FloorRing α]

theorem toInt32_fin_nonneg (o : α) (ho : 0 ≤ o) (hmax : o < 2147483648) :
    toInt32 (F32.fin o) = some ⌊o⌋ := by
  unfold toInt32
  have h1 : (0 : Int) ≤ ⌊o⌋ := Int.floor_nonneg.mpr ho
  have h2 : ⌊o⌋ < 2147483648 := by
    rw [Int.floor_lt]; exact_mod_cast hmax
  simp only [ho, if_true]
  rw [if_pos ⟨by omega, by omega⟩]

theorem interpolate_eq (P : FxEnv α T L) (D : Segment) (o : α) (scale : F32 α)
    (e : FxEngine T L) (c : Context α) (ho : 0 ≤ o) (hmax : o < 2147483648)
    (hfit : D.base + D.length ≤ (P.size : Int)) (hb : c.buffer_ = Ptr.array) :
    Context.interpolate P D (F32.fin o) scale e c =
      some (e,
        ⟨c.accumulator_ +
          (P.format.decompress (e.buffer_ (maskIndex P (c.write_ptr_ + ⌊o⌋ + D.base))) +
            (P.format.decompress (e.buffer_ (maskIndex P (c.write_ptr_ + ⌊o⌋ + D.base + 1))) -
              P.format.decompress (e.buffer_ (maskIndex P (c.write_ptr_ + ⌊o⌋ + D.base)))) *
            F32.fin (o - (⌊o⌋ : α))) * scale,
         P.format.decompress (e.buffer_ (maskIndex P (c.write_ptr_ + ⌊o⌋ + D.base))) +
            (P.format.decompress (e.buffer_ (maskIndex P (c.write_ptr_ + ⌊o⌋ + D.base + 1))) -
              P.format.decompress (e.buffer_ (maskIndex P (c.write_ptr_ + ⌊o⌋ + D.base)))) *
            F32.fin (o - (⌊o⌋ : α)),
         c.lfo_value_, c.buffer_, c.write_ptr_⟩) := by
  unfold Context.interpolate MAKE_INTEGRAL_FRACTIONAL
  simp only [assert, hfit, hb, decide_True, if_true, Option.bind_eq_bind, Option.some_bind,
    Option.pure_def, toInt32_fin_nonneg o ho hmax, ofInt32, F32.fin_sub_fin]

theorem interpolateLFO_eq (P : FxEnv α T L) (D : Segment) (offset : F32 α) (index : Nat)
    (amplitude scale : F32 α) (e : FxEngine T L) (c : Context α)
    (hi : index < LFOIndex.kLFOCount) :
    Context.interpolateLFO P D offset index amplitude scale e c =
      Context.interpolate P D (offset + amplitude * c.lfo_value_ index) scale e c := by
  unfold Context.interpolateLFO Context.interpolate
  simp only [assert, hi, decide_True, if_true, Option.bind_eq_bind, Option.some_bind]


/-- C18: on a context bound to the engine's array and a segment that fits, for a number
`o ≥ 0` (below `2^31`, so that its integer part is an `int32_t`) with integer part `n = ⌊o⌋`
and fractional part `f = o - ⌊o⌋`, `interpolate(D, o, scale)` succeeds without touching the
engine, sets `previous_read_` to `x = a + (b - a) * f`, where `a` and `b` are the decoded slots
at `(write_ptr_ + n + D.base) & MASK` and `(write_ptr_ + n + D.base + 1) & MASK`, and adds
`x * scale` to the accumulator; the overload with an LFO is the same call with the offset
`offset + amplitude * lfo_value_[index]`. -/
theorem interpolate_linear (P : FxEnv α T L) (D : Segment) (o : α) (scale : F32 α)
    (e : FxEngine T L) (c : Context α) (ho : 0 ≤ o) (hmax : o < 2147483648)
    (hfit : D.base + D.length ≤ (P.size : Int)) (hb : c.buffer_ = Ptr.array) :
    (∃ c', Context.interpolate P D (F32.fin o) scale e c = some (e, c') ∧
      c'.previous_read_ =
        P.format.decompress (e.buffer_ (maskIndex P (c.write_ptr_ + ⌊o⌋ + D.base))) +
          (P.format.decompress (e.buffer_ (maskIndex P (c.write_ptr_ + ⌊o⌋ + D.base + 1))) -
            P.format.decompress (e.buffer_ (maskIndex P (c.write_ptr_ + ⌊o⌋ + D.base)))) *
          F32.fin (o - (⌊o⌋ : α)) ∧
      c'.accumulator_ = c.accumulator_ + c'.previous_read_ * scale ∧
      c'.write_ptr_ = c.write_ptr_ ∧ c'.buffer_ = c.buffer_ ∧
      c'.lfo_value_ = c.lfo_value_) ∧
    (∀ (offset : F32 α) (index : Nat) (amplitude : F32 α), index < LFOIndex.kLFOCount →
      Context.interpolateLFO P D offset index amplitude scale e c =
        Context.interpolate P D (offset + amplitude * c.lfo_value_ index) scale e c) :=
  ⟨⟨_, interpolate_eq P D o scale e c ho hmax hfit hb, rfl, rfl, rfl, rfl, rfl⟩,
   fun offset index amplitude hi => interpolateLFO_eq P D offset index amplitude scale e c hi⟩

/-- C18 at a concrete input: offset `3/2` into the segment `(base 0, length 1)` of the started
example engine. -/
theorem interpolate_linear_witness :
    (0 : ℚ) ≤ 3 / 2 ∧ (3 / 2 : ℚ) < 2147483648 ∧
    ((0 : Int) + 1 ≤ (exampleFx.size : Int)) ∧ startedContext.buffer_ = Ptr.array ∧
    (∃ c', Context.interpolate exampleFx { length := 1, base := 0 } (F32.fin (3 / 2)) 1
        startedEngine startedContext = some (startedEngine, c') ∧
      c'.previous_read_ =
        exampleFx.format.decompress (startedEngine.buffer_
            (maskIndex exampleFx (startedContext.write_ptr_ + ⌊(3 / 2 : ℚ)⌋ + 0))) +
          (exampleFx.format.decompress (startedEngine.buffer_
              (maskIndex exampleFx (startedContext.write_ptr_ + ⌊(3 / 2 : ℚ)⌋ + 0 + 1))) -
            exampleFx.format.decompress (startedEngine.buffer_
              (maskIndex exampleFx (startedContext.write_ptr_ + ⌊(3 / 2 : ℚ)⌋ + 0)))) *
          F32.fin (3 / 2 - (⌊(3 / 2 : ℚ)⌋ : ℚ)) ∧
      c'.accumulator_ = startedContext.accumulator_ + c'.previous_read_ * 1 ∧
      c'.write_ptr_ = startedContext.write_ptr_ ∧ c'.buffer_ = startedContext.buffer_ ∧
      c'.lfo_value_ = startedContext.lfo_value_) ∧
    (∀ (offset : F32 ℚ) (index : Nat) (amplitude : F32 ℚ), index < LFOIndex.kLFOCount →
      Context.interpolateLFO exampleFx { length := 1, base := 0 } offset index amplitude 1
          startedEngine startedContext =
        Context.interpolate exampleFx { length := 1, base := 0 }
          (offset + amplitude * startedContext.lfo_value_ index) 1
          startedEngine startedContext) :=
  ⟨by norm_num, by norm_num, by decide, rfl,
   interpolate_linear exampleFx { length := 1, base := 0 } (3 / 2) 1 startedEngine
     startedContext (by norm_num) (by norm_num) (by decide) rfl⟩

theorem oversized_ops_fail (P : FxEnv α T L) (D : Segment)
    (hover : (P.size : Int) < D.base + D.length) (e : FxEngine T L) (c : Context α) :
    (∀ offset scale, Context.read P D offset scale e c = none) ∧
    (∀ offset scale, Context.write P D offset scale e c = none) ∧
    (∀ offset scale, Context.interpolate P D offset scale e c = none) ∧
    (∀ offset index amplitude scale,
      Context.interpolateLFO P D offset index amplitude scale e c = none) := by
  have hn : ¬ (D.base + D.length ≤ (P.size : Int)) := by omega
  refine ⟨?_, ?_, ?_, ?_⟩
  · intro offset scale
    simp [Context.read, assert, hn]
  · intro offset scale
    simp [Context.write, assert, hn]
  · intro offset scale
    simp [Context.interpolate, assert, hn]
  · intro offset index amplitude scale
    simp [Context.interpolateLFO, assert, hn]

/-- C14, amended: whatever the segments are, the constructor succeeds (it looks at no segment)
and `start` runs; a segment with `base + length > size` is rejected by the assertion of the
first `read`, `write` or `interpolate` that names it, in every engine and context state. -/
theorem oversized_segment_fails_at_first_use (P : FxEnv α T L) (D : Segment)
    (hover : (P.size : Int) < D.base + D.length) :
    (∀ lfo0 mem, ∃ e, FxEngine.construct P lfo0 mem = some e) ∧
    ∀ (e : FxEngine T L) (c : Context α),
      (∀ offset scale, Context.read P D offset scale e c = none) ∧
      (∀ offset scale, Context.write P D offset scale e c = none) ∧
      (∀ offset scale, Context.interpolate P D offset scale e c = none) ∧
      (∀ offset index amplitude scale,
        Context.interpolateLFO P D offset index amplitude scale e c = none) :=
  ⟨fun _ _ => ⟨_, rfl⟩, fun e c => oversized_ops_fail P D hover e c⟩

/-- C14, amended, at a concrete input: the four-slot example engine with the single
reservation `Reserve<8>`. -/
theorem oversized_segment_fails_at_first_use_witness :
    ((exampleFx.size : Int) < 0 + 8) ∧
    (∀ lfo0 mem, ∃ e, FxEngine.construct exampleFx lfo0 mem = some e) ∧
    ∀ (e : FxEngine (F32 ℚ) Unit) (c : Context ℚ),
      (∀ offset scale, Context.read exampleFx { length := 8, base := 0 } offset scale e c
        = none) ∧
      (∀ offset scale, Context.write exampleFx { length := 8, base := 0 } offset scale e c
        = none) ∧
      (∀ offset scale, Context.interpolate exampleFx { length := 8, base := 0 } offset scale e c
        = none) ∧
      (∀ offset index amplitude scale,
        Context.interpolateLFO exampleFx { length := 8, base := 0 } offset index amplitude
          scale e c = none) :=
  ⟨by decide, oversized_segment_fails_at_first_use exampleFx { length := 8, base := 0 }
    (by decide)⟩

/-- C14 refuted on the code: with `size = 4` and the reservation `Reserve<8>`, whose segment
`DelayLine<Memory, 0>` has `base + length = 8 > 4`, the constructor succeeds; the segment is
rejected only by the `read` that follows the first `start`. -/
theorem construct_accepts_oversized_segment :
    DelayLine [8] 0 = some { length := 8, base := 0 } ∧
    ((exampleFx.size : Int) < 0 + 8) ∧
    FxEngine.construct exampleFx (fun _ => ()) zeroEngine = some (clear exampleFx zeroEngine) ∧
    Context.read exampleFx { length := 8, base := 0 } 0 1
      (start exampleFx (clear exampleFx zeroEngine)
        (Context.construct exampleFx zeroContext)).1
      (start exampleFx (clear exampleFx zeroEngine)
        (Context.construct exampleFx zeroContext)).2 = none := by
  refine ⟨rfl, by decide, rfl, ?_⟩
  simp [Context.read, assert, exampleFx]

end EngineInterpolate

/-! ## The fixed-point sample formats -/

section FixedPointHelpers

variable {α : Type} [LinearOrderedField α]

theorem F32.div_def (a b : F32 α) : a / b = F32.div a b := rfl

theorem F32.fin_div_fin (a b : α) (hb : b ≠ 0) : (F32.fin a / F32.fin b : F32 α) = F32.fin (a / b) := by
  rw [F32.div_def]; simp [F32.div, hb]

theorem toInt16_toUInt16 (n : Int) (h1 : -32768 ≤ n) (h2 : n ≤ 32767) :
    toInt16 (toUInt16 n) = n ∧ toUInt16 n < 65536 := by
  unfold toInt16 toUInt16
  constructor
  · split_ifs with h <;> omega
  · omega

theorem toInt16_toUInt32 (n : Int) (h1 : -32768 ≤ n) (h2 : n ≤ 32767) :
    toInt16 (toUInt32 n) = n ∧ toUInt32 n < 4294967296 := by
  unfold toInt16 toUInt32
  constructor
  · split_ifs with h <;> omega
  · omega

theorem clip16_mono {a b : Int} (h : a ≤ b) : clip16 a ≤ clip16 b := by
  unfold clip16 INT16_MAX INT16_MIN
  split_ifs <;> omega

theorem clip16_range (a : Int) : -32768 ≤ clip16 a ∧ clip16 a ≤ 32767 := by
  unfold clip16 INT16_MAX INT16_MIN
  split_ifs <;> omega

theorem clip16_id (a : Int) (h1 : -32768 ≤ a) (h2 : a ≤ 32767) : clip16 a = a := by
  unfold clip16 INT16_MAX INT16_MIN
  split_ifs <;> omega


theorem F32.fle_fin (a b : α) : F32.fle (F32.fin a) (F32.fin b) = decide (a ≤ b) := rfl

end FixedPointHelpers

section FixedPointFormats

variable {α : Type} [LinearOrderedField α] [FloorRing α]

theorem truncToZero_abs_sub_lt (y : α) : |(truncToZero y : α) - y| < 1 := by
  unfold truncToZero
  split_ifs with h
  · rw [abs_lt]
    have h1 := Int.floor_le y
    have h2 := Int.lt_floor_add_one y
    constructor <;> linarith
  · rw [abs_lt]
    have h1 := Int.le_ceil y
    have h2 := Int.ceil_lt_add_one y
    constructor <;> linarith

theorem truncToZero_mono {x y : α} (h : x ≤ y) : truncToZero x ≤ truncToZero y := by
  unfold truncToZero
  split_ifs with hx hy hy
  · exact Int.floor_le_floor h
  · exact absurd (le_trans hx h) hy
  · have h1 : ⌈x⌉ ≤ 0 := Int.ceil_le.mpr (by push_cast; exact le_of_lt (not_le.mp hx))
    have h2 : 0 ≤ ⌊y⌋ := Int.floor_nonneg.mpr hy
    omega
  · exact Int.ceil_le_ceil h

theorem truncToZero_bounds (y : α) (B : Int) (hB : 0 ≤ B) (h1 : -(B : α) ≤ y) (h2 : y ≤ B) :
    -B ≤ truncToZero y ∧ truncToZero y ≤ B := by
  unfold truncToZero
  split_ifs with h
  · refine ⟨?_, Int.floor_le_iff.mpr (by linarith)⟩
    have := Int.floor_nonneg.mpr h
    omega
  · have hlt : y < 0 := not_le.mp h
    refine ⟨?_, ?_⟩
    · have : ((-B : Int) : α) ≤ y := by push_cast; exact h1
      have h3 : (-B : Int) ≤ ⌈y⌉ := by
        have := Int.le_ceil y
        exact_mod_cast le_trans ‹((-B : Int) : α) ≤ y› this
      exact h3
    · have : ⌈y⌉ ≤ 0 := Int.ceil_le.mpr (by push_cast; exact le_of_lt hlt)
      omega

theorem toInt32_eq (y : α) (h1 : -2147483648 ≤ truncToZero y) (h2 : truncToZero y ≤ 2147483647) :
    toInt32 (F32.fin y) = some (truncToZero y) := by
  unfold toInt32
  simp only []
  have : (if 0 ≤ y then ⌊y⌋ else ⌈y⌉) = truncToZero y := rfl
  rw [this, if_pos ⟨h1, h2⟩]

theorem compress12_eq (x : α) (h1 : -1 ≤ x) (h2 : x ≤ 1) :
    DataType.FORMAT_12_BIT.compress (F32.fin x) = some (toUInt16 (truncToZero (x * 4096))) ∧
    -4096 ≤ truncToZero (x * 4096) ∧ truncToZero (x * 4096) ≤ 4096 := by
  have hb := truncToZero_bounds (x * 4096) 4096 (by norm_num)
    (by push_cast; linarith) (by push_cast; linarith)
  refine ⟨?_, hb.1, hb.2⟩
  unfold DataType.FORMAT_12_BIT.compress
  rw [F32.fin_mul_fin, toInt32_eq _ (by omega) (by omega)]
  simp only [Option.bind_eq_bind, Option.some_bind, Option.pure_def]
  rw [clip16_id _ (by omega) (by omega)]

theorem decompress12_eq (n : Int) (h1 : -32768 ≤ n) (h2 : n ≤ 32767) :
    (DataType.FORMAT_12_BIT.decompress (toUInt16 n) : F32 α) = F32.fin ((n : α) / 4096) := by
  unfold DataType.FORMAT_12_BIT.decompress ofInt32
  rw [(toInt16_toUInt16 n h1 h2).1, F32.fin_div_fin _ _ (by norm_num)]

theorem compress16_eq (x : α) (h1 : -1 ≤ x) (h2 : x ≤ 1) :
    DataType.FORMAT_16_BIT.compress (F32.fin x) =
      some (toUInt32 (clip16 (truncToZero (x * 65536)))) := by
  have hb := truncToZero_bounds (x * 65536) 65536 (by norm_num)
    (by push_cast; linarith) (by push_cast; linarith)
  unfold DataType.FORMAT_16_BIT.compress
  rw [F32.fin_mul_fin, toInt32_eq _ (by omega) (by omega)]
  simp only [Option.bind_eq_bind, Option.some_bind, Option.pure_def]

theorem decompress16_eq (n : Int) (h1 : -32768 ≤ n) (h2 : n ≤ 32767) :
    (DataType.FORMAT_16_BIT.decompress (toUInt32 n) : F32 α) = F32.fin ((n : α) / 65536) := by
  unfold DataType.FORMAT_16_BIT.decompress ofInt32
  rw [(toInt16_toUInt32 n h1 h2).1, F32.fin_div_fin _ _ (by norm_num)]

/-- C21: for `FORMAT_12_BIT` and every number `x` of `[-1, 1]`, `compress` succeeds and stores
the truncation `t` of `x * 4096`, converted to the 16-bit unsigned slot type; `decompress`
reads the slot back as the signed `t` (negative values included) and returns `t / 4096`, which
differs from `x` by less than `1/4096`. -/
theorem format_12_bit_roundtrip (x : α) (h1 : -1 ≤ x) (h2 : x ≤ 1) :
    ∃ w y, DataType.FORMAT_12_BIT.compress (F32.fin x) = some w ∧
      w = toUInt16 (truncToZero (x * 4096)) ∧ w < 65536 ∧
      toInt16 w = truncToZero (x * 4096) ∧
      (DataType.FORMAT_12_BIT.decompress w : F32 α) = F32.fin y ∧
      y = (truncToZero (x * 4096) : α) / 4096 ∧
      |y - x| < 1 / 4096 := by
  obtain ⟨hc, hlo, hhi⟩ := compress12_eq x h1 h2
  have hr := toInt16_toUInt16 (truncToZero (x * 4096)) (by omega) (by omega)
  refine ⟨_, _, hc, rfl, hr.2, hr.1, decompress12_eq _ (by omega) (by omega), rfl, ?_⟩
  have ht := truncToZero_abs_sub_lt (x * 4096)
  have e : (truncToZero (x * 4096) : α) / 4096 - x =
      ((truncToZero (x * 4096) : α) - x * 4096) / 4096 := by
    field_simp
    ring
  rw [e, abs_div, abs_of_pos (by norm_num : (0 : α) < 4096)]
  exact div_lt_div_of_pos_right ht (by norm_num)


theorem truncToZero_intCast (n : Int) : truncToZero ((n : Int) : α) = n := by
  unfold truncToZero
  split_ifs <;> simp

/-- C24: for `FORMAT_FLOAT32`, `FORMAT_12_BIT` and `FORMAT_16_BIT` and all numbers
`x ≤ y` of `[-1, 1]`, both values are compressed successfully and
`decompress(compress(x)) <= decompress(compress(y))`. -/
theorem codec_roundtrip_monotone (x y : α) (h1 : -1 ≤ x) (hxy : x ≤ y) (h2 : y ≤ 1) :
    F32.fle
      ((DataType.FORMAT_FLOAT32 : DataType α (F32 α)).decompress
        ((DataType.FORMAT_FLOAT32 : DataType α (F32 α)).compress (F32.fin x)))
      ((DataType.FORMAT_FLOAT32 : DataType α (F32 α)).decompress
        ((DataType.FORMAT_FLOAT32 : DataType α (F32 α)).compress (F32.fin y))) = true ∧
    (∃ wx wy, DataType.FORMAT_12_BIT.compress (F32.fin x) = some wx ∧
      DataType.FORMAT_12_BIT.compress (F32.fin y) = some wy ∧
      F32.fle (DataType.FORMAT_12_BIT.decompress wx : F32 α)
        (DataType.FORMAT_12_BIT.decompress wy) = true) ∧
    (∃ wx wy, DataType.FORMAT_16_BIT.compress (F32.fin x) = some wx ∧
      DataType.FORMAT_16_BIT.compress (F32.fin y) = some wy ∧
      F32.fle (DataType.FORMAT_16_BIT.decompress wx : F32 α)
        (DataType.FORMAT_16_BIT.decompress wy) = true) := by
  have hx2 : x ≤ 1 := le_trans hxy h2
  have hy1 : -1 ≤ y := le_trans h1 hxy
  refine ⟨?_, ?_, ?_⟩
  · show F32.fle (constrain (F32.fin x) (F32.fin (-1)) (F32.fin 1))
      (constrain (F32.fin y) (F32.fin (-1)) (F32.fin 1)) = true
    rw [constrain_unit_fin, constrain_unit_fin, max_eq_left h1, min_eq_left hx2,
      max_eq_left hy1, min_eq_left h2, F32.fle_fin]
    exact decide_eq_true hxy
  · obtain ⟨hcx, hxlo, hxhi⟩ := compress12_eq x h1 hx2
    obtain ⟨hcy, hylo, hyhi⟩ := compress12_eq y hy1 h2
    refine ⟨_, _, hcx, hcy, ?_⟩
    rw [decompress12_eq _ (by omega) (by omega), decompress12_eq _ (by omega) (by omega),
      F32.fle_fin]
    apply decide_eq_true
    have hm : truncToZero (x * 4096) ≤ truncToZero (y * 4096) :=
      truncToZero_mono (by linarith)
    have hm2 : ((truncToZero (x * 4096) : Int) : α) ≤ ((truncToZero (y * 4096) : Int) : α) := by
      exact_mod_cast hm
    exact div_le_div_of_nonneg_right hm2 (by norm_num)
  · refine ⟨_, _, compress16_eq x h1 hx2, compress16_eq y hy1 h2, ?_⟩
    have rx := clip16_range (truncToZero (x * 65536))
    have ry := clip16_range (truncToZero (y * 65536))
    rw [decompress16_eq _ rx.1 rx.2, decompress16_eq _ ry.1 ry.2, F32.fle_fin]
    apply decide_eq_true
    have hm : clip16 (truncToZero (x * 65536)) ≤ clip16 (truncToZero (y * 65536)) :=
      clip16_mono (truncToZero_mono (by linarith))
    have hm2 : ((clip16 (truncToZero (x * 65536)) : Int) : α) ≤
        ((clip16 (truncToZero (y * 65536)) : Int) : α) := by
      exact_mod_cast hm
    exact div_le_div_of_nonneg_right hm2 (by norm_num)

/-- C24 at a concrete input over `ℚ`: `x = -1/3` and `y = 3/4`. -/
theorem codec_roundtrip_monotone_witness :
    (-1 : ℚ) ≤ -1 / 3 ∧ (-1 / 3 : ℚ) ≤ 3 / 4 ∧ (3 / 4 : ℚ) ≤ 1 ∧
    F32.fle
      ((DataType.FORMAT_FLOAT32 : DataType ℚ (F32 ℚ)).decompress
        ((DataType.FORMAT_FLOAT32 : DataType ℚ (F32 ℚ)).compress (F32.fin (-1 / 3))))
      ((DataType.FORMAT_FLOAT32 : DataType ℚ (F32 ℚ)).decompress
        ((DataType.FORMAT_FLOAT32 : DataType ℚ (F32 ℚ)).compress (F32.fin (3 / 4)))) = true ∧
    (∃ wx wy, DataType.FORMAT_12_BIT.compress (F32.fin (-1 / 3 : ℚ)) = some wx ∧
      DataType.FORMAT_12_BIT.compress (F32.fin (3 / 4 : ℚ)) = some wy ∧
      F32.fle (DataType.FORMAT_12_BIT.decompress wx : F32 ℚ)
        (DataType.FORMAT_12_BIT.decompress wy) = true) ∧
    (∃ wx wy, DataType.FORMAT_16_BIT.compress (F32.fin (-1 / 3 : ℚ)) = some wx ∧
      DataType.FORMAT_16_BIT.compress (F32.fin (3 / 4 : ℚ)) = some wy ∧
      F32.fle (DataType.FORMAT_16_BIT.decompress wx : F32 ℚ)
        (DataType.FORMAT_16_BIT.decompress wy) = true) :=
  ⟨by norm_num, by norm_num, by norm_num,
   codec_roundtrip_monotone (-1 / 3) (3 / 4) (by norm_num) (by norm_num) (by norm_num)⟩

/-- C21 at a concrete input over `ℚ`: `x = -1/3`. -/
theorem format_12_bit_roundtrip_witness :
    (-1 : ℚ) ≤ -1 / 3 ∧ (-1 / 3 : ℚ) ≤ 1 ∧
    ∃ w y, DataType.FORMAT_12_BIT.compress (F32.fin (-1 / 3 : ℚ)) = some w ∧
      w = toUInt16 (truncToZero (-1 / 3 * 4096 : ℚ)) ∧ w < 65536 ∧
      toInt16 w = truncToZero (-1 / 3 * 4096 : ℚ) ∧
      (DataType.FORMAT_12_BIT.decompress w : F32 ℚ) = F32.fin y ∧
      y = (truncToZero (-1 / 3 * 4096 : ℚ) : ℚ) / 4096 ∧
      |y - -1 / 3| < 1 / 4096 :=
  ⟨by norm_num, by norm_num, format_12_bit_roundtrip (-1 / 3) (by norm_num) (by norm_num)⟩

/-- On the half range `[-1/2, 1/2)` the 16-bit round trip is within one step of the format. -/
theorem format_16_bit_roundtrip_half_range (x : α) (h1 : -1 / 2 ≤ x) (h2 : x < 1 / 2) :
    ∃ w y, DataType.FORMAT_16_BIT.compress (F32.fin x) = some w ∧
      (DataType.FORMAT_16_BIT.decompress w : F32 α) = F32.fin y ∧
      |y - x| < 1 / 65536 := by
  have hb := truncToZero_bounds (x * 65536) 32768 (by norm_num)
    (by push_cast; linarith) (by push_cast; linarith)
  have hlt : truncToZero (x * 65536) < 32768 := by
    have hm := truncToZero_abs_sub_lt (x * 65536)
    unfold truncToZero at hm ⊢
    split_ifs with h
    · rw [Int.floor_lt]; push_cast; linarith
    · have : ⌈x * 65536⌉ ≤ 0 := Int.ceil_le.mpr (by push_cast; exact le_of_lt (not_le.mp h))
      omega
  refine ⟨_, (truncToZero (x * 65536) : α) / 65536,
    compress16_eq x (by linarith) (by linarith), ?_, ?_⟩
  · rw [clip16_id _ (by omega) (by omega)]
    exact decompress16_eq _ (by omega) (by omega)
  · have ht := truncToZero_abs_sub_lt (x * 65536)
    have e : (truncToZero (x * 65536) : α) / 65536 - x =
        ((truncToZero (x * 65536) : α) - x * 65536) / 65536 := by
      field_simp
      ring
    rw [e, abs_div, abs_of_pos (by norm_num : (0 : α) < 65536)]
    exact div_lt_div_of_pos_right ht (by norm_num)

/-- From `1/2` upward `clip16` saturates: every `x` of `[1/2, 1]` comes back as
`32767/65536`. -/
theorem format_16_bit_saturates (x : α) (h1 : 1 / 2 ≤ x) (h2 : x ≤ 1) :
    DataType.FORMAT_16_BIT.compress (F32.fin x) = some 32767 ∧
    (DataType.FORMAT_16_BIT.decompress 32767 : F32 α) = F32.fin (32767 / 65536) := by
  have hge : 32768 ≤ truncToZero (x * 65536) := by
    have h0 : (0 : α) ≤ x * 65536 := by linarith
    unfold truncToZero
    rw [if_pos h0, Int.le_floor]
    push_cast; linarith
  have hc : clip16 (truncToZero (x * 65536)) = 32767 := by
    unfold clip16 INT16_MAX INT16_MIN
    rw [if_pos (by omega)]
  have hu : toUInt32 32767 = 32767 := by decide
  refine ⟨?_, ?_⟩
  · rw [compress16_eq x (by linarith) h2, hc, hu]
  · have hd : (DataType.FORMAT_16_BIT.decompress (toUInt32 32767) : F32 α) =
        F32.fin (((32767 : Int) : α) / 65536) :=
      decompress16_eq 32767 (by norm_num) (by norm_num)
    rw [hu] at hd
    rw [hd]; norm_num

/-- C22, evaluated on the code: for `FORMAT_16_BIT` the full-scale sample `x = 1` is compressed
to `clip16(65536) = 32767` and comes back as `32767/65536`, almost `1/2` away from `x`. -/
theorem format_16_bit_clips_full_scale :
    DataType.FORMAT_16_BIT.compress (F32.fin (1 : ℚ)) = some 32767 ∧
    (DataType.FORMAT_16_BIT.decompress 32767 : F32 ℚ) = F32.fin (32767 / 65536) ∧
    ¬ (|(32767 / 65536 : ℚ) - 1| < 1 / 65536) := by
  obtain ⟨h1, h2⟩ := format_16_bit_saturates (1 : ℚ) (by norm_num) (by norm_num)
  refine ⟨h1, h2, ?_⟩
  rw [abs_lt]
  norm_num


/-- For `FORMAT_32_BIT` every number `x` of `[0, 1]` is compressed to the integer part of
`x * INT32_MAX` and comes back as that integer divided by `UINT32_MAX`, at most `x / 2`. -/
theorem format_32_bit_roundtrip_halves (x : α) (h1 : 0 ≤ x) (h2 : x ≤ 1) :
    ∃ w y, DataType.FORMAT_32_BIT.compress (F32.fin x) = some w ∧
      (w : Int) = ⌊x * 2147483647⌋ ∧
      (DataType.FORMAT_32_BIT.decompress w : F32 α) = F32.fin y ∧
      y = ((⌊x * 2147483647⌋ : Int) : α) / 4294967295 ∧
      y ≤ x / 2 := by
  have h0 : (0 : α) ≤ x * 2147483647 := by positivity
  have hf0 : 0 ≤ ⌊x * 2147483647⌋ := Int.floor_nonneg.mpr h0
  have hf1 : ⌊x * 2147483647⌋ ≤ 2147483647 := by
    rw [Int.floor_le_iff]; push_cast; linarith
  refine ⟨⌊x * 2147483647⌋.toNat, _, ?_, Int.toNat_of_nonneg hf0, ?_, rfl, ?_⟩
  · unfold DataType.FORMAT_32_BIT.compress f32ToUInt32 INT32_MAX
    rw [F32.fin_mul_fin]
    push_cast
    simp only [h0, if_true]
    rw [if_pos ⟨hf0, by omega⟩]
  · unfold DataType.FORMAT_32_BIT.decompress UINT32_MAX
    rw [Int.toNat_of_nonneg hf0]
    push_cast
    rw [F32.fin_div_fin _ _ (by norm_num)]
  · have hle : ((⌊x * 2147483647⌋ : Int) : α) ≤ x * 2147483647 := Int.floor_le _
    rw [div_le_iff₀ (by norm_num)]
    linarith

/-- C23, evaluated on the code: for `FORMAT_32_BIT` the sample `x = 1` is compressed to
`INT32_MAX` and comes back as `INT32_MAX / UINT32_MAX`, about `1/2`, which is further from `x`
than `1 / INT32_MAX`. -/
theorem format_32_bit_halves_full_scale :
    DataType.FORMAT_32_BIT.compress (F32.fin (1 : ℚ)) = some 2147483647 ∧
    (DataType.FORMAT_32_BIT.decompress 2147483647 : F32 ℚ) =
      F32.fin (2147483647 / 4294967295) ∧
    ¬ (|(2147483647 / 4294967295 : ℚ) - 1| ≤ 1 / 2147483647) := by
  refine ⟨?_, ?_, ?_⟩
  · unfold DataType.FORMAT_32_BIT.compress f32ToUInt32 INT32_MAX
    rw [F32.fin_mul_fin]
    have e : (1 : ℚ) * ((2147483647 : Int) : ℚ) = ((2147483647 : Int) : ℚ) := one_mul _
    rw [e]
    simp only [Int.floor_intCast, Int.ceil_intCast, ite_self]
    rfl
  · unfold DataType.FORMAT_32_BIT.decompress UINT32_MAX
    rw [F32.fin_div_fin _ _ (by norm_num)]
    norm_num
  · rw [abs_le]
    norm_num

end FixedPointFormats

/-! ## The global effect parameters -/

section ParameterFacts

/-- Whatever the value, `SetParameter` stores it as it came: `GetParameter` returns the
argument itself for every parameter below `ParameterUnknown`. -/
theorem GetParameter_SetParameter (ToneGenerators : Nat) (MAX_NB_PHASES : Int)
    (p : TParameter) (v : Int) (s : ParameterState) (hp : p ≠ TParameter.ParameterUnknown) :
    ∃ s', SetParameter ToneGenerators MAX_NB_PHASES p v s = some s' ∧
      GetParameter p s' = some v := by
  cases p <;> first
    | exact absurd rfl hp
    | exact ⟨_, rfl, by simp [GetParameter, assert]⟩

/-- C30, evaluated on the code: `SetParameter(ParameterFXTubeOverdrive, 200)` hands the
clamped value `99` to the effect but has stored the argument before clamping it, so
`GetParameter` returns `200`, and `200` is what `DoSavePerformance` persists; likewise
`SetParameter(ParameterFXTubeEnable, -5)` leaves `-5` in the array and `1` to be persisted,
where the clamped value is `0`. -/
theorem SetParameter_stores_unclamped_value :
    applicationRange 24 TParameter.ParameterFXTubeOverdrive = some (0, 99) ∧
    constrainInt 200 0 99 = 99 ∧
    (∃ s', SetParameter 8 24 TParameter.ParameterFXTubeOverdrive 200 zeroParameters = some s' ∧
      s'.calls = [FxCall.setValue TParameter.ParameterFXTubeOverdrive 99] ∧
      GetParameter TParameter.ParameterFXTubeOverdrive s' = some 200 ∧
      DoSavePerformance.argument TParameter.ParameterFXTubeOverdrive s' = 200) ∧
    applicationRange 24 TParameter.ParameterFXTubeEnable = some (0, 1) ∧
    constrainInt (-5) 0 1 = 0 ∧
    (∃ s', SetParameter 8 24 TParameter.ParameterFXTubeEnable (-5) zeroParameters = some s' ∧
      s'.calls = [FxCall.setMute TParameter.ParameterFXTubeEnable true] ∧
      GetParameter TParameter.ParameterFXTubeEnable s' = some (-5) ∧
      DoSavePerformance.argument TParameter.ParameterFXTubeEnable s' = 1) := by
  refine ⟨rfl, by decide, ⟨_, rfl, ?_, ?_, ?_⟩, rfl, by decide, ⟨_, rfl, ?_, ?_, ?_⟩⟩
  · simp [zeroParameters, constrainInt]
  · simp [GetParameter, assert]
  · simp [DoSavePerformance.argument]
  · simp [zeroParameters, constrainInt]
  · simp [GetParameter, assert]
  · simp [DoSavePerformance.argument]

end ParameterFacts

/-! ## The multi-core scheduler: the secondary cores and the channel ranges -/

section SchedulerFacts

variable {τ β : Type}

/-- The first channel of a secondary core. -/
theorem firstTG_bound (K : SoundEnv τ β) (n i : Nat) (h2 : 2 ≤ n) (hn : n < K.CORES)
    (hi : i ≤ K.TGsCore23) :
    K.TGsCore1 + (n - 2) * K.TGsCore23 + i ≤ K.TGsCore1 + (K.CORES - 2) * K.TGsCore23 := by
  have h1 : (n - 2 + 1) * K.TGsCore23 ≤ (K.CORES - 2) * K.TGsCore23 :=
    Nat.mul_le_mul_right _ (by omega)
  rw [Nat.succ_mul] at h1
  omega

theorem firstTG_succ (K : SoundEnv τ β) (n : Nat) (h2 : 2 ≤ n) :
    K.TGsCore1 + (n + 1 - 2) * K.TGsCore23 = K.TGsCore1 + (n - 2) * K.TGsCore23 + K.TGsCore23 := by
  have : n + 1 - 2 = (n - 2) + 1 := by omega
  rw [this, Nat.succ_mul]
  omega

theorem firstTG_mono (K : SoundEnv τ β) (n n' : Nat) (h2 : 2 ≤ n) (h : n < n') :
    K.TGsCore1 + (n - 2) * K.TGsCore23 + K.TGsCore23 ≤ K.TGsCore1 + (n' - 2) * K.TGsCore23 := by
  have h1 : (n - 2 + 1) * K.TGsCore23 ≤ (n' - 2) * K.TGsCore23 :=
    Nat.mul_le_mul_right _ (by omega)
  rw [Nat.succ_mul] at h1
  omega

theorem Run.mem_channels (K : SoundEnv τ β)
    (hb : K.TGsCore1 + (K.CORES - 2) * K.TGsCore23 < 4294967296)
    (n : Nat) (h2 : 2 ≤ n) (hn : n < K.CORES) (ch : Nat) :
    ch ∈ Run.channels K n ↔
      K.TGsCore1 + (n - 2) * K.TGsCore23 ≤ ch ∧
      ch < K.TGsCore1 + (n - 2) * K.TGsCore23 + K.TGsCore23 := by
  unfold Run.channels
  have h0 := firstTG_bound K n 0 h2 hn (Nat.zero_le _)
  rw [Nat.mod_eq_of_lt (by omega)]
  simp only [List.mem_map, List.mem_range]
  constructor
  · rintro ⟨i, hi, rfl⟩
    have := firstTG_bound K n i h2 hn (le_of_lt hi)
    rw [Nat.mod_eq_of_lt (by omega)]
    omega
  · rintro ⟨h3, h4⟩
    refine ⟨ch - (K.TGsCore1 + (n - 2) * K.TGsCore23), by omega, ?_⟩
    have := firstTG_bound K n (ch - (K.TGsCore1 + (n - 2) * K.TGsCore23)) h2 hn (by omega)
    rw [Nat.mod_eq_of_lt (by omega)]
    omega

theorem Run.channels_eq (K : SoundEnv τ β)
    (hb : K.TGsCore1 + (K.CORES - 2) * K.TGsCore23 < 4294967296)
    (n : Nat) (h2 : 2 ≤ n) (hn : n < K.CORES) :
    Run.channels K n =
      (List.range K.TGsCore23).map (fun i => K.TGsCore1 + (n - 2) * K.TGsCore23 + i) := by
  unfold Run.channels
  apply List.map_congr_left
  intro i hi
  have := firstTG_bound K n i h2 hn (le_of_lt (List.mem_range.mp hi))
  have e1 : (K.TGsCore1 + (n - 2) * K.TGsCore23) % 4294967296 =
      K.TGsCore1 + (n - 2) * K.TGsCore23 := Nat.mod_eq_of_lt (by omega)
  simp only [e1]
  rw [Nat.mod_eq_of_lt (by omega)]

/-- Every channel below the bound belongs to core 1 or to one secondary core. -/
theorem channel_owner (K : SoundEnv τ β) (ch : Nat) (h1 : K.TGsCore1 ≤ ch)
    (h2 : ch < K.TGsCore1 + (K.CORES - 2) * K.TGsCore23) :
    ∃ n i, 2 ≤ n ∧ n < K.CORES ∧ i < K.TGsCore23 ∧
      ch = K.TGsCore1 + (n - 2) * K.TGsCore23 + i := by
  have hpos : 0 < K.TGsCore23 := by
    rcases Nat.eq_zero_or_pos K.TGsCore23 with h | h
    · rw [h] at h2; simp at h2; omega
    · exact h
  have hd : (ch - K.TGsCore1) / K.TGsCore23 < K.CORES - 2 := by
    rw [Nat.div_lt_iff_lt_mul hpos]; omega
  have hm := Nat.div_add_mod (ch - K.TGsCore1) K.TGsCore23
  have hr := Nat.mod_lt (ch - K.TGsCore1) hpos
  rw [Nat.mul_comm] at hm
  generalize (ch - K.TGsCore1) / K.TGsCore23 = q at hd hm
  generalize (ch - K.TGsCore1) % K.TGsCore23 = r at hm hr
  refine ⟨2 + q, r, by omega, by omega, hr, ?_⟩
  have e : 2 + q - 2 = q := by omega
  rw [e]
  omega


theorem getSamplesOf_some (K : SoundEnv τ β) (nTG n : Nat) (m : CMiniDexed τ β) (tg : τ)
    (h : m.m_pTG nTG = some tg) :
    getSamplesOf K nTG n m =
      some ⟨m.m_CoreStatus, m.m_nFramesToProcess,
        store m.m_pTG nTG (some (K.getSamples tg (m.m_OutputLevel nTG) n).1),
        store m.m_OutputLevel nTG (K.getSamples tg (m.m_OutputLevel nTG) n).2⟩ := by
  unfold getSamplesOf
  rw [h]

/-- The `for` loop of `Run`: from its test with `i` iterations done, under any interference
on the status array, the remaining channels are generated once each, nothing else changes and
the loop is left for the top of `while (1)`. -/
theorem Run.loop_run (K : SoundEnv τ β) (nCore f : Nat) (hf : f + K.TGsCore23 < 4294967296)
    (j : Nat) : ∀ (i : Nat) (m : CMiniDexed τ β) (env : List (Nat → TCoreStatus)),
      i + j = K.TGsCore23 → env.length = j + 1 →
      (∀ k, i ≤ k → k < K.TGsCore23 → m.m_pTG (f + k) ≠ none) →
      (Run.run K nCore env (RunPc.loop i (f + i), m)).1 = RunPc.setIdle ∧
      (∀ k, i ≤ k → k < K.TGsCore23 → ∀ tg, m.m_pTG (f + k) = some tg →
        (Run.run K nCore env (RunPc.loop i (f + i), m)).2.m_pTG (f + k) =
          some (K.getSamples tg (m.m_OutputLevel (f + k)) m.m_nFramesToProcess).1 ∧
        (Run.run K nCore env (RunPc.loop i (f + i), m)).2.m_OutputLevel (f + k) =
          (K.getSamples tg (m.m_OutputLevel (f + k)) m.m_nFramesToProcess).2) ∧
      (∀ ch, (ch < f + i ∨ f + K.TGsCore23 ≤ ch) →
        (Run.run K nCore env (RunPc.loop i (f + i), m)).2.m_pTG ch = m.m_pTG ch ∧
        (Run.run K nCore env (RunPc.loop i (f + i), m)).2.m_OutputLevel ch =
          m.m_OutputLevel ch) ∧
      (Run.run K nCore env (RunPc.loop i (f + i), m)).2.m_nFramesToProcess =
        m.m_nFramesToProcess := by
  induction j with
  | zero =>
    intro i m env hij hlen hnn
    obtain ⟨st, rfl⟩ : ∃ st, env = [st] := by
      cases env with
      | nil => simp at hlen
      | cons a t =>
        cases t with
        | nil => exact ⟨a, rfl⟩
        | cons b t2 => simp at hlen
    have hi : ¬ i < K.TGsCore23 := by omega
    simp only [Run.run, Run.step, hi, if_false]
    refine ⟨trivial, ?_, ?_⟩
    · intro k hk1 hk2
      omega
    · simp
  | succ j ih =>
    intro i m env hij hlen hnn
    cases env with
    | nil => simp at hlen
    | cons st rest =>
      have hi : i < K.TGsCore23 := by omega
      have hlen2 : rest.length = j + 1 := by simpa using hlen
      cases htg : m.m_pTG (f + i) with
      | none => exact absurd htg (hnn i (le_refl _) hi)
      | some tg0 =>
        have hstep : Run.step K nCore (RunPc.loop i (f + i))
            { m with m_CoreStatus := st } =
            (RunPc.loop (i + 1) (f + (i + 1)),
              ⟨st, m.m_nFramesToProcess,
                store m.m_pTG (f + i)
                  (some (K.getSamples tg0 (m.m_OutputLevel (f + i)) m.m_nFramesToProcess).1),
                store m.m_OutputLevel (f + i)
                  (K.getSamples tg0 (m.m_OutputLevel (f + i)) m.m_nFramesToProcess).2⟩) := by
          simp only [Run.step, hi, if_true]
          rw [getSamplesOf_some K (f + i) _
            ⟨st, m.m_nFramesToProcess, m.m_pTG, m.m_OutputLevel⟩ tg0 htg]
          rw [Nat.mod_eq_of_lt (by omega)]
          rfl
        simp only [Run.run]
        rw [hstep]
        generalize hm1 : (⟨st, m.m_nFramesToProcess,
                store m.m_pTG (f + i)
                  (some (K.getSamples tg0 (m.m_OutputLevel (f + i)) m.m_nFramesToProcess).1),
                store m.m_OutputLevel (f + i)
                  (K.getSamples tg0 (m.m_OutputLevel (f + i)) m.m_nFramesToProcess).2⟩ :
              CMiniDexed τ β) = m1
        have e1 : m1.m_pTG = store m.m_pTG (f + i)
            (some (K.getSamples tg0 (m.m_OutputLevel (f + i)) m.m_nFramesToProcess).1) := by
          rw [← hm1]
        have e2 : m1.m_OutputLevel = store m.m_OutputLevel (f + i)
            (K.getSamples tg0 (m.m_OutputLevel (f + i)) m.m_nFramesToProcess).2 := by
          rw [← hm1]
        have e3 : m1.m_nFramesToProcess = m.m_nFramesToProcess := by rw [← hm1]
        have ih2 := ih (i + 1) m1 rest (by omega) hlen2 (by
          intro k hk1 hk2
          rw [e1, store_apply, if_neg (by omega)]
          exact hnn k (by omega) hk2)
        obtain ⟨h1, h2, h3, h4⟩ := ih2
        refine ⟨h1, ?_, ?_, by rw [h4, e3]⟩
        · intro k hk1 hk2 tg hk
          by_cases hki : k = i
          · subst hki
            have := h3 (f + k) (Or.inl (by omega))
            rw [e1, e2, store_apply, store_apply, if_pos rfl, if_pos rfl] at this
            rw [htg] at hk
            cases hk
            exact ⟨this.1, this.2⟩
          · have := h2 k (by omega) hk2 tg (by
              rw [e1, store_apply, if_neg (by omega)]
              exact hk)
            rw [e2, e3, store_apply, if_neg (by omega)] at this
            exact this
        · intro ch hch
          have := h3 ch (by omega)
          rw [e1, e2, store_apply, store_apply, if_neg (by omega), if_neg (by omega)] at this
          exact this


theorem Run.run_returned (K : SoundEnv τ β) (nCore : Nat) (env : List (Nat → TCoreStatus)) :
    ∀ m : CMiniDexed τ β, Run.run K nCore env (RunPc.returned, m) =
      (RunPc.returned,
        ⟨env.getLastD m.m_CoreStatus, m.m_nFramesToProcess, m.m_pTG, m.m_OutputLevel⟩) := by
  induction env with
  | nil => intro m; rfl
  | cons st rest ih =>
    intro m
    simp only [Run.run, Run.step]
    rw [ih]
    cases rest <;> rfl

/-- C25: the steps of a secondary core.  The core writes its status flag at two control
points only, `CoreStatusIdle` at the top of its loop (its entry, and where the loop over its
tone generators leaves to) and `CoreStatusUnknown` before the `break`, and no step outside
that loop touches a tone generator or a buffer.  Kicked out of the wait, a core that reads
`CoreStatusExit` goes to the write of `CoreStatusUnknown` and returns; a core that reads
`CoreStatusBusy` passes both tests and then, whatever the other cores do to the status array
meanwhile, calls `getSamples` once on each of its `TGsCore23` channels and on nothing else,
and arrives at the write of `CoreStatusIdle`.  Once returned, the core makes no further write
and generates nothing. -/
theorem secondary_core_status_machine (K : SoundEnv τ β) (nCore : Nat) :
    (∀ pc (m : CMiniDexed τ β),
      (Run.step K nCore pc m).2.m_CoreStatus = m.m_CoreStatus ∨
      (pc = RunPc.setIdle ∧ (Run.step K nCore pc m).2.m_CoreStatus =
        store m.m_CoreStatus nCore TCoreStatus.CoreStatusIdle) ∨
      (pc = RunPc.setUnknown ∧ (Run.step K nCore pc m).2.m_CoreStatus =
        store m.m_CoreStatus nCore TCoreStatus.CoreStatusUnknown)) ∧
    (∀ pc (m : CMiniDexed τ β), (∀ i nTG, pc ≠ RunPc.loop i nTG) →
      (Run.step K nCore pc m).2.m_pTG = m.m_pTG ∧
      (Run.step K nCore pc m).2.m_OutputLevel = m.m_OutputLevel) ∧
    (nCore < K.CORES → Run.entry K nCore = RunPc.setIdle) ∧
    (∀ m : CMiniDexed τ β, (Run.step K nCore RunPc.setIdle m).1 = RunPc.waitKick) ∧
    (∀ m : CMiniDexed τ β, m.m_CoreStatus nCore = TCoreStatus.CoreStatusIdle →
      Run.step K nCore RunPc.waitKick m = (RunPc.waitKick, m)) ∧
    (∀ m : CMiniDexed τ β, m.m_CoreStatus nCore ≠ TCoreStatus.CoreStatusIdle →
      Run.step K nCore RunPc.waitKick m = (RunPc.checkExit, m)) ∧
    (∀ m : CMiniDexed τ β, m.m_CoreStatus nCore = TCoreStatus.CoreStatusExit →
      Run.step K nCore RunPc.checkExit m = (RunPc.setUnknown, m)) ∧
    (∀ m : CMiniDexed τ β, Run.step K nCore RunPc.setUnknown m =
      (RunPc.returned,
        ⟨store m.m_CoreStatus nCore TCoreStatus.CoreStatusUnknown, m.m_nFramesToProcess,
          m.m_pTG, m.m_OutputLevel⟩)) ∧
    (∀ m : CMiniDexed τ β, m.m_CoreStatus nCore = TCoreStatus.CoreStatusBusy →
      Run.step K nCore RunPc.checkExit m = (RunPc.assertBusy, m) ∧
      Run.step K nCore RunPc.assertBusy m = (RunPc.assertFrames, m)) ∧
    (∀ (m : CMiniDexed τ β) (env : List (Nat → TCoreStatus)),
      K.TGsCore1 + (nCore - 2) * K.TGsCore23 + K.TGsCore23 < 4294967296 →
      env.length = K.TGsCore23 + 2 →
      m.m_nFramesToProcess ≤ K.MaxChunkSize →
      (∀ i, i < K.TGsCore23 →
        m.m_pTG (K.TGsCore1 + (nCore - 2) * K.TGsCore23 + i) ≠ none) →
      (Run.run K nCore env (RunPc.assertFrames, m)).1 = RunPc.setIdle ∧
      (∀ i, i < K.TGsCore23 → ∀ tg,
        m.m_pTG (K.TGsCore1 + (nCore - 2) * K.TGsCore23 + i) = some tg →
        (Run.run K nCore env (RunPc.assertFrames, m)).2.m_pTG
            (K.TGsCore1 + (nCore - 2) * K.TGsCore23 + i) =
          some (K.getSamples tg (m.m_OutputLevel (K.TGsCore1 + (nCore - 2) * K.TGsCore23 + i))
            m.m_nFramesToProcess).1 ∧
        (Run.run K nCore env (RunPc.assertFrames, m)).2.m_OutputLevel
            (K.TGsCore1 + (nCore - 2) * K.TGsCore23 + i) =
          (K.getSamples tg (m.m_OutputLevel (K.TGsCore1 + (nCore - 2) * K.TGsCore23 + i))
            m.m_nFramesToProcess).2) ∧
      (∀ ch, (ch < K.TGsCore1 + (nCore - 2) * K.TGsCore23 ∨
          K.TGsCore1 + (nCore - 2) * K.TGsCore23 + K.TGsCore23 ≤ ch) →
        (Run.run K nCore env (RunPc.assertFrames, m)).2.m_pTG ch = m.m_pTG ch ∧
        (Run.run K nCore env (RunPc.assertFrames, m)).2.m_OutputLevel ch =
          m.m_OutputLevel ch)) ∧
    (∀ (env : List (Nat → TCoreStatus)) (m : CMiniDexed τ β),
      Run.run K nCore env (RunPc.returned, m) =
        (RunPc.returned,
          ⟨env.getLastD m.m_CoreStatus, m.m_nFramesToProcess, m.m_pTG, m.m_OutputLevel⟩)) := by
  refine ⟨?_, ?_, ?_, ?_, ?_, ?_, ?_, ?_, ?_, ?_, ?_⟩
  · intro pc m
    cases pc with
    | setIdle => exact Or.inr (Or.inl ⟨rfl, rfl⟩)
    | setUnknown => exact Or.inr (Or.inr ⟨rfl, rfl⟩)
    | waitKick => left; simp only [Run.step]; split_ifs <;> rfl
    | checkExit => left; simp only [Run.step]; split_ifs <;> rfl
    | assertBusy => left; simp only [Run.step]; split_ifs <;> rfl
    | assertFrames => left; simp only [Run.step]; split_ifs <;> rfl
    | returned => left; rfl
    | failed => left; rfl
    | loop i nTG =>
      left
      simp only [Run.step]
      split_ifs
      · cases h : m.m_pTG nTG with
        | none => simp [getSamplesOf, h]
        | some tg => rw [getSamplesOf_some K nTG _ m tg h]
      · rfl
  · intro pc m hpc
    cases pc with
    | loop i nTG => exact absurd rfl (hpc i nTG)
    | setIdle => exact ⟨rfl, rfl⟩
    | setUnknown => exact ⟨rfl, rfl⟩
    | waitKick => simp only [Run.step]; split_ifs <;> exact ⟨rfl, rfl⟩
    | checkExit => simp only [Run.step]; split_ifs <;> exact ⟨rfl, rfl⟩
    | assertBusy => simp only [Run.step]; split_ifs <;> exact ⟨rfl, rfl⟩
    | assertFrames => simp only [Run.step]; split_ifs <;> exact ⟨rfl, rfl⟩
    | returned => exact ⟨rfl, rfl⟩
    | failed => exact ⟨rfl, rfl⟩
  · intro h
    simp [Run.entry, h]
  · intro m; rfl
  · intro m h
    simp [Run.step, h]
  · intro m h
    simp [Run.step, h]
  · intro m h
    simp [Run.step, h]
  · intro m; rfl
  · intro m h
    simp [Run.step, h]
  · intro m env hf hlen hfr hnn
    cases env with
    | nil => simp at hlen
    | cons st rest =>
      have hlen2 : rest.length = K.TGsCore23 + 1 := by simpa using hlen
      have hstep : Run.step K nCore RunPc.assertFrames { m with m_CoreStatus := st } =
          (RunPc.loop 0 (K.TGsCore1 + (nCore - 2) * K.TGsCore23 + 0),
            ⟨st, m.m_nFramesToProcess, m.m_pTG, m.m_OutputLevel⟩) := by
        simp only [Run.step, hfr, if_true]
        rw [Nat.mod_eq_of_lt (by omega)]
        rfl
      simp only [Run.run]
      rw [hstep]
      obtain ⟨h1, h2, h3, -⟩ := Run.loop_run K nCore (K.TGsCore1 + (nCore - 2) * K.TGsCore23) hf
        K.TGsCore23 0 ⟨st, m.m_nFramesToProcess, m.m_pTG, m.m_OutputLevel⟩ rest (by omega) hlen2
        (fun k _ hk => hnn k hk)
      refine ⟨h1, fun i hi tg htg => h2 i (Nat.zero_le _) hi tg htg, fun ch hch => h3 ch ?_⟩
      omega
  · intro env m
    exact Run.run_returned K nCore env m


/-- C25 at a concrete input: core 2 of the example machine, kicked with a chunk of two
frames, while the status array reads `CoreStatusBusy` at each of its five steps. -/
theorem secondary_core_status_machine_witness :
    exampleSound.TGsCore1 + (2 - 2) * exampleSound.TGsCore23 + exampleSound.TGsCore23
      < 4294967296 ∧
    (List.replicate 5 (fun _ : Nat => TCoreStatus.CoreStatusBusy)).length =
      exampleSound.TGsCore23 + 2 ∧
    idleMembers.m_nFramesToProcess ≤ exampleSound.MaxChunkSize ∧
    (∀ i, i < exampleSound.TGsCore23 →
      idleMembers.m_pTG (exampleSound.TGsCore1 + (2 - 2) * exampleSound.TGsCore23 + i)
        ≠ none) ∧
    (Run.run exampleSound 2 (List.replicate 5 (fun _ : Nat => TCoreStatus.CoreStatusBusy))
      (RunPc.assertFrames, idleMembers)).1 = RunPc.setIdle ∧
    (∀ ch, (ch < exampleSound.TGsCore1 + (2 - 2) * exampleSound.TGsCore23 ∨
        exampleSound.TGsCore1 + (2 - 2) * exampleSound.TGsCore23 + exampleSound.TGsCore23
          ≤ ch) →
      (Run.run exampleSound 2 (List.replicate 5 (fun _ : Nat => TCoreStatus.CoreStatusBusy))
        (RunPc.assertFrames, idleMembers)).2.m_pTG ch = idleMembers.m_pTG ch ∧
      (Run.run exampleSound 2 (List.replicate 5 (fun _ : Nat => TCoreStatus.CoreStatusBusy))
        (RunPc.assertFrames, idleMembers)).2.m_OutputLevel ch = idleMembers.m_OutputLevel ch) :=
  ⟨by decide, rfl, by decide, fun _ _ => by simp [idleMembers],
   ((secondary_core_status_machine exampleSound 2).2.2.2.2.2.2.2.2.2.1 idleMembers
      (List.replicate 5 (fun _ : Nat => TCoreStatus.CoreStatusBusy)) (by decide) rfl
      (by decide) (fun _ _ => by simp [idleMembers])).1,
   ((secondary_core_status_machine exampleSound 2).2.2.2.2.2.2.2.2.2.1 idleMembers
      (List.replicate 5 (fun _ : Nat => TCoreStatus.CoreStatusBusy)) (by decide) rfl
      (by decide) (fun _ _ => by simp [idleMembers])).2.2⟩

/-- C26: the channels of the cores.  Core 1 generates exactly the channels of `[0, TGsCore1)`
and a secondary core `n` exactly those of
`[TGsCore1 + (n - 2) * TGsCore23, TGsCore1 + (n - 1) * TGsCore23)`, each channel once; the
ranges of distinct cores are disjoint, their union over the cores `1, ..., CORES - 1` is
`[0, TGsCore1 + (CORES - 2) * TGsCore23)`, and so every channel below that bound has exactly
one core that generates it. -/
theorem channel_ranges_partition (K : SoundEnv τ β)
    (hb : K.TGsCore1 + (K.CORES - 2) * K.TGsCore23 < 4294967296) :
    (∀ ch, ch ∈ ProcessSound.channels K ↔ ch < K.TGsCore1) ∧
    (∀ n, 2 ≤ n → n < K.CORES → ∀ ch, ch ∈ Run.channels K n ↔
      K.TGsCore1 + (n - 2) * K.TGsCore23 ≤ ch ∧ ch < K.TGsCore1 + (n - 1) * K.TGsCore23) ∧
    (ProcessSound.channels K).Nodup ∧
    (∀ n, 2 ≤ n → n < K.CORES → (Run.channels K n).Nodup) ∧
    (∀ n, 2 ≤ n → n < K.CORES → ∀ ch, ch ∈ Run.channels K n → ch ∉ ProcessSound.channels K) ∧
    (∀ n n', 2 ≤ n → n < K.CORES → 2 ≤ n' → n' < K.CORES → n ≠ n' →
      ∀ ch, ch ∈ Run.channels K n → ch ∉ Run.channels K n') ∧
    (∀ ch, ch < K.TGsCore1 + (K.CORES - 2) * K.TGsCore23 ↔
      (ch ∈ ProcessSound.channels K ∨ ∃ n, 2 ≤ n ∧ n < K.CORES ∧ ch ∈ Run.channels K n)) ∧
    (K.ToneGenerators = K.TGsCore1 + (K.CORES - 2) * K.TGsCore23 →
      ∀ ch, ch < K.ToneGenerators →
        (ch ∈ ProcessSound.channels K ∧ ∀ n, 2 ≤ n → n < K.CORES → ch ∉ Run.channels K n) ∨
        (ch ∉ ProcessSound.channels K ∧
          ∃ n, (2 ≤ n ∧ n < K.CORES ∧ ch ∈ Run.channels K n) ∧
            ∀ n', 2 ≤ n' → n' < K.CORES → ch ∈ Run.channels K n' → n' = n)) := by
  have hmem : ∀ n, 2 ≤ n → n < K.CORES → ∀ ch, ch ∈ Run.channels K n ↔
      K.TGsCore1 + (n - 2) * K.TGsCore23 ≤ ch ∧
      ch < K.TGsCore1 + (n - 2) * K.TGsCore23 + K.TGsCore23 :=
    fun n h2 hn ch => Run.mem_channels K hb n h2 hn ch
  have hsucc : ∀ n, 2 ≤ n → K.TGsCore1 + (n - 1) * K.TGsCore23 =
      K.TGsCore1 + (n - 2) * K.TGsCore23 + K.TGsCore23 := by
    intro n h2
    have : n - 1 = (n - 2) + 1 := by omega
    rw [this, Nat.succ_mul]
    omega
  have hdisj : ∀ n n', 2 ≤ n → n < K.CORES → 2 ≤ n' → n' < K.CORES → n ≠ n' →
      ∀ ch, ch ∈ Run.channels K n → ch ∉ Run.channels K n' := by
    intro n n' h2 hn h2' hn' hne ch hch hch'
    rw [hmem n h2 hn] at hch
    rw [hmem n' h2' hn'] at hch'
    rcases Nat.lt_or_gt_of_ne hne with h | h
    · have := firstTG_mono K n n' h2 h
      omega
    · have := firstTG_mono K n' n h2' h
      omega
  have hc1 : ∀ ch, ch ∈ ProcessSound.channels K ↔ ch < K.TGsCore1 := by
    intro ch; simp [ProcessSound.channels]
  have hunion : ∀ ch, ch < K.TGsCore1 + (K.CORES - 2) * K.TGsCore23 ↔
      (ch ∈ ProcessSound.channels K ∨ ∃ n, 2 ≤ n ∧ n < K.CORES ∧ ch ∈ Run.channels K n) := by
    intro ch
    constructor
    · intro h
      by_cases h1 : ch < K.TGsCore1
      · exact Or.inl ((hc1 ch).mpr h1)
      · obtain ⟨n, i, h2, hn, hi, rfl⟩ := channel_owner K ch (by omega) h
        exact Or.inr ⟨n, h2, hn, (hmem n h2 hn _).mpr ⟨by omega, by omega⟩⟩
    · rintro (h | ⟨n, h2, hn, h⟩)
      · rw [hc1] at h; omega
      · rw [hmem n h2 hn] at h
        have := firstTG_bound K n K.TGsCore23 h2 hn (le_refl _)
        omega
  refine ⟨hc1, ?_, List.nodup_range _, ?_, ?_, hdisj, hunion, ?_⟩
  · intro n h2 hn ch
    rw [hsucc n h2]
    exact hmem n h2 hn ch
  · intro n h2 hn
    rw [Run.channels_eq K hb n h2 hn]
    exact (List.nodup_range _).map (fun a b h => by omega)
  · intro n h2 hn ch hch hch1
    rw [hmem n h2 hn] at hch
    rw [hc1] at hch1
    omega
  · intro hT ch hch
    rw [hT] at hch
    rcases (hunion ch).mp hch with h | ⟨n, h2, hn, h⟩
    · left
      refine ⟨h, fun n h2 hn hn2 => ?_⟩
      rw [hmem n h2 hn] at hn2
      rw [hc1] at h
      omega
    · right
      refine ⟨?_, n, ⟨h2, hn, h⟩, ?_⟩
      · intro h1
        rw [hmem n h2 hn] at h
        rw [hc1] at h1
        omega
      · intro n' h2' hn' h'
        by_contra hne
        exact hdisj n n' h2 hn h2' hn' (fun e => hne e.symm) ch h h'

/-- C26 at a concrete input: four cores, two channels on core 1 and three on each of the
cores 2 and 3, eight tone generators. -/
theorem channel_ranges_partition_witness :
    exampleSound.TGsCore1 + (exampleSound.CORES - 2) * exampleSound.TGsCore23 < 4294967296 ∧
    exampleSound.ToneGenerators =
      exampleSound.TGsCore1 + (exampleSound.CORES - 2) * exampleSound.TGsCore23 ∧
    ProcessSound.channels exampleSound = [0, 1] ∧
    Run.channels exampleSound 2 = [2, 3, 4] ∧
    Run.channels exampleSound 3 = [5, 6, 7] ∧
    (∀ ch, ch < exampleSound.TGsCore1 + (exampleSound.CORES - 2) * exampleSound.TGsCore23 ↔
      (ch ∈ ProcessSound.channels exampleSound ∨
        ∃ n, 2 ≤ n ∧ n < exampleSound.CORES ∧ ch ∈ Run.channels exampleSound n)) :=
  ⟨by decide, rfl, by decide, by decide, by decide,
   (channel_ranges_partition exampleSound (by decide)).2.2.2.2.2.2.1⟩

end SchedulerFacts

/-! ## The audio signal path of `ProcessSound` -/

section SignalPathFacts

open StereoChannels MixerOutput

variable {α σ : Type} [LinearOrderedField α]

/-- The loop of `ProcessSound` over `setInputSampleBuffer`: with at most `nb_inputs` tone
generators it stores the pointers and touches nothing else. -/
theorem setInputSampleBuffer_loop (E : Env α σ) (m_OutputLevel : Nat → Nat → F32 α)
    (T : Nat) (hT : T ≤ E.nb_inputs) (c : MixingConsole α σ) :
    (List.range T).foldlM
      (fun c i => setInputSampleBuffer E i (some (m_OutputLevel i)) c) c =
    some { c with m_tgInputSampleBuffer := fun i =>
      if i < T then some (m_OutputLevel i) else c.m_tgInputSampleBuffer i } := by
  induction T with
  | zero => simp
  | succ n ih =>
    rw [List.range_succ, List.foldlM_append, ih (by omega)]
    simp only [Option.bind_eq_bind, Option.some_bind, List.foldlM_cons, List.foldlM_nil,
      setInputSampleBuffer, assert_decide, show n < E.nb_inputs from by omega, if_true,
      Option.pure_def, Option.bind_some]
    congr 1
    apply MixingConsole.ext <;> try rfl
    funext i
    simp only [store_apply]
    split_ifs <;> first | rfl | (exfalso; omega) | (subst_vars; rfl)

/-- The console that `process` is called on in the signal path. -/
theorem signalPath_eq (E : Env α σ) (toQ15 : F32 α → Int) (T nFrames : Nat)
    (hT : T ≤ E.nb_inputs) (swapped : Bool) (m_OutputLevel : Nat → Nat → F32 α)
    (s : SoundChunk α σ) (hvol : F32.flt 0 s.nMasterVolume = true)
    (c1 : MixingConsole α σ)
    (hc1 : c1 =
      { s.mixing_console_ with
        m_tgInputSampleBuffer := fun i =>
          if i < T then some (m_OutputLevel i)
          else s.mixing_console_.m_tgInputSampleBuffer i })
    (L R : Nat → F32 α)
    (hL : L = outLAfter E c1 (s.SampleBuffer (if swapped then Right else Left)) c1.m_nSamples)
    (hR : R = outRAfter E c1 (s.SampleBuffer (if swapped then Left else Right)) c1.m_nSamples) :
    ∃ s', ProcessSound.signalPath E toQ15 T nFrames swapped m_OutputLevel s = some s' ∧
      s'.mixing_console_ = { stateAfterFrames E c1 c1.m_nSamples with m_nSamples := 0 } ∧
      s'.nMasterVolume = constrain s.nMasterVolume 0 1 ∧
      s'.SampleBuffer (if swapped then Right else Left) = L ∧
      s'.SampleBuffer (if swapped then Left else Right) = R ∧
      (∀ k, k < nFrames →
        s'.tmp_int k = toQ15 (if F32.feq (constrain s.nMasterVolume 0 1) 1 then L k
          else L k * constrain s.nMasterVolume 0 1) ∧
        s'.tmp_int (nFrames + k) = toQ15 (if F32.feq (constrain s.nMasterVolume 0 1) 1 then R k
          else R k * constrain s.nMasterVolume 0 1)) := by
  unfold ProcessSound.signalPath
  simp only [hvol, if_true]
  rw [setInputSampleBuffer_loop E m_OutputLevel T hT, ← hc1]
  simp only [Option.bind_eq_bind, Option.some_bind]
  rw [process_eq, ← hL, ← hR]
  simp only [Option.some_bind, Option.pure_def]
  have hne : (if swapped then Right else Left) ≠ (if swapped then Left else Right) := by
    cases swapped <;> simp [Left, Right]
  refine ⟨_, rfl, rfl, rfl, ?_, ?_, ?_⟩
  · simp only [store_apply, hne, if_false, if_true]
  · simp only [store_apply, if_true]
  · intro k hk
    have h1 : k < nFrames * 2 := by omega
    have h2 : nFrames + k < nFrames * 2 := by omega
    have h3 : ¬ nFrames + k < nFrames := by omega
    have h4 : nFrames + k - nFrames = k := by omega
    simp only [arm_float_to_q15, h1, h2, if_true, store_apply, hne, if_false]
    cases hv : F32.feq (constrain s.nMasterVolume 0 1) 1
    · simp [atOffset, hk, h3, arm_scale_f32, h4]
    · simp [atOffset, hk, h3, memcpy, h4]


theorem exampleQ15_eval (n : Int) (h1 : -32768 ≤ n) (h2 : n ≤ 32767) :
    exampleQ15 (F32.fin ((n : ℚ) / 32768)) = n := by
  unfold exampleQ15
  have e : (n : ℚ) / 32768 * 32768 = ((n : Int) : ℚ) := by field_simp
  simp only [e]
  rw [truncToZero_intCast, clip16_id _ h1 h2]

/-- The chunk console with the tone-generator pointers that `ProcessSound` stores. -/
theorem chunkConsole_centerSetup (m_OutputLevel : Nat → Nat → F32 ℚ) :
    CenterSetup exampleEnv
      { chunkConsole with
        m_tgInputSampleBuffer := fun i =>
          if i < 2 then some (m_OutputLevel i) else chunkConsole.m_tgInputSampleBuffer i }
      0 2 (fun k => if k = 0 then 1 / 4 else 1 / 2) 1 (-1) := by
  refine ⟨?_, ?_, ?_⟩
  · intro b src hb hsrc
    have hsrc2 : src < 10 := hsrc
    have hb2 : b < 9 := hb
    simp only [chunkConsole, store2_apply]
    by_cases h : b = MainOutput ∧ src = 0
    · simp [h, constrain, F32.flt]
    · rw [if_neg h, if_neg h]
      simp [exampleConsole, constructCore, initCore, resetCore, bypassCore, zeroMemory,
        exampleEnv, mkEnv, kFXCount, hb2, hsrc2]
  · intro i s hi hs
    have hi2 : i < 2 := hi
    simp only [chunkConsole, store2_apply]
    by_cases h0 : i = 0
    · subst h0
      simp [Left, Right, memcpy, hs]
    · simp [Left, Right, h0, exampleConsole, constructCore, initCore, resetCore, bypassCore,
        zeroMemory, exampleEnv, mkEnv, hi2, show s < 4 by omega]
  · intro i s hi hs
    have hi2 : i < 2 := hi
    simp only [chunkConsole, store2_apply]
    by_cases h0 : i = 0
    · subst h0
      simp [Left, Right, memcpy, hs]
      split_ifs <;> norm_num
    · simp [Left, Right, h0, exampleConsole, constructCore, initCore, resetCore, bypassCore,
        zeroMemory, exampleEnv, mkEnv, hi2, show s < 4 by omega]


theorem passThrough_main (s : Unit) (l r : F32 ℚ) :
    ((exampleEnv.fx MainOutput).processSample s l r).2 = (l, r) := rfl

theorem passThrough_finite (b : Nat) (_hb : b < MainOutput) (s : Unit) (l r : F32 ℚ)
    (hl : F32.isFinite l = true) (hr : F32.isFinite r = true) :
    F32.isFinite ((exampleEnv.fx b).processSample s l r).2.1 = true ∧
    F32.isFinite ((exampleEnv.fx b).processSample s l r).2.2 = true := ⟨hl, hr⟩

theorem outLAfter_zero (E : Env α σ) (c : MixingConsole α σ) (outL : Nat → F32 α) :
    outLAfter E c outL 0 = outL := by
  funext k; simp [outLAfter]

theorem outRAfter_zero (E : Env α σ) (c : MixingConsole α σ) (outR : Nat → F32 α) :
    outRAfter E c outR 0 = outR := by
  funext k; simp [outRAfter]

/-- With no chunk waiting in the console, `process` writes no frame: the signal path converts
what `SampleBuffer` held before, whatever the tone generators have produced. -/
theorem signalPath_no_pending (E : Env α σ) (toQ15 : F32 α → Int) (T nFrames : Nat)
    (hT : T ≤ E.nb_inputs) (swapped : Bool) (m_OutputLevel : Nat → Nat → F32 α)
    (s : SoundChunk α σ) (hvol : F32.flt 0 s.nMasterVolume = true)
    (hn : s.mixing_console_.m_nSamples = 0) :
    ∃ s', ProcessSound.signalPath E toQ15 T nFrames swapped m_OutputLevel s = some s' ∧
      s'.SampleBuffer = s.SampleBuffer ∧
      s'.mixing_console_.m_inputSamples = s.mixing_console_.m_inputSamples ∧
      s'.mixing_console_.m_fx = s.mixing_console_.m_fx ∧
      (∀ k, k < nFrames →
        s'.tmp_int k = toQ15
          (if F32.feq (constrain s.nMasterVolume 0 1) 1
            then s.SampleBuffer (if swapped then Right else Left) k
            else s.SampleBuffer (if swapped then Right else Left) k *
              constrain s.nMasterVolume 0 1) ∧
        s'.tmp_int (nFrames + k) = toQ15
          (if F32.feq (constrain s.nMasterVolume 0 1) 1
            then s.SampleBuffer (if swapped then Left else Right) k
            else s.SampleBuffer (if swapped then Left else Right) k *
              constrain s.nMasterVolume 0 1)) := by
  obtain ⟨c1, hc1⟩ : ∃ c1 : MixingConsole α σ, c1 =
      { s.mixing_console_ with
        m_tgInputSampleBuffer := fun i =>
          if i < T then some (m_OutputLevel i)
          else s.mixing_console_.m_tgInputSampleBuffer i } := ⟨_, rfl⟩
  have hn1 : c1.m_nSamples = 0 := by rw [hc1]; exact hn
  obtain ⟨s', hs', hc, -, hL, hR, hint⟩ := signalPath_eq E toQ15 T nFrames hT swapped
    m_OutputLevel s hvol c1 hc1 _ _ rfl rfl
  rw [hn1, outLAfter_zero] at hL
  rw [hn1, outRAfter_zero] at hR
  rw [hn1, outLAfter_zero, outRAfter_zero] at hint
  rw [hn1] at hc
  refine ⟨s', hs', ?_, ?_, ?_, hint⟩
  · funext ch
    cases swapped
    · simp only [Bool.false_eq_true, if_false] at hL hR
      unfold ProcessSound.signalPath at hs'
      simp only [hvol, if_true, Bool.false_eq_true, if_false] at hs'
      rw [setInputSampleBuffer_loop E m_OutputLevel T hT, ← hc1] at hs'
      simp only [Option.bind_eq_bind, Option.some_bind] at hs'
      rw [process_eq, hn1, outLAfter_zero, outRAfter_zero] at hs'
      simp only [Option.some_bind, Option.pure_def, Option.some.injEq] at hs'
      rw [← hs']
      simp only [store_apply]
      split_ifs with h1 h2 <;> first | rfl | (rw [h1]) | (rw [h2])
    · simp only [if_true] at hL hR
      unfold ProcessSound.signalPath at hs'
      simp only [hvol, if_true] at hs'
      rw [setInputSampleBuffer_loop E m_OutputLevel T hT, ← hc1] at hs'
      simp only [Option.bind_eq_bind, Option.some_bind] at hs'
      rw [process_eq, hn1, outLAfter_zero, outRAfter_zero] at hs'
      simp only [Option.some_bind, Option.pure_def, Option.some.injEq] at hs'
      rw [← hs']
      simp only [store_apply]
      split_ifs with h1 h2 <;> first | rfl | (rw [h1]) | (rw [h2])
  · rw [hc, hc1]; rfl
  · rw [hc, hc1]; rfl

/-- C29, evaluated on the code: the console routes channel `0` to the main bus and has no
chunk waiting, as after its constructor or any `process` call; `ProcessSound` stores the
pointers to the tone generators' buffers and calls `process`, which runs `m_nSamples = 0`
turns instead of `nFrames = 2` and writes no frame.  Whatever the tone generators produced,
the four entries handed to the sound device are conversions of what the local array
`SampleBuffer` held before (`3/4`, converted to `24576`). -/
theorem signalPath_ignores_generated_buffers :
    setSendLevel exampleEnv 0 MainOutput 1 exampleConsole = some routedConsole ∧
    routedConsole.m_nSamples = 0 ∧
    F32.flt 0 (chunkStart routedConsole).nMasterVolume = true ∧
    exampleQ15 (F32.fin (3 / 4)) = 24576 ∧
    ∀ m_OutputLevel : Nat → Nat → F32 ℚ,
      ∃ s', ProcessSound.signalPath exampleEnv exampleQ15 2 2 false m_OutputLevel
          (chunkStart routedConsole) = some s' ∧
        s'.SampleBuffer = (chunkStart routedConsole).SampleBuffer ∧
        s'.mixing_console_.m_inputSamples = routedConsole.m_inputSamples ∧
        s'.tmp_int 0 = 24576 ∧ s'.tmp_int 1 = 24576 ∧
        s'.tmp_int 2 = 24576 ∧ s'.tmp_int 3 = 24576 := by
  have hq : exampleQ15 (F32.fin (3 / 4)) = 24576 := by
    have e : (3 / 4 : ℚ) = ((24576 : Int) : ℚ) / 32768 := by norm_num
    rw [e]; exact exampleQ15_eval 24576 (by norm_num) (by norm_num)
  refine ⟨setSendLevel_eq exampleEnv 0 MainOutput 1 _ (by decide) (by decide), rfl, rfl, hq, ?_⟩
  intro m_OutputLevel
  obtain ⟨s', hs', hSB, hin, -, hint⟩ := signalPath_no_pending exampleEnv exampleQ15 2 2
    (by decide) false m_OutputLevel (chunkStart routedConsole) rfl rfl
  have hv1 : F32.feq (constrain (chunkStart routedConsole).nMasterVolume 0 1) 1 = true := by
    rw [show (chunkStart routedConsole).nMasterVolume = F32.fin 1 from rfl, constrain_fin]
    simp [F32.one_def, F32.feq]
  have hi0 := hint 0 (by decide)
  have hi1 := hint 1 (by decide)
  simp only [hv1, if_true, Bool.false_eq_true, if_false] at hi0 hi1
  have hg : ∀ ch k, (chunkStart routedConsole).SampleBuffer ch k = F32.fin (3 / 4) :=
    fun _ _ => rfl
  rw [hg, hg, hq] at hi0 hi1
  exact ⟨s', hs', hSB, hin, hi0.1, hi1.1, hi0.2, hi1.2⟩

end SignalPathFacts

/-! ## The invariant of a `ProcessSound` call on several cores -/

section SchedulerInvariant

variable {τ β : Type}

theorem getSamplesOf_chan (K : SoundEnv τ β) (n ch : Nat) (m m0 : CMiniDexed τ β)
    (hpend : chanOf m ch = chanOf m0 ch) (hnn : m0.m_pTG ch ≠ none) :
    ∃ m1, getSamplesOf K ch n m = some m1 ∧
      chanOf m1 ch = chanAfter K n m0 ch ∧
      (∀ ch', ch' ≠ ch → chanOf m1 ch' = chanOf m ch') ∧
      m1.m_CoreStatus = m.m_CoreStatus ∧
      m1.m_nFramesToProcess = m.m_nFramesToProcess := by
  have h1 : m.m_pTG ch = m0.m_pTG ch := congrArg Prod.fst hpend
  have h2 : m.m_OutputLevel ch = m0.m_OutputLevel ch := congrArg Prod.snd hpend
  cases htg : m0.m_pTG ch with
  | none => exact absurd htg hnn
  | some tg =>
    rw [htg] at h1
    refine ⟨_, getSamplesOf_some K ch n m tg h1, ?_, ?_, rfl, rfl⟩
    · simp only [chanOf, chanAfter, htg, store_apply, if_true, h2]
    · intro ch' hne
      simp only [chanOf, store_apply, hne, if_false]

theorem SoundPc.kicked_not_setFrames (n : Nat) (pc : SoundPc)
    (h : SoundPc.kicked n pc = true) : pc ≠ SoundPc.setFrames := by
  intro e; rw [e] at h; simp [SoundPc.kicked] at h

theorem firstTG_ge (K : SoundEnv τ β) (n : Nat) : K.TGsCore1 ≤ firstTG K n := by
  unfold firstTG; omega

theorem firstTG_add_lt (K : SoundEnv τ β) (n i : Nat) (h2 : 2 ≤ n) (hn : n < K.CORES)
    (hi : i < K.TGsCore23) : firstTG K n + i < generatedChannels K := by
  have := firstTG_bound K n (i + 1) h2 hn (by omega)
  unfold firstTG generatedChannels
  omega

theorem firstTG_disjoint (K : SoundEnv τ β) (n n' i i' : Nat) (h2 : 2 ≤ n) (h2' : 2 ≤ n')
    (hi : i < K.TGsCore23) (hi' : i' < K.TGsCore23) (hne : n ≠ n') :
    firstTG K n + i ≠ firstTG K n' + i' := by
  unfold firstTG
  rcases Nat.lt_or_gt_of_ne hne with h | h
  · have := firstTG_mono K n n' h2 h
    omega
  · have := firstTG_mono K n' n h2' h
    omega


/-- A step of core 1 that generates nothing, writes no status flag and changes none of the
judgements `kicked`, `joined`, `ownDone` keeps the invariant. -/
theorem ChunkInv.of_same (K : SoundEnv τ β) (nFrames : Nat) (m0 : CMiniDexed τ β)
    (S S' : System τ β) (h : ChunkInv K nFrames m0 S)
    (hcore : S'.core = S.core) (hst : S'.mem.m_CoreStatus = S.mem.m_CoreStatus)
    (hch : ∀ ch, chanOf S'.mem ch = chanOf S.mem ch)
    (hk : ∀ n, 2 ≤ n → n < K.CORES → SoundPc.kicked n S'.core1 = SoundPc.kicked n S.core1)
    (hJ : ∀ n, 2 ≤ n → n < K.CORES → SoundPc.joined n S'.core1 = true →
      SoundPc.joined n S.core1 = true ∨
      (S.mem.m_CoreStatus n = TCoreStatus.CoreStatusIdle ∧ S.core n = RunPc.waitKick))
    (ho : ∀ i, i < K.TGsCore1 → SoundPc.ownDone i S'.core1 = SoundPc.ownDone i S.core1)
    (h1 : S'.core1 ≠ SoundPc.failed)
    (h2 : ∀ n, S'.core1 = SoundPc.kickAssert n → 2 ≤ n)
    (h3 : ∀ n, S'.core1 = SoundPc.kickWrite n → 2 ≤ n ∧ n < K.CORES)
    (h4 : ∀ i, S'.core1 = SoundPc.loop i → i ≤ K.TGsCore1)
    (h5 : ∀ n, S'.core1 = SoundPc.wait n → 2 ≤ n)
    (h6 : S'.core1 ≠ SoundPc.setFrames → S'.mem.m_nFramesToProcess = nFrames) :
    ChunkInv K nFrames m0 S' where
  notFailed := h1
  kickAssertRange := h2
  kickWriteRange := h3
  loopRange := h4
  waitRange := h5
  frames := h6
  own := fun i hi => by rw [hch, ho i hi]; exact h.own i hi
  rest := fun ch hc => by rw [hch]; exact h.rest ch hc
  unkicked := fun n hn2 hn hkn => by
    rw [hst, hcore]; exact h.unkicked n hn2 hn (by rw [← hk n hn2 hn]; exact hkn)
  isJoined := fun n hn2 hn hjn => by
    rw [hst, hcore]
    rcases hJ n hn2 hn hjn with h7 | h7
    · exact h.isJoined n hn2 hn h7
    · exact h7
  isKicked := fun n hn2 hn hkn => by
    rw [hst, hcore]; exact h.isKicked n hn2 hn (by rw [← hk n hn2 hn]; exact hkn)
  channels := fun n hn2 hn i hi => by
    rw [hch, hst, hcore, hk n hn2 hn]; exact h.channels n hn2 hn i hi

theorem System.step_one (K : SoundEnv τ β) (nFrames : Nat) (S : System τ β) :
    System.step K nFrames S 1 =
      ⟨(ProcessSound.step K nFrames S.core1 S.mem).1, S.core,
        (ProcessSound.step K nFrames S.core1 S.mem).2⟩ := by
  simp [System.step]

theorem System.step_secondary (K : SoundEnv τ β) (nFrames : Nat) (S : System τ β) (k : Nat)
    (h2 : 2 ≤ k) (hk : k < K.CORES) :
    System.step K nFrames S k =
      ⟨S.core1, store S.core k (Run.step K k (S.core k) S.mem).1,
        (Run.step K k (S.core k) S.mem).2⟩ := by
  have h1 : k ≠ 1 := by omega
  simp [System.step, h1, h2, hk]

theorem System.step_other (K : SoundEnv τ β) (nFrames : Nat) (S : System τ β) (k : Nat)
    (h1 : k ≠ 1) (h2 : ¬ (2 ≤ k ∧ k < K.CORES)) :
    System.step K nFrames S k = S := by
  simp [System.step, h1, h2]

/-- Core 1 keeps the invariant. -/
theorem ChunkInv.step_core1 (K : SoundEnv τ β) (nFrames : Nat) (m0 : CMiniDexed τ β)
    (hfr : nFrames ≤ K.MaxChunkSize)
    (hnn : ∀ ch, ch < generatedChannels K → m0.m_pTG ch ≠ none)
    (S : System τ β) (h : ChunkInv K nFrames m0 S) :
    ChunkInv K nFrames m0 (System.step K nFrames S 1) := by
  rw [System.step_one]
  obtain ⟨pc1, pcs, mem⟩ := S
  cases pc1 with
  | setFrames =>
    refine ChunkInv.of_same K nFrames m0 _ _ h rfl rfl (fun _ => rfl) ?_ ?_ ?_ ?_ ?_ ?_ ?_ ?_ ?_
    · intro n hn2 hn
      simp only [ProcessSound.step, SoundPc.kicked, decide_eq_false_iff_not]; omega
    · intro n hn2 hn hjn; simp [ProcessSound.step, SoundPc.joined] at hjn
    · intro i hi; rfl
    · simp [ProcessSound.step]
    · intro n hn; simp only [ProcessSound.step, SoundPc.kickAssert.injEq] at hn; omega
    · intro n hn; simp [ProcessSound.step] at hn
    · intro i hi; simp [ProcessSound.step] at hi
    · intro n hn; simp [ProcessSound.step] at hn
    · intro _; rfl
  | kickAssert m =>
    have hm2 := h.kickAssertRange m rfl
    by_cases hm : m < K.CORES
    · have hidle := (h.unkicked m hm2 hm (by simp [SoundPc.kicked])).1
      have hstep : ProcessSound.step K nFrames (SoundPc.kickAssert m) mem =
          (SoundPc.kickWrite m, mem) := by
        simp only [ProcessSound.step, hm, if_true]
        rw [if_pos hidle]
      rw [hstep]
      refine ChunkInv.of_same K nFrames m0 _ _ h rfl rfl (fun _ => rfl) ?_ ?_ ?_ ?_ ?_ ?_ ?_ ?_ ?_
      · intro n hn2 hn; rfl
      · intro n hn2 hn hjn; simp [SoundPc.joined] at hjn
      · intro i hi; rfl
      · simp
      · intro n hn; simp at hn
      · intro n hn
        simp only [SoundPc.kickWrite.injEq] at hn
        subst hn; exact ⟨hm2, hm⟩
      · intro i hi; simp at hi
      · intro n hn; simp at hn
      · intro _; exact h.frames (by simp)
    · have hstep : ProcessSound.step K nFrames (SoundPc.kickAssert m) mem =
          (SoundPc.assertChunk, mem) := by
        simp only [ProcessSound.step, hm, if_false]
      rw [hstep]
      refine ChunkInv.of_same K nFrames m0 _ _ h rfl rfl (fun _ => rfl) ?_ ?_ ?_ ?_ ?_ ?_ ?_ ?_ ?_
      · intro n hn2 hn
        simp only [SoundPc.kicked, true_eq_decide_iff]; omega
      · intro n hn2 hn hjn; simp [SoundPc.joined] at hjn
      · intro i hi; rfl
      · simp
      · intro n hn; simp at hn
      · intro n hn; simp at hn
      · intro i hi; simp at hi
      · intro n hn; simp at hn
      · intro _; exact h.frames (by simp)
  | kickWrite m =>
    obtain ⟨hm2, hm⟩ := h.kickWriteRange m rfl
    obtain ⟨hidle, hpcm⟩ := h.unkicked m hm2 hm (by simp [SoundPc.kicked])
    have hstep : ProcessSound.step K nFrames (SoundPc.kickWrite m) mem =
        (SoundPc.kickAssert (m + 1),
          ⟨store mem.m_CoreStatus m TCoreStatus.CoreStatusBusy, mem.m_nFramesToProcess,
            mem.m_pTG, mem.m_OutputLevel⟩) := rfl
    rw [hstep]
    have hkk : ∀ n, n ≠ m → SoundPc.kicked n (SoundPc.kickAssert (m + 1)) =
        SoundPc.kicked n (SoundPc.kickWrite m) := by
      intro n hne
      simp only [SoundPc.kicked, decide_eq_decide]; omega
    constructor
    · simp
    · intro n hn; simp only [SoundPc.kickAssert.injEq] at hn; omega
    · intro n hn; simp at hn
    · intro i hi; simp at hi
    · intro n hn; simp at hn
    · intro _; exact h.frames (by simp)
    · intro i hi; exact h.own i hi
    · intro ch hc; exact h.rest ch hc
    · intro n hn2 hn hkn
      have hne : n ≠ m := by
        intro e; subst e; simp [SoundPc.kicked] at hkn
      rw [hkk n hne] at hkn
      have := h.unkicked n hn2 hn hkn
      simp only [store_apply, hne, if_false]
      exact this
    · intro n hn2 hn hjn; simp [SoundPc.joined] at hjn
    · intro n hn2 hn hkn
      by_cases hne : n = m
      · subst hne
        simp only [store_apply, if_true]
        rw [show pcs n = RunPc.waitKick from hpcm]
        exact Or.inl rfl
      · rw [hkk n hne] at hkn
        have := h.isKicked n hn2 hn hkn
        simp only [store_apply, hne, if_false]
        exact this
    · intro n hn2 hn i hi
      have hc := h.channels n hn2 hn i hi
      by_cases hne : n = m
      · subst hne
        have e1 : RunPc.progress K (SoundPc.kicked n (SoundPc.kickAssert (n + 1)))
            (store mem.m_CoreStatus n TCoreStatus.CoreStatusBusy n) (pcs n) = 0 := by
          rw [show pcs n = RunPc.waitKick from hpcm]
          simp [RunPc.progress, store_apply]
        have e2 : RunPc.progress K (SoundPc.kicked n (SoundPc.kickWrite n))
            (mem.m_CoreStatus n) (pcs n) = 0 := by
          rw [show pcs n = RunPc.waitKick from hpcm]
          simp [RunPc.progress, SoundPc.kicked]
        simp only [e2] at hc
        simp only [e1]
        exact hc
      · simp only [store_apply, hne, if_false, hkk n hne]
        exact hc
  | assertChunk =>
    have hstep : ProcessSound.step K nFrames SoundPc.assertChunk mem =
        (SoundPc.loop 0, mem) := by
      simp only [ProcessSound.step, hfr, if_true]
    rw [hstep]
    refine ChunkInv.of_same K nFrames m0 _ _ h rfl rfl (fun _ => rfl) ?_ ?_ ?_ ?_ ?_ ?_ ?_ ?_ ?_
    · intro n hn2 hn; rfl
    · intro n hn2 hn hjn; simp [SoundPc.joined] at hjn
    · intro i hi; simp [SoundPc.ownDone]
    · simp
    · intro n hn; simp at hn
    · intro n hn; simp at hn
    · intro i hi; simp only [SoundPc.loop.injEq] at hi; omega
    · intro n hn; simp at hn
    · intro _; exact h.frames (by simp)
  | loop i =>
    have hiT := h.loopRange i rfl
    by_cases hi : i < K.TGsCore1
    · have hpend : chanOf mem i = chanOf m0 i := by
        have := h.own i hi
        simpa [SoundPc.ownDone] using this
      have hgen : i < generatedChannels K := by unfold generatedChannels; omega
      obtain ⟨m1, hm1, hdone, hothers, hst1, hfr1⟩ :=
        getSamplesOf_chan K nFrames i mem m0 hpend (hnn i hgen)
      have hstep : ProcessSound.step K nFrames (SoundPc.loop i) mem =
          (SoundPc.loop (i + 1), m1) := by
        simp only [ProcessSound.step, hi, if_true, hm1]
      rw [hstep]
      constructor
      · simp
      · intro n hn; simp at hn
      · intro n hn; simp at hn
      · intro j hj; simp only [SoundPc.loop.injEq] at hj; omega
      · intro n hn; simp at hn
      · intro _; show m1.m_nFramesToProcess = nFrames; rw [hfr1]; exact h.frames (by simp)
      · intro j hj
        show chanOf m1 j = _
        by_cases hji : j = i
        · subst hji
          rw [hdone]; simp [SoundPc.ownDone]
        · rw [hothers j hji]
          have := h.own j hj
          simp only [SoundPc.ownDone, decide_eq_true_eq] at this ⊢
          rw [this]
          split_ifs <;> first | rfl | (exfalso; omega)
      · intro ch hc
        show chanOf m1 ch = _
        rw [hothers ch (by omega)]
        exact h.rest ch hc
      · intro n hn2 hn hkn; simp [SoundPc.kicked] at hkn
      · intro n hn2 hn hjn; simp [SoundPc.joined] at hjn
      · intro n hn2 hn hkn
        show SecState K n (m1.m_CoreStatus n) (pcs n)
        rw [hst1]
        exact h.isKicked n hn2 hn (by simp [SoundPc.kicked])
      · intro n hn2 hn j hj
        show chanOf m1 (firstTG K n + j) = _
        have hge := firstTG_ge K n
        rw [hothers _ (by omega)]
        have := h.channels n hn2 hn j hj
        simp only [SoundPc.kicked] at this ⊢
        show _ = if j < RunPc.progress K true (m1.m_CoreStatus n) (pcs n) then _ else _
        rw [hst1]
        exact this
    · have hstep : ProcessSound.step K nFrames (SoundPc.loop i) mem =
          (SoundPc.wait 2, mem) := by
        simp only [ProcessSound.step, hi, if_false]
      rw [hstep]
      refine ChunkInv.of_same K nFrames m0 _ _ h rfl rfl (fun _ => rfl) ?_ ?_ ?_ ?_ ?_ ?_ ?_ ?_ ?_
      · intro n hn2 hn; rfl
      · intro n hn2 hn hjn
        simp only [SoundPc.joined, decide_eq_true_eq] at hjn; omega
      · intro j hj
        simp only [SoundPc.ownDone, true_eq_decide_iff]; omega
      · simp
      · intro n hn; simp at hn
      · intro n hn; simp at hn
      · intro j hj; simp at hj
      · intro n hn; simp only [SoundPc.wait.injEq] at hn; omega
      · intro _; exact h.frames (by simp)
  | wait m =>
    have hm2 := h.waitRange m rfl
    by_cases hm : m < K.CORES
    · by_cases hidle : mem.m_CoreStatus m = TCoreStatus.CoreStatusIdle
      · have hstep : ProcessSound.step K nFrames (SoundPc.wait m) mem =
            (SoundPc.wait (m + 1), mem) := by
          simp only [ProcessSound.step, hm, if_true]
          rw [if_pos hidle]
        rw [hstep]
        have hpcm : pcs m = RunPc.waitKick := by
          have := h.isKicked m hm2 hm (by simp [SoundPc.kicked])
          simp only [] at this
          rw [hidle] at this
          cases hp : pcs m <;> rw [hp] at this <;> simp [SecState] at this
        refine ChunkInv.of_same K nFrames m0 _ _ h rfl rfl (fun _ => rfl) ?_ ?_ ?_ ?_ ?_ ?_ ?_ ?_
          ?_
        · intro n hn2 hn; rfl
        · intro n hn2 hn hjn
          simp only [SoundPc.joined, decide_eq_true_eq] at hjn ⊢
          by_cases hnm : n = m
          · subst hnm; exact Or.inr ⟨hidle, hpcm⟩
          · left; omega
        · intro j hj; rfl
        · simp
        · intro n hn; simp at hn
        · intro n hn; simp at hn
        · intro j hj; simp at hj
        · intro n hn; simp only [SoundPc.wait.injEq] at hn; omega
        · intro _; exact h.frames (by simp)
      · have hstep : ProcessSound.step K nFrames (SoundPc.wait m) mem =
            (SoundPc.wait m, mem) := by
          simp only [ProcessSound.step, hm, if_true]
          rw [if_neg hidle]
        rw [hstep]
        exact h
    · have hstep : ProcessSound.step K nFrames (SoundPc.wait m) mem =
          (SoundPc.mix, mem) := by
        simp only [ProcessSound.step, hm, if_false]
      rw [hstep]
      refine ChunkInv.of_same K nFrames m0 _ _ h rfl rfl (fun _ => rfl) ?_ ?_ ?_ ?_ ?_ ?_ ?_ ?_ ?_
      · intro n hn2 hn; rfl
      · intro n hn2 hn hjn
        left
        simp only [SoundPc.joined, decide_eq_true_eq]; omega
      · intro j hj; rfl
      · simp
      · intro n hn; simp at hn
      · intro n hn; simp at hn
      · intro j hj; simp at hj
      · intro n hn; simp at hn
      · intro _; exact h.frames (by simp)
  | mix => exact h
  | failed => exact absurd rfl h.notFailed


/-- A step of a secondary core `k` that generates nothing keeps the invariant, provided the
new control point and status flag of `k` fit what core 1 has done and show the same
progress. -/
theorem ChunkInv.of_secondary (K : SoundEnv τ β) (nFrames : Nat) (m0 : CMiniDexed τ β)
    (S : System τ β) (h : ChunkInv K nFrames m0 S) (k : Nat) (st' : TCoreStatus)
    (pc' : RunPc) (mem' : CMiniDexed τ β)
    (hst : ∀ n, mem'.m_CoreStatus n = if n = k then st' else S.mem.m_CoreStatus n)
    (hfr : mem'.m_nFramesToProcess = S.mem.m_nFramesToProcess)
    (hch : ∀ ch, chanOf mem' ch = chanOf S.mem ch)
    (hu : SoundPc.kicked k S.core1 = false →
      st' = TCoreStatus.CoreStatusIdle ∧ pc' = RunPc.waitKick)
    (hj : SoundPc.joined k S.core1 = true →
      st' = TCoreStatus.CoreStatusIdle ∧ pc' = RunPc.waitKick)
    (hk : SoundPc.kicked k S.core1 = true → SecState K k st' pc')
    (hp : RunPc.progress K (SoundPc.kicked k S.core1) st' pc' =
      RunPc.progress K (SoundPc.kicked k S.core1) (S.mem.m_CoreStatus k) (S.core k)) :
    ChunkInv K nFrames m0 ⟨S.core1, store S.core k pc', mem'⟩ where
  notFailed := h.notFailed
  kickAssertRange := h.kickAssertRange
  kickWriteRange := h.kickWriteRange
  loopRange := h.loopRange
  waitRange := h.waitRange
  frames := fun hne => by show mem'.m_nFramesToProcess = nFrames; rw [hfr]; exact h.frames hne
  own := fun i hi => by show chanOf mem' i = _; rw [hch]; exact h.own i hi
  rest := fun ch hc => by show chanOf mem' ch = _; rw [hch]; exact h.rest ch hc
  unkicked := fun n hn2 hn hkn => by
    show mem'.m_CoreStatus n = _ ∧ store S.core k pc' n = _
    rw [hst, store_apply]
    by_cases hnk : n = k
    · subst hnk; simp only [if_true]; exact hu hkn
    · simp only [hnk, if_false]; exact h.unkicked n hn2 hn hkn
  isJoined := fun n hn2 hn hjn => by
    show mem'.m_CoreStatus n = _ ∧ store S.core k pc' n = _
    rw [hst, store_apply]
    by_cases hnk : n = k
    · subst hnk; simp only [if_true]; exact hj hjn
    · simp only [hnk, if_false]; exact h.isJoined n hn2 hn hjn
  isKicked := fun n hn2 hn hkn => by
    show SecState K n (mem'.m_CoreStatus n) (store S.core k pc' n)
    rw [hst, store_apply]
    by_cases hnk : n = k
    · subst hnk; simp only [if_true]; exact hk hkn
    · simp only [hnk, if_false]; exact h.isKicked n hn2 hn hkn
  channels := fun n hn2 hn i hi => by
    show chanOf mem' (firstTG K n + i) =
      if i < RunPc.progress K (SoundPc.kicked n S.core1) (mem'.m_CoreStatus n)
        (store S.core k pc' n) then _ else _
    rw [hch, hst, store_apply]
    by_cases hnk : n = k
    · subst hnk; simp only [if_true]; rw [hp]; exact h.channels n hn2 hn i hi
    · simp only [hnk, if_false]; exact h.channels n hn2 hn i hi

/-- What the invariant says about a secondary core that is not at the wait. -/
theorem ChunkInv.busy_core (K : SoundEnv τ β) (nFrames : Nat) (m0 : CMiniDexed τ β)
    (S : System τ β) (h : ChunkInv K nFrames m0 S) (k : Nat) (h2 : 2 ≤ k) (hk : k < K.CORES)
    (hpc : S.core k ≠ RunPc.waitKick) :
    SoundPc.kicked k S.core1 = true ∧ SoundPc.joined k S.core1 = false ∧
    SecState K k (S.mem.m_CoreStatus k) (S.core k) := by
  have hkk : SoundPc.kicked k S.core1 = true := by
    cases hc : SoundPc.kicked k S.core1 with
    | true => rfl
    | false => exact absurd (h.unkicked k h2 hk hc).2 hpc
  have hjj : SoundPc.joined k S.core1 = false := by
    cases hc : SoundPc.joined k S.core1 with
    | false => rfl
    | true => exact absurd (h.isJoined k h2 hk hc).2 hpc
  exact ⟨hkk, hjj, h.isKicked k h2 hk hkk⟩


theorem status_same (mem : CMiniDexed τ β) (k : Nat) :
    ∀ n, mem.m_CoreStatus n = if n = k then mem.m_CoreStatus k else mem.m_CoreStatus n := by
  intro n
  split_ifs with h
  · rw [h]
  · rfl

/-- A secondary core keeps the invariant. -/
theorem ChunkInv.secondary_step (K : SoundEnv τ β) (nFrames : Nat) (m0 : CMiniDexed τ β)
    (hb : generatedChannels K < 4294967296)
    (hfr : nFrames ≤ K.MaxChunkSize)
    (hnn : ∀ ch, ch < generatedChannels K → m0.m_pTG ch ≠ none)
    (S : System τ β) (h : ChunkInv K nFrames m0 S) (k : Nat) (h2 : 2 ≤ k) (hk : k < K.CORES) :
    ChunkInv K nFrames m0 (System.step K nFrames S k) := by
  rw [System.step_secondary K nFrames S k h2 hk]
  have hfirst : (K.TGsCore1 + (k - 2) * K.TGsCore23) % 4294967296 = firstTG K k := by
    have := firstTG_bound K k 0 h2 hk (Nat.zero_le _)
    unfold generatedChannels at hb
    unfold firstTG
    exact Nat.mod_eq_of_lt (by omega)
  cases hpc : S.core k with
  | setIdle =>
    obtain ⟨hkk, hjj, hsec⟩ := h.busy_core K nFrames m0 S k h2 hk (by rw [hpc]; simp)
    rw [hpc] at hsec
    refine ChunkInv.of_secondary K nFrames m0 S h k TCoreStatus.CoreStatusIdle
      RunPc.waitKick _ ?_ rfl (fun _ => rfl) ?_ ?_ ?_ ?_
    · intro n; simp only [Run.step, store_apply]
    · intro hc; rw [hkk] at hc; exact absurd hc (by simp)
    · intro _; exact ⟨rfl, rfl⟩
    · intro _; exact Or.inr rfl
    · rw [hpc, hkk]; simp [RunPc.progress]
  | waitKick =>
    by_cases hidle : S.mem.m_CoreStatus k = TCoreStatus.CoreStatusIdle
    · have hstep : Run.step K k RunPc.waitKick S.mem = (RunPc.waitKick, S.mem) := by
        simp only [Run.step, hidle, if_true]
      rw [hstep]
      refine ChunkInv.of_secondary K nFrames m0 S h k (S.mem.m_CoreStatus k)
        RunPc.waitKick _ (status_same S.mem k) rfl (fun _ => rfl) ?_ ?_ ?_ ?_
      · intro _; exact ⟨hidle, rfl⟩
      · intro _; exact ⟨hidle, rfl⟩
      · intro _; exact Or.inr hidle
      · rw [hpc]
    · have hstep : Run.step K k RunPc.waitKick S.mem = (RunPc.checkExit, S.mem) := by
        simp only [Run.step, hidle, if_false]
      rw [hstep]
      have hkk : SoundPc.kicked k S.core1 = true := by
        cases hc : SoundPc.kicked k S.core1 with
        | true => rfl
        | false => exact absurd (h.unkicked k h2 hk hc).1 hidle
      have hjj : SoundPc.joined k S.core1 = false := by
        cases hc : SoundPc.joined k S.core1 with
        | false => rfl
        | true => exact absurd (h.isJoined k h2 hk hc).1 hidle
      have hsec := h.isKicked k h2 hk hkk
      rw [hpc] at hsec
      have hbusy : S.mem.m_CoreStatus k = TCoreStatus.CoreStatusBusy := by
        rcases hsec with h3 | h3
        · exact h3
        · exact absurd h3 hidle
      refine ChunkInv.of_secondary K nFrames m0 S h k (S.mem.m_CoreStatus k)
        RunPc.checkExit _ (status_same S.mem k) rfl (fun _ => rfl) ?_ ?_ ?_ ?_
      · intro hc; rw [hkk] at hc; exact absurd hc (by simp)
      · intro hc; rw [hjj] at hc; exact absurd hc (by simp)
      · intro _; exact hbusy
      · rw [hpc, hbusy]; simp [RunPc.progress]
  | checkExit =>
    obtain ⟨hkk, hjj, hsec⟩ := h.busy_core K nFrames m0 S k h2 hk (by rw [hpc]; simp)
    rw [hpc] at hsec
    have hbusy : S.mem.m_CoreStatus k = TCoreStatus.CoreStatusBusy := hsec
    have hstep : Run.step K k RunPc.checkExit S.mem = (RunPc.assertBusy, S.mem) := by
      simp only [Run.step, hbusy]
      rw [if_neg (by simp)]
    rw [hstep]
    refine ChunkInv.of_secondary K nFrames m0 S h k (S.mem.m_CoreStatus k)
      RunPc.assertBusy _ (status_same S.mem k) rfl (fun _ => rfl) ?_ ?_ ?_ ?_
    · intro hc; rw [hkk] at hc; exact absurd hc (by simp)
    · intro hc; rw [hjj] at hc; exact absurd hc (by simp)
    · intro _; exact hbusy
    · rw [hpc]; simp [RunPc.progress]
  | assertBusy =>
    obtain ⟨hkk, hjj, hsec⟩ := h.busy_core K nFrames m0 S k h2 hk (by rw [hpc]; simp)
    rw [hpc] at hsec
    have hbusy : S.mem.m_CoreStatus k = TCoreStatus.CoreStatusBusy := hsec
    have hstep : Run.step K k RunPc.assertBusy S.mem = (RunPc.assertFrames, S.mem) := by
      simp only [Run.step, hbusy, if_true]
    rw [hstep]
    refine ChunkInv.of_secondary K nFrames m0 S h k (S.mem.m_CoreStatus k)
      RunPc.assertFrames _ (status_same S.mem k) rfl (fun _ => rfl) ?_ ?_ ?_ ?_
    · intro hc; rw [hkk] at hc; exact absurd hc (by simp)
    · intro hc; rw [hjj] at hc; exact absurd hc (by simp)
    · intro _; exact hbusy
    · rw [hpc]; simp [RunPc.progress]
  | assertFrames =>
    obtain ⟨hkk, hjj, hsec⟩ := h.busy_core K nFrames m0 S k h2 hk (by rw [hpc]; simp)
    rw [hpc] at hsec
    have hbusy : S.mem.m_CoreStatus k = TCoreStatus.CoreStatusBusy := hsec
    have hframes : S.mem.m_nFramesToProcess = nFrames :=
      h.frames (SoundPc.kicked_not_setFrames k _ hkk)
    have hstep : Run.step K k RunPc.assertFrames S.mem =
        (RunPc.loop 0 (firstTG K k), S.mem) := by
      simp only [Run.step, hframes, hfr, if_true, hfirst]
    rw [hstep]
    refine ChunkInv.of_secondary K nFrames m0 S h k (S.mem.m_CoreStatus k)
      (RunPc.loop 0 (firstTG K k)) _ (status_same S.mem k) rfl (fun _ => rfl) ?_ ?_ ?_ ?_
    · intro hc; rw [hkk] at hc; exact absurd hc (by simp)
    · intro hc; rw [hjj] at hc; exact absurd hc (by simp)
    · intro _; exact ⟨hbusy, Nat.zero_le _, rfl⟩
    · rw [hpc]; simp [RunPc.progress]
  | loop i nTG =>
    obtain ⟨hkk, hjj, hsec⟩ := h.busy_core K nFrames m0 S k h2 hk (by rw [hpc]; simp)
    rw [hpc] at hsec
    obtain ⟨hbusy, hiT, hnTG⟩ := hsec
    by_cases hi : i < K.TGsCore23
    · have hframes : S.mem.m_nFramesToProcess = nFrames :=
        h.frames (SoundPc.kicked_not_setFrames k _ hkk)
      have hpend : chanOf S.mem (firstTG K k + i) = chanOf m0 (firstTG K k + i) := by
        have := h.channels k h2 hk i hi
        rw [hpc] at this
        simpa [RunPc.progress] using this
      have hgen := firstTG_add_lt K k i h2 hk hi
      obtain ⟨m1, hm1, hdone, hothers, hst1, hfr1⟩ :=
        getSamplesOf_chan K nFrames (firstTG K k + i) S.mem m0 hpend (hnn _ hgen)
      have hstep : Run.step K k (RunPc.loop i nTG) S.mem =
          (RunPc.loop (i + 1) (firstTG K k + (i + 1)), m1) := by
        subst hnTG
        simp only [Run.step, hi, if_true, hframes, hm1]
        rw [Nat.mod_eq_of_lt (by omega)]
        rfl
      rw [hstep]
      have hge := firstTG_ge K k
      constructor
      · exact h.notFailed
      · exact h.kickAssertRange
      · exact h.kickWriteRange
      · exact h.loopRange
      · exact h.waitRange
      · intro hne
        show m1.m_nFramesToProcess = nFrames
        rw [hfr1]; exact h.frames hne
      · intro j hj
        show chanOf m1 j = _
        rw [hothers j (by omega)]
        exact h.own j hj
      · intro ch hc
        show chanOf m1 ch = _
        rw [hothers ch (by omega)]
        exact h.rest ch hc
      · intro n hn2 hn hkn
        show m1.m_CoreStatus n = _ ∧ store S.core k _ n = _
        have hnk : n ≠ k := by
          intro e; subst e; rw [hkk] at hkn; exact absurd hkn (by simp)
        rw [hst1, store_apply, if_neg hnk]
        exact h.unkicked n hn2 hn hkn
      · intro n hn2 hn hjn
        show m1.m_CoreStatus n = _ ∧ store S.core k _ n = _
        have hnk : n ≠ k := by
          intro e; subst e; rw [hjj] at hjn; exact absurd hjn (by simp)
        rw [hst1, store_apply, if_neg hnk]
        exact h.isJoined n hn2 hn hjn
      · intro n hn2 hn hkn
        show SecState K n (m1.m_CoreStatus n) (store S.core k _ n)
        rw [hst1, store_apply]
        by_cases hnk : n = k
        · subst hnk
          simp only [if_true]
          exact ⟨hbusy, by omega, rfl⟩
        · simp only [hnk, if_false]
          exact h.isKicked n hn2 hn hkn
      · intro n hn2 hn j hj
        show chanOf m1 (firstTG K n + j) =
          if j < RunPc.progress K (SoundPc.kicked n S.core1) (m1.m_CoreStatus n)
            (store S.core k (RunPc.loop (i + 1) (firstTG K k + (i + 1))) n) then _ else _
        rw [hst1, store_apply]
        by_cases hnk : n = k
        · subst hnk
          simp only [if_true, RunPc.progress]
          by_cases hji : j = i
          · subst hji
            rw [hdone, if_pos (by omega)]
          · rw [hothers _ (by omega)]
            have := h.channels n hn2 hn j hj
            rw [hpc] at this
            simp only [RunPc.progress] at this
            rw [this]
            split_ifs <;> first | rfl | (exfalso; omega)
        · simp only [hnk, if_false]
          rw [hothers _ (firstTG_disjoint K n k j i hn2 h2 hj hi hnk)]
          exact h.channels n hn2 hn j hj
    · have hstep : Run.step K k (RunPc.loop i nTG) S.mem = (RunPc.setIdle, S.mem) := by
        simp only [Run.step, hi, if_false]
      rw [hstep]
      refine ChunkInv.of_secondary K nFrames m0 S h k (S.mem.m_CoreStatus k)
        RunPc.setIdle _ (status_same S.mem k) rfl (fun _ => rfl) ?_ ?_ ?_ ?_
      · intro hc; rw [hkk] at hc; exact absurd hc (by simp)
      · intro hc; rw [hjj] at hc; exact absurd hc (by simp)
      · intro _; exact hbusy
      · rw [hpc]; simp only [RunPc.progress]; omega
  | setUnknown =>
    obtain ⟨-, -, hsec⟩ := h.busy_core K nFrames m0 S k h2 hk (by rw [hpc]; simp)
    rw [hpc] at hsec
    exact absurd hsec (by simp [SecState])
  | returned =>
    obtain ⟨-, -, hsec⟩ := h.busy_core K nFrames m0 S k h2 hk (by rw [hpc]; simp)
    rw [hpc] at hsec
    exact absurd hsec (by simp [SecState])
  | failed =>
    obtain ⟨-, -, hsec⟩ := h.busy_core K nFrames m0 S k h2 hk (by rw [hpc]; simp)
    rw [hpc] at hsec
    exact absurd hsec (by simp [SecState])

theorem getSamplesOf_status (K : SoundEnv τ β) (nTG n : Nat) (m m1 : CMiniDexed τ β)
    (h : getSamplesOf K nTG n m = some m1) : m1.m_CoreStatus = m.m_CoreStatus := by
  unfold getSamplesOf at h
  cases htg : m.m_pTG nTG with
  | none => rw [htg] at h; exact absurd h (by simp)
  | some tg =>
    rw [htg] at h
    simp only [Option.some.injEq] at h
    rw [← h]

theorem RunPc.cost_le (K : SoundEnv τ β) (pc : RunPc) : RunPc.cost K pc ≤ K.TGsCore23 + 6 := by
  cases pc <;> simp only [RunPc.cost] <;> omega

theorem System.waitCost_lt (K : SoundEnv τ β) (S : System τ β) :
    System.waitCost K S < K.TGsCore23 + 7 := by
  unfold System.waitCost
  split
  · split_ifs
    · omega
    · have := RunPc.cost_le K (S.core ‹Nat›); omega
  · omega

/-- Core 1 advances with each of its steps, except while it waits for a secondary core that
has not written `CoreStatusIdle`. -/
theorem ProcessSound.step_advances (K : SoundEnv τ β) (nFrames : Nat) (pc : SoundPc)
    (m : CMiniDexed τ β) (hmix : pc ≠ SoundPc.mix) (hfail : pc ≠ SoundPc.failed)
    (hkw : ∀ n, pc = SoundPc.kickWrite n → n < K.CORES)
    (hw : ∀ n, pc = SoundPc.wait n → n < K.CORES →
      m.m_CoreStatus n = TCoreStatus.CoreStatusIdle) :
    SoundPc.cost K (ProcessSound.step K nFrames pc m).1 < SoundPc.cost K pc := by
  cases pc with
  | setFrames => simp only [ProcessSound.step, SoundPc.cost]; omega
  | kickAssert n =>
    simp only [ProcessSound.step]
    split_ifs <;> simp only [SoundPc.cost] <;> omega
  | kickWrite n =>
    have := hkw n rfl
    simp only [ProcessSound.step, SoundPc.cost]; omega
  | assertChunk =>
    simp only [ProcessSound.step]
    split_ifs <;> simp only [SoundPc.cost] <;> omega
  | loop i =>
    simp only [ProcessSound.step]
    split_ifs with hi
    · cases getSamplesOf K i nFrames m <;> simp only [SoundPc.cost] <;> omega
    · simp only [SoundPc.cost]; omega
  | wait n =>
    simp only [ProcessSound.step]
    split_ifs with hn hst
    · simp only [SoundPc.cost]; omega
    · exact absurd (hw n rfl hn) hst
    · simp only [SoundPc.cost]; omega
  | mix => exact absurd rfl hmix
  | failed => exact absurd rfl hfail

/-- A kicked secondary core that has not written `CoreStatusIdle` advances with each of its
steps. -/
theorem Run.step_nearer_idle (K : SoundEnv τ β) (n : Nat) (pc : RunPc) (m : CMiniDexed τ β)
    (hsec : SecState K n (m.m_CoreStatus n) pc)
    (hst : m.m_CoreStatus n ≠ TCoreStatus.CoreStatusIdle) :
    (if (Run.step K n pc m).2.m_CoreStatus n = TCoreStatus.CoreStatusIdle then 0
      else RunPc.cost K (Run.step K n pc m).1) < RunPc.cost K pc := by
  cases pc with
  | setIdle => simp [Run.step, RunPc.cost, store_apply]
  | waitKick =>
    simp only [Run.step, if_neg hst, RunPc.cost]; omega
  | checkExit =>
    simp only [SecState] at hsec
    have e : Run.step K n RunPc.checkExit m = (RunPc.assertBusy, m) := by
      simp [Run.step, hsec]
    rw [e]; simp only [if_neg hst, RunPc.cost]; omega
  | assertBusy =>
    simp only [SecState] at hsec
    have e : Run.step K n RunPc.assertBusy m = (RunPc.assertFrames, m) := by
      simp [Run.step, hsec]
    rw [e]; simp only [if_neg hst, RunPc.cost]; omega
  | assertFrames =>
    by_cases hf : m.m_nFramesToProcess ≤ K.MaxChunkSize
    · have e : Run.step K n RunPc.assertFrames m =
          (RunPc.loop 0 ((K.TGsCore1 + (n - 2) * K.TGsCore23) % 4294967296), m) := by
        simp only [Run.step, if_pos hf]
      rw [e]; simp only [if_neg hst, RunPc.cost]; omega
    · have e : Run.step K n RunPc.assertFrames m = (RunPc.failed, m) := by
        simp only [Run.step, if_neg hf]
      rw [e]; simp only [if_neg hst, RunPc.cost]; omega
  | loop i nTG =>
    by_cases hi : i < K.TGsCore23
    · cases hg : getSamplesOf K nTG m.m_nFramesToProcess m with
      | none =>
        have e : Run.step K n (RunPc.loop i nTG) m = (RunPc.failed, m) := by
          simp only [Run.step, if_pos hi, hg]
        rw [e]; simp only [if_neg hst, RunPc.cost]; omega
      | some m1 =>
        have e : Run.step K n (RunPc.loop i nTG) m =
            (RunPc.loop (i + 1) ((nTG + 1) % 4294967296), m1) := by
          simp only [Run.step, if_pos hi, hg]
        rw [e]
        simp only [getSamplesOf_status K _ _ m m1 hg, if_neg hst, RunPc.cost]; omega
    · have e : Run.step K n (RunPc.loop i nTG) m = (RunPc.setIdle, m) := by
        simp only [Run.step, if_neg hi]
      rw [e]; simp only [if_neg hst, RunPc.cost]; omega
  | setUnknown => exact absurd hsec (by simp [SecState])
  | returned => exact absurd hsec (by simp [SecState])
  | failed => exact absurd hsec (by simp [SecState])


/-- Every step of the machine keeps the invariant. -/
theorem ChunkInv.step (K : SoundEnv τ β) (nFrames : Nat) (m0 : CMiniDexed τ β)
    (hb : generatedChannels K < 4294967296)
    (hfr : nFrames ≤ K.MaxChunkSize)
    (hnn : ∀ ch, ch < generatedChannels K → m0.m_pTG ch ≠ none)
    (S : System τ β) (h : ChunkInv K nFrames m0 S) (k : Nat) :
    ChunkInv K nFrames m0 (System.step K nFrames S k) := by
  by_cases h1 : k = 1
  · subst h1
    exact ChunkInv.step_core1 K nFrames m0 hfr hnn S h
  · by_cases h2 : 2 ≤ k ∧ k < K.CORES
    · exact ChunkInv.secondary_step K nFrames m0 hb hfr hnn S h k h2.1 h2.2
    · rw [System.step_other K nFrames S k h1 h2]
      exact h

/-- Every schedule keeps the invariant. -/
theorem ChunkInv.run (K : SoundEnv τ β) (nFrames : Nat) (m0 : CMiniDexed τ β)
    (hb : generatedChannels K < 4294967296)
    (hfr : nFrames ≤ K.MaxChunkSize)
    (hnn : ∀ ch, ch < generatedChannels K → m0.m_pTG ch ≠ none)
    (schedule : List Nat) :
    ∀ S : System τ β, ChunkInv K nFrames m0 S →
      ChunkInv K nFrames m0 (System.run K nFrames schedule S) := by
  induction schedule with
  | nil => intro S h; exact h
  | cons k rest ih =>
    intro S h
    exact ih _ (ChunkInv.step K nFrames m0 hb hfr hnn S h k)

/-- The invariant holds at the beginning of a `ProcessSound` call, when every secondary core
waits to be kicked. -/
theorem ChunkInv.initial (K : SoundEnv τ β) (nFrames : Nat) (S0 : System τ β)
    (h1 : S0.core1 = SoundPc.setFrames)
    (hidle : ∀ n, 2 ≤ n → n < K.CORES →
      S0.mem.m_CoreStatus n = TCoreStatus.CoreStatusIdle ∧ S0.core n = RunPc.waitKick) :
    ChunkInv K nFrames S0.mem S0 where
  notFailed := by rw [h1]; simp
  kickAssertRange := fun n hn => by rw [h1] at hn; exact absurd hn (by simp)
  kickWriteRange := fun n hn => by rw [h1] at hn; exact absurd hn (by simp)
  loopRange := fun n hn => by rw [h1] at hn; exact absurd hn (by simp)
  waitRange := fun n hn => by rw [h1] at hn; exact absurd hn (by simp)
  frames := fun hn => absurd h1 hn
  own := fun i _ => by rw [h1]; simp [SoundPc.ownDone]
  rest := fun _ _ => rfl
  unkicked := fun n hn2 hn _ => hidle n hn2 hn
  isJoined := fun n hn2 hn _ => hidle n hn2 hn
  isKicked := fun n _ _ hk => by rw [h1] at hk; simp [SoundPc.kicked] at hk
  channels := fun n hn2 hn i _ => by
    rw [h1, (hidle n hn2 hn).2]
    simp [SoundPc.kicked, RunPc.progress]

/-- A step of core 1 that advances it brings the machine nearer to the mix. -/
theorem System.cost_step_one (K : SoundEnv τ β) (nFrames : Nat) (S : System τ β)
    (hlt : SoundPc.cost K (ProcessSound.step K nFrames S.core1 S.mem).1 <
      SoundPc.cost K S.core1) :
    System.cost K (System.step K nFrames S 1) < System.cost K S := by
  have hw := System.waitCost_lt K (System.step K nFrames S 1)
  have hm := Nat.mul_le_mul_right (K.TGsCore23 + 7) (Nat.succ_le_of_lt hlt)
  rw [Nat.succ_mul] at hm
  unfold System.cost
  have e : (System.step K nFrames S 1).core1 = (ProcessSound.step K nFrames S.core1 S.mem).1 := by
    rw [System.step_one]
  rw [e]
  omega

/-- The scheduler `System.next` brings the machine nearer to the mix with every step. -/
theorem System.next_cost (K : SoundEnv τ β) (nFrames : Nat) (m0 : CMiniDexed τ β)
    (S : System τ β) (h : ChunkInv K nFrames m0 S) (hmix : S.core1 ≠ SoundPc.mix) :
    System.cost K (System.step K nFrames S (System.next K S)) < System.cost K S := by
  by_cases hc : ∃ n, S.core1 = SoundPc.wait n ∧ n < K.CORES ∧
      S.mem.m_CoreStatus n ≠ TCoreStatus.CoreStatusIdle
  · obtain ⟨n, hpc, hn, hst⟩ := hc
    have hn2 := h.waitRange n hpc
    have hnext : System.next K S = n := by
      simp only [System.next, hpc]
      rw [if_pos ⟨hn, hst⟩]
    have hsec : SecState K n (S.mem.m_CoreStatus n) (S.core n) :=
      h.isKicked n hn2 hn (by rw [hpc]; rfl)
    have hlt := Run.step_nearer_idle K n (S.core n) S.mem hsec hst
    rw [hnext, System.step_secondary K nFrames S n hn2 hn]
    unfold System.cost System.waitCost
    simp only [hpc, store_apply, if_true, if_neg hst]
    omega
  · have hnext : System.next K S = 1 := by
      unfold System.next
      split
      · rename_i n hpc
        split_ifs with hif
        · exact absurd ⟨n, hpc, hif.1, hif.2⟩ hc
        · rfl
      · rfl
    rw [hnext]
    refine System.cost_step_one K nFrames S
      (ProcessSound.step_advances K nFrames S.core1 S.mem hmix h.notFailed
        (fun n hn => (h.kickWriteRange n hn).2) ?_)
    intro n hpc hn
    by_contra hst
    exact hc ⟨n, hpc, hn, hst⟩

/-- From every state of a `ProcessSound` call some schedule leads core 1 to the mix. -/
theorem ChunkInv.reach_mix (K : SoundEnv τ β) (nFrames : Nat) (m0 : CMiniDexed τ β)
    (hb : generatedChannels K < 4294967296)
    (hfr : nFrames ≤ K.MaxChunkSize)
    (hnn : ∀ ch, ch < generatedChannels K → m0.m_pTG ch ≠ none) :
    ∀ (d : Nat) (S : System τ β), ChunkInv K nFrames m0 S → System.cost K S ≤ d →
      ∃ schedule, (System.run K nFrames schedule S).core1 = SoundPc.mix := by
  intro d
  induction d with
  | zero =>
    intro S h hd
    by_cases hmix : S.core1 = SoundPc.mix
    · exact ⟨[], hmix⟩
    · have := System.next_cost K nFrames m0 S h hmix
      omega
  | succ d ih =>
    intro S h hd
    by_cases hmix : S.core1 = SoundPc.mix
    · exact ⟨[], hmix⟩
    · have hlt := System.next_cost K nFrames m0 S h hmix
      obtain ⟨schedule, hs⟩ := ih (System.step K nFrames S (System.next K S))
        (ChunkInv.step K nFrames m0 hb hfr hnn S h _) (by omega)
      exact ⟨System.next K S :: schedule, hs⟩

/-- The sequential generation of the channels `0, ..., N - 1`: it returns, and each of these
channels has had one call of `getSamples`. -/
theorem generateSequentially_eq (K : SoundEnv τ β) (nFrames : Nat) (m0 : CMiniDexed τ β) :
    ∀ N, (∀ ch, ch < N → m0.m_pTG ch ≠ none) →
      ∃ m, generateSequentially K nFrames N m0 = some m ∧
        m.m_CoreStatus = m0.m_CoreStatus ∧
        m.m_nFramesToProcess = m0.m_nFramesToProcess ∧
        ∀ ch, chanOf m ch = if ch < N then chanAfter K nFrames m0 ch else chanOf m0 ch := by
  intro N
  induction N with
  | zero =>
    intro _
    exact ⟨m0, by simp [generateSequentially], rfl, rfl, fun ch => by simp⟩
  | succ N ih =>
    intro hnn
    obtain ⟨m, hm, hst, hfr, hch⟩ := ih (fun ch hc => hnn ch (by omega))
    have hpend : chanOf m N = chanOf m0 N := by rw [hch N, if_neg (by omega)]
    obtain ⟨m1, hm1, hdone, hothers, hst1, hfr1⟩ :=
      getSamplesOf_chan K nFrames N m m0 hpend (hnn N (by omega))
    refine ⟨m1, ?_, by rw [hst1, hst], by rw [hfr1, hfr], ?_⟩
    · unfold generateSequentially at hm ⊢
      rw [List.range_succ, List.foldlM_append, hm]
      simp [hm1]
    · intro ch
      by_cases hc : ch = N
      · subst hc
        rw [hdone, if_pos (by omega)]
      · rw [hothers ch hc, hch ch]
        split_ifs <;> first | rfl | (exfalso; omega)

/-- When core 1 starts the mix, every channel of the cores has had one call of `getSamples`,
and every secondary core has written `CoreStatusIdle` and waits to be kicked. -/
theorem ChunkInv.at_mix (K : SoundEnv τ β) (nFrames : Nat) (m0 : CMiniDexed τ β)
    (S : System τ β) (h : ChunkInv K nFrames m0 S) (hmix : S.core1 = SoundPc.mix) (ch : Nat) :
    chanOf S.mem ch =
      if ch < generatedChannels K then chanAfter K nFrames m0 ch else chanOf m0 ch := by
  by_cases hc : ch < generatedChannels K
  · rw [if_pos hc]
    by_cases h1 : ch < K.TGsCore1
    · have := h.own ch h1
      rw [hmix] at this
      simpa [SoundPc.ownDone] using this
    · obtain ⟨n, i, hn2, hn, hi, hch⟩ := channel_owner K ch (by omega) hc
      have hj := h.isJoined n hn2 hn (by rw [hmix]; rfl)
      have := h.channels n hn2 hn i hi
      rw [hmix, hj.1, hj.2] at this
      have e : ch = firstTG K n + i := hch
      rw [e, this]
      simp [SoundPc.kicked, RunPc.progress, hi]
  · rw [if_neg hc]
    exact h.rest ch (by omega)


/-- C27: a `ProcessSound` call on several cores that starts with every secondary core waiting
to be kicked, under any interleaving of the steps of the cores, never fails an assertion;
whenever core 1 stands at the mix, the tone generators and the channel buffers
`m_OutputLevel` that it hands to the mixing console, hence every function `mix` of these
buffers, are those of one core generating the channels `0, ..., TGsCore1 + (CORES - 2) *
TGsCore23 - 1` one after the other, and every secondary core has written `CoreStatusIdle`
again and waits to be kicked; and from every interleaving some continuation brings core 1 to
the mix. -/
theorem multicore_ProcessSound_eq_sequential (K : SoundEnv τ β) (nFrames : Nat)
    (S0 : System τ β)
    (hb : generatedChannels K < 4294967296)
    (hfr : nFrames ≤ K.MaxChunkSize)
    (hnn : ∀ ch, ch < generatedChannels K → S0.mem.m_pTG ch ≠ none)
    (h1 : S0.core1 = SoundPc.setFrames)
    (hidle : ∀ n, 2 ≤ n → n < K.CORES →
      S0.mem.m_CoreStatus n = TCoreStatus.CoreStatusIdle ∧ S0.core n = RunPc.waitKick) :
    ∃ mseq, generateSequentially K nFrames (generatedChannels K) S0.mem = some mseq ∧
      (∀ schedule, (System.run K nFrames schedule S0).core1 ≠ SoundPc.failed ∧
        ∀ n, 2 ≤ n → n < K.CORES →
          (System.run K nFrames schedule S0).core n ≠ RunPc.failed) ∧
      (∀ schedule, (System.run K nFrames schedule S0).core1 = SoundPc.mix →
        (System.run K nFrames schedule S0).mem.m_OutputLevel = mseq.m_OutputLevel ∧
        (System.run K nFrames schedule S0).mem.m_pTG = mseq.m_pTG ∧
        (∀ (γ : Type) (mix : (Nat → Nat → β) → γ),
          mix (System.run K nFrames schedule S0).mem.m_OutputLevel = mix mseq.m_OutputLevel) ∧
        ∀ n, 2 ≤ n → n < K.CORES →
          (System.run K nFrames schedule S0).mem.m_CoreStatus n =
            TCoreStatus.CoreStatusIdle ∧
          (System.run K nFrames schedule S0).core n = RunPc.waitKick) ∧
      (∀ schedule, ∃ continuation,
        (System.run K nFrames (schedule ++ continuation) S0).core1 = SoundPc.mix) := by
  obtain ⟨mseq, hseq, -, -, hch⟩ :=
    generateSequentially_eq K nFrames S0.mem (generatedChannels K) hnn
  have hinv : ∀ schedule, ChunkInv K nFrames S0.mem (System.run K nFrames schedule S0) :=
    fun schedule => ChunkInv.run K nFrames S0.mem hb hfr hnn schedule S0
      (ChunkInv.initial K nFrames S0 h1 hidle)
  refine ⟨mseq, hseq, ?_, ?_, ?_⟩
  · intro schedule
    refine ⟨(hinv schedule).notFailed, ?_⟩
    intro n hn2 hn hf
    cases hk : SoundPc.kicked n (System.run K nFrames schedule S0).core1 with
    | false =>
      have := ((hinv schedule).unkicked n hn2 hn hk).2
      rw [hf] at this
      exact absurd this (by simp)
    | true =>
      have := (hinv schedule).isKicked n hn2 hn hk
      rw [hf] at this
      exact this
  · intro schedule hmix
    have hall : ∀ ch, chanOf (System.run K nFrames schedule S0).mem ch = chanOf mseq ch := by
      intro ch
      rw [ChunkInv.at_mix K nFrames S0.mem _ (hinv schedule) hmix ch, hch ch]
    have hout : (System.run K nFrames schedule S0).mem.m_OutputLevel = mseq.m_OutputLevel :=
      funext fun ch => congrArg Prod.snd (hall ch)
    refine ⟨hout, funext fun ch => congrArg Prod.fst (hall ch), ?_, ?_⟩
    · intro γ mix
      rw [hout]
    · intro n hn2 hn
      exact (hinv schedule).isJoined n hn2 hn (by rw [hmix]; rfl)
  · intro schedule
    obtain ⟨continuation, hc⟩ := ChunkInv.reach_mix K nFrames S0.mem hb hfr hnn _ _
      (hinv schedule) (Nat.le_refl _)
    refine ⟨continuation, ?_⟩
    unfold System.run at hc ⊢
    rw [List.foldl_append]
    exact hc

/-- C27 at a concrete input: four cores and eight channels of two frames each. -/
theorem multicore_ProcessSound_eq_sequential_witness :
    ∃ mseq, generateSequentially exampleSound 2 (generatedChannels exampleSound)
        idleSystem.mem = some mseq ∧
      (∀ schedule, (System.run exampleSound 2 schedule idleSystem).core1 ≠ SoundPc.failed ∧
        ∀ n, 2 ≤ n → n < exampleSound.CORES →
          (System.run exampleSound 2 schedule idleSystem).core n ≠ RunPc.failed) ∧
      (∀ schedule, (System.run exampleSound 2 schedule idleSystem).core1 = SoundPc.mix →
        (System.run exampleSound 2 schedule idleSystem).mem.m_OutputLevel =
          mseq.m_OutputLevel ∧
        (System.run exampleSound 2 schedule idleSystem).mem.m_pTG = mseq.m_pTG ∧
        (∀ (γ : Type) (mix : (Nat → Nat → Nat) → γ),
          mix (System.run exampleSound 2 schedule idleSystem).mem.m_OutputLevel =
            mix mseq.m_OutputLevel) ∧
        ∀ n, 2 ≤ n → n < exampleSound.CORES →
          (System.run exampleSound 2 schedule idleSystem).mem.m_CoreStatus n =
            TCoreStatus.CoreStatusIdle ∧
          (System.run exampleSound 2 schedule idleSystem).core n = RunPc.waitKick) ∧
      (∀ schedule, ∃ continuation,
        (System.run exampleSound 2 (schedule ++ continuation) idleSystem).core1 =
          SoundPc.mix) :=
  multicore_ProcessSound_eq_sequential exampleSound 2 idleSystem (by decide) (by decide)
    (fun ch _ => by simp [idleSystem, idleMembers]) rfl (fun _ _ _ => ⟨rfl, rfl⟩)

/-- The example machine under the schedule that runs the cores 3, 2 and 1 in turn: core 1
reaches the mix, and the eight channels hold the samples of the eight generators. -/
theorem idleSystem_round_robin :
    (System.run exampleSound 2 ((List.replicate 20 [3, 2, 1]).flatten) idleSystem).core1 =
      SoundPc.mix ∧
    (List.range 8).map (fun ch =>
      ((System.run exampleSound 2 ((List.replicate 20 [3, 2, 1]).flatten)
        idleSystem).mem.m_OutputLevel ch 0,
       (System.run exampleSound 2 ((List.replicate 20 [3, 2, 1]).flatten)
        idleSystem).mem.m_OutputLevel ch 1)) =
      [(0, 1), (10, 11), (20, 21), (30, 31), (40, 41), (50, 51), (60, 61), (70, 71)] := by
  constructor <;> decide

end SchedulerInvariant

/-! ## The send and return levels -/

section MixerLevelFacts

open MixerOutput

variable {α σ : Type} [LinearOrderedField α]

/-- The clamped level: at most `99`; the argument itself when it is at most `99`, `99` when
it is larger and below `2^31`, and `0` from `2^31` on, where `(int)` makes it negative. -/
theorem clamped_level (n : Nat) (hn : n < 4294967296) :
    toUInt32 (constrainInt (unsignedToInt n) 0 99) =
      if n ≤ 99 then n else if n < 2147483648 then 99 else 0 := by
  unfold toUInt32 constrainInt unsignedToInt
  rw [Nat.mod_eq_of_lt hn]
  split_ifs <;> omega

theorem clamped_level_le (n : Nat) : toUInt32 (constrainInt (unsignedToInt n) 0 99) ≤ 99 := by
  unfold toUInt32 constrainInt
  split_ifs <;> omega

/-- The level handed to the console: `stored / 99`, a number of `[0, 1]`. -/
theorem forwarded_level (k : Nat) (hk : k ≤ 99) :
    (F32.fin (k : α) / F32.fin 99 : F32 α) = F32.fin ((k : α) / 99) ∧
    (0 : α) ≤ (k : α) / 99 ∧ (k : α) / 99 ≤ 1 ∧
    constrain (F32.fin ((k : α) / 99)) 0 1 = F32.fin ((k : α) / 99) := by
  have h99 : (99 : α) ≠ 0 := by norm_num
  have h0 : (0 : α) ≤ (k : α) / 99 := by positivity
  have h1 : (k : α) / 99 ≤ 1 := by
    rw [div_le_one (by norm_num)]
    exact_mod_cast hk
  refine ⟨F32.fin_div_fin _ _ h99, h0, h1, ?_⟩
  rw [constrain_fin, max_eq_left h0, min_eq_left h1]

/-- The send setter, whenever its assertions and those of the console hold. -/
theorem setMixingConsoleSendLevel_eq (E : Env α σ) (ToneGenerators nTG fx n : Nat)
    (s : MixerLevels α σ) (h1 : nTG < ToneGenerators) (h2 : nTG < E.nb_inputs)
    (h3 : fx < kFXCount) :
    setMixingConsoleSendLevel E ToneGenerators nTG fx n s =
      some ⟨store2 s.m_nFXSendLevel nTG fx (toUInt32 (constrainInt (unsignedToInt n) 0 99)),
        s.m_nFXReturnLevel,
        { s.mixing_console_ with
          m_levels := store2 s.mixing_console_.m_levels fx nTG
            (F32.fin (((toUInt32 (constrainInt (unsignedToInt n) 0 99) : Nat) : α) / 99)) },
        s.returnCalls⟩ := by
  have hf := @forwarded_level α _ (toUInt32 (constrainInt (unsignedToInt n) 0 99))
    (clamped_level_le n)
  have hf1 : (F32.fin ((toUInt32 (constrainInt (unsignedToInt n) 0 99) : Nat) : α) /
      F32.fin 99 : F32 α) = _ := hf.1
  simp only [setMixingConsoleSendLevel, assert_decide, h1, hf1,
    setSendLevel_eq E nTG fx _ _ h2 h3, hf.2.2.2]
  rfl

/-- The send setter returns only if its assertion and those of the console hold. -/
theorem setMixingConsoleSendLevel_some (E : Env α σ) (ToneGenerators nTG fx n : Nat)
    (s s' : MixerLevels α σ)
    (h : setMixingConsoleSendLevel E ToneGenerators nTG fx n s = some s') :
    nTG < ToneGenerators ∧ nTG < E.nb_inputs ∧ fx < kFXCount := by
  by_cases h1 : nTG < ToneGenerators
  · refine ⟨h1, ?_⟩
    simp only [setMixingConsoleSendLevel, assert_decide, h1] at h
    cases hc : setSendLevel E nTG fx
        (F32.fin ((toUInt32 (constrainInt (unsignedToInt n) 0 99) : Nat) : α) / F32.fin 99)
        s.mixing_console_ with
    | none => simp [hc] at h
    | some c => exact setSendLevel_some E nTG fx _ _ c hc
  · simp [setMixingConsoleSendLevel, assert_decide, h1] at h

/-- The return setter, whenever its assertions hold. -/
theorem setMixingConsoleReturnLevel_eq (ret fx n : Nat) (s : MixerLevels α σ)
    (h1 : ret < kFXCount - 1) (h2 : fx < kFXCount) :
    setMixingConsoleReturnLevel ret fx n s =
      some ⟨s.m_nFXSendLevel,
        store2 s.m_nFXReturnLevel ret fx
          (if ret = fx then 0 else toUInt32 (constrainInt (unsignedToInt n) 0 99)),
        s.mixing_console_,
        s.returnCalls ++ [(ret, fx,
          F32.fin (((if ret = fx then 0
            else toUInt32 (constrainInt (unsignedToInt n) 0 99) : Nat) : α)) / F32.fin 99)]⟩ := by
  simp [setMixingConsoleReturnLevel, assert_decide, h1, h2]

theorem setMixingConsoleReturnLevel_some (ret fx n : Nat) (s s' : MixerLevels α σ)
    (h : setMixingConsoleReturnLevel ret fx n s = some s') :
    ret < kFXCount - 1 ∧ fx < kFXCount := by
  by_contra hi
  rw [not_and_or] at hi
  rcases hi with hi | hi <;> simp [setMixingConsoleReturnLevel, assert_decide, hi] at h

/-- Each call keeps the levels of both arrays in `0..99` and the self-return entries at `0`. -/
theorem LevelCall.apply_inRange (E : Env α σ) (ToneGenerators : Nat) (call : LevelCall)
    (s s' : MixerLevels α σ) (h : LevelCall.apply E ToneGenerators call s = some s')
    (hs : (∀ i j, i < ToneGenerators → j < kFXCount → s.m_nFXSendLevel i j ≤ 99) ∧
      (∀ r j, r < kFXCount - 1 → j < kFXCount → s.m_nFXReturnLevel r j ≤ 99) ∧
      ∀ r, r < kFXCount - 1 → s.m_nFXReturnLevel r r = 0) :
    (∀ i j, i < ToneGenerators → j < kFXCount → s'.m_nFXSendLevel i j ≤ 99) ∧
      (∀ r j, r < kFXCount - 1 → j < kFXCount → s'.m_nFXReturnLevel r j ≤ 99) ∧
      ∀ r, r < kFXCount - 1 → s'.m_nFXReturnLevel r r = 0 := by
  cases call with
  | setSend nTG fx n =>
    obtain ⟨h1, h2, h3⟩ := setMixingConsoleSendLevel_some E ToneGenerators nTG fx n s s' h
    have h' : setMixingConsoleSendLevel E ToneGenerators nTG fx n s = some s' := h
    rw [setMixingConsoleSendLevel_eq E ToneGenerators nTG fx n s h1 h2 h3] at h'
    simp only [Option.some.injEq] at h'
    subst h'
    refine ⟨?_, hs.2.1, hs.2.2⟩
    intro i j hi hj
    show store2 s.m_nFXSendLevel nTG fx _ i j ≤ 99
    rw [store2_apply]
    split_ifs
    · exact clamped_level_le n
    · exact hs.1 i j hi hj
  | setReturn ret fx n =>
    obtain ⟨h1, h2⟩ := setMixingConsoleReturnLevel_some ret fx n s s' h
    have h' : setMixingConsoleReturnLevel ret fx n s = some s' := h
    rw [setMixingConsoleReturnLevel_eq ret fx n s h1 h2] at h'
    simp only [Option.some.injEq] at h'
    subst h'
    refine ⟨hs.1, ?_, ?_⟩
    · intro r j hr hj
      show store2 s.m_nFXReturnLevel ret fx _ r j ≤ 99
      rw [store2_apply]
      split_ifs
      · omega
      · exact clamped_level_le n
      · exact hs.2.1 r j hr hj
    · intro r hr
      show store2 s.m_nFXReturnLevel ret fx _ r r = 0
      rw [store2_apply]
      split_ifs with ha hb
      · rfl
      · exact absurd (ha.1.symm.trans ha.2) hb
      · exact hs.2.2 r hr

/-- Every sequence of calls keeps the levels in range. -/
theorem LevelCall.run_inRange (E : Env α σ) (ToneGenerators : Nat) (calls : List LevelCall) :
    ∀ (s s' : MixerLevels α σ),
      calls.foldlM (fun s call => LevelCall.apply E ToneGenerators call s) s = some s' →
      ((∀ i j, i < ToneGenerators → j < kFXCount → s.m_nFXSendLevel i j ≤ 99) ∧
        (∀ r j, r < kFXCount - 1 → j < kFXCount → s.m_nFXReturnLevel r j ≤ 99) ∧
        ∀ r, r < kFXCount - 1 → s.m_nFXReturnLevel r r = 0) →
      (∀ i j, i < ToneGenerators → j < kFXCount → s'.m_nFXSendLevel i j ≤ 99) ∧
        (∀ r j, r < kFXCount - 1 → j < kFXCount → s'.m_nFXReturnLevel r j ≤ 99) ∧
        ∀ r, r < kFXCount - 1 → s'.m_nFXReturnLevel r r = 0 := by
  induction calls with
  | nil =>
    intro s s' h hs
    simp only [List.foldlM_nil, Option.pure_def, Option.some.injEq] at h
    subst h
    exact hs
  | cons call rest ih =>
    intro s s' h hs
    simp only [List.foldlM_cons, Option.bind_eq_bind] at h
    cases h1 : LevelCall.apply E ToneGenerators call s with
    | none => simp [h1] at h
    | some s1 =>
      rw [h1] at h
      exact ih s1 s' h (LevelCall.apply_inRange E ToneGenerators call s s1 h1 hs)

/-- C31: for every `unsigned` argument `n`, a call `setMixingConsoleSendLevel(nTG, fx, n)`
that returns has stored a level of `0..99` in `m_nFXSendLevel[nTG][fx]` (`n` itself when
`n <= 99`, otherwise the bound `99`, or `0` when `(int)n` is negative), has changed no other
level, and has handed `stored / 99`, a number of `[0, 1]`, to `setSendLevel` of the console,
where it is the new level of the channel on that bus; the call returns whenever
`nTG` and `fx` are in range.  A call `setMixingConsoleReturnLevel(ret, fx, n)` returns exactly
when `ret < kFXCount - 1` and `fx < kFXCount`; it stores `0` when `ret = fx` and otherwise the
clamped `n`, and hands `stored / 99` to the console.  Hence after the constructor and any
sequence of these calls every send and return level is in `0..99` and every self-return
entry is `0`. -/
theorem mixer_levels_stay_in_scale (E : Env α σ) (ToneGenerators : Nat) :
    (∀ (nTG fx n : Nat) (s s' : MixerLevels α σ), n < 4294967296 →
      setMixingConsoleSendLevel E ToneGenerators nTG fx n s = some s' →
      s'.m_nFXSendLevel nTG fx ≤ 99 ∧
      (n ≤ 99 → s'.m_nFXSendLevel nTG fx = n) ∧
      (99 < n → s'.m_nFXSendLevel nTG fx = 99 ∨ s'.m_nFXSendLevel nTG fx = 0) ∧
      (∀ i j, ¬ (i = nTG ∧ j = fx) → s'.m_nFXSendLevel i j = s.m_nFXSendLevel i j) ∧
      s'.m_nFXReturnLevel = s.m_nFXReturnLevel ∧
      setSendLevel E nTG fx (F32.fin (s'.m_nFXSendLevel nTG fx : α) / F32.fin 99)
        s.mixing_console_ = some s'.mixing_console_ ∧
      (F32.fin (s'.m_nFXSendLevel nTG fx : α) / F32.fin 99 : F32 α) =
        F32.fin ((s'.m_nFXSendLevel nTG fx : α) / 99) ∧
      (0 : α) ≤ (s'.m_nFXSendLevel nTG fx : α) / 99 ∧
      (s'.m_nFXSendLevel nTG fx : α) / 99 ≤ 1 ∧
      s'.mixing_console_.m_levels fx nTG = F32.fin ((s'.m_nFXSendLevel nTG fx : α) / 99)) ∧
    (∀ (nTG fx n : Nat) (s : MixerLevels α σ), nTG < ToneGenerators → nTG < E.nb_inputs →
      fx < kFXCount → ∃ s', setMixingConsoleSendLevel E ToneGenerators nTG fx n s = some s') ∧
    (∀ (ret fx n : Nat) (s s' : MixerLevels α σ), n < 4294967296 →
      setMixingConsoleReturnLevel ret fx n s = some s' →
      s'.m_nFXReturnLevel ret fx ≤ 99 ∧
      (ret = fx → s'.m_nFXReturnLevel ret fx = 0) ∧
      (ret ≠ fx → n ≤ 99 → s'.m_nFXReturnLevel ret fx = n) ∧
      (ret ≠ fx → 99 < n → s'.m_nFXReturnLevel ret fx = 99 ∨ s'.m_nFXReturnLevel ret fx = 0) ∧
      (∀ i j, ¬ (i = ret ∧ j = fx) → s'.m_nFXReturnLevel i j = s.m_nFXReturnLevel i j) ∧
      s'.m_nFXSendLevel = s.m_nFXSendLevel ∧
      s'.returnCalls = s.returnCalls ++
        [(ret, fx, F32.fin ((s'.m_nFXReturnLevel ret fx : α) / 99))] ∧
      (0 : α) ≤ (s'.m_nFXReturnLevel ret fx : α) / 99 ∧
      (s'.m_nFXReturnLevel ret fx : α) / 99 ≤ 1) ∧
    (∀ (ret fx n : Nat) (s : MixerLevels α σ),
      (∃ s', setMixingConsoleReturnLevel ret fx n s = some s') ↔
        (ret < kFXCount - 1 ∧ fx < kFXCount)) ∧
    (∀ (mem s' : MixerLevels α σ) (calls : List LevelCall),
      calls.foldlM (fun s call => LevelCall.apply E ToneGenerators call s)
        (MixerLevels.construct ToneGenerators mem) = some s' →
      (∀ i j, i < ToneGenerators → j < kFXCount → s'.m_nFXSendLevel i j ≤ 99) ∧
      (∀ r j, r < kFXCount - 1 → j < kFXCount → s'.m_nFXReturnLevel r j ≤ 99) ∧
      ∀ r, r < kFXCount - 1 → s'.m_nFXReturnLevel r r = 0) := by
  refine ⟨?_, ?_, ?_, ?_, ?_⟩
  · intro nTG fx n s s' hn h
    obtain ⟨h1, h2, h3⟩ := setMixingConsoleSendLevel_some E ToneGenerators nTG fx n s s' h
    rw [setMixingConsoleSendLevel_eq E ToneGenerators nTG fx n s h1 h2 h3] at h
    simp only [Option.some.injEq] at h
    subst h
    have hst : store2 s.m_nFXSendLevel nTG fx
        (toUInt32 (constrainInt (unsignedToInt n) 0 99)) nTG fx =
        toUInt32 (constrainInt (unsignedToInt n) 0 99) := by
      rw [store2_apply]; simp
    have hf := @forwarded_level α _ (toUInt32 (constrainInt (unsignedToInt n) 0 99))
      (clamped_level_le n)
    have hcl := clamped_level n hn
    simp only [hst]
    refine ⟨clamped_level_le n, ?_, ?_, ?_, trivial, ?_, hf.1, hf.2.1, hf.2.2.1, ?_⟩
    · intro h99; rw [hcl, if_pos h99]
    · intro h99
      rw [hcl, if_neg (by omega)]
      split_ifs
      · exact Or.inl rfl
      · exact Or.inr rfl
    · intro i j hij
      rw [store2_apply, if_neg hij]
    · rw [hf.1, setSendLevel_eq E nTG fx _ _ h2 h3, hf.2.2.2]
    · rw [store2_apply]; simp
  · intro nTG fx n s h1 h2 h3
    exact ⟨_, setMixingConsoleSendLevel_eq E ToneGenerators nTG fx n s h1 h2 h3⟩
  · intro ret fx n s s' hn h
    obtain ⟨h1, h2⟩ := setMixingConsoleReturnLevel_some ret fx n s s' h
    rw [setMixingConsoleReturnLevel_eq ret fx n s h1 h2] at h
    simp only [Option.some.injEq] at h
    subst h
    have hst : store2 s.m_nFXReturnLevel ret fx
        (if ret = fx then 0 else toUInt32 (constrainInt (unsignedToInt n) 0 99)) ret fx =
        (if ret = fx then 0 else toUInt32 (constrainInt (unsignedToInt n) 0 99)) := by
      rw [store2_apply]; simp
    have hcl := clamped_level n hn
    have hle : (if ret = fx then 0 else toUInt32 (constrainInt (unsignedToInt n) 0 99)) ≤ 99 := by
      split_ifs
      · omega
      · exact clamped_level_le n
    have hf := @forwarded_level α _ _ hle
    simp only [hst]
    refine ⟨hle, ?_, ?_, ?_, ?_, trivial, ?_, hf.2.1, hf.2.2.1⟩
    · intro e; rw [if_pos e]
    · intro e h99; rw [if_neg e, hcl, if_pos h99]
    · intro e h99
      rw [if_neg e, hcl, if_neg (by omega)]
      split_ifs
      · exact Or.inl rfl
      · exact Or.inr rfl
    · intro i j hij
      rw [store2_apply, if_neg hij]
    · rw [hf.1]
  · intro ret fx n s
    constructor
    · rintro ⟨s', h⟩
      exact setMixingConsoleReturnLevel_some ret fx n s s' h
    · rintro ⟨h1, h2⟩
      exact ⟨_, setMixingConsoleReturnLevel_eq ret fx n s h1 h2⟩
  · intro mem s' calls h
    refine LevelCall.run_inRange E ToneGenerators calls _ s' h ⟨?_, ?_, ?_⟩
    · intro i j hi hj
      simp [MixerLevels.construct, hi, hj]
    · intro r j hr hj
      simp [MixerLevels.construct, hr, hj]
    · intro r hr
      have hr' : r < kFXCount := by simp only [kFXCount] at hr ⊢; omega
      simp [MixerLevels.construct, hr, hr']

/-- C31 at a concrete input: on the example console, `setMixingConsoleSendLevel(0, FX_Tube,
150)` returns and stores a clamped bound, and `setMixingConsoleReturnLevel(1, 1, 50)` stores
`0`. -/
theorem mixer_levels_stay_in_scale_witness :
    (∃ s', setMixingConsoleSendLevel exampleEnv 2 0 FX_Tube 150 exampleLevels = some s' ∧
      s'.m_nFXSendLevel 0 FX_Tube ≤ 99 ∧
      (s'.m_nFXSendLevel 0 FX_Tube = 99 ∨ s'.m_nFXSendLevel 0 FX_Tube = 0) ∧
      s'.mixing_console_.m_levels FX_Tube 0 =
        F32.fin ((s'.m_nFXSendLevel 0 FX_Tube : ℚ) / 99)) ∧
    (∃ s', setMixingConsoleReturnLevel 1 1 50 exampleLevels = some s' ∧
      s'.m_nFXReturnLevel 1 1 = 0) := by
  obtain ⟨s1, h1⟩ := (mixer_levels_stay_in_scale exampleEnv 2).2.1 0 FX_Tube 150
    exampleLevels (by decide) (by decide) (by decide)
  obtain ⟨s2, h2⟩ := ((mixer_levels_stay_in_scale exampleEnv 2).2.2.2.1 1 1 50
    exampleLevels).2 ⟨by decide, by decide⟩
  have f1 := (mixer_levels_stay_in_scale exampleEnv 2).1 0 FX_Tube 150 exampleLevels s1
    (by decide) h1
  have f2 := (mixer_levels_stay_in_scale exampleEnv 2).2.2.1 1 1 50 exampleLevels s2
    (by decide) h2
  exact ⟨⟨s1, h1, f1.1, f1.2.2.1 (by decide), f1.2.2.2.2.2.2.2.2.2⟩, ⟨s2, h2, f2.2.1 rfl⟩⟩

end MixerLevelFacts

/-! ## The two overloads of `process` -/

section InterleavedFacts

open StereoChannels MixerOutput

variable {α σ : Type} [LinearOrderedField α]

/-- One turn of the loop of `process(outLR)` never fails. -/
theorem processFrameLR_eq (E : Env α σ) (c : MixingConsole α σ) (outLR : Nat → F32 α)
    (s : Nat) :
    processFrameLR E (c, outLR) s = some (frameStep E c s,
      if c.m_swapStereoImage then
        store (store outLR (2 * s + 1) (frameOut E c s).1) (2 * s) (frameOut E c s).2
      else
        store (store outLR (2 * s) (frameOut E c s).1) (2 * s + 1) (frameOut E c s).2) := by
  unfold processFrameLR
  simp only [loadInputs_eq, Option.bind_eq_bind, Option.some_bind, processSample_eq]
  have hsw : (loadInputsCore E s c).m_swapStereoImage = c.m_swapStereoImage := rfl
  rw [hsw]
  cases c.m_swapStereoImage <;> simp [frameStep, frameOut]

/-- The loop of `process(outLR)` over the sample indices `0 .. n-1`. -/
theorem processLR_loop (E : Env α σ) (c : MixingConsole α σ) (outLR : Nat → F32 α) (n : Nat) :
    (List.range n).foldlM (processFrameLR E) (c, outLR) =
      some (stateAfterFrames E c n, outLRAfter E c outLR n) := by
  induction n with
  | zero =>
    simp only [List.range_zero, List.foldlM_nil, Option.pure_def, Option.some.injEq]
    refine Prod.ext rfl ?_
    funext k; simp [outLRAfter]
  | succ n ih =>
    rw [List.range_succ, List.foldlM_append, ih]
    simp only [Option.some_bind, List.foldlM_cons, List.foldlM_nil, Option.bind_eq_bind,
      processFrameLR_eq, Option.pure_def, Option.some.injEq, stateAfterFrames_succ,
      (stateAfterFrames_sameConfig E c n).swap]
    refine Prod.ext rfl ?_
    funext k
    have hk : k = 2 * n ∨ k = 2 * n + 1 ∨ k < 2 * n ∨ 2 * (n + 1) ≤ k := by omega
    rcases hk with hk | hk | hk | hk
    · subst hk
      have e1 : 2 * n / 2 = n := by omega
      have e2 : 2 * n % 2 = 0 := by omega
      cases hsw : c.m_swapStereoImage <;>
        simp [outLRAfter, store_apply, e1, e2, hsw]
    · subst hk
      have e1 : (2 * n + 1) / 2 = n := by omega
      have e2 : (2 * n + 1) % 2 = 1 := by omega
      have e3 : 2 * n + 1 < 2 * (n + 1) := by omega
      cases hsw : c.m_swapStereoImage <;>
        simp [outLRAfter, store_apply, e1, e2, e3, hsw]
    · have e1 : k ≠ 2 * n := by omega
      have e2 : k ≠ 2 * n + 1 := by omega
      have e3 : k < 2 * (n + 1) := by omega
      cases hsw : c.m_swapStereoImage <;>
        simp [outLRAfter, store_apply, e1, e2, e3, hk, hsw]
    · have e1 : k ≠ 2 * n := by omega
      have e2 : k ≠ 2 * n + 1 := by omega
      have e3 : ¬ k < 2 * (n + 1) := by omega
      have e4 : ¬ k < 2 * n := by omega
      cases hsw : c.m_swapStereoImage <;>
        simp [outLRAfter, store_apply, e1, e2, e3, e4, hsw]

/-- `process(outLR)` never fails; its final state and the content of the output array. -/
theorem processLR_eq (E : Env α σ) (c : MixingConsole α σ) (outLR : Nat → F32 α) :
    processLR E c outLR =
      some ({ stateAfterFrames E c c.m_nSamples with m_nSamples := 0 },
            outLRAfter E c outLR c.m_nSamples) := by
  unfold processLR
  simp [processLR_loop]

/-- C36: from the same console state, `process(outL, outR)` and `process(outLR)` both return
and leave the same final state; for every `s < m_nSamples` the interleaved array holds
`outLR[2s] = outL[s]` and `outLR[2s+1] = outR[s]`, whatever the swap flag is, and its entries
from `2 * m_nSamples` on are not written. -/
theorem process_overloads_agree (E : Env α σ) (c : MixingConsole α σ)
    (outL outR outLR : Nat → F32 α) :
    ∃ (c' : MixingConsole α σ) (outL' outR' outLR' : Nat → F32 α),
      process E c outL outR = some (c', outL', outR') ∧
      processLR E c outLR = some (c', outLR') ∧
      (∀ s, s < c.m_nSamples → outLR' (2 * s) = outL' s ∧ outLR' (2 * s + 1) = outR' s) ∧
      (∀ k, 2 * c.m_nSamples ≤ k → outLR' k = outLR k) := by
  refine ⟨_, _, _, _, process_eq E c outL outR, processLR_eq E c outLR, ?_, ?_⟩
  · intro s hs
    have e1 : 2 * s / 2 = s := by omega
    have e2 : 2 * s % 2 = 0 := by omega
    have e3 : (2 * s + 1) / 2 = s := by omega
    have e4 : (2 * s + 1) % 2 = 1 := by omega
    have e5 : 2 * s < 2 * c.m_nSamples := by omega
    have e6 : 2 * s + 1 < 2 * c.m_nSamples := by omega
    cases hsw : c.m_swapStereoImage <;>
      simp [outLRAfter, outLAfter, outRAfter, e1, e2, e3, e4, e5, e6, hs, hsw]
  · intro k hk
    have e : ¬ k < 2 * c.m_nSamples := by omega
    simp [outLRAfter, e]

end InterleavedFacts

/-! ## The voice dump -/

section SysExFacts

variable {τ : Type}

/-- The loop of `getSysExVoiceDump` over the indices `0 .. n-1`: the checksum is the negated
sum of the bytes modulo `2^8`, the bytes are copied from position `6` on. -/
theorem getSysExVoiceDump.loop (data : Nat → Nat) (dest : Nat → Nat) (n : Nat) :
    ((List.range n).foldl (getSysExVoiceDump.body data) (0, dest)).1 =
        toUInt8 (-((((List.range n).map data).sum : Nat) : Int)) ∧
    ((List.range n).foldl (getSysExVoiceDump.body data) (0, dest)).2 =
        fun k => if 6 ≤ k ∧ k < 6 + n then data (k - 6) else dest k := by
  induction n with
  | zero =>
    constructor
    · simp [toUInt8]
    · funext k
      have : ¬ (6 ≤ k ∧ k < 6 + 0) := by omega
      simp [this]
  | succ n ih =>
    rw [List.range_succ, List.foldl_append, List.map_append, List.sum_append]
    simp only [List.foldl_cons, List.foldl_nil, getSysExVoiceDump.body, ih.1, ih.2,
      List.map_cons, List.map_nil, List.sum_cons, List.sum_nil, Nat.add_zero]
    constructor
    · unfold toUInt8
      push_cast
      omega
    · funext k
      simp only [store_apply]
      by_cases hk : k = 6 + n
      · subst hk
        have e : 6 + n - 6 = n := by omega
        simp [e]
      · simp only [hk, if_false]
        split_ifs <;> first | rfl | (exfalso; omega)

/-- C39: for every voice data block of 155 bytes, `getSysExVoiceDump` (on a tone generator
that exists) writes the 163 bytes `dest[0..162]` and nothing beyond: the header
`F0 43 (0x00 | MIDI channel) 00 01 1B`, the 155 data bytes at the positions `6..160`, at
position `161` a checksum below `128` such that the sum of the data bytes plus the checksum
is `0` modulo `128` (although the running difference wraps around modulo `2^8`), and `F7` at
position `162`. -/
theorem getSysExVoiceDump_message (ToneGenerators : Nat) (getVoiceData : τ → Nat → Nat)
    (m_pTG : Nat → Option τ) (m_nMIDIChannel : Nat → Nat) (dest : Nat → Nat) (nTG : Nat)
    (tg : τ) (h1 : nTG < ToneGenerators) (h2 : m_pTG nTG = some tg) :
    ∃ dest', getSysExVoiceDump ToneGenerators getVoiceData m_pTG m_nMIDIChannel dest nTG =
        some dest' ∧
      dest' 0 = 0xF0 ∧ dest' 1 = 0x43 ∧
      dest' 2 = (0x00 ||| m_nMIDIChannel nTG) % 256 ∧
      dest' 2 = m_nMIDIChannel nTG % 256 ∧
      dest' 3 = 0x00 ∧ dest' 4 = 0x01 ∧ dest' 5 = 0x1B ∧
      (∀ n, n < 155 → dest' (6 + n) = getVoiceData tg n % 256) ∧
      dest' 161 < 128 ∧
      (((List.range 155).map (fun n => getVoiceData tg n % 256)).sum + dest' 161) % 128 = 0 ∧
      dest' 162 = 0xF7 ∧
      ∀ k, 163 ≤ k → dest' k = dest k := by
  obtain ⟨hl1, hl2⟩ := getSysExVoiceDump.loop (fun n => getVoiceData tg n % 256)
    (store (store (store (store (store (store dest 0 0xF0) 1 0x43) 2
      ((0x00 ||| m_nMIDIChannel nTG) % 256)) 3 0x00) 4 0x01) 5 0x1B) 155
  have hand : ∀ x : Nat, x &&& 0x7f = x % 128 := fun x => Nat.and_pow_two_sub_one_eq_mod x 7
  obtain ⟨r, hr⟩ : ∃ r, r = (List.range 155).foldl
      (getSysExVoiceDump.body (fun n => getVoiceData tg n % 256))
      (0, store (store (store (store (store (store dest 0 0xF0) 1 0x43) 2
        ((0x00 ||| m_nMIDIChannel nTG) % 256)) 3 0x00) 4 0x01) 5 0x1B) := ⟨_, rfl⟩
  rw [← hr] at hl1 hl2
  refine ⟨store (store r.2 161 (r.1 &&& 0x7f)) 162 0xF7, ?_, ?_⟩
  · simp only [getSysExVoiceDump, assert_decide, h1, h2, decide_True, assert_true,
      Option.bind_eq_bind, Option.some_bind, Option.pure_def, ← hr]
  · simp only [hl1, hl2, store_apply, hand]
    refine ⟨by simp, by simp, by simp, by simp, by simp, by simp, by simp, ?_, ?_, ?_, by simp,
      ?_⟩
    · intro n hn
      have e1 : 6 + n ≠ 162 := by omega
      have e2 : 6 + n ≠ 161 := by omega
      have e3 : 6 ≤ 6 + n ∧ 6 + n < 6 + 155 := by omega
      have e4 : 6 + n - 6 = n := by omega
      simp [e1, e2, e3, e4]
    · simp only [show (161 : Nat) ≠ 162 by decide, if_false, if_true]
      exact Nat.mod_lt _ (by decide)
    · simp only [show (161 : Nat) ≠ 162 by decide, if_false, if_true]
      generalize ((List.range 155).map (fun n => getVoiceData tg n % 256)).sum = total
      unfold toUInt8
      omega
    · intro k hk
      have e1 : k ≠ 162 := by omega
      have e2 : k ≠ 161 := by omega
      have e3 : ¬ (6 ≤ k ∧ k < 6 + 155) := by omega
      have e4 : k ≠ 5 ∧ k ≠ 4 ∧ k ≠ 3 ∧ k ≠ 2 ∧ k ≠ 1 ∧ k ≠ 0 := by omega
      simp [e1, e2, e3, e4]

/-- C39 at a concrete input: the example voice on tone generator `0`, MIDI channel `3`. -/
theorem getSysExVoiceDump_message_witness :
    ∃ dest', getSysExVoiceDump 8 exampleVoice (fun _ => some ()) (fun _ => 3) (fun _ => 0) 0 =
        some dest' ∧
      dest' 0 = 0xF0 ∧ dest' 1 = 0x43 ∧ dest' 2 = 3 ∧
      dest' 3 = 0x00 ∧ dest' 4 = 0x01 ∧ dest' 5 = 0x1B ∧
      dest' 6 = 3 ∧ dest' 160 = 57 ∧
      dest' 161 < 128 ∧
      (((List.range 155).map (fun n => exampleVoice () n % 256)).sum + dest' 161) % 128 = 0 ∧
      dest' 162 = 0xF7 := by
  obtain ⟨dest', h, f0, f1, -, f2, f3, f4, f5, fd, fc, fs, fe, -⟩ :=
    getSysExVoiceDump_message 8 exampleVoice (fun _ => some ()) (fun _ => 3) (fun _ => 0) 0 ()
      (by decide) rfl
  exact ⟨dest', h, f0, f1, f2, f3, f4, f5, fd 0 (by decide), fd 154 (by decide), fc, fs, fe⟩

end SysExFacts

/-! ## The phaser -/

section PhaserFacts

variable {α : Type} [LinearOrderedField α]

/-- The clamp of a number to `[1/10, 10]`. -/
theorem constrain_frequency_fin (f : α) :
    constrain (F32.fin f) (F32.fin (1 / 10)) (F32.fin 10) =
      F32.fin (min (max f (1 / 10)) 10) := by
  unfold constrain
  rw [F32.flt_fin, F32.flt_fin]
  have h2 : (1 / 10 : α) ≤ 10 := by norm_num
  by_cases h0 : f < 1 / 10
  · rw [decide_eq_true h0, if_pos rfl, max_eq_right (le_of_lt h0), min_eq_left h2]
  · have h0' : 1 / 10 ≤ f := not_lt.mp h0
    rw [decide_eq_false h0, if_neg (by simp), max_eq_left h0']
    by_cases h3 : 10 < f
    · rw [decide_eq_true h3, if_pos rfl, min_eq_right (le_of_lt h3)]
    · rw [decide_eq_false h3, if_neg (by simp), min_eq_left (not_lt.mp h3)]

/-- After `Phaser::setFrequency(f)`, `getFrequency()` is the clamped `f`, and the phase
increment is computed from the argument `f` as it was passed. -/
theorem Phaser.setFrequency_eq (M : PhaserEnv α) (frequency : F32 α) (ph : Phaser α) :
    Phaser.getFrequency (Phaser.setFrequency M frequency ph) =
      constrain frequency (F32.fin (1 / 10)) (F32.fin 10) ∧
    (Phaser.setFrequency M frequency ph).phase_increment_ =
      F32.fin 2 * M.PI * frequency / ph.sampling_rate ∧
    (Phaser.setFrequency M frequency ph).sampling_rate = ph.sampling_rate :=
  ⟨rfl, rfl, rfl⟩

/-- For a frequency inside `[1/10, 10]` the phase increment is
`2 * PI * getFrequency() / samplingRate`. -/
theorem Phaser.setFrequency_in_range (M : PhaserEnv α) (f : α) (ph : Phaser α)
    (h1 : 1 / 10 ≤ f) (h2 : f ≤ 10) :
    Phaser.getFrequency (Phaser.setFrequency M (F32.fin f) ph) = F32.fin f ∧
    (Phaser.setFrequency M (F32.fin f) ph).phase_increment_ =
      F32.fin 2 * M.PI * Phaser.getFrequency (Phaser.setFrequency M (F32.fin f) ph) /
        (Phaser.setFrequency M (F32.fin f) ph).sampling_rate := by
  have e : Phaser.getFrequency (Phaser.setFrequency M (F32.fin f) ph) = F32.fin f := by
    rw [(Phaser.setFrequency_eq M (F32.fin f) ph).1, constrain_frequency_fin,
      max_eq_left h1, min_eq_left h2]
  exact ⟨e, by rw [e]; rfl⟩

/-- C33, evaluated on the code: on a phaser at 44100 Hz, `setFrequency(20)` makes
`getFrequency()` return the clamped `10`, but leaves the phase increment at
`2 * PI * 20 / 44100`, twice the value `2 * PI * getFrequency() / samplingRate`. -/
theorem Phaser_setFrequency_increment_not_clamped (sinf cosf : F32 ℚ → F32 ℚ) :
    Phaser.getFrequency
      (Phaser.setFrequency (examplePhaserEnv sinf cosf) (F32.fin 20)
        (examplePhaser sinf cosf)) = F32.fin 10 ∧
    (Phaser.setFrequency (examplePhaserEnv sinf cosf) (F32.fin 20)
        (examplePhaser sinf cosf)).phase_increment_ =
      F32.fin (2 * (314159265358979 / 100000000000000) * 20 / 44100) ∧
    F32.fin 2 * (examplePhaserEnv sinf cosf).PI *
        Phaser.getFrequency
          (Phaser.setFrequency (examplePhaserEnv sinf cosf) (F32.fin 20)
            (examplePhaser sinf cosf)) /
        (Phaser.setFrequency (examplePhaserEnv sinf cosf) (F32.fin 20)
            (examplePhaser sinf cosf)).sampling_rate =
      F32.fin (2 * (314159265358979 / 100000000000000) * 10 / 44100) ∧
    (Phaser.setFrequency (examplePhaserEnv sinf cosf) (F32.fin 20)
        (examplePhaser sinf cosf)).phase_increment_ ≠
      F32.fin 2 * (examplePhaserEnv sinf cosf).PI *
        Phaser.getFrequency
          (Phaser.setFrequency (examplePhaserEnv sinf cosf) (F32.fin 20)
            (examplePhaser sinf cosf)) /
        (Phaser.setFrequency (examplePhaserEnv sinf cosf) (F32.fin 20)
            (examplePhaser sinf cosf)).sampling_rate := by
  have hf : Phaser.getFrequency
      (Phaser.setFrequency (examplePhaserEnv sinf cosf) (F32.fin 20)
        (examplePhaser sinf cosf)) = F32.fin 10 := by
    rw [(Phaser.setFrequency_eq _ _ _).1, constrain_frequency_fin]
    norm_num
  have hsr : (Phaser.setFrequency (examplePhaserEnv sinf cosf) (F32.fin 20)
        (examplePhaser sinf cosf)).sampling_rate = F32.fin 44100 := rfl
  have hinc : (Phaser.setFrequency (examplePhaserEnv sinf cosf) (F32.fin 20)
        (examplePhaser sinf cosf)).phase_increment_ =
      F32.fin (2 * (314159265358979 / 100000000000000) * 20 / 44100) := by
    rw [(Phaser.setFrequency_eq _ _ _).2.1]
    show F32.fin 2 * F32.fin (314159265358979 / 100000000000000) * F32.fin 20 /
      F32.fin 44100 = _
    rw [F32.fin_mul_fin, F32.fin_mul_fin, F32.fin_div_fin _ _ (by norm_num)]
  have hcl : F32.fin 2 * (examplePhaserEnv sinf cosf).PI * F32.fin 10 / F32.fin 44100 =
      F32.fin (2 * (314159265358979 / 100000000000000) * 10 / 44100) := by
    show F32.fin 2 * F32.fin (314159265358979 / 100000000000000) * F32.fin 10 /
      F32.fin 44100 = _
    rw [F32.fin_mul_fin, F32.fin_mul_fin, F32.fin_div_fin _ _ (by norm_num)]
  refine ⟨hf, hinc, ?_, ?_⟩
  · rw [hf, hsr, hcl]
  · rw [hf, hsr, hcl, hinc]
    intro h
    injection h with h
    norm_num at h

/-- A call of `PhaserStage::processSample` leaves `z1` as it is and stores the input frame
in `z2[0]`, `z2[1]`. -/
theorem PhaserStage.processSample_frame (p : PhaserParameter α) (inL inR : F32 α)
    (st : PhaserStage α) :
    (PhaserStage.processSample p inL inR st).2.z1 = st.z1 ∧
    (PhaserStage.processSample p inL inR st).2.z2 0 = inL ∧
    (PhaserStage.processSample p inL inR st).2.z2 1 = inR ∧
    (∀ k, 2 ≤ k → (PhaserStage.processSample p inL inR st).2.z2 k = st.z2 k) ∧
    (PhaserStage.processSample p inL inR st).1 =
      ((p.a0 * inL + p.a1 * st.z1 0 + p.a2 * st.z2 0) / p.a0,
       (p.a0 * inR + p.a1 * st.z1 1 + p.a2 * st.z2 1) / p.a0) := by
  refine ⟨rfl, ?_, ?_, ?_, ?_⟩
  · simp [PhaserStage.processSample, store_apply]
  · simp [PhaserStage.processSample, store_apply]
  · intro k hk
    have e0 : k ≠ 0 := by omega
    have e1 : k ≠ 1 := by omega
    simp [PhaserStage.processSample, store_apply, e0, e1]
  · simp [PhaserStage.processSample, store_apply]

/-- The output of a stage with numbers as coefficients, `a0` not zero, `z1 = 0` and the
previous input frame in `z2`. -/
theorem PhaserStage.processSample_fin (p : PhaserParameter α) (a0 a1 a2 : α)
    (h0 : p.a0 = F32.fin a0) (h1 : p.a1 = F32.fin a1) (h2 : p.a2 = F32.fin a2) (hne : a0 ≠ 0)
    (x prev : α × α) (st : PhaserStage α)
    (hz0 : st.z1 0 = 0) (hz1 : st.z1 1 = 0)
    (hp0 : st.z2 0 = F32.fin prev.1) (hp1 : st.z2 1 = F32.fin prev.2) :
    (PhaserStage.processSample p (F32.fin x.1) (F32.fin x.2) st).1 =
      (F32.fin (x.1 + a2 / a0 * prev.1), F32.fin (x.2 + a2 / a0 * prev.2)) := by
  rw [(PhaserStage.processSample_frame p _ _ st).2.2.2.2, h0, h1, h2, hz0, hz1, hp0, hp1]
  simp only [F32.zero_def, F32.fin_mul_fin, F32.fin_add_fin, F32.fin_div_fin _ _ hne]
  refine Prod.ext ?_ ?_
  · show F32.fin _ = F32.fin _
    congr 1
    field_simp
    ring
  · show F32.fin _ = F32.fin _
    congr 1
    field_simp
    ring

/-- Consecutive calls from a stage with `z1 = 0` and the frame `prev` in `z2`. -/
theorem PhaserStage.run_fin (p : PhaserParameter α) (a0 a1 a2 : α)
    (h0 : p.a0 = F32.fin a0) (h1 : p.a1 = F32.fin a1) (h2 : p.a2 = F32.fin a2) (hne : a0 ≠ 0)
    (xs : List (α × α)) :
    ∀ (prev : α × α) (st : PhaserStage α), st.z1 0 = 0 → st.z1 1 = 0 →
      st.z2 0 = F32.fin prev.1 → st.z2 1 = F32.fin prev.2 →
      (PhaserStage.run p (xs.map (fun x => (F32.fin x.1, F32.fin x.2))) st).1 =
        List.zipWith (fun x q => (F32.fin (x.1 + a2 / a0 * q.1), F32.fin (x.2 + a2 / a0 * q.2)))
          xs (prev :: xs) ∧
      (PhaserStage.run p (xs.map (fun x => (F32.fin x.1, F32.fin x.2))) st).2.z1 = st.z1 ∧
      (PhaserStage.run p (xs.map (fun x => (F32.fin x.1, F32.fin x.2))) st).2.z2 0 =
        F32.fin (xs.getLastD prev).1 ∧
      (PhaserStage.run p (xs.map (fun x => (F32.fin x.1, F32.fin x.2))) st).2.z2 1 =
        F32.fin (xs.getLastD prev).2 := by
  induction xs with
  | nil =>
    intro prev st _ _ hp0 hp1
    exact ⟨rfl, rfl, hp0, hp1⟩
  | cons x xs ih =>
    intro prev st hz0 hz1 hp0 hp1
    have hf := PhaserStage.processSample_frame p (F32.fin x.1) (F32.fin x.2) st
    have ho := PhaserStage.processSample_fin p a0 a1 a2 h0 h1 h2 hne x prev st hz0 hz1 hp0 hp1
    obtain ⟨i1, i2, i3, i4⟩ := ih x
      (PhaserStage.processSample p (F32.fin x.1) (F32.fin x.2) st).2
      (by rw [hf.1]; exact hz0) (by rw [hf.1]; exact hz1) hf.2.1 hf.2.2.1
    simp only [List.map_cons, PhaserStage.run, List.zipWith_cons_cons, List.getLastD_cons]
    exact ⟨by rw [ho, i1], by rw [i2, hf.1], i3, i4⟩

/-- C37: `PhaserStage::processSample` never writes `z1` and stores the input frame in `z2`,
for all coefficients and inputs.  Hence from the constructor, for coefficients that are
numbers with `a0` not zero and every sequence of input frames (numbers), `z1[0]` and `z1[1]`
are still `0` after the last call, `z2` holds the last input frame, and each output is
`in + (a2 / a0) * previous in` on both channels (the previous input of the first call being
`0`): it depends neither on `a1` nor on an input older than one sample. -/
theorem phaser_stage_is_one_sample_comb (p : PhaserParameter α) (a0 a1 a2 : α)
    (h0 : p.a0 = F32.fin a0) (h1 : p.a1 = F32.fin a1) (h2 : p.a2 = F32.fin a2) (hne : a0 ≠ 0)
    (mem : PhaserStage α) (xs : List (α × α)) :
    (∀ (q : PhaserParameter α) (inL inR : F32 α) (st : PhaserStage α),
      (PhaserStage.processSample q inL inR st).2.z1 = st.z1 ∧
      (PhaserStage.processSample q inL inR st).2.z2 0 = inL ∧
      (PhaserStage.processSample q inL inR st).2.z2 1 = inR) ∧
    (PhaserStage.run p (xs.map (fun x => (F32.fin x.1, F32.fin x.2)))
        (PhaserStage.construct mem)).2.z1 0 = 0 ∧
    (PhaserStage.run p (xs.map (fun x => (F32.fin x.1, F32.fin x.2)))
        (PhaserStage.construct mem)).2.z1 1 = 0 ∧
    (PhaserStage.run p (xs.map (fun x => (F32.fin x.1, F32.fin x.2)))
        (PhaserStage.construct mem)).2.z2 0 = F32.fin (xs.getLastD (0, 0)).1 ∧
    (PhaserStage.run p (xs.map (fun x => (F32.fin x.1, F32.fin x.2)))
        (PhaserStage.construct mem)).2.z2 1 = F32.fin (xs.getLastD (0, 0)).2 ∧
    (PhaserStage.run p (xs.map (fun x => (F32.fin x.1, F32.fin x.2)))
        (PhaserStage.construct mem)).1 =
      List.zipWith (fun x q => (F32.fin (x.1 + a2 / a0 * q.1), F32.fin (x.2 + a2 / a0 * q.2)))
        xs ((0, 0) :: xs) := by
  have hc0 : (PhaserStage.construct mem).z1 0 = 0 := by simp [PhaserStage.construct, memset0]
  have hc1 : (PhaserStage.construct mem).z1 1 = 0 := by simp [PhaserStage.construct, memset0]
  have hd0 : (PhaserStage.construct mem).z2 0 = F32.fin ((0, 0) : α × α).1 := by
    simp [PhaserStage.construct, memset0]
  have hd1 : (PhaserStage.construct mem).z2 1 = F32.fin ((0, 0) : α × α).2 := by
    simp [PhaserStage.construct, memset0]
  obtain ⟨r1, r2, r3, r4⟩ := PhaserStage.run_fin p a0 a1 a2 h0 h1 h2 hne xs (0, 0)
    (PhaserStage.construct mem) hc0 hc1 hd0 hd1
  refine ⟨fun q inL inR st => ?_, by rw [r2]; exact hc0, by rw [r2]; exact hc1, r3, r4, r1⟩
  have hf := PhaserStage.processSample_frame q inL inR st
  exact ⟨hf.1, hf.2.1, hf.2.2.1⟩

/-- C37 at a concrete input: coefficients `a0 = 2`, `a1 = 5`, `a2 = 1` and the input frames
`(1, 2)`, `(3, 4)`, `(5, 6)` give the outputs `(1, 2)`, `(3 + 1/2, 5)`, `(6 + 1/2, 8)`. -/
theorem phaser_stage_is_one_sample_comb_witness :
    (2 : ℚ) ≠ 0 ∧
    (PhaserStage.run
        (⟨F32.fin 44100, F32.fin 1, F32.fin 1, F32.fin 2, F32.fin 5, F32.fin 1, F32.fin 5,
          F32.fin 1⟩ : PhaserParameter ℚ)
        [(F32.fin 1, F32.fin 2), (F32.fin 3, F32.fin 4), (F32.fin 5, F32.fin 6)]
        (PhaserStage.construct ⟨fun _ => F32.nan, fun _ => F32.nan⟩)).1 =
      [(F32.fin (1 + 1 / 2 * 0), F32.fin (2 + 1 / 2 * 0)),
       (F32.fin (3 + 1 / 2 * 1), F32.fin (4 + 1 / 2 * 2)),
       (F32.fin (5 + 1 / 2 * 3), F32.fin (6 + 1 / 2 * 4))] :=
  ⟨by norm_num,
   (phaser_stage_is_one_sample_comb
      (⟨F32.fin 44100, F32.fin 1, F32.fin 1, F32.fin 2, F32.fin 5, F32.fin 1, F32.fin 5,
        F32.fin 1⟩ : PhaserParameter ℚ) 2 5 1 rfl rfl rfl (by norm_num)
      ⟨fun _ => F32.nan, fun _ => F32.nan⟩ [(1, 2), (3, 4), (5, 6)]).2.2.2.2.2⟩

end PhaserFacts

/-! ## The delay-line engine: taps and samples -/

section EngineCallFacts

open FxEngine

variable {α T L : Type} [LinearOrderedField α] [FloorRing α]

/-- A call that returns keeps the write pointers and the binding of the context, and keeps
every slot other than the one it stores to. -/
theorem FxEngine.ContextCall.apply_some (P : FxEnv α T L) (call : ContextCall α)
    (s s' : FxEngine T L × Context α) (h : ContextCall.apply P call s = some s') :
    s'.1.write_ptr_ = s.1.write_ptr_ ∧ s'.2.write_ptr_ = s.2.write_ptr_ ∧
    s'.2.buffer_ = s.2.buffer_ ∧
    ∀ j, ContextCall.slot P s.2.write_ptr_ call ≠ some j → s'.1.buffer_ j = s.1.buffer_ j := by
  cases call with
  | load value =>
    simp only [ContextCall.apply, Option.some.injEq] at h
    subst h
    exact ⟨rfl, rfl, rfl, fun _ _ => rfl⟩
  | read D offset scale =>
    simp only [ContextCall.apply] at h
    by_cases hfit : D.base + D.length ≤ (P.size : Int)
    · by_cases hb : s.2.buffer_ = Ptr.array
      · rw [read_eq P D offset scale _ _ hfit hb] at h
        simp only [Option.some.injEq] at h
        subst h
        exact ⟨rfl, rfl, rfl, fun _ _ => rfl⟩
      · simp [Context.read, assert, hfit, hb] at h
    · simp [Context.read, assert, hfit] at h
  | write D offset scale =>
    simp only [ContextCall.apply] at h
    by_cases hfit : D.base + D.length ≤ (P.size : Int)
    · by_cases hb : s.2.buffer_ = Ptr.array
      · rw [write_eq P D offset scale _ _ hfit hb] at h
        simp only [Option.some.injEq] at h
        subst h
        refine ⟨rfl, rfl, rfl, ?_⟩
        intro j hj
        simp only [ContextCall.slot, ne_eq, Option.some.injEq] at hj
        show store s.1.buffer_ _ _ j = s.1.buffer_ j
        rw [store_apply, if_neg (fun e => hj e.symm)]
      · simp [Context.write, assert, hfit, hb] at h
    · simp [Context.write, assert, hfit] at h
  | interpolate D offset scale =>
    simp only [ContextCall.apply] at h
    by_cases hfit : D.base + D.length ≤ (P.size : Int)
    · by_cases hb : s.2.buffer_ = Ptr.array
      · cases hm : MAKE_INTEGRAL_FRACTIONAL offset with
        | none => simp [Context.interpolate, assert, hfit, hm] at h
        | some r =>
          simp only [Context.interpolate, assert, hfit, hb, hm, decide_True, if_true,
            Option.bind_eq_bind, Option.some_bind, Option.pure_def, Option.some.injEq] at h
          subst h
          exact ⟨rfl, rfl, hb.symm, fun _ _ => rfl⟩
      · cases hm : MAKE_INTEGRAL_FRACTIONAL offset with
        | none => simp [Context.interpolate, assert, hfit, hm] at h
        | some r => simp [Context.interpolate, assert, hfit, hb, hm] at h
    · simp [Context.interpolate, assert, hfit] at h

/-- The calls of one sample, after its `start`. -/
theorem FxEngine.calls_some (P : FxEnv α T L) (j : Nat) (calls : List (ContextCall α)) :
    ∀ (s s' : FxEngine T L × Context α),
      calls.foldlM (fun s call => ContextCall.apply P call s) s = some s' →
      calls.all (fun call => decide (ContextCall.slot P s.2.write_ptr_ call ≠ some j)) = true →
      s'.1.write_ptr_ = s.1.write_ptr_ ∧ s'.2.write_ptr_ = s.2.write_ptr_ ∧
      s'.2.buffer_ = s.2.buffer_ ∧ s'.1.buffer_ j = s.1.buffer_ j := by
  induction calls with
  | nil =>
    intro s s' h _
    simp only [List.foldlM_nil, Option.pure_def, Option.some.injEq] at h
    subst h
    exact ⟨rfl, rfl, rfl, rfl⟩
  | cons call rest ih =>
    intro s s' h hall
    simp only [List.foldlM_cons, Option.bind_eq_bind] at h
    simp only [List.all_cons, Bool.and_eq_true, decide_eq_true_eq] at hall
    cases h1 : ContextCall.apply P call s with
    | none => simp [h1] at h
    | some s1 =>
      rw [h1] at h
      obtain ⟨a1, a2, a3, a4⟩ := ContextCall.apply_some P call s s1 h1
      obtain ⟨b1, b2, b3, b4⟩ := ih s1 s' h (by rw [a2]; exact hall.2)
      exact ⟨by rw [b1, a1], by rw [b2, a2], by rw [b3, a3], by rw [b4, a4 j hall.1]⟩

/-- Consecutive samples whose calls spare slot `j`: the write pointer has moved back by their
number, the context is bound to the engine, and slot `j` holds what it held. -/
theorem FxEngine.samples_some (P : FxEnv α T L) (j : Nat)
    (later : List (List (ContextCall α))) :
    ∀ (s s' : FxEngine T L × Context α), samples P later s = some s' →
      sparesSlot P j later s.1.write_ptr_ = true →
      0 ≤ s.1.write_ptr_ → s.1.write_ptr_ < P.size →
      s.2.write_ptr_ = s.1.write_ptr_ → s.2.buffer_ = Ptr.array →
      s'.1.write_ptr_ = (s.1.write_ptr_ - later.length) % (P.size : Int) ∧
      s'.2.write_ptr_ = s'.1.write_ptr_ ∧ s'.2.buffer_ = Ptr.array ∧
      s'.1.buffer_ j = s.1.buffer_ j := by
  induction later with
  | nil =>
    intro s s' h _ h0 h1 hc hp
    simp only [samples, Option.some.injEq] at h
    subst h
    refine ⟨?_, hc, hp, rfl⟩
    simp only [List.length_nil, Nat.cast_zero, sub_zero]
    rw [Int.emod_eq_of_lt h0 h1]
  | cons calls rest ih =>
    intro s s' h hsp h0 h1 hc hp
    obtain ⟨hw, hc1, hb1, hp1, -, -⟩ := start_write_ptr P s.1 s.2
    obtain ⟨hwr, hge, hlt⟩ := wrap_eq s.1.write_ptr_ P.size h0 h1
    simp only [sparesSlot, Bool.and_eq_true] at hsp
    rw [← hw] at hsp
    rw [hwr] at hw
    simp only [samples] at h
    cases hs1 : sample P calls s with
    | none => simp [hs1] at h
    | some s1 =>
      rw [hs1] at h
      simp only [Option.some_bind] at h
      obtain ⟨c1, c2, c3, c4⟩ := calls_some P j calls _ s1 hs1 (by rw [hc1]; exact hsp.1)
      have hs1w : s1.1.write_ptr_ = (s.1.write_ptr_ - 1) % (P.size : Int) := by rw [c1, hw]
      have hsp2 : sparesSlot P j rest s1.1.write_ptr_ = true := by rw [c1]; exact hsp.2
      obtain ⟨d1, d2, d3, d4⟩ := ih s1 s' h hsp2 (by rw [hs1w]; exact hge)
        (by rw [hs1w]; exact hlt) (by rw [c2, hc1, c1]) (by rw [c3]; exact hp1)
      refine ⟨?_, d2, d3, by rw [d4, c4, hb1]⟩
      have e : s.1.write_ptr_ - (((calls :: rest).length : Nat) : Int) =
          (s.1.write_ptr_ - 1) - (rest.length : Int) := by
        simp only [List.length_cons]; push_cast; ring
      rw [d1, hs1w, e, Int.sub_emod ((s.1.write_ptr_ - 1) % (P.size : Int)), Int.emod_emod,
        ← Int.sub_emod]

/-- Samples without calls are calls of `start`: they return and spare every slot. -/
theorem FxEngine.samples_replicate (P : FxEnv α T L) (j : Nat) (k : Nat) :
    ∀ (s : FxEngine T L × Context α),
      samples P (List.replicate k ([] : List (ContextCall α))) s = some (starts P k s) ∧
      sparesSlot P j (List.replicate k ([] : List (ContextCall α))) s.1.write_ptr_ = true := by
  induction k with
  | zero => intro s; exact ⟨rfl, rfl⟩
  | succ k ih =>
    intro s
    obtain ⟨hw, -⟩ := start_write_ptr P s.1 s.2
    have i := ih (start P s.1 s.2)
    constructor
    · simp only [List.replicate_succ, samples, sample, List.foldlM_nil, Option.pure_def,
        Option.some_bind, starts]
      exact i.1
    · simp only [List.replicate_succ, sparesSlot, List.all_nil, Bool.true_and]
      rw [← hw]
      exact i.2

/-- The masked index is the remainder modulo a power-of-two `size`. -/
theorem FxEngine.maskIndex_emod (P : FxEnv α T L) (m : Nat) (hm : m ≤ 32) (hs : P.size = 2 ^ m)
    (x : Int) : maskIndex P x < P.size ∧ (maskIndex P x : Int) = x % (P.size : Int) := by
  have hpos : 0 < P.size := by rw [hs]; positivity
  refine ⟨maskIndex_lt P hpos x, ?_⟩
  rw [maskIndex_pow2 P m hm hs x]
  exact Int.toNat_of_nonneg (Int.emod_nonneg _ (by omega))

/-- A read at offset `k` after `k` samples that spare the slot at offset `0`. -/
theorem FxEngine.read_after_samples (P : FxEnv α T L) (m : Nat) (hm : m ≤ 32)
    (hs : P.size = 2 ^ m) (D : Segment) (hfit : D.base + D.length ≤ (P.size : Int))
    (scale : F32 α) (later : List (List (ContextCall α)))
    (s2 s3 : FxEngine T L × Context α) (w : T)
    (h0 : 0 ≤ s2.1.write_ptr_) (h1 : s2.1.write_ptr_ < P.size)
    (hc : s2.2.write_ptr_ = s2.1.write_ptr_) (hp : s2.2.buffer_ = Ptr.array)
    (hbuf : s2.1.buffer_ (maskIndex P (s2.2.write_ptr_ + D.base + 0)) = w)
    (h3 : samples P later s2 = some s3)
    (hsp : sparesSlot P (maskIndex P (s2.2.write_ptr_ + D.base + 0)) later
      s2.1.write_ptr_ = true) :
    maskIndex P (s3.2.write_ptr_ + D.base + (later.length : Int)) =
      maskIndex P (s2.2.write_ptr_ + D.base + 0) ∧
    ∃ s4, Context.read P D (later.length : Int) scale s3.1 s3.2 = some s4 ∧
      s4.2.previous_read_ = P.format.decompress w := by
  obtain ⟨d1, d2, d3, d4⟩ := samples_some P _ later s2 s3 h3 hsp h0 h1 hc hp
  have hidx : maskIndex P (s3.2.write_ptr_ + D.base + (later.length : Int)) =
      maskIndex P (s2.2.write_ptr_ + D.base + 0) := by
    rw [maskIndex_pow2 P m hm hs, maskIndex_pow2 P m hm hs, d2, d1, hc]
    congr 1
    rw [add_assoc, Int.emod_add_emod]
    congr 1
    ring
  refine ⟨hidx, _, read_eq P D later.length scale _ _ hfit d3, ?_⟩
  have hne : (((later.length : Nat) : Int) = -1) = False := by
    apply propext; constructor
    · intro h; omega
    · intro h; exact h.elim
  simp only [hne, if_false]
  rw [hidx, d4, hbuf]

/-- C35: with a power-of-two `size`, a segment `D` that fits and a write pointer in range,
`start()`, `load(v)`, `write(D, 0, s)` returns and stores `compress(v)` in one slot.  After any
`k` further samples (each a `start()` followed by calls of `load`, `read`, `write` and
`interpolate` that return and do not store to that slot), `read(D, k, scale)`, at offset `k`,
reads that very slot and returns, with `previous_read_ = decompress(compress(v))`.  The `k`
further samples may consist of the calls of `start()` alone, which always return. -/
theorem tap_at_offset_k_reads_written_slot (P : FxEnv α T L) (m : Nat) (hm : m ≤ 31)
    (hs : P.size = 2 ^ m) (D : Segment) (hfit : D.base + D.length ≤ (P.size : Int))
    (v s scale : F32 α) (e : FxEngine T L) (c : Context α)
    (h0 : 0 ≤ e.write_ptr_) (h1 : e.write_ptr_ < P.size) :
    ∃ s2, Context.write P D 0 s (start P e c).1 (Context.load v (start P e c).2) = some s2 ∧
      s2.1.buffer_ (maskIndex P (s2.2.write_ptr_ + D.base + 0)) = P.format.compress v ∧
      (∀ (later : List (List (ContextCall α))) (s3 : FxEngine T L × Context α),
        samples P later s2 = some s3 →
        sparesSlot P (maskIndex P (s2.2.write_ptr_ + D.base + 0)) later s2.1.write_ptr_ = true →
        maskIndex P (s3.2.write_ptr_ + D.base + (later.length : Int)) =
          maskIndex P (s2.2.write_ptr_ + D.base + 0) ∧
        ∃ s4, Context.read P D (later.length : Int) scale s3.1 s3.2 = some s4 ∧
          s4.2.previous_read_ = P.format.decompress (P.format.compress v)) ∧
      ∀ k : Nat,
        samples P (List.replicate k ([] : List (ContextCall α))) s2 = some (starts P k s2) ∧
        sparesSlot P (maskIndex P (s2.2.write_ptr_ + D.base + 0))
          (List.replicate k ([] : List (ContextCall α))) s2.1.write_ptr_ = true := by
  obtain ⟨hw, hc1, hb1, hp1, -, -⟩ := start_write_ptr P e c
  obtain ⟨hwr, hge, hlt⟩ := wrap_eq e.write_ptr_ P.size h0 h1
  rw [hwr] at hw
  have hne0 : ((0 : Int) = -1) = False := by
    apply propext; constructor
    · intro h; omega
    · intro h; exact h.elim
  have hload : (Context.load v (start P e c).2).buffer_ = Ptr.array := hp1
  refine ⟨_, write_eq P D 0 s _ _ hfit hload, ?_, ?_, ?_⟩
  · simp only [hne0, if_false, Context.load, store_same]
  · intro later s3 h3 hsp
    refine read_after_samples P m (by omega) hs D hfit scale later _ s3 _ ?_ ?_ ?_ hload ?_ h3 hsp
    · show 0 ≤ (start P e c).1.write_ptr_
      rw [hw]; exact hge
    · show (start P e c).1.write_ptr_ < P.size
      rw [hw]; exact hlt
    · exact hc1
    · simp only [hne0, if_false, Context.load, store_same]
  · intro k
    exact samples_replicate P _ k _

/-- C35 at a concrete input: the example engine of four slots; the value `1/2` is written
through the segment at base `0`; the next sample writes to the segment at base `3` (slot
`1`), the one after it does nothing; the read at offset `2` returns what was written. -/
theorem tap_at_offset_k_reads_written_slot_witness :
    ∃ s2 s3 s4,
      Context.write exampleFx ⟨2, 0⟩ 0 1 (start exampleFx zeroEngine zeroContext).1
        (Context.load (F32.fin (1 / 2)) (start exampleFx zeroEngine zeroContext).2) = some s2 ∧
      samples exampleFx
        [[ContextCall.load (F32.fin 5), ContextCall.write ⟨1, 3⟩ 0 1], []] s2 = some s3 ∧
      sparesSlot exampleFx (maskIndex exampleFx (s2.2.write_ptr_ + 0 + 0))
        [[ContextCall.load (F32.fin 5), ContextCall.write ⟨1, 3⟩ 0 1], []]
        s2.1.write_ptr_ = true ∧
      Context.read exampleFx ⟨2, 0⟩ 2 1 s3.1 s3.2 = some s4 ∧
      s4.2.previous_read_ =
        exampleFx.format.decompress (exampleFx.format.compress (F32.fin (1 / 2))) := by
  obtain ⟨s2, hw, -, hlater, -⟩ := tap_at_offset_k_reads_written_slot exampleFx 2 (by decide)
    rfl ⟨2, 0⟩ (by decide) (F32.fin (1 / 2)) 1 1 zeroEngine zeroContext (by decide) (by decide)
  have e2 := hw
  rw [write_eq exampleFx ⟨2, 0⟩ 0 1 _ _ (by decide) rfl] at e2
  have e3 := (Option.some.inj e2).symm
  subst e3
  have hsp : sparesSlot exampleFx (maskIndex exampleFx
      ((start exampleFx zeroEngine zeroContext).2.write_ptr_ + 0 + 0))
      [[ContextCall.load (F32.fin 5), ContextCall.write ⟨1, 3⟩ 0 1], []]
      (start exampleFx zeroEngine zeroContext).1.write_ptr_ = true := by decide
  obtain ⟨-, s4, h4, hp4⟩ := hlater
    [[ContextCall.load (F32.fin 5), ContextCall.write ⟨1, 3⟩ 0 1], []] _ rfl hsp
  exact ⟨_, _, s4, hw, rfl, hsp, h4, hp4⟩

end EngineCallFacts

/-! ## The delay-line engine: index bounds and interpolation -/

section EngineBounds

open FxEngine

variable {α T L : Type} [LinearOrderedField α] [FloorRing α]

/-- The macro `MAKE_INTEGRAL_FRACTIONAL` on a number whose truncation is an `int32_t`. -/
theorem MAKE_INTEGRAL_FRACTIONAL_fin (o : α) (h1 : -2147483648 ≤ truncToZero o)
    (h2 : truncToZero o ≤ 2147483647) :
    MAKE_INTEGRAL_FRACTIONAL (F32.fin o) =
      some (truncToZero o, F32.fin (o - (truncToZero o : α))) := by
  unfold MAKE_INTEGRAL_FRACTIONAL
  simp only [toInt32_eq o h1 h2, Option.bind_eq_bind, Option.some_bind, Option.pure_def,
    ofInt32, F32.fin_sub_fin]

/-- The method `interpolate` on a number whose truncation is an `int32_t`. -/
theorem interpolate_eq_trunc (P : FxEnv α T L) (D : Segment) (o : α) (scale : F32 α)
    (e : FxEngine T L) (c : Context α) (h1 : -2147483648 ≤ truncToZero o)
    (h2 : truncToZero o ≤ 2147483647)
    (hfit : D.base + D.length ≤ (P.size : Int)) (hb : c.buffer_ = Ptr.array) :
    Context.interpolate P D (F32.fin o) scale e c =
      some (e,
        ⟨c.accumulator_ +
          (P.format.decompress
              (e.buffer_ (maskIndex P (c.write_ptr_ + truncToZero o + D.base))) +
            (P.format.decompress
                (e.buffer_ (maskIndex P (c.write_ptr_ + truncToZero o + D.base + 1))) -
              P.format.decompress
                (e.buffer_ (maskIndex P (c.write_ptr_ + truncToZero o + D.base)))) *
            F32.fin (o - (truncToZero o : α))) * scale,
         P.format.decompress
              (e.buffer_ (maskIndex P (c.write_ptr_ + truncToZero o + D.base))) +
            (P.format.decompress
                (e.buffer_ (maskIndex P (c.write_ptr_ + truncToZero o + D.base + 1))) -
              P.format.decompress
                (e.buffer_ (maskIndex P (c.write_ptr_ + truncToZero o + D.base)))) *
            F32.fin (o - (truncToZero o : α)),
         c.lfo_value_, c.buffer_, c.write_ptr_⟩) := by
  unfold Context.interpolate
  simp only [assert, hfit, hb, decide_True, if_true, Option.bind_eq_bind, Option.some_bind,
    Option.pure_def, MAKE_INTEGRAL_FRACTIONAL_fin o h1 h2]

/-- C34: when `size` is a power of two, the index `x & MASK` lies in `[0, size)` and is
`x mod size`, for every integer `x`, negative ones included.  On a bound context and a
segment that fits, `write` stores to exactly one slot, at the index
`(write_ptr + base + offset) mod size < size` (with `length - 1` for the offset `-1`), and
`read` reads that slot; `interpolate` reads the slots
`(write_ptr + n + base) mod size` and `(write_ptr + n + base + 1) mod size`, both below `size`,
where `n` is the offset truncated to an `int32_t`, and so does the overload with an LFO for
its displaced offset.  No other slot is read or written. -/
theorem masked_indices_in_bounds (P : FxEnv α T L) (m : Nat) (hm : m ≤ 31) (hs : P.size = 2 ^ m)
    (D : Segment) (scale : F32 α) (e : FxEngine T L) (c : Context α)
    (hfit : D.base + D.length ≤ (P.size : Int)) (hb : c.buffer_ = Ptr.array) :
    (∀ x : Int, maskIndex P x < P.size ∧ (maskIndex P x : Int) = x % (P.size : Int)) ∧
    (∀ offset : Int, ∃ i : Nat, i < P.size ∧
      (i : Int) = (if offset = -1 then c.write_ptr_ + D.base + D.length - 1
                   else c.write_ptr_ + D.base + offset) % (P.size : Int) ∧
      Context.write P D offset scale e c =
        some (⟨store e.buffer_ i (P.format.compress c.accumulator_), e.write_ptr_, e.lfo_⟩,
              ⟨c.accumulator_ * scale, c.previous_read_, c.lfo_value_, c.buffer_,
                c.write_ptr_⟩) ∧
      Context.read P D offset scale e c =
        some (e, ⟨c.accumulator_ + P.format.decompress (e.buffer_ i) * scale,
          P.format.decompress (e.buffer_ i), c.lfo_value_, c.buffer_, c.write_ptr_⟩)) ∧
    (∀ o : α, -2147483648 ≤ truncToZero o → truncToZero o ≤ 2147483647 →
      ∃ i j : Nat, i < P.size ∧ j < P.size ∧
        (i : Int) = (c.write_ptr_ + truncToZero o + D.base) % (P.size : Int) ∧
        (j : Int) = (c.write_ptr_ + truncToZero o + D.base + 1) % (P.size : Int) ∧
        Context.interpolate P D (F32.fin o) scale e c =
          some (e,
            ⟨c.accumulator_ + (P.format.decompress (e.buffer_ i) +
                (P.format.decompress (e.buffer_ j) - P.format.decompress (e.buffer_ i)) *
                  F32.fin (o - (truncToZero o : α))) * scale,
              P.format.decompress (e.buffer_ i) +
                (P.format.decompress (e.buffer_ j) - P.format.decompress (e.buffer_ i)) *
                  F32.fin (o - (truncToZero o : α)),
              c.lfo_value_, c.buffer_, c.write_ptr_⟩) ∧
        ∀ (offset : F32 α) (index : Nat) (amplitude : F32 α), index < LFOIndex.kLFOCount →
          offset + amplitude * c.lfo_value_ index = F32.fin o →
          Context.interpolateLFO P D offset index amplitude scale e c =
            Context.interpolate P D (F32.fin o) scale e c) := by
  have hmi := maskIndex_emod P m (by omega) hs
  refine ⟨hmi, ?_, ?_⟩
  · intro offset
    refine ⟨if offset = -1 then maskIndex P (c.write_ptr_ + D.base + D.length - 1)
      else maskIndex P (c.write_ptr_ + D.base + offset), ?_, ?_,
      write_eq P D offset scale e c hfit hb, read_eq P D offset scale e c hfit hb⟩
    · split_ifs
      · exact (hmi _).1
      · exact (hmi _).1
    · split_ifs
      · exact (hmi _).2
      · exact (hmi _).2
  · intro o h1 h2
    refine ⟨maskIndex P (c.write_ptr_ + truncToZero o + D.base),
      maskIndex P (c.write_ptr_ + truncToZero o + D.base + 1), (hmi _).1, (hmi _).1,
      (hmi _).2, (hmi _).2, interpolate_eq_trunc P D o scale e c h1 h2 hfit hb, ?_⟩
    intro offset index amplitude hi ho
    rw [interpolateLFO_eq P D offset index amplitude scale e c hi, ho]

/-- C34 at a concrete input: the example engine of four slots, write pointer `3`, the
segment at base `3`; the offset `-7` gives the index `(3 + 3 - 7) mod 4 = 3`, and the
interpolation at `5/2` reads the slots `0` and `1`. -/
theorem masked_indices_in_bounds_witness :
    (∃ i : Nat, i < 4 ∧ (i : Int) = (3 + 3 + -7) % 4 ∧
      Context.write exampleFx ⟨1, 3⟩ (-7) 1 startedEngine startedContext =
        some (⟨store startedEngine.buffer_ i
                (exampleFx.format.compress startedContext.accumulator_),
               startedEngine.write_ptr_, startedEngine.lfo_⟩,
              ⟨startedContext.accumulator_ * 1, startedContext.previous_read_,
                startedContext.lfo_value_, startedContext.buffer_,
                startedContext.write_ptr_⟩)) ∧
    (∃ i j : Nat, i < 4 ∧ j < 4 ∧ (i : Int) = (3 + 2 + 3) % 4 ∧ (j : Int) = (3 + 2 + 3 + 1) % 4 ∧
      ∃ r, Context.interpolate exampleFx ⟨1, 3⟩ (F32.fin (5 / 2)) 1 startedEngine
        startedContext = some r) := by
  have h := masked_indices_in_bounds exampleFx 2 (by decide) rfl ⟨1, 3⟩ 1 startedEngine
    startedContext (by decide) rfl
  have ht : truncToZero (5 / 2 : ℚ) = 2 := by
    unfold truncToZero
    rw [if_pos (by norm_num)]
    rw [Int.floor_eq_iff]
    constructor <;> norm_num
  constructor
  · obtain ⟨i, h1, h2, h3, -⟩ := h.2.1 (-7)
    exact ⟨i, h1, h2, h3⟩
  · obtain ⟨i, j, h1, h2, h3, h4, h5, -⟩ := h.2.2 (5 / 2) (by rw [ht]; decide)
      (by rw [ht]; decide)
    rw [ht] at h3 h4
    exact ⟨i, j, h1, h2, h3, h4, _, h5⟩

/-- C38: for an effective offset `o >= 0` below `2^31`, `MAKE_INTEGRAL_FRACTIONAL` splits it
into its floor and a fractional part `f` of `[0, 1)`.  When the two adjacent slots decode to
numbers `a` and `b`, `interpolate` returns with `previous_read_ = a + (b - a) * f`, which lies
between them: `min(a, b) <= x <= max(a, b)`.  For an integer offset `n`, `interpolate` and
`read(D, n, scale)` return the same engine and context (`x = a`).  The overload with an LFO
is the same call for its displaced offset. -/
theorem interpolate_between_samples (P : FxEnv α T L) (D : Segment) (o : α) (scale : F32 α)
    (e : FxEngine T L) (c : Context α) (ho : 0 ≤ o) (hmax : o < 2147483648)
    (hfit : D.base + D.length ≤ (P.size : Int)) (hb : c.buffer_ = Ptr.array) (a b : α)
    (ha : P.format.decompress (e.buffer_ (maskIndex P (c.write_ptr_ + ⌊o⌋ + D.base))) =
      F32.fin a)
    (hb' : P.format.decompress (e.buffer_ (maskIndex P (c.write_ptr_ + ⌊o⌋ + D.base + 1))) =
      F32.fin b) :
    MAKE_INTEGRAL_FRACTIONAL (F32.fin o) = some (⌊o⌋, F32.fin (o - (⌊o⌋ : α))) ∧
    0 ≤ o - (⌊o⌋ : α) ∧ o - (⌊o⌋ : α) < 1 ∧
    (∃ c', Context.interpolate P D (F32.fin o) scale e c = some (e, c') ∧
      c'.previous_read_ = F32.fin (a + (b - a) * (o - (⌊o⌋ : α))) ∧
      c'.accumulator_ = c.accumulator_ + F32.fin (a + (b - a) * (o - (⌊o⌋ : α))) * scale) ∧
    min a b ≤ a + (b - a) * (o - (⌊o⌋ : α)) ∧
    a + (b - a) * (o - (⌊o⌋ : α)) ≤ max a b ∧
    (∀ n : Nat, o = (n : α) →
      Context.interpolate P D (F32.fin o) scale e c = Context.read P D (n : Int) scale e c) ∧
    (∀ (offset : F32 α) (index : Nat) (amplitude : F32 α), index < LFOIndex.kLFOCount →
      offset + amplitude * c.lfo_value_ index = F32.fin o →
      Context.interpolateLFO P D offset index amplitude scale e c =
        Context.interpolate P D (F32.fin o) scale e c) := by
  have hf0 : 0 ≤ o - (⌊o⌋ : α) := sub_nonneg.mpr (Int.floor_le o)
  have hf1 : o - (⌊o⌋ : α) < 1 := by
    have := Int.lt_floor_add_one o
    linarith
  have hi := interpolate_eq P D o scale e c ho hmax hfit hb
  rw [ha, hb'] at hi
  simp only [F32.fin_sub_fin, F32.fin_mul_fin, F32.fin_add_fin] at hi
  refine ⟨?_, hf0, hf1, ⟨_, hi, rfl, rfl⟩, ?_, ?_, ?_, ?_⟩
  · unfold MAKE_INTEGRAL_FRACTIONAL
    simp only [toInt32_fin_nonneg o ho hmax, Option.bind_eq_bind, Option.some_bind,
      Option.pure_def, ofInt32, F32.fin_sub_fin]
  · rcases le_total a b with hab | hab
    · rw [min_eq_left hab]
      have : 0 ≤ (b - a) * (o - (⌊o⌋ : α)) := mul_nonneg (sub_nonneg.mpr hab) hf0
      linarith
    · rw [min_eq_right hab]
      have : (a - b) * (o - (⌊o⌋ : α)) ≤ (a - b) * 1 :=
        mul_le_mul_of_nonneg_left (le_of_lt hf1) (sub_nonneg.mpr hab)
      linarith
  · rcases le_total a b with hab | hab
    · rw [max_eq_right hab]
      have : (b - a) * (o - (⌊o⌋ : α)) ≤ (b - a) * 1 :=
        mul_le_mul_of_nonneg_left (le_of_lt hf1) (sub_nonneg.mpr hab)
      linarith
    · rw [max_eq_left hab]
      have : 0 ≤ (a - b) * (o - (⌊o⌋ : α)) := mul_nonneg (sub_nonneg.mpr hab) hf0
      linarith
  · intro n hn
    have hfl : ⌊o⌋ = (n : Int) := by rw [hn]; exact Int.floor_natCast n
    have hfr : o - (⌊o⌋ : α) = 0 := by rw [hfl, hn]; simp
    rw [hfl] at ha
    rw [hi, read_eq P D n scale e c hfit hb]
    have hne : (((n : Nat) : Int) = -1) = False := by
      apply propext; constructor
      · intro h; omega
      · intro h; exact h.elim
    have hidx : c.write_ptr_ + D.base + (n : Int) = c.write_ptr_ + (n : Int) + D.base := by ring
    simp only [hne, if_false, hidx, ha, hfr, mul_zero, add_zero]
  · intro offset index amplitude hi2 ho2
    rw [interpolateLFO_eq P D offset index amplitude scale e c hi2, ho2]

/-- C38 at a concrete input: the started example engine, whose slots hold `0`; the
interpolation at `3/2` returns `0 + (0 - 0) * (1/2)`. -/
theorem interpolate_between_samples_witness :
    ∃ c', Context.interpolate exampleFx ⟨1, 0⟩ (F32.fin (3 / 2)) 1 startedEngine
        startedContext = some (startedEngine, c') ∧
      c'.previous_read_ = F32.fin (0 + (0 - 0) * (3 / 2 - ((⌊(3 / 2 : ℚ)⌋ : Int) : ℚ))) := by
  have hz : ∀ i, exampleFx.format.decompress (startedEngine.buffer_ i) = F32.fin 0 := by
    intro i
    show (if i < 4 then (0 : F32 ℚ) else 0) = F32.fin 0
    split_ifs <;> rfl
  obtain ⟨c', h1, h2, -⟩ := (interpolate_between_samples exampleFx ⟨1, 0⟩ (3 / 2) 1
    startedEngine startedContext (by norm_num) (by norm_num) (by decide) rfl 0 0 (hz _)
    (hz _)).2.2.2.1
  exact ⟨c', h1, h2⟩

end EngineBounds

/-! ## The channel swap flag of `ProcessSound` -/

section SwapFlagFacts

open StereoChannels MixerOutput

variable {α σ : Type} [LinearOrderedField α]

/-- With a chunk of at least `nFrames` frames waiting in the console, the array handed to the
sound device is the same for both values of `m_bChannelsSwapped`: the two indices are
exchanged before `process` fills the two rows of `SampleBuffer` and the same indices are
used to read them. -/
theorem signalPath_swap_same_output (E : Env α σ) (toQ15 : F32 α → Int) (T nFrames : Nat)
    (hT : T ≤ E.nb_inputs) (m_OutputLevel : Nat → Nat → F32 α)
    (s : SoundChunk α σ) (hvol : F32.flt 0 s.nMasterVolume = true)
    (hn : nFrames ≤ s.mixing_console_.m_nSamples) :
    ∃ s0 s1, ProcessSound.signalPath E toQ15 T nFrames false m_OutputLevel s = some s0 ∧
      ProcessSound.signalPath E toQ15 T nFrames true m_OutputLevel s = some s1 ∧
      ∀ k, k < nFrames →
        s1.tmp_int k = s0.tmp_int k ∧ s1.tmp_int (nFrames + k) = s0.tmp_int (nFrames + k) := by
  obtain ⟨c1, hc1⟩ : ∃ c1 : MixingConsole α σ, c1 =
      { s.mixing_console_ with
        m_tgInputSampleBuffer := fun i =>
          if i < T then some (m_OutputLevel i)
          else s.mixing_console_.m_tgInputSampleBuffer i } := ⟨_, rfl⟩
  have hn1 : c1.m_nSamples = s.mixing_console_.m_nSamples := by rw [hc1]
  obtain ⟨s0, hs0, -, -, -, -, hint0⟩ := signalPath_eq E toQ15 T nFrames hT false m_OutputLevel
    s hvol c1 hc1 _ _ rfl rfl
  obtain ⟨s1, hs1, -, -, -, -, hint1⟩ := signalPath_eq E toQ15 T nFrames hT true m_OutputLevel
    s hvol c1 hc1 _ _ rfl rfl
  refine ⟨s0, s1, hs0, hs1, ?_⟩
  intro k hk
  have hk2 : k < c1.m_nSamples := by omega
  have eL : ∀ b : Nat → F32 α, outLAfter E c1 b c1.m_nSamples k =
      (if c1.m_swapStereoImage then (frameOut E (stateAfterFrames E c1 k) k).2
       else (frameOut E (stateAfterFrames E c1 k) k).1) := by
    intro b; simp only [outLAfter, hk2, if_true]
  have eR : ∀ b : Nat → F32 α, outRAfter E c1 b c1.m_nSamples k =
      (if c1.m_swapStereoImage then (frameOut E (stateAfterFrames E c1 k) k).1
       else (frameOut E (stateAfterFrames E c1 k) k).2) := by
    intro b; simp only [outRAfter, hk2, if_true]
  rw [(hint0 k hk).1, (hint0 k hk).2, (hint1 k hk).1, (hint1 k hk).2]
  simp only [eL, eR]
  exact ⟨trivial, trivial⟩

/-- The signal path on the chunk console, for either value of `m_bChannelsSwapped`. -/
theorem chunk_signalPath_values (swapped : Bool) :
    ∃ s', ProcessSound.signalPath exampleEnv exampleQ15 2 2 swapped (fun _ _ => 0)
        (chunkStart chunkConsole) = some s' ∧
      s'.tmp_int 0 = 8192 ∧ s'.tmp_int 1 = 16384 ∧
      s'.tmp_int 2 = -8192 ∧ s'.tmp_int 3 = -16384 := by
  obtain ⟨c1, hc1⟩ : ∃ c1 : MixingConsole ℚ Unit, c1 =
      { chunkConsole with
        m_tgInputSampleBuffer := fun i =>
          if i < 2 then some ((fun _ _ => (0 : F32 ℚ)) i)
          else chunkConsole.m_tgInputSampleBuffer i } := ⟨_, rfl⟩
  have hn : c1.m_nSamples = 2 := by rw [hc1]; rfl
  have hsw : c1.m_swapStereoImage = false := by rw [hc1]; rfl
  have hcs : CenterSetup exampleEnv c1 0 2 (fun k => if k = 0 then 1 / 4 else 1 / 2) 1 (-1) := by
    rw [hc1]; exact chunkConsole_centerSetup (fun _ _ => 0)
  obtain ⟨s', hs', -, -, hL, hR, hint⟩ := signalPath_eq exampleEnv exampleQ15 2 2
    (by decide) swapped (fun _ _ => 0) (chunkStart chunkConsole) rfl c1 (by rw [hc1]; rfl)
    _ _ rfl rfl
  have hfr : ∀ k, k < 2 →
      frameOut exampleEnv (stateAfterFrames exampleEnv c1 k) k =
        (F32.fin ((fun k => if k = 0 then (1 / 4 : ℚ) else 1 / 2) k * 1),
         F32.fin ((fun k => if k = 0 then (1 / 4 : ℚ) else 1 / 2) k * (-1))) := by
    intro k hk
    exact frameOut_center exampleEnv passThrough_main passThrough_finite _ 0 2 _ 1 (-1)
      (by decide) (hcs.of_sameConfig (stateAfterFrames_sameConfig exampleEnv _ k)) k hk
  have hv1 : F32.feq (constrain (chunkStart chunkConsole).nMasterVolume 0 1) 1 = true := by
    rw [show (chunkStart chunkConsole).nMasterVolume = F32.fin 1 from rfl, constrain_fin]
    simp [F32.one_def, F32.feq]
  have hq1 : exampleQ15 (F32.fin (1 / 4)) = 8192 := by
    have e : (1 / 4 : ℚ) = ((8192 : Int) : ℚ) / 32768 := by norm_num
    rw [e]; exact exampleQ15_eval 8192 (by norm_num) (by norm_num)
  have hq2 : exampleQ15 (F32.fin (1 / 2)) = 16384 := by
    have e : (1 / 2 : ℚ) = ((16384 : Int) : ℚ) / 32768 := by norm_num
    rw [e]; exact exampleQ15_eval 16384 (by norm_num) (by norm_num)
  have hq3 : exampleQ15 (F32.fin (-1 / 4)) = -8192 := by
    have e : (-1 / 4 : ℚ) = ((-8192 : Int) : ℚ) / 32768 := by norm_num
    rw [e]; exact exampleQ15_eval (-8192) (by norm_num) (by norm_num)
  have hq4 : exampleQ15 (F32.fin (-1 / 2)) = -16384 := by
    have e : (-1 / 2 : ℚ) = ((-16384 : Int) : ℚ) / 32768 := by norm_num
    rw [e]; exact exampleQ15_eval (-16384) (by norm_num) (by norm_num)
  have hL0 : s'.SampleBuffer (if swapped then Right else Left) 0 = F32.fin (1 / 4) := by
    rw [hL, outLAfter]
    simp only [hn, hsw, show (0 : Nat) < 2 by decide, if_true, Bool.false_eq_true, if_false,
      hfr 0 (by decide)]
    norm_num
  have hL1 : s'.SampleBuffer (if swapped then Right else Left) 1 = F32.fin (1 / 2) := by
    rw [hL, outLAfter]
    simp only [hn, hsw, show (1 : Nat) < 2 by decide, if_true, Bool.false_eq_true, if_false,
      hfr 1 (by decide)]
    norm_num
  have hR0 : s'.SampleBuffer (if swapped then Left else Right) 0 = F32.fin (-1 / 4) := by
    rw [hR, outRAfter]
    simp only [hn, hsw, show (0 : Nat) < 2 by decide, if_true, Bool.false_eq_true, if_false,
      hfr 0 (by decide)]
    norm_num
  have hR1 : s'.SampleBuffer (if swapped then Left else Right) 1 = F32.fin (-1 / 2) := by
    rw [hR, outRAfter]
    simp only [hn, hsw, show (1 : Nat) < 2 by decide, if_true, Bool.false_eq_true, if_false,
      hfr 1 (by decide)]
    norm_num
  have hi0 := hint 0 (by decide)
  have hi1 := hint 1 (by decide)
  simp only [hv1, if_true] at hi0 hi1
  rw [← hL, ← hR, hL0, hR0, hq1, hq3] at hi0
  rw [← hL, ← hR, hL1, hR1, hq2, hq4] at hi1
  exact ⟨s', hs', hi0.1, hi1.1, hi0.2, hi1.2⟩

/-- The signal path on a console in which a chunk of two frames is waiting (left samples
`1/4, 1/2`, right samples `-1/4, -1/2`, master volume `1`), a state that needs a call of
`injectInputSamples` or `preProcessInputSampleBuffer`: there `process` fills both rows of
`SampleBuffer` and the array handed to the sound device is `8192, 16384, -8192, -16384` for
both values of `m_bChannelsSwapped`. -/
theorem signalPath_swap_flag_without_effect :
    F32.flt 0 (chunkStart chunkConsole).nMasterVolume = true ∧
    ∃ s0 s1,
      ProcessSound.signalPath exampleEnv exampleQ15 2 2 false (fun _ _ => 0)
        (chunkStart chunkConsole) = some s0 ∧
      ProcessSound.signalPath exampleEnv exampleQ15 2 2 true (fun _ _ => 0)
        (chunkStart chunkConsole) = some s1 ∧
      (s0.tmp_int 0 = 8192 ∧ s0.tmp_int 1 = 16384 ∧
        s0.tmp_int 2 = -8192 ∧ s0.tmp_int 3 = -16384) ∧
      (s1.tmp_int 0 = 8192 ∧ s1.tmp_int 1 = 16384 ∧
        s1.tmp_int 2 = -8192 ∧ s1.tmp_int 3 = -16384) ∧
      ¬ (s1.tmp_int 0 = s0.tmp_int 2 ∧ s1.tmp_int 1 = s0.tmp_int 3) ∧
      ¬ (s1.tmp_int 0 = s0.tmp_int 1 ∧ s1.tmp_int 2 = s0.tmp_int 3) := by
  obtain ⟨s0, h0, a0, a1, a2, a3⟩ := chunk_signalPath_values false
  obtain ⟨s1, h1, b0, b1, b2, b3⟩ := chunk_signalPath_values true
  refine ⟨rfl, s0, s1, h0, h1, ⟨a0, a1, a2, a3⟩, ⟨b0, b1, b2, b3⟩, ?_, ?_⟩
  · rw [b0, a2]; intro h; exact absurd h.1 (by decide)
  · rw [b0, a1]; intro h; exact absurd h.1 (by decide)

end SwapFlagFacts

/-! ## The console in `ProcessSound`: no chunk is waiting -/

section ProgramCallFacts

open StereoChannels MixerOutput

variable {α σ : Type} [LinearOrderedField α]

/-- C11, amended: on a channel whose tone-generator pointer is null, with
`nSamples <= BufferSize`, `preProcessInputSampleBuffer(in, nSamples)` returns at once and
leaves the console as it was: the scratch buffers of the channel, `m_nSamples` and every
other member hold what they held before the call.  The channel is silent for the chunk when
its scratch buffers already held zeros, as they do after the constructor. -/
theorem preProcess_null_returns_unchanged (E : Env α σ) (i n : Nat) (c : MixingConsole α σ)
    (hi : i < E.nb_inputs) (hn : n ≤ c.BufferSize) (hnull : c.m_tgInputSampleBuffer i = none) :
    preProcessInputSampleBuffer E i n c = some c ∧
    (∀ c', preProcessInputSampleBuffer E i n c = some c' →
      c'.m_nSamples = c.m_nSamples ∧
      ∀ k, c'.m_inputSampleBuffer Left i k = c.m_inputSampleBuffer Left i k ∧
        c'.m_inputSampleBuffer Right i k = c.m_inputSampleBuffer Right i k) ∧
    ∀ (buffer_size : Nat) (swap : Bool) (fx0 : Nat → σ) (mem c0 : MixingConsole α σ),
      construct E buffer_size swap fx0 mem = some c0 → n ≤ buffer_size →
      preProcessInputSampleBuffer E i n c0 = some c0 ∧
      ∀ k, k < n → c0.m_inputSampleBuffer Left i k = 0 ∧
        c0.m_inputSampleBuffer Right i k = 0 := by
  have h := preProcessInputSampleBuffer_null E i n c hi hn hnull
  refine ⟨h, ?_, ?_⟩
  · intro c' hc'
    rw [h] at hc'
    simp only [Option.some.injEq] at hc'
    subst hc'
    exact ⟨rfl, fun _ => ⟨rfl, rfl⟩⟩
  · intro buffer_size swap fx0 mem c0 hc0 hnb
    rw [construct_eq] at hc0
    simp only [Option.some.injEq] at hc0
    subst hc0
    have hbs : (constructCore E buffer_size swap fx0 mem).BufferSize = buffer_size := by
      simp [constructCore, initCore, resetCore, bypassCore]
    have hnl : (constructCore E buffer_size swap fx0 mem).m_tgInputSampleBuffer i = none := by
      simp [constructCore, initCore, resetCore, bypassCore, hi]
    refine ⟨preProcessInputSampleBuffer_null E i n _ hi (by rw [hbs]; exact hnb) hnl, ?_⟩
    intro k hk
    have hk2 : k < buffer_size := by omega
    simp [constructCore, initCore, resetCore, bypassCore, hi, hk2, Left, Right]

/-- C11, amended, at a concrete input: channel `0` of `staleConsole`, whose scratch buffers
start with `1/2`, and the freshly constructed example console. -/
theorem preProcess_null_returns_unchanged_witness :
    preProcessInputSampleBuffer exampleEnv 0 1 staleConsole = some staleConsole ∧
    preProcessInputSampleBuffer exampleEnv 0 1 exampleConsole = some exampleConsole ∧
    exampleConsole.m_inputSampleBuffer Left 0 0 = 0 ∧
    exampleConsole.m_inputSampleBuffer Right 0 0 = 0 := by
  have h := preProcess_null_returns_unchanged exampleEnv 0 1 staleConsole (by decide)
    (by decide) rfl
  have h2 := h.2.2 4 false (fun _ => ()) (zeroMemory (fun _ => ())) exampleConsole
    (construct_eq exampleEnv 4 false _ _) (by decide)
  exact ⟨h.1, h2.1, h2.2 0 (by decide)⟩

end ProgramCallFacts

end MiniDexed
